import Mathlib

/-!
# Event-loop core of `src/core/ev.c`: ring queue, ready queue, timeout heap, channels

A shallow embedding of the C code.  Pointers are natural numbers (addresses);
the `int32_t` fields of the ring queue are natural numbers because every value
the code stores in them is non-negative; the one product that can leave the
32-bit range, `(count + 2) * 2`, is wrapped explicitly.  Queue storage is a
byte-addressed block, because `janet_q_push` computes one of its addresses in
bytes and the others in items.
-/

namespace Dst

/-! ## Byte-addressed storage -/

/-- One byte of storage: indeterminate, or byte number `k` of the object
representation of the value `x`. -/
inductive MemByte (α : Type) where
  | undef : MemByte α
  | frag (x : α) (k : Nat) : MemByte α
deriving DecidableEq, Repr

instance {α : Type} : Inhabited (MemByte α) := ⟨MemByte.undef⟩

/-- The object representation of `x`: `itemsize` bytes. -/
def encodeItem {α : Type} (x : α) (itemsize : Nat) : List (MemByte α) :=
  (List.range itemsize).map (MemByte.frag x)

/-- Reading `itemsize` bytes back as a value: defined only when they are, in
order, the bytes of one value; `none` stands for an indeterminate value. -/
def decodeItem {α : Type} [DecidableEq α] (bs : List (MemByte α)) (itemsize : Nat) : Option α :=
  match bs with
  | MemByte.frag x 0 :: _ => if bs = encodeItem x itemsize then some x else none
  | _ => none

/-- The `n` bytes at offsets `off, off+1, ...` of a block. -/
def readBytes {α : Type} (data : Nat → MemByte α) (off n : Nat) : List (MemByte α) :=
  (List.range n).map (fun i => data (off + i))

/-- Copy of `memcpy(data + off, bs, |bs|)`. -/
def memcpy {α : Type} (data : Nat → MemByte α) (off : Nat) (bs : List (MemByte α)) :
    Nat → MemByte α :=
  fun o => if off ≤ o ∧ o < off + bs.length then bs.getD (o - off) MemByte.undef else data o

/-- Copy of `memmove(data + dst, data + src, n)`: the source bytes are read
before any byte is written, so overlapping ranges are handled. -/
def memmove {α : Type} (data : Nat → MemByte α) (dst src n : Nat) : Nat → MemByte α :=
  fun o => if dst ≤ o ∧ o < dst + n then data (src + (o - dst)) else data o

/-- Model of `realloc(data, newbytes)` on a block of `oldbytes` bytes that
succeeds: the old contents are kept, the added bytes are indeterminate. -/
def realloc {α : Type} (data : Nat → MemByte α) (oldbytes : Nat) : Nat → MemByte α :=
  fun o => if o < oldbytes then data o else MemByte.undef

/-- Two's-complement value of an integer truncated to 32 bits. -/
def wrap32 (x : Int) : Int := (x + 2147483648) % 4294967296 - 2147483648

/-- The byte count `itemsize * newcap` as `realloc` receives it: the `int32_t`
is converted to the 64-bit `size_t` and the product is taken modulo `2^64`. -/
def allocBytes (itemsize : Nat) (newcap : Int) : Nat :=
  (itemsize * (newcap % 18446744073709551616).toNat) % 18446744073709551616

/-- Memory is taken to be unbounded: `realloc` returns `NULL` only for a
request that no allocator serves, one of more than `PTRDIFF_MAX` bytes. -/
def reallocFails (bytes : Nat) : Bool := decide (9223372036854775807 < bytes)

/-! ## General queue (`JanetQueue`) -/

/-- Ring buffer `JanetQueue`; `data` is the block `q->data` points to. -/
structure JanetQueue (α : Type) where
  capacity : Nat
  head : Nat
  tail : Nat
  data : Nat → MemByte α

/-- Value of `JANET_MAX_Q_CAPACITY`. -/
def JANET_MAX_Q_CAPACITY : Int := 0x7FFFFFFF

/-- Embedding of `janet_q_init`: `data = NULL`, all fields zero. -/
def janet_q_init {α : Type} : JanetQueue α :=
  { capacity := 0, head := 0, tail := 0, data := fun _ => MemByte.undef }

/-- Embedding of `janet_q_count`. -/
def janet_q_count {α : Type} (q : JanetQueue α) : Int :=
  if q.head > q.tail then (q.tail : Int) + q.capacity - q.head
  else (q.tail : Int) - q.head

/-- Outcome of `janet_q_push`. -/
inductive QPush (α : Type) where
  /-- Returned 0; the queue after the call -/
  | ok (q : JanetQueue α) : QPush α
  /-- Returned 1; the queue is as before -/
  | full : QPush α
  /-- The call to `realloc` returned `NULL`: `JANET_OUT_OF_MEMORY` ends the process -/
  | oom : QPush α

/-- The capacity `janet_q_push` asks for when it grows a ring holding `count`
items, in `int32_t` arithmetic. -/
def janet_q_newcap (count : Int) : Int :=
  let newcap := wrap32 ((count + 2) * 2)
  if newcap > JANET_MAX_Q_CAPACITY then JANET_MAX_Q_CAPACITY else newcap

/-- The last two statements of `janet_q_push`: store the item at `tail`,
advance `tail`, wrap it to 0 at `capacity`. -/
def janet_q_store {α : Type} (q : JanetQueue α) (item : α) (itemsize : Nat) : JanetQueue α :=
  let data := memcpy q.data (itemsize * q.tail) (encodeItem item itemsize)
  let tail := q.tail + 1
  { q with data := data, tail := if tail ≥ q.capacity then 0 else tail }

/-- The resize branch of `janet_q_push` once `realloc` has succeeded.  The
`memmove` addresses `q->data + newhead` and `q->data + q->head` are byte
offsets (`data` is a `void *`), its length `seg1 * itemsize` is in bytes. -/
def janet_q_grow {α : Type} (q : JanetQueue α) (newcap : Int) (itemsize : Nat) : JanetQueue α :=
  let data := realloc q.data (itemsize * q.capacity)
  let q1 : JanetQueue α :=
    if q.head > q.tail then
      let newhead := ((q.head : Int) + (newcap - q.capacity)).toNat
      let seg1 := q.capacity - q.head
      { q with data := memmove data newhead q.head (seg1 * itemsize), head := newhead }
    else { q with data := data }
  { q1 with capacity := newcap.toNat }

/-- Embedding of `janet_q_push`. -/
def janet_q_push {α : Type} (q : JanetQueue α) (item : α) (itemsize : Nat) : QPush α :=
  let count := janet_q_count q
  if count + 1 ≥ q.capacity then
    if count + 1 ≥ JANET_MAX_Q_CAPACITY then QPush.full
    else
      let newcap := janet_q_newcap count
      if reallocFails (allocBytes itemsize newcap) then QPush.oom
      else QPush.ok (janet_q_store (janet_q_grow q newcap itemsize) item itemsize)
  else QPush.ok (janet_q_store q item itemsize)

/-- Embedding of `janet_q_pop`: `none` is the return value 1 (empty ring);
otherwise the value copied to `out` (`none` when the bytes read are not the
bytes of one item) and the queue after the call. -/
def janet_q_pop {α : Type} [DecidableEq α] (q : JanetQueue α) (itemsize : Nat) :
    Option (Option α × JanetQueue α) :=
  if q.head = q.tail then none
  else
    let out := decodeItem (readBytes q.data (itemsize * q.head) itemsize) itemsize
    let head := q.head + 1
    some (out, { q with head := if head ≥ q.capacity then 0 else head })

/-- The item stored in cell `i` of the ring. -/
def cellAt {α : Type} [DecidableEq α] (q : JanetQueue α) (itemsize i : Nat) : Option α :=
  decodeItem (readBytes q.data (itemsize * i) itemsize) itemsize

/-- The cells the ring holds, oldest first: `head .. tail`, or
`head .. capacity` followed by `0 .. tail` when the ring is wrapped. -/
def liveCells {α : Type} (q : JanetQueue α) : List Nat :=
  if q.head > q.tail then
    List.range' q.head (q.capacity - q.head) ++ List.range' 0 q.tail
  else List.range' q.head (q.tail - q.head)

/-- The contents of the ring as successive `janet_q_pop` calls return them. -/
def qItems {α : Type} [DecidableEq α] (q : JanetQueue α) (itemsize : Nat) : List (Option α) :=
  (liveCells q).map (cellAt q itemsize)

/-- Pushes a list of items in order; `none` when a push does not return 0. -/
def pushAll {α : Type} (q : JanetQueue α) (itemsize : Nat) : List α → Option (JanetQueue α)
  | [] => some q
  | x :: xs =>
    match janet_q_push q x itemsize with
    | QPush.ok q1 => pushAll q1 itemsize xs
    | _ => none

/-- Pops `n` items, discarding them; `none` when the ring runs empty. -/
def popN {α : Type} [DecidableEq α] (q : JanetQueue α) (itemsize : Nat) : Nat → Option (JanetQueue α)
  | 0 => some q
  | n + 1 =>
    match janet_q_pop q itemsize with
    | some (_, q1) => popN q1 itemsize n
    | none => none

/-! ## Values, fibers and the process-wide state -/

/-- Host values, as far as the event loop tells them apart: `channel p` is an
abstract value whose type is `ChannelAT` and whose data is at address `p`. -/
inductive Janet where
  | nil : Janet
  | boolean (b : Bool) : Janet
  | number (n : Int) : Janet
  | fiber (f : Nat) : Janet
  | channel (p : Nat) : Janet
  | other (tag : Nat) : Janet
deriving DecidableEq, Repr

instance : Inhabited Janet := ⟨Janet.nil⟩

/-- The fields of `JanetFiber` the event loop uses.  `scheduled` is the bit
`JANET_FIBER_FLAG_SCHEDULED` of `flags`; `waiting` is the address of a
listener state, `none` for `NULL`. -/
structure JanetFiber where
  scheduled : Bool
  waiting : Option Nat
  timeout_index : Int
deriving DecidableEq, Repr

/-- A fiber as the host creates it: not scheduled, not waiting, no timeout. -/
def JanetFiber.fresh : JanetFiber :=
  { scheduled := false, waiting := none, timeout_index := -1 }

/-- Struct `JanetTask`: a fiber to resume and the value to resume it with. -/
structure JanetTask where
  fiber : Nat
  value : Janet
deriving DecidableEq, Repr

/-- Struct `JanetTimeout`. -/
structure JanetTimeout where
  when : Nat
  fiber : Nat
deriving DecidableEq, Repr

instance : Inhabited JanetTimeout := ⟨{ when := 0, fiber := 0 }⟩

/-- Struct `JanetChannel`. -/
structure JanetChannel where
  items : JanetQueue Janet
  read_pending : JanetQueue Nat
  write_pending : JanetQueue Nat
  limit : Int

/-- Modelled from the spec: the events a machine is called with (§4.3, "the
set `{init, deinit, close, mark, read, write}`"); the enumeration
`JanetAsyncEvent` is declared in `janet.h`, and `ev.c` names its members. -/
inductive JanetAsyncEvent where
  | JANET_ASYNC_EVENT_INIT : JanetAsyncEvent
  | JANET_ASYNC_EVENT_MARK : JanetAsyncEvent
  | JANET_ASYNC_EVENT_DEINIT : JanetAsyncEvent
  | JANET_ASYNC_EVENT_CLOSE : JanetAsyncEvent
  | JANET_ASYNC_EVENT_READ : JanetAsyncEvent
  | JANET_ASYNC_EVENT_WRITE : JanetAsyncEvent
deriving DecidableEq, Repr

/-- Modelled from the spec: struct `JanetListenerState` (§3 "Listener"),
declared in `janet.h`, with the fields `ev.c` reads and writes.  `machine`
stands for the function pointer, `fiber` and `_next` are `none` for `NULL`,
`pollable` is the address of the pollable, `_mask` the bits of the `int`. -/
structure JanetListenerState where
  machine : Nat
  fiber : Option Nat
  pollable : Nat
  _mask : Nat
  _next : Option Nat
deriving DecidableEq, Repr

/-- Modelled from the spec: struct `JanetPollable` (§3 "Pollable"), declared
in `janet.h`, with the fields `ev.c` reads and writes.  `state` is the head of
the listener chain, `none` for `NULL`; `flags` and `_mask` are the bits of
the words. -/
structure JanetPollable where
  handle : Int
  flags : Nat
  state : Option Nat
  _mask : Nat
deriving DecidableEq, Repr

/-- Value of `sizeof(JanetTask)` on the 64-bit target of the epoll back-end. -/
def sizeof_JanetTask : Nat := 16

/-- Value of `sizeof(Janet)`. -/
def sizeof_Janet : Nat := 8

/-- Value of `sizeof(JanetFiber *)`. -/
def sizeof_ptr : Nat := 8

/-- The thread-local globals of `ev.c`, the current root fiber, and the
kinds of heap object the code reaches through pointers: fibers, channels,
pollables (`none` where the higher layer has created none) and listener
states (`none` where no listener is allocated).  `machine_calls` records the
calls `state->machine(state, event)` made so far, oldest first. -/
structure EvState where
  janet_vm_active_listeners : Nat
  janet_vm_tq_count : Nat
  janet_vm_tq_capacity : Nat
  janet_vm_spawn : JanetQueue JanetTask
  janet_vm_tq : Nat → JanetTimeout
  janet_vm_root_fiber : Nat
  fibers : Nat → JanetFiber
  channels : Nat → JanetChannel
  pollables : Nat → Option JanetPollable
  listeners : Nat → Option JanetListenerState
  machine_calls : List (Nat × JanetAsyncEvent)

/-- Embedding of `janet_chan_init`. -/
def janet_chan_init (limit : Int) : JanetChannel :=
  { limit := limit, items := janet_q_init, read_pending := janet_q_init,
    write_pending := janet_q_init }

/-- Embedding of `janet_ev_init_common`, for a host whose fibers are all
fresh, whose channel objects are not yet initialised by `ev/chan`, and which
has created no pollable and no listener. -/
def janet_ev_init_common (root : Nat) : EvState :=
  { janet_vm_active_listeners := 0, janet_vm_tq_count := 0, janet_vm_tq_capacity := 0,
    janet_vm_spawn := janet_q_init, janet_vm_tq := fun _ => default,
    janet_vm_root_fiber := root, fibers := fun _ => JanetFiber.fresh,
    channels := fun _ => janet_chan_init 0,
    pollables := fun _ => none, listeners := fun _ => none, machine_calls := [] }

/-- Assignment through a fiber pointer. -/
def EvState.setFiber (s : EvState) (f : Nat) (x : JanetFiber) : EvState :=
  { s with fibers := fun g => if g = f then x else s.fibers g }

/-- Assignment through a channel pointer. -/
def EvState.setChannel (s : EvState) (p : Nat) (c : JanetChannel) : EvState :=
  { s with channels := fun r => if r = p then c else s.channels r }

/-- Embedding of `janet_schedule`; `none` when the push ends the process with
`JANET_OUT_OF_MEMORY`.  The return value of `janet_q_push` is not looked at. -/
def janet_schedule (s : EvState) (fiber : Nat) (value : Janet) : Option EvState :=
  if (s.fibers fiber).scheduled then some s
  else
    let s1 := s.setFiber fiber { s.fibers fiber with scheduled := true }
    match janet_q_push s1.janet_vm_spawn { fiber := fiber, value := value } sizeof_JanetTask with
    | QPush.ok q => some { s1 with janet_vm_spawn := q }
    | QPush.full => some s1
    | QPush.oom => none

/-- The loop's removal of one task (`janet_q_pop` in `janet_loop`) together
with the first statement of `run_one`, which clears the scheduled flag of the
task's fiber.  `none` when the ready queue is empty or the task read is
indeterminate. -/
def pop_task (s : EvState) : Option (JanetTask × EvState) :=
  match janet_q_pop s.janet_vm_spawn sizeof_JanetTask with
  | some (some task, q) =>
    let s1 := { s with janet_vm_spawn := q }
    some (task, s1.setFiber task.fiber { s1.fibers task.fiber with scheduled := false })
  | _ => none

/-! ## Timeout heap -/

/-- Embedding of `peek_timeout`. -/
def peek_timeout (s : EvState) : Option JanetTimeout :=
  if s.janet_vm_tq_count = 0 then none else some (s.janet_vm_tq 0)

/-- Assignment `fiber->timeout_index = i`. -/
def EvState.setTimeoutIndex (s : EvState) (f : Nat) (i : Int) : EvState :=
  s.setFiber f { s.fibers f with timeout_index := i }

/-- Assignment `janet_vm_tq[i] = to`. -/
def EvState.setTq (s : EvState) (i : Nat) (tmo : JanetTimeout) : EvState :=
  { s with janet_vm_tq := fun j => if j = i then tmo else s.janet_vm_tq j }

/-- The swap at the end of a round of the loop of `pop_timeout`: exchange
`janet_vm_tq[index]` and `janet_vm_tq[smallest]`, then set the
`timeout_index` of the fibers now at `index` and at `smallest`. -/
def pop_timeout_swap (s : EvState) (index smallest : Nat) : EvState :=
  let temp := s.janet_vm_tq index
  let s := s.setTq index (s.janet_vm_tq smallest)
  let s := s.setTq smallest temp
  let s := s.setTimeoutIndex (s.janet_vm_tq index).fiber index
  s.setTimeoutIndex (s.janet_vm_tq smallest).fiber smallest

/-- The `for (;;)` loop of `pop_timeout`, started at `index`.  Each round
moves `index` to a child, so `janet_vm_tq_count - index` rounds are enough;
`fuel` bounds the rounds. -/
def pop_timeout_loop : Nat → EvState → Nat → EvState
  | 0, s, _ => s
  | fuel + 1, s, index =>
    let left := (index <<< 1) + 1
    let right := left + 1
    let smallest := index
    let smallest :=
      if left < s.janet_vm_tq_count ∧ (s.janet_vm_tq left).when < (s.janet_vm_tq smallest).when
      then left else smallest
    let smallest :=
      if right < s.janet_vm_tq_count ∧ (s.janet_vm_tq right).when < (s.janet_vm_tq smallest).when
      then right else smallest
    if smallest = index then s
    else pop_timeout_loop fuel (pop_timeout_swap s index smallest) smallest

/-- Embedding of `pop_timeout`. -/
def pop_timeout (s : EvState) (index : Nat) : EvState :=
  if s.janet_vm_tq_count ≤ index then s
  else
    let s := s.setTimeoutIndex (s.janet_vm_tq index).fiber (-1)
    let count := s.janet_vm_tq_count - 1
    let s := { s with janet_vm_tq_count := count }
    let s := s.setTq index (s.janet_vm_tq count)
    let s := s.setTimeoutIndex (s.janet_vm_tq index).fiber index
    pop_timeout_loop (s.janet_vm_tq_count + 1 - index) s index

/-- The `while (index > 0)` loop of `add_timeout`.  Each round moves `index`
to its parent, so `index` rounds are enough; `fuel` bounds the rounds. -/
def add_timeout_loop : Nat → EvState → Nat → EvState
  | 0, s, _ => s
  | fuel + 1, s, index =>
    if index > 0 then
      let parent := (index - 1) >>> 1
      if (s.janet_vm_tq parent).when ≤ (s.janet_vm_tq index).when then s
      else
        let tmp := s.janet_vm_tq index
        let s := s.setTq index (s.janet_vm_tq parent)
        let s := s.setTq parent tmp
        add_timeout_loop fuel s parent
    else s

/-- Embedding of `add_timeout` (the parameter `to` of the source is `tmo`
here).  The array `janet_vm_tq` is unbounded storage here, so growing it only
records the new capacity. -/
def add_timeout (s : EvState) (tmo : JanetTimeout) : EvState :=
  let oldcount := s.janet_vm_tq_count
  let newcount := oldcount + 1
  let s :=
    if newcount > s.janet_vm_tq_capacity then { s with janet_vm_tq_capacity := 2 * newcount }
    else s
  let s := { s with janet_vm_tq_count := newcount }
  let s := s.setTq oldcount tmo
  let index := oldcount
  let s :=
    if (s.fibers tmo.fiber).timeout_index ≥ 0 then
      pop_timeout s (s.fibers tmo.fiber).timeout_index.toNat
    else s
  let s := s.setTimeoutIndex tmo.fiber index
  add_timeout_loop index s index

/-- One round of the loop `while (peek_timeout(&to) && to.when <= ts_now())`
of `janet_loop` (the variable `to` of the source is `tmo` here): `none` when
the loop condition is false at time `now`, otherwise the timeout taken and
the state after `pop_timeout(0)` and `janet_schedule(to.fiber, nil)` (itself
`none` on `JANET_OUT_OF_MEMORY`). -/
def expire_one (s : EvState) (now : Nat) : Option (JanetTimeout × Option EvState) :=
  match peek_timeout s with
  | none => none
  | some tmo =>
    if tmo.when ≤ now then some (tmo, janet_schedule (pop_timeout s 0) tmo.fiber Janet.nil)
    else none

/-- The loop `while (peek_timeout(&to) && to.when <= ts_now())` of
`janet_loop` at a clock reading `now`, with the timeouts it took, in the
order it took them.  Every round removes one entry, so `janet_vm_tq_count`
rounds are enough; `fuel` bounds the rounds. -/
def run_expired : Nat → EvState → Nat → List JanetTimeout × Option EvState
  | 0, s, _ => ([], some s)
  | fuel + 1, s, now =>
    match expire_one s now with
    | none => ([], some s)
    | some (tmo, none) => ([tmo], none)
    | some (tmo, some s1) =>
      let r := run_expired fuel s1 now
      (tmo :: r.1, r.2)

/-! ## Channels -/

/-- Messages of the panics the functions of `ev.c` can raise. -/
inductive Panic where
  /-- Message "arity mismatch, expected %d, got %d" -/
  | arity (expected got : Nat) : Panic
  /-- Message "bad slot #%d, expected %s, got %v" -/
  | bad_slot (n : Nat) (x : Janet) : Panic
  /-- Message "channel overflow: %v" -/
  | channel_overflow (x : Janet) : Panic
  /-- Message "cannot listen for duplicate event on pollable" -/
  | duplicate_event : Panic
  /-- Message "current fiber is already waiting for event" -/
  | already_waiting : Panic
  /-- Message "failed to schedule event: %s", with the text of `errno` -/
  | failed_to_schedule (errno : Nat) : Panic
  /-- Message "failed to unschedule event: %s", with the text of `errno` -/
  | failed_to_unschedule (errno : Nat) : Panic
deriving DecidableEq, Repr

/-- How a call of a C function of the module ends. -/
inductive CResult where
  /-- The function returned this value -/
  | ret (v : Janet) (s : EvState) : CResult
  /-- The function called `janet_await()`: the fiber signals `event` and is
  suspended inside the call -/
  | await (s : EvState) : CResult
  /-- The function raised a panic -/
  | panic (p : Panic) (s : EvState) : CResult
  /-- The process ended in `JANET_OUT_OF_MEMORY` -/
  | oom : CResult
  /-- The function used an indeterminate value read from a ring (a pointer it
  dereferences or the value it returns); what follows is not modelled -/
  | undefined : CResult

/-- Embedding of `cfun_channel_push` (`ev/give`). -/
def cfun_channel_push (s : EvState) (argv : List Janet) : CResult :=
  match argv with
  | [Janet.channel p, v] =>
    let channel := s.channels p
    match janet_q_pop channel.read_pending sizeof_ptr with
    | some (reader, rq) =>
      let s := s.setChannel p { channel with read_pending := rq }
      match reader with
      | none => CResult.undefined
      | some reader =>
        match janet_schedule s reader v with
        | some s => CResult.ret (Janet.channel p) s
        | none => CResult.oom
    | none =>
      match janet_q_push channel.items v sizeof_Janet with
      | QPush.full => CResult.panic (Panic.channel_overflow v) s
      | QPush.oom => CResult.oom
      | QPush.ok items =>
        let channel := { channel with items := items }
        if janet_q_count channel.items > channel.limit then
          match janet_q_push channel.write_pending s.janet_vm_root_fiber sizeof_ptr with
          | QPush.ok wq => CResult.await (s.setChannel p { channel with write_pending := wq })
          | QPush.full => CResult.await (s.setChannel p channel)
          | QPush.oom => CResult.oom
        else CResult.ret (Janet.channel p) (s.setChannel p channel)
  | [x, _] => CResult.panic (Panic.bad_slot 0 x) s
  | _ => CResult.panic (Panic.arity 2 argv.length) s

/-- Embedding of `cfun_channel_pop` (`ev/take`). -/
def cfun_channel_pop (s : EvState) (argv : List Janet) : CResult :=
  match argv with
  | [Janet.channel p] =>
    let channel := s.channels p
    match janet_q_pop channel.items sizeof_Janet with
    | none =>
      match janet_q_push channel.read_pending s.janet_vm_root_fiber sizeof_ptr with
      | QPush.ok rq => CResult.await (s.setChannel p { channel with read_pending := rq })
      | QPush.full => CResult.await s
      | QPush.oom => CResult.oom
    | some (item, items) =>
      let channel := { channel with items := items }
      let s := s.setChannel p channel
      match janet_q_pop channel.write_pending sizeof_ptr with
      | some (writer, wq) =>
        let s := s.setChannel p { channel with write_pending := wq }
        match writer, item with
        | some writer, some item =>
          match janet_schedule s writer (Janet.channel p) with
          | some s => CResult.ret item s
          | none => CResult.oom
        | _, _ => CResult.undefined
      | none =>
        match item with
        | some item => CResult.ret item s
        | none => CResult.undefined
  | [x] => CResult.panic (Panic.bad_slot 0 x) s
  | _ => CResult.panic (Panic.arity 1 argv.length) s

/-- Embedding of `cfun_channel_capacity` (`ev/capacity`) on a channel argument. -/
def cfun_channel_capacity (s : EvState) (p : Nat) : Int := (s.channels p).limit

/-- Embedding of `cfun_channel_count` (`ev/count`) on a channel argument. -/
def cfun_channel_count (s : EvState) (p : Nat) : Int := janet_q_count (s.channels p).items

/-- Embedding of `cfun_channel_new` (`ev/chan`) for a channel object the host
allocates at address `p`; `limit` is the natural number `janet_optnat` yields. -/
def cfun_channel_new (s : EvState) (p : Nat) (limit : Nat) : EvState :=
  s.setChannel p (janet_chan_init limit)

/-- Embedding of `cfun_ev_go` (`ev/go`) on a fiber argument. -/
def cfun_ev_go (s : EvState) (f : Nat) (value : Janet) : Option EvState :=
  janet_schedule s f value

/-- Embedding of `cfun_ev_sleep` (`ev/sleep`) for a delay that `ts_delta`
has rounded to `ms` milliseconds, at a clock reading `now`. -/
def cfun_ev_sleep (s : EvState) (now ms : Nat) : CResult :=
  CResult.await (add_timeout s { when := now + ms, fiber := s.janet_vm_root_fiber })

/-! ## The host's fibers and the loop driver -/

/-- Modelled from the spec: a call a fiber body makes into the module
(§6, "Interfaces exposed by the core to user code"). -/
inductive FiberCall where
  | give (ch v : Janet) : FiberCall
  | take (ch : Janet) : FiberCall
deriving DecidableEq, Repr

/-- Modelled from the spec: the host side of a fiber (§4.6, §6: the fiber
primitive `continue(fiber, value) → (signal, result)`).  A fiber body is the
list of calls it makes one after the other; the record keeps the calls still
to make, the call the fiber is suspended in, the values its `take` calls have
returned, the number of calls it has entered, and, for every time it parked,
the number of the call it parked in. -/
structure HostFiber where
  todo : List FiberCall
  suspended_in : Option FiberCall
  received : List Janet
  entered : Nat
  parked_in : List Nat
deriving DecidableEq, Repr

/-- A fiber that has not started and will make the calls `body`. -/
def HostFiber.start (body : List FiberCall) : HostFiber :=
  { todo := body, suspended_in := none, received := [], entered := 0, parked_in := [] }

/-- The event-loop state together with the host's fibers. -/
structure World where
  ev : EvState
  host : Nat → HostFiber

/-- Assignment to the host record of fiber `f`. -/
def World.setHost (w : World) (f : Nat) (h : HostFiber) : World :=
  { w with host := fun g => if g = f then h else w.host g }

/-- Signals `janet_continue` can report to `run_one`. -/
inductive JanetSignal where
  | ok : JanetSignal
  | error : JanetSignal
  | event : JanetSignal
deriving DecidableEq, Repr

/-- The C function a call enters. -/
def FiberCall.enter (c : FiberCall) (s : EvState) : CResult :=
  match c with
  | FiberCall.give ch v => cfun_channel_push s [ch, v]
  | FiberCall.take ch => cfun_channel_pop s [ch]

/-- The host record once the call `c` has returned `v`. -/
def HostFiber.returned (h : HostFiber) (c : FiberCall) (v : Janet) : HostFiber :=
  match c with
  | FiberCall.give _ _ => h
  | FiberCall.take _ => { h with received := h.received ++ [v] }

/-- Modelled from the spec: fiber `f` runs the calls of its body until one of
them suspends it, one panics, or the body ends (§4.6, §5 "Suspension
points").  `none` when the process ends or a call uses an indeterminate
value. -/
def run_body (w : World) (f : Nat) : List FiberCall → Option (JanetSignal × World)
  | [] => some (JanetSignal.ok, w.setHost f { w.host f with todo := [] })
  | c :: rest =>
    let h := w.host f
    let h := { h with entered := h.entered + 1, todo := rest }
    match c.enter { w.ev with janet_vm_root_fiber := f } with
    | CResult.ret v s => run_body { ev := s, host := (w.setHost f (h.returned c v)).host } f rest
    | CResult.await s =>
      some (JanetSignal.event,
        { ev := s,
          host := (w.setHost f { h with suspended_in := some c,
                                        parked_in := h.parked_in ++ [h.entered] }).host })
    | CResult.panic _ s =>
      some (JanetSignal.error, { ev := s, host := (w.setHost f { h with todo := [] }).host })
    | CResult.oom => none
    | CResult.undefined => none

/-- Modelled from the spec: `janet_continue(fiber, value, &res)`: the call the
fiber is suspended in returns `value`, and the fiber goes on with its body. -/
def janet_continue (w : World) (f : Nat) (value : Janet) : Option (JanetSignal × World) :=
  let h := w.host f
  match h.suspended_in with
  | some c =>
    run_body (w.setHost f { h.returned c value with suspended_in := none }) f h.todo
  | none => run_body w f h.todo

/-- The loop `while (janet_vm_spawn.head != janet_vm_spawn.tail)` of
`janet_loop`: pop a task, `run_one` it.  `none` when `fuel` rounds do not
empty the ready queue, when the process ends, or when a task read from the
ring is indeterminate. -/
def run_scheduled : Nat → World → Option World
  | 0, w => if w.ev.janet_vm_spawn.head ≠ w.ev.janet_vm_spawn.tail then none else some w
  | fuel + 1, w =>
    if w.ev.janet_vm_spawn.head ≠ w.ev.janet_vm_spawn.tail then
      match pop_task w.ev with
      | none => none
      | some (task, s) =>
        match janet_continue { w with ev := s } task.fiber task.value with
        | none => none
        | some (_, w1) => run_scheduled fuel w1
    else some w

/-- What `janet_loop` takes from outside the module: the clock reading
`ts_now()` in round `k` of the outer loop, and the effect of
`janet_loop1_impl` (the blocking wait and the dispatch of its events) in
round `k`. -/
structure LoopEnv where
  now : Nat → Nat
  poll : Nat → World → Option World

/-- The condition of the outer loop of `janet_loop`. -/
def loop_goes_on (s : EvState) : Bool :=
  decide (s.janet_vm_active_listeners ≠ 0) ||
    decide (s.janet_vm_spawn.head ≠ s.janet_vm_spawn.tail) ||
    decide (s.janet_vm_tq_count ≠ 0)

/-- Embedding of `janet_loop`, round `k` onwards.  `none` when `fuel` outer
rounds (or `fuel` rounds of the inner loop) are not enough, or the process
ends. -/
def janet_loop (env : LoopEnv) (fuel : Nat) : Nat → Nat → World → Option World
  | 0, _, w => if loop_goes_on w.ev then none else some w
  | rounds + 1, k, w =>
    if loop_goes_on w.ev then
      match run_expired w.ev.janet_vm_tq_count w.ev (env.now k) with
      | (_, none) => none
      | (_, some s) =>
        match run_scheduled fuel { w with ev := s } with
        | none => none
        | some w1 =>
          if w1.ev.janet_vm_active_listeners ≠ 0 ∨ w1.ev.janet_vm_tq_count ≠ 0 then
            match env.poll k w1 with
            | none => none
            | some w2 => janet_loop env fuel rounds (k + 1) w2
          else janet_loop env fuel rounds (k + 1) w1
    else some w

/-- Scenario S3: channel at address 0 made by `ev/chan` with capacity 2,
producer fiber 1 giving 1, 2, 3, 4, consumer fiber 2 taking four times, put on
the loop by `ev/go` in the order `first`, `second`. -/
def scenarioS3 (first second : Nat) : Option World :=
  let ch := Janet.channel 0
  let s := cfun_channel_new (janet_ev_init_common 0) 0 2
  match cfun_ev_go s first Janet.nil with
  | none => none
  | some s =>
    match cfun_ev_go s second Janet.nil with
    | none => none
    | some s =>
      some { ev := s,
             host := fun f =>
               if f = 1 then
                 HostFiber.start [FiberCall.give ch (Janet.number 1),
                   FiberCall.give ch (Janet.number 2), FiberCall.give ch (Janet.number 3),
                   FiberCall.give ch (Janet.number 4)]
               else if f = 2 then
                 HostFiber.start [FiberCall.take ch, FiberCall.take ch, FiberCall.take ch,
                   FiberCall.take ch]
               else HostFiber.start [] }

/-- What scenario S3 leaves behind: whether a ready task remains, the values
the consumer received, the calls the producer parked in, and the calls still
to make by producer and consumer. -/
def observeS3 (w : World) : Bool × List Janet × List Nat × List FiberCall × List FiberCall :=
  (decide (w.ev.janet_vm_spawn.head ≠ w.ev.janet_vm_spawn.tail), (w.host 2).received,
    (w.host 1).parked_in, (w.host 1).todo, (w.host 2).todo)

/-! ## Predicates used by the statements -/

/-- Shape of a ring: not yet allocated, or `head` and `tail` inside the
allocated cells. -/
def QWF {α : Type} (q : JanetQueue α) : Prop :=
  (q.capacity = 0 ∧ q.head = 0 ∧ q.tail = 0) ∨ (q.head < q.capacity ∧ q.tail < q.capacity)

instance {α : Type} (q : JanetQueue α) : Decidable (QWF q) := by
  unfold QWF; infer_instance

/-- A push of this ring grows it while it is wrapped: the branch of
`janet_q_push` that runs the `memmove`. -/
def growsWrapped {α : Type} (q : JanetQueue α) : Prop :=
  janet_q_count q + 1 ≥ q.capacity ∧ q.head > q.tail

instance {α : Type} (q : JanetQueue α) : Decidable (growsWrapped q) := by
  unfold growsWrapped; infer_instance

/-- The tasks in the ready queue, oldest first; `none` is a cell whose bytes
are not the bytes of one task. -/
def readyTasks (s : EvState) : List (Option JanetTask) :=
  qItems s.janet_vm_spawn sizeof_JanetTask

/-- The two steps that change the ready queue: a `janet_schedule` call, and
the loop taking one task to run it. -/
inductive ReadyStep where
  | schedule (f : Nat) (v : Janet) : ReadyStep
  | pop : ReadyStep
deriving DecidableEq, Repr

/-- Effect of one ready-queue step; `none` when the step cannot be taken or
ends the process. -/
def ReadyStep.apply (s : EvState) : ReadyStep → Option EvState
  | ReadyStep.schedule f v => janet_schedule s f v
  | ReadyStep.pop => (pop_task s).map Prod.snd

/-- Effect of a list of ready-queue steps, taken in order. -/
def run_ready_steps (s : EvState) : List ReadyStep → Option EvState
  | [] => some s
  | st :: rest =>
    match st.apply s with
    | some s1 => run_ready_steps s1 rest
    | none => none

/-- States reachable from `janet_ev_init_common` through `janet_schedule` and
the loop's pop-and-clear step. -/
inductive ReadyReach : EvState → Prop where
  | init (root : Nat) : ReadyReach (janet_ev_init_common root)
  | step (s s1 : EvState) (st : ReadyStep) :
      ReadyReach s → st.apply s = some s1 → ReadyReach s1

/-- Five steps after which the ready ring (4 cells) is wrapped and holds the
tasks of fibers 2, 3, 4: three `ev/go`, one task taken by the loop, one more
`ev/go`. -/
def wrappedReadySteps : List ReadyStep :=
  [ReadyStep.schedule 1 Janet.nil, ReadyStep.schedule 2 Janet.nil,
   ReadyStep.schedule 3 Janet.nil, ReadyStep.pop, ReadyStep.schedule 4 Janet.nil]

/-- Steps after which the ready ring (46 cells) is wrapped and full: 45
fibers scheduled, 6 of them taken by the loop, 6 more fibers scheduled. -/
def fullReadySteps : List ReadyStep :=
  (List.range 45).map (fun f => ReadyStep.schedule f Janet.nil) ++
    List.replicate 6 ReadyStep.pop ++
    (List.range' 100 6).map (fun f => ReadyStep.schedule f Janet.nil)

/-- The state a call leaves behind, when the process goes on and the call
used no indeterminate value. -/
def CResult.state : CResult → Option EvState
  | CResult.ret _ s => some s
  | CResult.await s => some s
  | CResult.panic _ s => some s
  | CResult.oom => none
  | CResult.undefined => none

/-- The call suspended its fiber. -/
def CResult.isAwait : CResult → Bool
  | CResult.await _ => true
  | _ => false

/-- The call returned a value. -/
def CResult.isRet : CResult → Bool
  | CResult.ret _ _ => true
  | _ => false

/-- The value the call returned, if it returned. -/
def CResult.value : CResult → Option Janet
  | CResult.ret v _ => some v
  | _ => none

/-- The call used an indeterminate value. -/
def CResult.isUndefined : CResult → Bool
  | CResult.undefined => true
  | _ => false

/-- Fiber `f`, running as the current root fiber, makes the call `c`. -/
def call_as (s : EvState) (f : Nat) (c : FiberCall) : CResult :=
  c.enter { s with janet_vm_root_fiber := f }

/-- A list of calls, each made by the given fiber, one after the other;
`none` when one of them leaves no state behind. -/
def run_calls (s : EvState) : List (Nat × FiberCall) → Option EvState
  | [] => some s
  | (f, c) :: rest =>
    match (call_as s f c).state with
    | some s1 => run_calls s1 rest
    | none => none

/-- The values queued in channel `p`, oldest first. -/
def chanItems (s : EvState) (p : Nat) : List (Option Janet) :=
  qItems (s.channels p).items sizeof_Janet

/-- The fibers parked as readers of channel `p`, longest waiting first. -/
def chanReaders (s : EvState) (p : Nat) : List (Option Nat) :=
  qItems (s.channels p).read_pending sizeof_ptr

/-- The fibers parked as writers of channel `p`, longest waiting first. -/
def chanWriters (s : EvState) (p : Nat) : List (Option Nat) :=
  qItems (s.channels p).write_pending sizeof_ptr

/-- The three rings of a channel are in shape. -/
def ChanWF (c : JanetChannel) : Prop :=
  QWF c.items ∧ QWF c.read_pending ∧ QWF c.write_pending

instance (c : JanetChannel) : Decidable (ChanWF c) := by
  unfold ChanWF; infer_instance

/-- States reachable from `make(limit)` on the channel object at `p` by
`ev/give` and `ev/take` calls, made by any fiber with any arguments. -/
inductive ChanReach (p : Nat) (limit : Nat) : EvState → Prop where
  | make (s : EvState) : ChanReach p limit (cfun_channel_new s p limit)
  | give (s s1 : EvState) (f : Nat) (argv : List Janet) :
      ChanReach p limit s →
      (cfun_channel_push { s with janet_vm_root_fiber := f } argv).state = some s1 →
      ChanReach p limit s1
  | take (s s1 : EvState) (f : Nat) (argv : List Janet) :
      ChanReach p limit s →
      (cfun_channel_pop { s with janet_vm_root_fiber := f } argv).state = some s1 →
      ChanReach p limit s1

/-- A channel with capacity 0 at address 0 on which fibers 1, 2, 3 park as
readers, fiber 9 gives (waking fiber 1), and fiber 4 parks as reader: the
ring of pending readers (4 cells) is then wrapped and holds 2, 3, 4. -/
def wrappedReaders : Option EvState :=
  run_calls (cfun_channel_new (janet_ev_init_common 0) 0 0)
    [(1, FiberCall.take (Janet.channel 0)), (2, FiberCall.take (Janet.channel 0)),
     (3, FiberCall.take (Janet.channel 0)),
     (9, FiberCall.give (Janet.channel 0) (Janet.number 7)),
     (4, FiberCall.take (Janet.channel 0))]

/-- A channel with capacity 1 at address 0: fiber 10 gives without parking,
fibers 1, 2, 3 give and park, fiber 20 takes (waking fiber 1), fiber 4 gives
and parks: the ring of pending writers (4 cells) is then wrapped and holds
2, 3, 4. -/
def wrappedWriters : Option EvState :=
  run_calls (cfun_channel_new (janet_ev_init_common 0) 0 1)
    [(10, FiberCall.give (Janet.channel 0) (Janet.number 0)),
     (1, FiberCall.give (Janet.channel 0) (Janet.number 1)),
     (2, FiberCall.give (Janet.channel 0) (Janet.number 2)),
     (3, FiberCall.give (Janet.channel 0) (Janet.number 3)),
     (20, FiberCall.take (Janet.channel 0)),
     (4, FiberCall.give (Janet.channel 0) (Janet.number 4))]

/-- A channel with capacity 0 at address 0 on which fiber 1 has parked as a
reader. -/
def rendezvousReader : Option EvState :=
  run_calls (cfun_channel_new (janet_ev_init_common 0) 0 0)
    [(1, FiberCall.take (Janet.channel 0))]

/-- The state of `rendezvousReader`. -/
def readerParked : EvState := rendezvousReader.getD (janet_ev_init_common 0)

/-- What `ev/give` and `ev/take` keep true of a channel: its rings are in
shape, its limit is not negative, readers wait only while no item is queued,
and the items exceed the limit by at least the number of parked writers. -/
def ChanInv (c : JanetChannel) : Prop :=
  ChanWF c ∧ 0 ≤ c.limit ∧
  (0 < janet_q_count c.read_pending → janet_q_count c.items = 0) ∧
  (janet_q_count c.write_pending = 0 ∨
    janet_q_count c.write_pending + c.limit ≤ janet_q_count c.items)

/-- An environment of `janet_loop` whose clock stands at 0 and whose wait
changes nothing. -/
def LoopEnv.idle : LoopEnv := { now := fun _ => 0, poll := fun _ w => some w }

/-- The live entries of the timeout heap, in array order. -/
def tqEntries (s : EvState) : List JanetTimeout :=
  (List.range s.janet_vm_tq_count).map s.janet_vm_tq

/-- Min-heap property of `janet_vm_tq[0 .. janet_vm_tq_count)` on `when`: no
entry is earlier than its parent, the entry at `(i - 1) / 2`. -/
def TqHeap (s : EvState) : Prop :=
  ∀ i, 0 < i → i < s.janet_vm_tq_count →
    (s.janet_vm_tq ((i - 1) / 2)).when ≤ (s.janet_vm_tq i).when

/-- The timeouts in the order in which repeated `peek_timeout` and
`pop_timeout(0)` take them off the heap, at most `fuel` of them. -/
def pop_order : Nat → EvState → List JanetTimeout
  | 0, _ => []
  | fuel + 1, s =>
    match peek_timeout s with
    | none => []
    | some tmo => tmo :: pop_order fuel (pop_timeout s 0)

/-- Scenario S1 after the three `ev/sleep` calls, all made at clock reading
0: fiber 1 (A) sleeps 30 ms, fiber 2 (B) 10 ms, fiber 3 (C) 20 ms. -/
def scenarioS1 : EvState :=
  [({ when := 30, fiber := 1 } : JanetTimeout), { when := 10, fiber := 2 },
    { when := 20, fiber := 3 }].foldl add_timeout (janet_ev_init_common 0)

/-- Loop invariant of the sift-down of `pop_timeout`: the heap property holds
everywhere except between `index` and its children, and the children of
`index` are not earlier than the parent of `index`. -/
def DownInv (s : EvState) (index : Nat) : Prop :=
  (∀ i, 0 < i → i < s.janet_vm_tq_count → (i - 1) / 2 ≠ index →
    (s.janet_vm_tq ((i - 1) / 2)).when ≤ (s.janet_vm_tq i).when) ∧
  (0 < index → ∀ c, 0 < c → c < s.janet_vm_tq_count → (c - 1) / 2 = index →
    (s.janet_vm_tq ((index - 1) / 2)).when ≤ (s.janet_vm_tq c).when)

/-- Loop invariant of the sift-up of `add_timeout`: the heap property holds
everywhere except between `index` and its parent, and the children of
`index` are not earlier than the parent of `index`. -/
def UpInv (s : EvState) (index : Nat) : Prop :=
  (∀ i, 0 < i → i < s.janet_vm_tq_count → i ≠ index →
    (s.janet_vm_tq ((i - 1) / 2)).when ≤ (s.janet_vm_tq i).when) ∧
  (0 < index → ∀ c, 0 < c → c < s.janet_vm_tq_count → (c - 1) / 2 = index →
    (s.janet_vm_tq ((index - 1) / 2)).when ≤ (s.janet_vm_tq c).when)

/-- The parts of the state the timeout heap operations leave alone: the ready
ring, the channels, the listener count, the root fiber and every fiber's
scheduled flag. -/
def SameOutsideHeap (s s1 : EvState) : Prop :=
  s1.janet_vm_spawn = s.janet_vm_spawn ∧ s1.channels = s.channels ∧
  s1.janet_vm_active_listeners = s.janet_vm_active_listeners ∧
  s1.janet_vm_root_fiber = s.janet_vm_root_fiber ∧
  ∀ g, (s1.fibers g).scheduled = (s.fibers g).scheduled

/-! ## Listeners and pollables -/

/-- How a call of one of the listener functions of `ev.c` ends. -/
inductive Outcome (α : Type) where
  /-- The function returned this value -/
  | ok (a : α) (s : EvState) : Outcome α
  /-- The function raised a panic, in this state -/
  | panic (p : Panic) (s : EvState) : Outcome α
  /-- The process ended: `JANET_OUT_OF_MEMORY` or a failed `janet_assert` -/
  | exit : Outcome α
  /-- The function read through a pointer to no object; what follows is not
  modelled -/
  | undefined : Outcome α
  /-- The bound on the rounds of a loop was reached -/
  | out_of_fuel : Outcome α

/-- Value of `n + 1` in `size_t`. -/
def size_t_succ (n : Nat) : Nat := (n + 1) % 18446744073709551616

/-- Value of `n - 1` in `size_t`. -/
def size_t_pred (n : Nat) : Nat := (n + 18446744073709551615) % 18446744073709551616

/-- Value of `x & ~m` on the bits of two `int`s: the bits of `x` that are not
bits of `m`. -/
def clearBits (x m : Nat) : Nat := x ^^^ (x &&& m)

/-- Assignment through a pollable pointer. -/
def EvState.setPollable (s : EvState) (p : Nat) (x : JanetPollable) : EvState :=
  { s with pollables := fun r => if r = p then some x else s.pollables r }

/-- Assignment through a listener pointer. -/
def EvState.setListener (s : EvState) (a : Nat) (x : JanetListenerState) : EvState :=
  { s with listeners := fun r => if r = a then some x else s.listeners r }

/-- Effect of `free(state)`. -/
def EvState.freeListener (s : EvState) (a : Nat) : EvState :=
  { s with listeners := fun r => if r = a then none else s.listeners r }

/-- Modelled from the spec: the call `state->machine(state, event)`.  The
machine is code of a higher layer (§1, "the core defines the listener
protocol but not concrete I/O state machines"): the call is recorded and
leaves the state of the loop as it is. -/
def call_machine (s : EvState) (state : Nat) (event : JanetAsyncEvent) : EvState :=
  { s with machine_calls := s.machine_calls ++ [(state, event)] }

/-- Embedding of `janet_listen_impl`.  The constant
`JANET_ASYNC_LISTEN_SPAWNER` of `janet.h` is a parameter; `mem` is what
`malloc(size)` returns, `none` for `NULL` (the size asked for has no other
effect). -/
def janet_listen_impl (JANET_ASYNC_LISTEN_SPAWNER : Nat) (s : EvState)
    (pollable behavior mask : Nat) (mem : Option Nat) : Outcome Nat :=
  match s.pollables pollable with
  | none => Outcome.undefined
  | some p =>
    if p._mask &&& mask ≠ 0 then Outcome.panic Panic.duplicate_event s
    else if (s.fibers s.janet_vm_root_fiber).waiting ≠ none then
      Outcome.panic Panic.already_waiting s
    else
      match mem with
      | none => Outcome.exit
      | some state =>
        let fiber := if mask &&& JANET_ASYNC_LISTEN_SPAWNER ≠ 0 then none
          else some s.janet_vm_root_fiber
        let s :=
          if mask &&& JANET_ASYNC_LISTEN_SPAWNER ≠ 0 then s
          else s.setFiber s.janet_vm_root_fiber
            { s.fibers s.janet_vm_root_fiber with waiting := some state }
        let mask := mask ||| JANET_ASYNC_LISTEN_SPAWNER
        let s := { s with janet_vm_active_listeners := size_t_succ s.janet_vm_active_listeners }
        let s := s.setListener state
          { machine := behavior, fiber := fiber, pollable := pollable, _mask := mask,
            _next := p.state }
        let s := s.setPollable pollable { p with _mask := p._mask ||| mask, state := some state }
        Outcome.ok state (call_machine s state JanetAsyncEvent.JANET_ASYNC_EVENT_INIT)

/-- A place that holds a pointer to a listener, what `iter` of
`janet_unlisten_impl` points to: `head p` is `&p->state` of a pollable,
`next a` is `&a->_next` of a listener. -/
inductive ChainCell where
  | head (pollable : Nat) : ChainCell
  | next (state : Nat) : ChainCell
deriving DecidableEq, Repr

/-- Value of `*iter`; the outer `none` when `iter` points into no object. -/
def EvState.readCell (s : EvState) : ChainCell → Option (Option Nat)
  | ChainCell.head p => (s.pollables p).map JanetPollable.state
  | ChainCell.next a => (s.listeners a).map JanetListenerState._next

/-- Assignment `*iter = v`. -/
def EvState.writeCell (s : EvState) (iter : ChainCell) (v : Option Nat) : EvState :=
  match iter with
  | ChainCell.head p =>
    match s.pollables p with
    | some x => s.setPollable p { x with state := v }
    | none => s
  | ChainCell.next a =>
    match s.listeners a with
    | some x => s.setListener a { x with _next := v }
    | none => s

/-- The loop `while (*iter && *iter != state) iter = &((*iter)->_next)` of
`janet_unlisten_impl`: the cell it stops at.  Each round moves `iter` one
listener along the chain; `fuel` bounds the rounds. -/
def unlisten_find : Nat → EvState → Nat → ChainCell → Outcome ChainCell
  | 0, _, _, _ => Outcome.out_of_fuel
  | fuel + 1, s, state, iter =>
    match s.readCell iter with
    | none => Outcome.undefined
    | some none => Outcome.ok iter s
    | some (some a) =>
      if a ≠ state then unlisten_find fuel s state (ChainCell.next a)
      else Outcome.ok iter s

/-- Embedding of `janet_unlisten_impl`. -/
def janet_unlisten_impl (fuel : Nat) (s : EvState) (state : Nat) : Outcome Unit :=
  match s.listeners state with
  | none => Outcome.undefined
  | some l =>
    let s := call_machine s state JanetAsyncEvent.JANET_ASYNC_EVENT_DEINIT
    match unlisten_find fuel s state (ChainCell.head l.pollable) with
    | Outcome.ok iter _ =>
      match s.readCell iter with
      | some (some _) =>
        let s := s.writeCell iter l._next
        let s := { s with janet_vm_active_listeners := size_t_pred s.janet_vm_active_listeners }
        match s.listeners state with
        | none => Outcome.undefined
        | some l =>
          match s.pollables l.pollable with
          | none => Outcome.undefined
          | some p =>
            let s := s.setPollable l.pollable { p with _mask := clearBits p._mask l._mask }
            let s :=
              match l.fiber with
              | some fiber =>
                if (s.fibers fiber).waiting = some state then
                  s.setFiber fiber { s.fibers fiber with waiting := none }
                else s
              | none => s
            Outcome.ok () (s.freeListener state)
      | some none => Outcome.exit
      | none => Outcome.undefined
    | Outcome.panic p s => Outcome.panic p s
    | Outcome.exit => Outcome.exit
    | Outcome.undefined => Outcome.undefined
    | Outcome.out_of_fuel => Outcome.out_of_fuel

/-- Embedding of `janet_pollable_init`. -/
def janet_pollable_init (s : EvState) (pollable : Nat) (handle : Int) : EvState :=
  s.setPollable pollable { handle := handle, flags := 0, state := none, _mask := 0 }

/-- The loop `while (NULL != state)` of `janet_pollable_deinit`, from the
listener `state` on.  `rounds` bounds its rounds, `fuel` the rounds of the
loop of every `janet_unlisten_impl` it calls. -/
def janet_pollable_deinit_loop (fuel : Nat) : Nat → EvState → Option Nat → Outcome Unit
  | _, s, none => Outcome.ok () s
  | 0, _, some _ => Outcome.out_of_fuel
  | rounds + 1, s, some state =>
    match s.listeners state with
    | none => Outcome.undefined
    | some l =>
      let s := call_machine s state JanetAsyncEvent.JANET_ASYNC_EVENT_CLOSE
      let next_state := l._next
      match janet_unlisten_impl fuel s state with
      | Outcome.ok _ s => janet_pollable_deinit_loop fuel rounds s next_state
      | r => r

/-- Embedding of `janet_pollable_deinit`.  The constant
`JANET_POLL_FLAG_CLOSED` of `janet.h` is a parameter. -/
def janet_pollable_deinit (JANET_POLL_FLAG_CLOSED : Nat) (fuel : Nat) (s : EvState)
    (pollable : Nat) : Outcome Unit :=
  match s.pollables pollable with
  | none => Outcome.undefined
  | some p =>
    let s := s.setPollable pollable { p with flags := p.flags ||| JANET_POLL_FLAG_CLOSED }
    match janet_pollable_deinit_loop fuel fuel s p.state with
    | Outcome.ok _ s =>
      match s.pollables pollable with
      | none => Outcome.undefined
      | some p => Outcome.ok () (s.setPollable pollable { p with state := none })
    | r => r

/-- Embedding of `janet_unlisten` of the epoll back-end.  `status` is what the
loop `do .. while (status == -1 && errno == EINTR)` around `epoll_ctl` ends
with and `errno` its error number; the arguments the function computes for
`epoll_ctl` have no other effect. -/
def janet_unlisten (fuel : Nat) (s : EvState) (state : Nat) (status : Int) (errno : Nat) :
    Outcome Unit :=
  match s.listeners state with
  | none => Outcome.undefined
  | some l =>
    match s.pollables l.pollable with
    | none => Outcome.undefined
    | some _ =>
      if status = -1 then Outcome.panic (Panic.failed_to_unschedule errno) s
      else janet_unlisten_impl fuel s state

/-- Embedding of `janet_listen` of the epoll back-end; `status` and `errno`
as in `janet_unlisten`. -/
def janet_listen (JANET_ASYNC_LISTEN_SPAWNER : Nat) (fuel : Nat) (s : EvState)
    (pollable behavior mask : Nat) (mem : Option Nat) (status : Int) (errno : Nat) :
    Outcome Nat :=
  match s.pollables pollable with
  | none => Outcome.undefined
  | some _ =>
    match janet_listen_impl JANET_ASYNC_LISTEN_SPAWNER s pollable behavior mask mem with
    | Outcome.ok state s =>
      if status = -1 then
        match janet_unlisten_impl fuel s state with
        | Outcome.ok _ s => Outcome.panic (Panic.failed_to_schedule errno) s
        | Outcome.panic p s => Outcome.panic p s
        | Outcome.exit => Outcome.exit
        | Outcome.undefined => Outcome.undefined
        | Outcome.out_of_fuel => Outcome.out_of_fuel
      else Outcome.ok state s
    | r => r

/-- Embedding of `janet_cancel`; `fuel`, `status` and `errno` are those of
the `janet_unlisten` call. -/
def janet_cancel (fuel : Nat) (s : EvState) (fiber : Nat) (status : Int) (errno : Nat) :
    Outcome Unit :=
  let r :=
    match (s.fibers fiber).waiting with
    | some w => janet_unlisten fuel s w status errno
    | none => Outcome.ok () s
  match r with
  | Outcome.ok _ s =>
    if (s.fibers fiber).timeout_index ≥ 0 then
      let s := pop_timeout s (s.fibers fiber).timeout_index.toNat
      Outcome.ok () (s.setTimeoutIndex fiber (-1))
    else Outcome.ok () s
  | r => r

/-- The state a call leaves behind when the process goes on: the state it
returned in, or the state at its panic. -/
def Outcome.state {α : Type} : Outcome α → Option EvState
  | Outcome.ok _ s => some s
  | Outcome.panic _ s => some s
  | _ => none

/-- The state a call returned in. -/
def Outcome.returned {α : Type} : Outcome α → Option EvState
  | Outcome.ok _ s => some s
  | _ => none

/-- The listeners `xs` are the chain that starts at `start`, in the order of
the `_next` pointers, and the chain ends in `NULL`. -/
def IsChain (s : EvState) : Option Nat → List Nat → Prop
  | start, [] => start = none
  | start, a :: rest =>
    start = some a ∧
      match s.listeners a with
      | some l => IsChain s l._next rest
      | none => False

/-- Whether `xs` is the chain from `start` can be computed. -/
def IsChain.dec (s : EvState) :
    ∀ (xs : List Nat) (start : Option Nat), Decidable (IsChain s start xs)
  | [], start => by unfold IsChain; infer_instance
  | a :: rest, start => by
    unfold IsChain
    cases s.listeners a with
    | none => exact isFalse (fun h1 => h1.2)
    | some l =>
      have := IsChain.dec s rest l._next
      infer_instance

instance (s : EvState) (xs : List Nat) (start : Option Nat) : Decidable (IsChain s start xs) :=
  IsChain.dec s xs start

/-- Listener `a` is in the chain of a pollable. -/
def InChains (s : EvState) (a : Nat) : Prop :=
  ∃ P p xs, s.pollables P = some p ∧ IsChain s p.state xs ∧ a ∈ xs

/-- Listener `a` is in the chain of a pollable and its `fiber` is `F`. -/
def ListensFor (s : EvState) (a F : Nat) : Prop :=
  InChains s a ∧ ∃ l, s.listeners a = some l ∧ l.fiber = some F

/-- Bitwise OR of the recorded masks of the listeners `xs`. -/
def orMasks (s : EvState) : List Nat → Nat
  | [] => 0
  | a :: rest =>
    match s.listeners a with
    | some l => l._mask ||| orMasks s rest
    | none => orMasks s rest

/-- What the listener functions keep true of the pollables, the listeners
and the fibers: every pollable has a chain without repetition whose listeners
point back to it and carry every bit of its `_mask`; every allocated listener
is in the chain of its pollable; a fiber's `waiting` is a listener of that
fiber and a listener's fiber waits on it; the active count is the number of
allocated listeners; and those are at addresses `malloc` can return. -/
structure ListenInv (s : EvState) : Prop where
  chains : ∀ P p, s.pollables P = some p → ∃ xs, IsChain s p.state xs ∧ xs.Nodup ∧
    (∀ a ∈ xs, ∀ l, s.listeners a = some l → l.pollable = P) ∧
    (∀ i, p._mask.testBit i = true →
      ∃ a ∈ xs, ∃ l, s.listeners a = some l ∧ l._mask.testBit i = true)
  linked : ∀ a l, s.listeners a = some l →
    ∃ p xs, s.pollables l.pollable = some p ∧ IsChain s p.state xs ∧ a ∈ xs
  waiting_listener : ∀ F a, (s.fibers F).waiting = some a →
    ∃ l, s.listeners a = some l ∧ l.fiber = some F
  listener_waiting : ∀ a l F, s.listeners a = some l → l.fiber = some F →
    (s.fibers F).waiting = some a
  counted : ∃ all : List Nat, all.Nodup ∧ (∀ a, a ∈ all ↔ s.listeners a ≠ none) ∧
    s.janet_vm_active_listeners = all.length
  addresses : ∀ a, s.listeners a ≠ none → 0 < a ∧ a < 18446744073709551616

/-- The parts of the state the listener functions work on are the same in
`s1` as in `s`: pollables, listeners, machine calls, the active count and
every fiber's `waiting`. -/
def SameListeners (s s1 : EvState) : Prop :=
  s1.pollables = s.pollables ∧ s1.listeners = s.listeners ∧
  s1.machine_calls = s.machine_calls ∧
  s1.janet_vm_active_listeners = s.janet_vm_active_listeners ∧
  ∀ g, (s1.fibers g).waiting = (s.fibers g).waiting

/-- States reachable from `janet_ev_init_common` by `janet_pollable_init` on
a pollable that has no listener, `janet_listen` with a listener state at a
fresh address, `janet_unlisten`, `janet_unlisten_impl`,
`janet_pollable_deinit`, `janet_cancel`, and by steps of the rest of the
module, which leave the parts named in `SameListeners` as they are.  A call
that panics leaves the state at the panic. -/
inductive ListenReach (SPAWNER CLOSED : Nat) : EvState → Prop where
  | init (root : Nat) : ListenReach SPAWNER CLOSED (janet_ev_init_common root)
  | other (s s1 : EvState) :
      ListenReach SPAWNER CLOSED s → SameListeners s s1 → ListenReach SPAWNER CLOSED s1
  | pollable_init (s : EvState) (P : Nat) (handle : Int) :
      ListenReach SPAWNER CLOSED s → (∀ p, s.pollables P = some p → p.state = none) →
      ListenReach SPAWNER CLOSED (janet_pollable_init s P handle)
  | listen (s s1 : EvState) (fuel P behavior mask a : Nat) (status : Int) (errno : Nat) :
      ListenReach SPAWNER CLOSED s → s.listeners a = none → 0 < a →
      a < 18446744073709551616 →
      (janet_listen SPAWNER fuel s P behavior mask (some a) status errno).state = some s1 →
      ListenReach SPAWNER CLOSED s1
  | unlisten (s s1 : EvState) (fuel a : Nat) (status : Int) (errno : Nat) :
      ListenReach SPAWNER CLOSED s →
      (janet_unlisten fuel s a status errno).state = some s1 → ListenReach SPAWNER CLOSED s1
  | unlisten_impl (s s1 : EvState) (fuel a : Nat) :
      ListenReach SPAWNER CLOSED s →
      (janet_unlisten_impl fuel s a).state = some s1 → ListenReach SPAWNER CLOSED s1
  | pollable_deinit (s s1 : EvState) (fuel P : Nat) :
      ListenReach SPAWNER CLOSED s →
      (janet_pollable_deinit CLOSED fuel s P).state = some s1 → ListenReach SPAWNER CLOSED s1
  | cancel (s s1 : EvState) (fuel F : Nat) (status : Int) (errno : Nat) :
      ListenReach SPAWNER CLOSED s →
      (janet_cancel fuel s F status errno).state = some s1 → ListenReach SPAWNER CLOSED s1

/-- Back-link of the timeout heap: a fiber whose `timeout_index` is `i ≥ 0`
is the fiber of the live entry at `i`. -/
def TqLinked (s : EvState) : Prop :=
  ∀ f : Nat, 0 ≤ (s.fibers f).timeout_index →
    (s.fibers f).timeout_index.toNat < s.janet_vm_tq_count ∧
    (s.janet_vm_tq (s.fibers f).timeout_index.toNat).fiber = f

/-- The other form of the back-link: the fiber of the live entry at `i` has
`timeout_index = i`. -/
def TqIndexed (s : EvState) : Prop :=
  ∀ i, i < s.janet_vm_tq_count → (s.fibers (s.janet_vm_tq i).fiber).timeout_index = i

/-- The state after the `add_timeout` calls `l`, in order, from the initial
state. -/
def sleepAll (l : List JanetTimeout) : EvState := l.foldl add_timeout (janet_ev_init_common 0)

/-- Fiber 1 sleeps until 30, then fiber 2 until 10. -/
def twoSleeps : EvState := sleepAll [{ when := 30, fiber := 1 }, { when := 10, fiber := 2 }]

/-- Fibers 1 to 7 sleep until 1, 10, 2, 11, 12, 3, 4, in this order. -/
def sevenSleeps : EvState :=
  sleepAll [{ when := 1, fiber := 1 }, { when := 10, fiber := 2 }, { when := 2, fiber := 3 },
    { when := 11, fiber := 4 }, { when := 12, fiber := 5 }, { when := 3, fiber := 6 },
    { when := 4, fiber := 7 }]

/-- Fibers 1, 2, 3 sleep until 10, 30, 20, in this order. -/
def threeSleeps : EvState :=
  sleepAll [{ when := 10, fiber := 1 }, { when := 30, fiber := 2 }, { when := 20, fiber := 3 }]

/-- A pollable at address 0 for handle 3 on which fiber 1 listens with mask
`m1` (listener state at 100), then fiber 2 with mask `m2` (listener state at
101). -/
def twoListeners (SPAWNER m1 m2 : Nat) : Outcome Nat :=
  let s := janet_pollable_init (janet_ev_init_common 1) 0 3
  match janet_listen_impl SPAWNER s 0 7 m1 (some 100) with
  | Outcome.ok _ s => janet_listen_impl SPAWNER { s with janet_vm_root_fiber := 2 } 0 8 m2 (some 101)
  | r => r

/-- The state of `twoListeners` after `janet_unlisten_impl` of the listener
of fiber 1. -/
def oneListenerGone (SPAWNER m1 m2 : Nat) : Outcome Unit :=
  match twoListeners SPAWNER m1 m2 with
  | Outcome.ok _ s => janet_unlisten_impl 2 s 100
  | Outcome.panic p s => Outcome.panic p s
  | Outcome.exit => Outcome.exit
  | Outcome.undefined => Outcome.undefined
  | Outcome.out_of_fuel => Outcome.out_of_fuel


/-- A pollable for handle 3 at address 0, made in the initial state with
fiber 1 running. -/
def freshPollable : EvState := janet_pollable_init (janet_ev_init_common 1) 0 3

/-- The state of `freshPollable` after fiber 1 has called `janet_listen` on the
pollable with mask `mask`; the listener state is at address 100 and
`epoll_ctl` succeeds. -/
def oneListener (SPAWNER mask : Nat) : EvState :=
  (janet_listen SPAWNER 1 freshPollable 0 7 mask (some 100) 0 0).state.getD freshPollable

/-- The state of `oneListener` after fiber 1 has also set a timeout for 50. -/
def listenerAndTimer (SPAWNER mask : Nat) : EvState :=
  add_timeout (oneListener SPAWNER mask) { when := 50, fiber := 1 }

/-- The state `twoListeners` ends in. -/
def twoListenersState (SPAWNER m1 m2 : Nat) : EvState :=
  (twoListeners SPAWNER m1 m2).state.getD freshPollable

/-- The cell `iter` of `janet_unlisten_impl` points to after it has walked
from the cell `c` past the listeners `pre`. -/
def cellBefore (c : ChainCell) : List Nat → ChainCell
  | [] => c
  | b :: pre => cellBefore (ChainCell.next b) pre

/-! ## Sequences of calls on a ring -/

/-- A call on a ring: `janet_q_push` of an item, or `janet_q_pop`. -/
inductive QCall (α : Type) where
  | push (x : α) : QCall α
  | pop : QCall α
deriving DecidableEq, Repr

/-- What a call on a ring gave back: the status of a push; the status 1 of a
pop; or status 0 of a pop together with the value it copied out (`none` for
an indeterminate value). -/
inductive QObs (α : Type) where
  | pushed (status : Nat) : QObs α
  | pop_empty : QObs α
  | popped (out : Option α) : QObs α
deriving DecidableEq, Repr

/-- The calls `calls` made in order on the ring `q`, all with element size
`itemsize`: what they gave back and the ring they leave.  `none` when a push
ends the process with `JANET_OUT_OF_MEMORY`. -/
def ring_run {α : Type} [DecidableEq α] (itemsize : Nat) :
    JanetQueue α → List (QCall α) → Option (List (QObs α) × JanetQueue α)
  | q, [] => some ([], q)
  | q, QCall.push x :: rest =>
    match janet_q_push q x itemsize with
    | QPush.ok q1 => (ring_run itemsize q1 rest).map (fun r => (QObs.pushed 0 :: r.1, r.2))
    | QPush.full => (ring_run itemsize q rest).map (fun r => (QObs.pushed 1 :: r.1, r.2))
    | QPush.oom => none
  | q, QCall.pop :: rest =>
    match janet_q_pop q itemsize with
    | none => (ring_run itemsize q rest).map (fun r => (QObs.pop_empty :: r.1, r.2))
    | some (out, q1) =>
      (ring_run itemsize q1 rest).map (fun r => (QObs.popped out :: r.1, r.2))

/-- The FIFO list of the specification (§4.1): `push` appends the item and
returns status 0, `pop` returns status 1 on the empty list and otherwise
status 0 with the oldest item.  The calls `calls` made in order on the list
`l`: what they give back and the list they leave. -/
def fifo_spec_run {α : Type} : List α → List (QCall α) → List (QObs α) × List α
  | l, [] => ([], l)
  | l, QCall.push x :: rest =>
    let r := fifo_spec_run (l ++ [x]) rest
    (QObs.pushed 0 :: r.1, r.2)
  | [], QCall.pop :: rest =>
    let r := fifo_spec_run [] rest
    (QObs.pop_empty :: r.1, r.2)
  | x :: l, QCall.pop :: rest =>
    let r := fifo_spec_run l rest
    (QObs.popped (some x) :: r.1, r.2)

/-- The number of items pushed and not yet popped, from what the calls gave
back. -/
def heldItems {α : Type} : List (QObs α) → Int
  | [] => 0
  | QObs.pushed 0 :: rest => heldItems rest + 1
  | QObs.popped _ :: rest => heldItems rest - 1
  | _ :: rest => heldItems rest

/-- Three pushes, a pop and a push leave a ring of four cells wrapped and
full; the next push grows it.  Four pops follow. -/
def growWrappedCalls : List (QCall Nat) :=
  [QCall.push 1, QCall.push 2, QCall.push 3, QCall.pop, QCall.push 4, QCall.push 5,
   QCall.pop, QCall.pop, QCall.pop, QCall.pop]

/-! ## Dispatch of a ready pollable -/

/-- Modelled from the spec: what a machine returns (§4.3, "one of
`{not_done, done}`"); the enumeration `JanetAsyncStatus` is declared in
`janet.h`, and `ev.c` names its members. -/
inductive JanetAsyncStatus where
  | JANET_ASYNC_STATUS_NOT_DONE : JanetAsyncStatus
  | JANET_ASYNC_STATUS_DONE : JanetAsyncStatus
deriving DecidableEq, Repr

/-- The loop `while (NULL != state)` of `janet_loop1_impl`, from the listener
`state` on, for an event with the bits `mask`.  The constants `EPOLLIN` and
`EPOLLOUT` of `sys/epoll.h` are parameters.  `machine a e` is the status the
machine of the listener at `a` returns for the event `e`, and `ctl a` is the
status and error number the `epoll_ctl` loop of `janet_unlisten` of `a` ends
with.  `rounds` bounds the rounds of the loop, `fuel` those of the loop of
every `janet_unlisten_impl` it calls. -/
def janet_loop1_walk (EPOLLIN EPOLLOUT : Nat)
    (machine : Nat → JanetAsyncEvent → JanetAsyncStatus) (ctl : Nat → Int × Nat)
    (mask fuel : Nat) : Nat → EvState → Option Nat → Outcome Unit
  | _, s, none => Outcome.ok () s
  | 0, _, some _ => Outcome.out_of_fuel
  | rounds + 1, s, some state =>
    match s.listeners state with
    | none => Outcome.undefined
    | some l =>
      let next_state := l._next
      let r1 :=
        if mask &&& EPOLLOUT ≠ 0 then
          (machine state JanetAsyncEvent.JANET_ASYNC_EVENT_WRITE,
            call_machine s state JanetAsyncEvent.JANET_ASYNC_EVENT_WRITE)
        else (JanetAsyncStatus.JANET_ASYNC_STATUS_NOT_DONE, s)
      let r2 :=
        if mask &&& EPOLLIN ≠ 0 then
          (machine state JanetAsyncEvent.JANET_ASYNC_EVENT_READ,
            call_machine r1.2 state JanetAsyncEvent.JANET_ASYNC_EVENT_READ)
        else (JanetAsyncStatus.JANET_ASYNC_STATUS_NOT_DONE, r1.2)
      if r1.1 = JanetAsyncStatus.JANET_ASYNC_STATUS_DONE ∨
          r2.1 = JanetAsyncStatus.JANET_ASYNC_STATUS_DONE then
        match janet_unlisten fuel r2.2 state (ctl state).1 (ctl state).2 with
        | Outcome.ok _ s2 =>
          janet_loop1_walk EPOLLIN EPOLLOUT machine ctl mask fuel rounds s2 next_state
        | r => r
      else janet_loop1_walk EPOLLIN EPOLLOUT machine ctl mask fuel rounds r2.2 next_state

/-- The branch "Normal event" of the loop over the events `epoll_wait`
reported in `janet_loop1_impl`: `pollable` is `events[i].data.ptr`, `mask` is
`events[i].events`. -/
def janet_loop1_normal_event (EPOLLIN EPOLLOUT : Nat)
    (machine : Nat → JanetAsyncEvent → JanetAsyncStatus) (ctl : Nat → Int × Nat)
    (fuel rounds : Nat) (s : EvState) (pollable mask : Nat) : Outcome Unit :=
  match s.pollables pollable with
  | none => Outcome.undefined
  | some p => janet_loop1_walk EPOLLIN EPOLLOUT machine ctl mask fuel rounds s p.state

/-- A machine that returns `JANET_ASYNC_STATUS_DONE` for the write event of
the listener at 101 and `JANET_ASYNC_STATUS_NOT_DONE` otherwise. -/
def doneOnWrite101 (a : Nat) (e : JanetAsyncEvent) : JanetAsyncStatus :=
  if a = 101 ∧ e = JanetAsyncEvent.JANET_ASYNC_EVENT_WRITE then
    JanetAsyncStatus.JANET_ASYNC_STATUS_DONE
  else JanetAsyncStatus.JANET_ASYNC_STATUS_NOT_DONE

/-! ## A parked reader that is scheduled again -/

/-- The state of `rendezvousReader` after `ev/go` on fiber 1 with no value:
fiber 1 is parked as a reader of the channel at 0 and is in the ready queue
with the value nil. -/
def scheduledReader : Option EvState :=
  rendezvousReader.bind (fun s => cfun_ev_go s 1 Janet.nil)

/-- The state of `scheduledReader`. -/
def readerScheduled : EvState := scheduledReader.getD (janet_ev_init_common 0)

/-! ## Argument indices (`capi.c`) -/

/-- Messages of the panics of the argument getters of `capi.c`. -/
inductive ArgPanic where
  /-- Message "bad slot #%d, expected integer, got %v" -/
  | bad_slot_integer (n : Nat) (x : Janet) : ArgPanic
  /-- Message "%s index %d out of range [0,%d]" -/
  | out_of_closed_range (which : String) (raw length : Int) : ArgPanic
  /-- Message "%s index %d out of range [0,%d)" -/
  | out_of_half_open_range (which : String) (raw length : Int) : ArgPanic
deriving DecidableEq, Repr

/-- Embedding of `janet_getinteger`.  The functions `janet_checkint` and
`janet_unwrap_integer` of `janet.h` are parameters; the value unwrapped is an
`int32_t`. -/
def janet_getinteger (janet_checkint : Janet → Bool) (janet_unwrap_integer : Janet → Int)
    (argv : Nat → Janet) (n : Nat) : Except ArgPanic Int :=
  let x := argv n
  if ¬ janet_checkint x then Except.error (ArgPanic.bad_slot_integer n x)
  else Except.ok (wrap32 (janet_unwrap_integer x))

/-- Embedding of `janet_gethalfrange`, in `int32_t` arithmetic. -/
def janet_gethalfrange (janet_checkint : Janet → Bool) (janet_unwrap_integer : Janet → Int)
    (argv : Nat → Janet) (n : Nat) (length : Int) (which : String) : Except ArgPanic Int :=
  match janet_getinteger janet_checkint janet_unwrap_integer argv n with
  | Except.error e => Except.error e
  | Except.ok raw =>
    let raw := if raw < 0 then wrap32 (raw + wrap32 (length + 1)) else raw
    if raw < 0 ∨ raw > length then
      Except.error (ArgPanic.out_of_closed_range which raw length)
    else Except.ok raw

/-- Embedding of `janet_getargindex`, in `int32_t` arithmetic. -/
def janet_getargindex (janet_checkint : Janet → Bool) (janet_unwrap_integer : Janet → Int)
    (argv : Nat → Janet) (n : Nat) (length : Int) (which : String) : Except ArgPanic Int :=
  match janet_getinteger janet_checkint janet_unwrap_integer argv n with
  | Except.error e => Except.error e
  | Except.ok raw =>
    let raw := if raw < 0 then wrap32 (raw + length) else raw
    if raw < 0 ∨ raw > length then
      Except.error (ArgPanic.out_of_half_open_range which raw length)
    else Except.ok raw

/-- A `janet_checkint` for the values of `Janet`: numbers in the range of
`int32_t`. -/
def checkint_of_number : Janet → Bool
  | Janet.number n => decide (-2147483648 ≤ n ∧ n ≤ 2147483647)
  | _ => false

/-- A `janet_unwrap_integer` for the values of `Janet`. -/
def unwrap_integer_of_number : Janet → Int
  | Janet.number n => n
  | _ => 0

/-! ## 64-bit integers (`bigint.c`) -/

/-- Value of `INT64_MIN`. -/
def INT64_MIN : Int := -9223372036854775808

/-- Value of `INT64_MAX`. -/
def INT64_MAX : Int := 9223372036854775807

/-- Two's-complement value of an integer truncated to 64 bits. -/
def wrap64 (x : Int) : Int :=
  (x + 9223372036854775808) % 18446744073709551616 - 9223372036854775808

/-- A C `double`: a finite value, an infinity, or a NaN. -/
inductive CDouble where
  | finite (q : ℚ) : CDouble
  | infinite : CDouble
  | nan : CDouble
deriving DecidableEq

/-- Value of `MAX_INT_IN_DBL`, `2^53`. -/
def MAX_INT_IN_DBL : ℚ := 9007199254740992

/-- The abstract types `check_bi_int64` tells apart: `bi_int64_type`,
`bi_uint64_type`, and any other. -/
inductive BiAbstractType where
  | int64 : BiAbstractType
  | uint64 : BiAbstractType
  | other : BiAbstractType
deriving DecidableEq, Repr

/-- Modelled from the spec: the values of `Janet` as `check_bi_int64` tells
them apart; the type `Janet` and its accessors are declared in `janet.h`.  A
value is a number, a string with its characters, an abstract value with its
abstract type and the address of its data, or a value of another type. -/
inductive BiJanet where
  | number (dbl : CDouble) : BiJanet
  | string (str : List Char) : BiJanet
  | abstract (ty : BiAbstractType) (p : Nat) : BiJanet
  | other : BiJanet
deriving DecidableEq

/-- What a call of `strtoll` of the C library leaves: the value returned,
`errno`, and the number of characters `endptr` is past the start of the
string. -/
structure Strtoll where
  value : Int
  errno : Nat
  consumed : Nat
deriving DecidableEq, Repr

/-- Embedding of `parse_int64`: the value stored in `*box` when the function
returns 1, `none` when it returns 0.  The function `strtoll` and the constant
`ERANGE` of the C library are parameters; a string ends in a NUL character. -/
def parse_int64 (strtoll : List Char → Nat → Strtoll) (ERANGE : Nat) (str : List Char) :
    Option Int :=
  let c0 := str.getD 0 (Char.ofNat 0)
  let c1 := str.getD 1 (Char.ofNat 0)
  let c2 := str.getD 2 (Char.ofNat 0)
  let base :=
    if (c0 = '0' ∧ (c1 = 'x' ∨ c1 = 'X')) ∨ (c0 = '-' ∧ c1 = '0' ∧ (c2 = 'x' ∨ c2 = 'X'))
    then 16 else 10
  let r := strtoll str base
  let box := wrap64 r.value
  if (r.errno = ERANGE ∧ (box = INT64_MAX ∨ box = INT64_MIN)) ∨ (r.errno ≠ 0 ∧ box = 0) ∨
      r.consumed = 0 then none
  else some box

/-- Embedding of `check_bi_int64`; `none` is the panic "bad int64
initializer".  `heap p` holds the 64 bits of the box at address `p` as an
integer; the conversion of a `double` to `bi_int64` drops the fraction. -/
def check_bi_int64 (strtoll : List Char → Nat → Strtoll) (ERANGE : Nat) (heap : Nat → Int) :
    BiJanet → Option Int
  | BiJanet.number (CDouble.finite q) =>
    if |q| ≤ MAX_INT_IN_DBL then some (wrap64 (Int.tdiv q.num q.den)) else none
  | BiJanet.number _ => none
  | BiJanet.string str => parse_int64 strtoll ERANGE str
  | BiJanet.abstract ty p =>
    if ty = BiAbstractType.int64 ∨ ty = BiAbstractType.uint64 then some (wrap64 (heap p))
    else none
  | BiJanet.other => none

/-- Messages of the panics of the int64 methods. -/
inductive BiPanic where
  /-- Message "arity mismatch, expected at least %d, got %d" -/
  | arity_at_least (min got : Nat) : BiPanic
  /-- Message "bad slot #%d, expected %s, got %v" -/
  | bad_slot_abstract (n : Nat) (x : BiJanet) : BiPanic
  /-- Message "bad int64 initializer" -/
  | bad_int64_initializer : BiPanic
  /-- Message "division by zero" -/
  | division_by_zero : BiPanic
  /-- Message "INT64_MIN divided by -1" -/
  | int64_min_divided_by_minus_one : BiPanic
deriving DecidableEq

/-- How a call of an int64 method ends. -/
inductive BiResult where
  /-- The function returned the abstract value whose data is at `box` -/
  | ret (box : Nat) (heap : Nat → Int) : BiResult
  /-- The function raised a panic -/
  | panic (p : BiPanic) (heap : Nat → Int) : BiResult
  /-- The function evaluated a division whose behaviour is undefined -/
  | undefined : BiResult

/-- The operator `/` on two `int64_t`; `none` where its behaviour is
undefined: the divisor is 0, or the quotient is not representable. -/
def int64_div (a b : Int) : Option Int :=
  if b = 0 ∨ (a = INT64_MIN ∧ b = -1) then none else some (Int.tdiv a b)

/-- The operator `%` on two `int64_t`; `none` where its behaviour is
undefined, as for `/`. -/
def int64_mod (a b : Int) : Option Int :=
  if b = 0 ∨ (a = INT64_MIN ∧ b = -1) then none else some (Int.tmod a b)

/-- The loop `for (int i=1;i<argc;i++)` of the two functions the macro
`DIVMETHOD_SIGNED` defines, over the arguments still to come; `oper` is the
operator the macro is used with. -/
def DIVMETHOD_SIGNED_loop (oper : Int → Int → Option Int)
    (strtoll : List Char → Nat → Strtoll) (ERANGE : Nat) (box : Nat) :
    (Nat → Int) → List BiJanet → BiResult
  | heap, [] => BiResult.ret box heap
  | heap, x :: rest =>
    match check_bi_int64 strtoll ERANGE heap x with
    | none => BiResult.panic BiPanic.bad_int64_initializer heap
    | some value =>
      if value = 0 then BiResult.panic BiPanic.division_by_zero heap
      else if value = -1 ∧ wrap64 (heap box) = INT64_MIN then
        BiResult.panic BiPanic.int64_min_divided_by_minus_one heap
      else
        match check_bi_int64 strtoll ERANGE heap x with
        | none => BiResult.panic BiPanic.bad_int64_initializer heap
        | some divisor =>
          match oper (wrap64 (heap box)) divisor with
          | none => BiResult.undefined
          | some r =>
            DIVMETHOD_SIGNED_loop oper strtoll ERANGE box
              (fun a => if a = box then r else heap a) rest

/-- Embedding of the first function the macro `DIVMETHOD_SIGNED` defines,
`cfun_##type##_##name` for the type `int64`.  `fresh` is the address of the
box `janet_abstract` allocates. -/
def DIVMETHOD_SIGNED (oper : Int → Int → Option Int) (strtoll : List Char → Nat → Strtoll)
    (ERANGE : Nat) (heap : Nat → Int) (fresh : Nat) (argv : List BiJanet) : BiResult :=
  match argv with
  | x0 :: x1 :: rest =>
    match check_bi_int64 strtoll ERANGE heap x0 with
    | none => BiResult.panic BiPanic.bad_int64_initializer heap
    | some v =>
      DIVMETHOD_SIGNED_loop oper strtoll ERANGE fresh
        (fun a => if a = fresh then v else heap a) (x1 :: rest)
  | _ => BiResult.panic (BiPanic.arity_at_least 2 argv.length) heap

/-- Embedding of the second function the macro `DIVMETHOD_SIGNED` defines,
`cfun_##type##_##name##_mut` for the type `int64`. -/
def DIVMETHOD_SIGNED_mut (oper : Int → Int → Option Int)
    (strtoll : List Char → Nat → Strtoll) (ERANGE : Nat) (heap : Nat → Int)
    (argv : List BiJanet) : BiResult :=
  match argv with
  | x0 :: x1 :: rest =>
    match x0 with
    | BiJanet.abstract BiAbstractType.int64 box =>
      DIVMETHOD_SIGNED_loop oper strtoll ERANGE box heap (x1 :: rest)
    | _ => BiResult.panic (BiPanic.bad_slot_abstract 0 x0) heap
  | _ => BiResult.panic (BiPanic.arity_at_least 2 argv.length) heap

/-- Embedding of `cfun_int64_div`, the method `/`. -/
def cfun_int64_div := DIVMETHOD_SIGNED int64_div

/-- Embedding of `cfun_int64_mod`, the method `%`. -/
def cfun_int64_mod := DIVMETHOD_SIGNED int64_mod

/-- Embedding of `cfun_int64_div_mut`, the method `/!`. -/
def cfun_int64_div_mut := DIVMETHOD_SIGNED_mut int64_div

/-- Embedding of `cfun_int64_mod_mut`, the method `%!`. -/
def cfun_int64_mod_mut := DIVMETHOD_SIGNED_mut int64_mod

/-- A `strtoll` that reads nothing. -/
def strtoll_nothing (_ : List Char) (_ : Nat) : Strtoll := { value := 0, errno := 0, consumed := 0 }

/-- A heap with the int64 boxes -7 at address 4, 2 at address 5,
`INT64_MIN` at address 6 and -1 at address 7. -/
def someBoxes (a : Nat) : Int :=
  if a = 4 then -7 else if a = 5 then 2 else if a = 6 then INT64_MIN else if a = 7 then -1 else 0

/-! ## A reader ring grown while wrapped, and a sleeper whose timer has expired -/

/-- Calls on a channel with capacity 0 at address 0: fibers 1 to 45 call
`take` and park, in this order; fiber 99 gives 42, which wakes fiber 1; fibers
46 and 47 call `take` and park.  The take of fiber 46 leaves the ring of
pending readers (46 cells) wrapped and full, the take of fiber 47 grows it. -/
def manyReaderCalls : List (Nat × FiberCall) :=
  (List.range' 1 45).map (fun f => (f, FiberCall.take (Janet.channel 0))) ++
    [(99, FiberCall.give (Janet.channel 0) (Janet.number 42)),
     (46, FiberCall.take (Janet.channel 0)), (47, FiberCall.take (Janet.channel 0))]

/-- The state the calls `manyReaderCalls` lead to. -/
def manyReaders : Option EvState :=
  run_calls (cfun_channel_new (janet_ev_init_common 0) 0 0) manyReaderCalls

/-- Fiber 1 sleeps until 10 (the heap was empty and its `timeout_index` -1);
at the clock reading 10 the loop expires the timer, which schedules fiber 1,
and then takes the task of fiber 1 to run it. -/
def expiredSleeper : Option EvState :=
  (run_expired 1 (sleepAll [{ when := 10, fiber := 1 }]) 10).2.bind
    (fun s => (pop_task s).map Prod.snd)

/-- The state of `expiredSleeper`. -/
def sleeperExpired : EvState := expiredSleeper.getD (janet_ev_init_common 0)

/-! ## Ring queue: arithmetic of a push -/

theorem wrap32_of_small (x : Int) (h0 : 0 ≤ x) (h1 : x < 2147483648) : wrap32 x = x := by
  unfold wrap32; omega

theorem wrap32_of_large (x : Int) (h0 : 2147483648 ≤ x) (h1 : x < 4294967296) :
    wrap32 x = x - 4294967296 := by
  unfold wrap32; omega

theorem janet_q_newcap_small (count : Int) (h0 : 0 ≤ count) (h1 : count + 2 < 1073741824) :
    janet_q_newcap count = 2 * (count + 2) := by
  unfold janet_q_newcap JANET_MAX_Q_CAPACITY
  rw [wrap32_of_small _ (by omega) (by omega)]
  simp only []
  split <;> omega

theorem janet_q_newcap_large (count : Int) (h0 : 1073741824 ≤ count + 2)
    (h1 : count + 1 < 2147483647) :
    janet_q_newcap count = 2 * (count + 2) - 4294967296 := by
  unfold janet_q_newcap JANET_MAX_Q_CAPACITY
  rw [wrap32_of_large _ (by omega) (by omega)]
  simp only []
  split <;> omega

theorem reallocFails_small (itemsize : Nat) (hs : itemsize = 8 ∨ itemsize = 16) (n : Int)
    (h0 : 0 ≤ n) (h1 : n < 2147483648) : reallocFails (allocBytes itemsize n) = false := by
  unfold reallocFails allocBytes
  rcases hs with rfl | rfl <;> simp <;> omega

theorem reallocFails_negative (itemsize : Nat) (hs : itemsize = 8 ∨ itemsize = 16) (n : Int)
    (h0 : n < 0) (h1 : -2147483648 ≤ n) : reallocFails (allocBytes itemsize n) = true := by
  unfold reallocFails allocBytes
  rcases hs with rfl | rfl <;> simp <;> omega

theorem janet_q_count_nonneg {α : Type} (q : JanetQueue α) (hq : QWF q) :
    0 ≤ janet_q_count q ∧ (q.capacity = 0 ∧ janet_q_count q = 0 ∨ janet_q_count q + 1 ≤ q.capacity) := by
  unfold janet_q_count
  rcases hq with ⟨h1, h2, h3⟩ | ⟨h1, h2⟩ <;> split <;> omega

/-- A push that finds room stores the item without resizing. -/
theorem janet_q_push_room {α : Type} (q : JanetQueue α) (x : α) (itemsize : Nat)
    (h : janet_q_count q + 1 < q.capacity) :
    janet_q_push q x itemsize = QPush.ok (janet_q_store q x itemsize) := by
  unfold janet_q_push
  simp only []
  rw [if_neg (by omega)]

/-- A push that finds the ring full resizes it to `(count + 2) * 2` cells when
that product is in the 32-bit range. -/
theorem janet_q_push_grow {α : Type} (q : JanetQueue α) (x : α) (itemsize : Nat)
    (hs : itemsize = 8 ∨ itemsize = 16) (hq : QWF q)
    (h : janet_q_count q + 1 ≥ q.capacity) (hb : janet_q_count q + 2 < 1073741824) :
    janet_q_push q x itemsize =
      QPush.ok (janet_q_store (janet_q_grow q (2 * (janet_q_count q + 2)) itemsize) x itemsize) := by
  have hc := janet_q_count_nonneg q hq
  unfold janet_q_push
  simp only []
  rw [if_pos h, if_neg (by unfold JANET_MAX_Q_CAPACITY; omega),
    janet_q_newcap_small _ hc.1 hb, reallocFails_small itemsize hs _ (by omega) (by omega)]
  simp

/-- A push that finds the ring full when `(count + 2) * 2` leaves the 32-bit
range does not return 0. -/
theorem janet_q_push_overflow {α : Type} (q : JanetQueue α) (x : α) (itemsize : Nat)
    (hs : itemsize = 8 ∨ itemsize = 16) (hq : QWF q)
    (h : janet_q_count q + 1 ≥ q.capacity) (hb : 1073741824 ≤ janet_q_count q + 2) :
    janet_q_push q x itemsize = QPush.oom ∨ janet_q_push q x itemsize = QPush.full := by
  have hc := janet_q_count_nonneg q hq
  unfold janet_q_push
  simp only []
  rw [if_pos h]
  by_cases hm : janet_q_count q + 1 ≥ JANET_MAX_Q_CAPACITY
  · right; rw [if_pos hm]
  · left
    rw [if_neg hm]
    unfold JANET_MAX_Q_CAPACITY at hm
    rw [janet_q_newcap_large _ hb (by omega),
      reallocFails_negative itemsize hs _ (by omega) (by omega)]
    simp

/-! ## Ring queue: head, tail, capacity and count -/

theorem janet_q_store_fields {α : Type} (q : JanetQueue α) (x : α) (itemsize : Nat) :
    (janet_q_store q x itemsize).capacity = q.capacity ∧
    (janet_q_store q x itemsize).head = q.head ∧
    (janet_q_store q x itemsize).tail = (if q.tail + 1 ≥ q.capacity then 0 else q.tail + 1) ∧
    (janet_q_store q x itemsize).data =
      memcpy q.data (itemsize * q.tail) (encodeItem x itemsize) := by
  unfold janet_q_store
  exact ⟨rfl, rfl, rfl, rfl⟩

theorem janet_q_count_eq {α : Type} (q : JanetQueue α) :
    (q.head > q.tail → janet_q_count q = (q.tail : Int) + q.capacity - q.head) ∧
    (¬ q.head > q.tail → janet_q_count q = (q.tail : Int) - q.head) := by
  unfold janet_q_count
  constructor <;> intro h
  · rw [if_pos h]
  · rw [if_neg h]

theorem janet_q_store_shape {α : Type} (q : JanetQueue α) (x : α) (itemsize : Nat)
    (hh : q.head < q.capacity) (ht : q.tail < q.capacity)
    (hc : janet_q_count q + 1 < q.capacity) :
    QWF (janet_q_store q x itemsize) ∧
      janet_q_count (janet_q_store q x itemsize) = janet_q_count q + 1 := by
  obtain ⟨h1, h2, h3, -⟩ := janet_q_store_fields q x itemsize
  obtain ⟨c1, c2⟩ := janet_q_count_eq q
  obtain ⟨d1, d2⟩ := janet_q_count_eq (janet_q_store q x itemsize)
  unfold QWF
  simp only [h1, h2, h3] at d1 d2 ⊢
  by_cases hw : q.head > q.tail
  · have e1 := c1 hw
    by_cases ht1 : q.tail + 1 ≥ q.capacity
    · omega
    · rw [if_neg ht1] at d1 d2 ⊢
      have e2 := d1 (by omega)
      omega
  · have e1 := c2 hw
    by_cases ht1 : q.tail + 1 ≥ q.capacity
    · rw [if_pos ht1] at d1 d2 ⊢
      by_cases h0 : q.head > 0
      · have e2 := d1 h0
        omega
      · omega
    · rw [if_neg ht1] at d1 d2 ⊢
      have e2 := d2 (by omega)
      omega

theorem janet_q_grow_fields {α : Type} (q : JanetQueue α) (n : Int) (itemsize : Nat) :
    (janet_q_grow q n itemsize).capacity = n.toNat ∧
    (janet_q_grow q n itemsize).tail = q.tail ∧
    (janet_q_grow q n itemsize).head =
      (if q.head > q.tail then ((q.head : Int) + (n - q.capacity)).toNat else q.head) := by
  by_cases hw : q.head > q.tail <;> simp [janet_q_grow, hw]

theorem janet_q_grow_shape {α : Type} (q : JanetQueue α) (itemsize : Nat) (hq : QWF q)
    (h : janet_q_count q + 1 ≥ q.capacity) :
    (janet_q_grow q (2 * (janet_q_count q + 2)) itemsize).head <
        (janet_q_grow q (2 * (janet_q_count q + 2)) itemsize).capacity ∧
    (janet_q_grow q (2 * (janet_q_count q + 2)) itemsize).tail <
        (janet_q_grow q (2 * (janet_q_count q + 2)) itemsize).capacity ∧
    janet_q_count (janet_q_grow q (2 * (janet_q_count q + 2)) itemsize) = janet_q_count q ∧
    janet_q_count q + 1 < (janet_q_grow q (2 * (janet_q_count q + 2)) itemsize).capacity := by
  obtain ⟨h1, h2, h3⟩ := janet_q_grow_fields q (2 * (janet_q_count q + 2)) itemsize
  have hc := janet_q_count_nonneg q hq
  obtain ⟨c1, c2⟩ := janet_q_count_eq q
  obtain ⟨d1, d2⟩ := janet_q_count_eq (janet_q_grow q (2 * (janet_q_count q + 2)) itemsize)
  simp only [h1, h2, h3] at d1 d2 ⊢
  generalize janet_q_count (janet_q_grow q (2 * (janet_q_count q + 2)) itemsize) = c' at *
  generalize janet_q_count q = c at *
  unfold QWF at hq
  by_cases hw : q.head > q.tail
  · rw [if_pos hw] at d1 d2 ⊢
    have e1 := c1 hw
    have e2 := d1 (by omega)
    omega
  · rw [if_neg hw] at d1 d2 ⊢
    have e1 := c2 hw
    have e2 := d2 hw
    omega

/-- Header effect of a push that returns 0: the ring keeps its shape and
holds one item more. -/
theorem janet_q_push_shape {α : Type} (q q1 : JanetQueue α) (x : α) (itemsize : Nat)
    (hs : itemsize = 8 ∨ itemsize = 16) (hq : QWF q)
    (h : janet_q_push q x itemsize = QPush.ok q1) :
    QWF q1 ∧ janet_q_count q1 = janet_q_count q + 1 := by
  have hc := janet_q_count_nonneg q hq
  by_cases hr : janet_q_count q + 1 < q.capacity
  · rw [janet_q_push_room q x itemsize hr] at h
    injection h with h
    subst h
    have hh : q.head < q.capacity ∧ q.tail < q.capacity := by
      rcases hq with ⟨h1, -, -⟩ | h2
      · omega
      · exact h2
    exact janet_q_store_shape q x itemsize hh.1 hh.2 hr
  · have hr1 : janet_q_count q + 1 ≥ q.capacity := by omega
    by_cases hb : janet_q_count q + 2 < 1073741824
    · rw [janet_q_push_grow q x itemsize hs hq hr1 hb] at h
      injection h with h
      subst h
      obtain ⟨g1, g2, g3, g4⟩ := janet_q_grow_shape q itemsize hq hr1
      have := janet_q_store_shape _ x itemsize g1 g2 (by rw [g3]; exact g4)
      rw [g3] at this
      exact this
    · rcases janet_q_push_overflow q x itemsize hs hq hr1 (by omega) with h1 | h1 <;>
        rw [h1] at h <;> cases h

/-- A push returns 0 whenever the ring holds fewer than `2^30 - 2` items. -/
theorem janet_q_push_ok {α : Type} (q : JanetQueue α) (x : α) (itemsize : Nat)
    (hs : itemsize = 8 ∨ itemsize = 16) (hq : QWF q)
    (hb : janet_q_count q + 2 < 1073741824) :
    ∃ q1, janet_q_push q x itemsize = QPush.ok q1 := by
  by_cases hr : janet_q_count q + 1 < q.capacity
  · exact ⟨_, janet_q_push_room q x itemsize hr⟩
  · exact ⟨_, janet_q_push_grow q x itemsize hs hq (by omega) hb⟩

theorem janet_q_init_shape {α : Type} :
    QWF (janet_q_init : JanetQueue α) ∧ janet_q_count (janet_q_init : JanetQueue α) = 0 := by
  unfold QWF janet_q_count janet_q_init
  simp

/-- Header effect of a pop: it fails exactly on `head = tail`, which for a
ring in shape is count 0; otherwise the ring keeps its shape and holds one
item less. -/
theorem janet_q_pop_none {α : Type} [DecidableEq α] (q : JanetQueue α) (itemsize : Nat)
    (hq : QWF q) : janet_q_pop q itemsize = none ↔ janet_q_count q = 0 := by
  unfold janet_q_pop janet_q_count QWF at *
  constructor
  · intro h
    split at h
    · rename_i he; rw [he]; simp
    · cases h
  · intro h
    have : q.head = q.tail := by split at h <;> omega
    rw [if_pos this]

theorem janet_q_pop_shape {α : Type} [DecidableEq α] (q q1 : JanetQueue α) (itemsize : Nat)
    (out : Option α) (hq : QWF q) (h : janet_q_pop q itemsize = some (out, q1)) :
    QWF q1 ∧ janet_q_count q1 = janet_q_count q - 1 ∧ 0 < janet_q_count q ∧
      out = cellAt q itemsize q.head ∧ q1.data = q.data ∧ q1.capacity = q.capacity ∧
      q1.tail = q.tail ∧ q1.head = (if q.head + 1 ≥ q.capacity then 0 else q.head + 1) := by
  unfold janet_q_pop at h
  split at h
  · cases h
  · rename_i hne
    simp only [Option.some.injEq, Prod.mk.injEq] at h
    obtain ⟨h1, h2⟩ := h
    subst h2
    subst h1
    refine ⟨?_, ?_, ?_, rfl, rfl, rfl, rfl, rfl⟩
    · unfold QWF at *
      simp only []
      split <;> omega
    · unfold QWF janet_q_count at *
      simp only []
      split <;> split <;> split <;> omega
    · unfold QWF janet_q_count at *
      split <;> omega

/-! ## Ring queue: contents -/

theorem encodeItem_length {α : Type} (x : α) (itemsize : Nat) :
    (encodeItem x itemsize).length = itemsize := by
  simp [encodeItem]

theorem decodeItem_encodeItem {α : Type} [DecidableEq α] (x : α) (itemsize : Nat)
    (hs : 0 < itemsize) : decodeItem (encodeItem x itemsize) itemsize = some x := by
  obtain ⟨n, rfl⟩ : ∃ n, itemsize = n + 1 := ⟨itemsize - 1, by omega⟩
  have h : encodeItem x (n + 1) =
      MemByte.frag x 0 :: (List.map Nat.succ (List.range n)).map (MemByte.frag x) := by
    unfold encodeItem
    rw [List.range_succ_eq_map, List.map_cons]
  unfold decodeItem
  rw [h]
  simp only []
  rw [← h, if_pos rfl]

theorem readBytes_congr {α : Type} (d1 d2 : Nat → MemByte α) (off n : Nat)
    (h : ∀ o, off ≤ o → o < off + n → d1 o = d2 o) : readBytes d1 off n = readBytes d2 off n := by
  unfold readBytes
  apply List.map_congr_left
  intro i hi
  rw [List.mem_range] at hi
  exact h _ (by omega) (by omega)

theorem readBytes_memcpy_same {α : Type} (data : Nat → MemByte α) (off : Nat)
    (bs : List (MemByte α)) : readBytes (memcpy data off bs) off bs.length = bs := by
  apply List.ext_getElem
  · simp [readBytes]
  · intro i h1 h2
    simp only [readBytes, List.getElem_map, List.getElem_range, memcpy]
    rw [if_pos ⟨by omega, by omega⟩]
    have : off + i - off = i := by omega
    rw [this, List.getD_eq_getElem _ _ h2]

theorem cellAt_congr {α : Type} [DecidableEq α] (q1 q2 : JanetQueue α) (itemsize i : Nat)
    (h : ∀ o, itemsize * i ≤ o → o < itemsize * i + itemsize → q1.data o = q2.data o) :
    cellAt q1 itemsize i = cellAt q2 itemsize i := by
  unfold cellAt
  rw [readBytes_congr _ _ _ _ h]

theorem cell_bytes_disjoint (itemsize i j o : Nat) (hij : i ≠ j)
    (h1 : itemsize * i ≤ o) (h2 : o < itemsize * i + itemsize) :
    ¬ (itemsize * j ≤ o ∧ o < itemsize * j + itemsize) := by
  intro ⟨h3, h4⟩
  rcases Nat.lt_or_gt_of_ne hij with h | h
  · have : itemsize * (i + 1) ≤ itemsize * j := Nat.mul_le_mul_left _ h
    rw [Nat.mul_add, Nat.mul_one] at this
    omega
  · have : itemsize * (j + 1) ≤ itemsize * i := Nat.mul_le_mul_left _ h
    rw [Nat.mul_add, Nat.mul_one] at this
    omega

theorem cellAt_store_same {α : Type} [DecidableEq α] (q : JanetQueue α) (x : α)
    (itemsize : Nat) (hs : 0 < itemsize) :
    cellAt (janet_q_store q x itemsize) itemsize q.tail = some x := by
  unfold cellAt
  rw [(janet_q_store_fields q x itemsize).2.2.2]
  have h := readBytes_memcpy_same q.data (itemsize * q.tail) (encodeItem x itemsize)
  rw [encodeItem_length] at h
  rw [h, decodeItem_encodeItem x itemsize hs]

theorem cellAt_store_other {α : Type} [DecidableEq α] (q : JanetQueue α) (x : α)
    (itemsize i : Nat) (hi : i ≠ q.tail) :
    cellAt (janet_q_store q x itemsize) itemsize i = cellAt q itemsize i := by
  apply cellAt_congr
  intro o h1 h2
  rw [(janet_q_store_fields q x itemsize).2.2.2]
  unfold memcpy
  rw [encodeItem_length, if_neg (cell_bytes_disjoint itemsize i q.tail o hi h1 h2)]

theorem cellAt_grow_flat {α : Type} [DecidableEq α] (q : JanetQueue α) (n : Int)
    (itemsize i : Nat) (hw : ¬ q.head > q.tail) (hi : i < q.capacity) :
    cellAt (janet_q_grow q n itemsize) itemsize i = cellAt q itemsize i := by
  apply cellAt_congr
  intro o h1 h2
  have : itemsize * (i + 1) ≤ itemsize * q.capacity := Nat.mul_le_mul_left _ hi
  rw [Nat.mul_add, Nat.mul_one] at this
  simp only [janet_q_grow, if_neg hw, realloc]
  rw [if_pos (by omega)]

theorem liveCells_length {α : Type} (q : JanetQueue α) (hq : QWF q) :
    ((liveCells q).length : Int) = janet_q_count q := by
  unfold liveCells janet_q_count QWF at *
  split <;> simp <;> omega

theorem qItems_length {α : Type} [DecidableEq α] (q : JanetQueue α) (itemsize : Nat)
    (hq : QWF q) : ((qItems q itemsize).length : Int) = janet_q_count q := by
  unfold qItems
  rw [List.length_map, liveCells_length q hq]

theorem liveCells_store {α : Type} (q : JanetQueue α) (x : α) (itemsize : Nat)
    (hh : q.head < q.capacity) (ht : q.tail < q.capacity)
    (hc : janet_q_count q + 1 < q.capacity) :
    liveCells (janet_q_store q x itemsize) = liveCells q ++ [q.tail] ∧ q.tail ∉ liveCells q := by
  obtain ⟨h1, h2, h3, -⟩ := janet_q_store_fields q x itemsize
  obtain ⟨c1, c2⟩ := janet_q_count_eq q
  unfold liveCells
  simp only [h1, h2, h3]
  by_cases hw : q.head > q.tail
  · have e1 := c1 hw
    rw [if_neg (by omega : ¬ q.tail + 1 ≥ q.capacity), if_pos (by omega), if_pos hw]
    constructor
    · rw [List.range'_concat, List.append_assoc]; simp
    · simp; omega
  · have e1 := c2 hw
    rw [if_neg hw]
    by_cases ht1 : q.tail + 1 ≥ q.capacity
    · rw [if_pos ht1, if_pos (by omega)]
      constructor
      · have : q.capacity - q.head = (q.tail - q.head) + 1 := by omega
        rw [this, List.range'_concat]
        simp; omega
      · simp; omega
    · rw [if_neg ht1, if_neg (by omega)]
      constructor
      · have : q.tail + 1 - q.head = (q.tail - q.head) + 1 := by omega
        rw [this, List.range'_concat]
        simp; omega
      · simp; omega

/-- Storing into a ring that has room appends the item to its contents. -/
theorem qItems_store {α : Type} [DecidableEq α] (q : JanetQueue α) (x : α) (itemsize : Nat)
    (hs : 0 < itemsize) (hh : q.head < q.capacity) (ht : q.tail < q.capacity)
    (hc : janet_q_count q + 1 < q.capacity) :
    qItems (janet_q_store q x itemsize) itemsize = qItems q itemsize ++ [some x] := by
  obtain ⟨h1, h2⟩ := liveCells_store q x itemsize hh ht hc
  unfold qItems
  rw [h1, List.map_append, List.map_singleton, cellAt_store_same q x itemsize hs]
  congr 1
  apply List.map_congr_left
  intro i hi
  exact cellAt_store_other q x itemsize i (fun h => h2 (h ▸ hi))

theorem qItems_grow_flat {α : Type} [DecidableEq α] (q : JanetQueue α) (n : Int)
    (itemsize : Nat) (hq : QWF q) (hw : ¬ q.head > q.tail) :
    qItems (janet_q_grow q n itemsize) itemsize = qItems q itemsize := by
  obtain ⟨-, h2, h3⟩ := janet_q_grow_fields q n itemsize
  rw [if_neg hw] at h3
  unfold qItems
  have hl : liveCells (janet_q_grow q n itemsize) = liveCells q := by
    unfold liveCells
    rw [h2, h3, if_neg hw, if_neg hw]
  rw [hl]
  apply List.map_congr_left
  intro i hi
  apply cellAt_grow_flat q n itemsize i hw
  unfold liveCells at hi
  rw [if_neg hw] at hi
  unfold QWF at hq
  simp at hi
  omega

/-- A push that returns 0 and does not grow a wrapped ring appends the item:
the contents are the former contents followed by the item. -/
theorem janet_q_push_items {α : Type} [DecidableEq α] (q q1 : JanetQueue α) (x : α)
    (itemsize : Nat) (hs : itemsize = 8 ∨ itemsize = 16) (hq : QWF q)
    (hg : ¬ growsWrapped q) (h : janet_q_push q x itemsize = QPush.ok q1) :
    qItems q1 itemsize = qItems q itemsize ++ [some x] := by
  have hs0 : 0 < itemsize := by rcases hs with rfl | rfl <;> decide
  have hc0 := janet_q_count_nonneg q hq
  by_cases hr : janet_q_count q + 1 < q.capacity
  · rw [janet_q_push_room q x itemsize hr] at h
    injection h with h
    subst h
    have hh : q.head < q.capacity ∧ q.tail < q.capacity := by
      rcases hq with ⟨h1, -, -⟩ | h2
      · omega
      · exact h2
    exact qItems_store q x itemsize hs0 hh.1 hh.2 hr
  · have hr1 : janet_q_count q + 1 ≥ q.capacity := by omega
    have hw : ¬ q.head > q.tail := fun hw => hg ⟨hr1, hw⟩
    by_cases hb : janet_q_count q + 2 < 1073741824
    · rw [janet_q_push_grow q x itemsize hs hq hr1 hb] at h
      injection h with h
      subst h
      obtain ⟨g1, g2, g3, g4⟩ := janet_q_grow_shape q itemsize hq hr1
      rw [qItems_store _ x itemsize hs0 g1 g2 (by rw [g3]; exact g4),
        qItems_grow_flat q _ itemsize hq hw]
    · rcases janet_q_push_overflow q x itemsize hs hq hr1 (by omega) with h1 | h1 <;>
        rw [h1] at h <;> cases h

/-- Every push that returns 0 leaves the item as the last of the contents,
after as many cells as the ring held before. -/
theorem janet_q_push_last {α : Type} [DecidableEq α] (q q1 : JanetQueue α) (x : α)
    (itemsize : Nat) (hs : itemsize = 8 ∨ itemsize = 16) (hq : QWF q)
    (h : janet_q_push q x itemsize = QPush.ok q1) :
    ∃ pre, qItems q1 itemsize = pre ++ [some x] ∧ (pre.length : Int) = janet_q_count q := by
  have hs0 : 0 < itemsize := by rcases hs with rfl | rfl <;> decide
  have hc0 := janet_q_count_nonneg q hq
  by_cases hr : janet_q_count q + 1 < q.capacity
  · rw [janet_q_push_room q x itemsize hr] at h
    injection h with h
    subst h
    have hh : q.head < q.capacity ∧ q.tail < q.capacity := by
      rcases hq with ⟨h1, -, -⟩ | h2
      · omega
      · exact h2
    exact ⟨_, qItems_store q x itemsize hs0 hh.1 hh.2 hr, qItems_length q itemsize hq⟩
  · have hr1 : janet_q_count q + 1 ≥ q.capacity := by omega
    by_cases hb : janet_q_count q + 2 < 1073741824
    · rw [janet_q_push_grow q x itemsize hs hq hr1 hb] at h
      injection h with h
      subst h
      obtain ⟨g1, g2, g3, g4⟩ := janet_q_grow_shape q itemsize hq hr1
      refine ⟨_, qItems_store _ x itemsize hs0 g1 g2 (by rw [g3]; exact g4), ?_⟩
      rw [qItems_length _ itemsize (Or.inr ⟨g1, g2⟩), g3]
    · rcases janet_q_push_overflow q x itemsize hs hq hr1 (by omega) with h1 | h1 <;>
        rw [h1] at h <;> cases h

/-- A pop returns the oldest cell and leaves the others, in order. -/
theorem janet_q_pop_items {α : Type} [DecidableEq α] (q q1 : JanetQueue α) (itemsize : Nat)
    (out : Option α) (hq : QWF q) (h : janet_q_pop q itemsize = some (out, q1)) :
    qItems q itemsize = out :: qItems q1 itemsize := by
  obtain ⟨-, -, hpos, ho, hd, hcap, ht, hh⟩ := janet_q_pop_shape q q1 itemsize out hq h
  obtain ⟨c1, c2⟩ := janet_q_count_eq q
  have hl : liveCells q = q.head :: liveCells q1 := by
    unfold liveCells
    rw [hcap, ht, hh]
    unfold QWF at hq
    by_cases hw : q.head > q.tail
    · rw [if_pos hw]
      by_cases h1 : q.head + 1 ≥ q.capacity
      · rw [if_pos h1, if_neg (by omega)]
        have : q.capacity - q.head = 1 := by omega
        rw [this]; simp
      · rw [if_neg h1, if_pos (by omega)]
        have : q.capacity - q.head = (q.capacity - (q.head + 1)) + 1 := by omega
        rw [this, List.range'_succ]; simp
    · have e := c2 hw
      rw [if_neg hw, if_neg (by omega : ¬ q.head + 1 ≥ q.capacity), if_neg (by omega)]
      have : q.tail - q.head = (q.tail - (q.head + 1)) + 1 := by omega
      rw [this, List.range'_succ]
  unfold qItems
  rw [hl, List.map_cons, ho]
  congr 1
  apply List.map_congr_left
  intro i _
  exact cellAt_congr _ _ _ _ (fun o _ _ => by rw [hd])

/-- Contents of a ring determine the result of a pop. -/
theorem janet_q_pop_of_items {α : Type} [DecidableEq α] (q : JanetQueue α) (itemsize : Nat)
    (c : Option α) (rest : List (Option α)) (hq : QWF q)
    (h : qItems q itemsize = c :: rest) :
    ∃ q1, janet_q_pop q itemsize = some (c, q1) ∧ QWF q1 ∧ qItems q1 itemsize = rest ∧
      janet_q_count q1 = janet_q_count q - 1 := by
  cases hp : janet_q_pop q itemsize with
  | none =>
    have h0 := (janet_q_pop_none q itemsize hq).mp hp
    have hl := qItems_length q itemsize hq
    rw [h, h0] at hl
    simp at hl
    omega
  | some r =>
    obtain ⟨out, q1⟩ := r
    have hi := janet_q_pop_items q q1 itemsize out hq hp
    obtain ⟨w1, w2, -⟩ := janet_q_pop_shape q q1 itemsize out hq hp
    rw [h] at hi
    injection hi with e1 e2
    subst e1
    exact ⟨q1, rfl, w1, e2.symm, w2⟩

theorem qItems_init {α : Type} [DecidableEq α] (itemsize : Nat) :
    qItems (janet_q_init : JanetQueue α) itemsize = [] := by
  simp [qItems, liveCells, janet_q_init]

theorem sizeof_JanetTask_ok : sizeof_JanetTask = 8 ∨ sizeof_JanetTask = 16 := Or.inr rfl

theorem sizeof_Janet_ok : sizeof_Janet = 8 ∨ sizeof_Janet = 16 := Or.inl rfl

theorem sizeof_ptr_ok : sizeof_ptr = 8 ∨ sizeof_ptr = 16 := Or.inl rfl

theorem janet_schedule_flagged (s : EvState) (f : Nat) (v : Janet)
    (h : (s.fibers f).scheduled = true) : janet_schedule s f v = some s := by
  unfold janet_schedule
  rw [if_pos h]

/-- Effect of `janet_schedule` on a fiber whose flag is clear, when the push
returns 0. -/
theorem janet_schedule_clear (s : EvState) (f : Nat) (v : Janet)
    (hf : (s.fibers f).scheduled = false) (hq : QWF s.janet_vm_spawn)
    (hb : janet_q_count s.janet_vm_spawn + 2 < 1073741824) :
    ∃ s2 pre, janet_schedule s f v = some s2 ∧
      readyTasks s2 = pre ++ [some { fiber := f, value := v }] ∧
      (pre.length : Int) = janet_q_count s.janet_vm_spawn ∧
      (¬ growsWrapped s.janet_vm_spawn →
        readyTasks s2 = readyTasks s ++ [some { fiber := f, value := v }]) ∧
      QWF s2.janet_vm_spawn ∧
      janet_q_count s2.janet_vm_spawn = janet_q_count s.janet_vm_spawn + 1 ∧
      s2.channels = s.channels ∧ (s2.fibers f).scheduled = true ∧
      (∀ g, g ≠ f → s2.fibers g = s.fibers g) := by
  obtain ⟨q1, hp⟩ := janet_q_push_ok s.janet_vm_spawn { fiber := f, value := v }
    sizeof_JanetTask sizeof_JanetTask_ok hq hb
  obtain ⟨pre, h1, h2⟩ := janet_q_push_last _ _ _ _ sizeof_JanetTask_ok hq hp
  obtain ⟨h3, h4⟩ := janet_q_push_shape _ _ _ _ sizeof_JanetTask_ok hq hp
  refine ⟨{ s.setFiber f { s.fibers f with scheduled := true } with janet_vm_spawn := q1 },
    pre, ?_, h1, h2, ?_, h3, h4, rfl, ?_, ?_⟩
  · unfold janet_schedule
    rw [hf]
    simp only [Bool.false_eq_true, if_false]
    have : (s.setFiber f { s.fibers f with scheduled := true }).janet_vm_spawn =
        s.janet_vm_spawn := rfl
    rw [this, hp]
  · intro hg
    exact janet_q_push_items _ _ _ _ sizeof_JanetTask_ok hq hg hp
  · simp [EvState.setFiber]
  · intro g hg
    simp [EvState.setFiber, hg]

/-- A call of `janet_schedule` goes through whenever the ready ring is in shape and
holds fewer than `2^30 - 2` tasks; it touches no channel. -/
theorem janet_schedule_some (s : EvState) (f : Nat) (v : Janet) (hq : QWF s.janet_vm_spawn)
    (hb : janet_q_count s.janet_vm_spawn + 2 < 1073741824) :
    ∃ s2, janet_schedule s f v = some s2 ∧ s2.channels = s.channels := by
  cases hf : (s.fibers f).scheduled with
  | true => exact ⟨s, janet_schedule_flagged s f v hf, rfl⟩
  | false =>
    obtain ⟨s2, -, h, -, -, -, -, -, hc, -⟩ := janet_schedule_clear s f v hf hq hb
    exact ⟨s2, h, hc⟩

theorem janet_schedule_channels (s s2 : EvState) (f : Nat) (v : Janet)
    (h : janet_schedule s f v = some s2) :
    s2.channels = s.channels ∧ s2.janet_vm_root_fiber = s.janet_vm_root_fiber := by
  unfold janet_schedule at h
  split at h
  · injection h with h; subst h; exact ⟨rfl, rfl⟩
  · simp only [] at h
    split at h
    · injection h with h; subst h; exact ⟨rfl, rfl⟩
    · injection h with h; subst h; exact ⟨rfl, rfl⟩
    · cases h

theorem run_ready_steps_reach (steps : List ReadyStep) :
    ∀ s s1, ReadyReach s → run_ready_steps s steps = some s1 → ReadyReach s1 := by
  induction steps with
  | nil =>
    intro s s1 hr h
    injection h with h
    subst h
    exact hr
  | cons st rest ih =>
    intro s s1 hr h
    unfold run_ready_steps at h
    cases hst : st.apply s with
    | none => rw [hst] at h; cases h
    | some s2 =>
      rw [hst] at h
      exact ih s2 s1 (ReadyReach.step s s2 st hr hst) h

/-! ## Channels: the branches of `ev/give` and `ev/take` -/

theorem give_reader_branch (s s2 : EvState) (p : Nat) (v : Janet) (reader : Nat)
    (rq : JanetQueue Nat)
    (hp : janet_q_pop (s.channels p).read_pending sizeof_ptr = some (some reader, rq))
    (hs : janet_schedule (s.setChannel p { s.channels p with read_pending := rq }) reader v
      = some s2) :
    cfun_channel_push s [Janet.channel p, v] = CResult.ret (Janet.channel p) s2 := by
  unfold cfun_channel_push
  simp only [hp, hs]

theorem take_plain_branch (s : EvState) (p : Nat) (item : Janet) (items : JanetQueue Janet)
    (hp : janet_q_pop (s.channels p).items sizeof_Janet = some (some item, items))
    (hw : janet_q_pop (s.channels p).write_pending sizeof_ptr = none) :
    cfun_channel_pop s [Janet.channel p] =
      CResult.ret item (s.setChannel p { s.channels p with items := items }) := by
  unfold cfun_channel_pop
  simp only [hp, hw]

/-! ## Timeout heap -/

theorem setTq_tq (s : EvState) (i j : Nat) (x : JanetTimeout) :
    (s.setTq i x).janet_vm_tq j = if j = i then x else s.janet_vm_tq j := rfl

theorem setTq_count (s : EvState) (i : Nat) (x : JanetTimeout) :
    (s.setTq i x).janet_vm_tq_count = s.janet_vm_tq_count := rfl

theorem setTq_fibers (s : EvState) (i : Nat) (x : JanetTimeout) :
    (s.setTq i x).fibers = s.fibers := rfl

theorem setTq_spawn (s : EvState) (i : Nat) (x : JanetTimeout) :
    (s.setTq i x).janet_vm_spawn = s.janet_vm_spawn := rfl

theorem setTimeoutIndex_tq (s : EvState) (f : Nat) (k : Int) :
    (s.setTimeoutIndex f k).janet_vm_tq = s.janet_vm_tq := rfl

theorem setTimeoutIndex_count (s : EvState) (f : Nat) (k : Int) :
    (s.setTimeoutIndex f k).janet_vm_tq_count = s.janet_vm_tq_count := rfl

theorem setTimeoutIndex_spawn (s : EvState) (f : Nat) (k : Int) :
    (s.setTimeoutIndex f k).janet_vm_spawn = s.janet_vm_spawn := rfl

theorem setTimeoutIndex_scheduled (s : EvState) (f g : Nat) (k : Int) :
    ((s.setTimeoutIndex f k).fibers g).scheduled = (s.fibers g).scheduled := by
  unfold EvState.setTimeoutIndex EvState.setFiber
  by_cases h : g = f <;> simp [h]

theorem shift_left_one (i : Nat) : (i <<< 1) + 1 = 2 * i + 1 := by
  rw [Nat.shiftLeft_eq]; omega

theorem shift_right_one (i : Nat) : (i - 1) >>> 1 = (i - 1) / 2 := by
  rw [Nat.shiftRight_eq_div_pow]

/-- The state after the two assignments that swap `janet_vm_tq[i]` and
`janet_vm_tq[j]`. -/
theorem swap_tq (s : EvState) (i j k : Nat) :
    ((s.setTq i (s.janet_vm_tq j)).setTq j (s.janet_vm_tq i)).janet_vm_tq k =
      if k = j then s.janet_vm_tq i else if k = i then s.janet_vm_tq j
      else s.janet_vm_tq k := by
  simp only [setTq_tq]

theorem map_range'_congr {α : Type} (f g : Nat → α) (a n : Nat)
    (h : ∀ k, a ≤ k → k < a + n → f k = g k) :
    (List.range' a n).map f = (List.range' a n).map g := by
  apply List.map_congr_left
  intro k hk
  rw [List.mem_range'_1] at hk
  exact h k hk.1 hk.2

/-- Exchanging two entries of an array permutes its first `n` entries. -/
theorem map_range_swap_perm {α : Type} (f g : Nat → α) (n i j : Nat) (hij : i < j)
    (hj : j < n) (hi' : g i = f j) (hj' : g j = f i)
    (ho : ∀ k, k ≠ i → k ≠ j → g k = f k) :
    ((List.range n).map g).Perm ((List.range n).map f) := by
  have hsplit : List.range n =
      List.range' 0 i ++ ([i] ++ (List.range' (i + 1) (j - i - 1) ++
        ([j] ++ List.range' (j + 1) (n - j - 1)))) := by
    obtain ⟨b, rfl⟩ : ∃ b, j = i + 1 + b := ⟨j - i - 1, by omega⟩
    obtain ⟨c, rfl⟩ : ∃ c, n = i + 1 + b + 1 + c := ⟨n - (i + 1 + b) - 1, by omega⟩
    have e1 : i + 1 + b - i - 1 = b := by omega
    have e2 : i + 1 + b + 1 + c - (i + 1 + b) - 1 = c := by omega
    have e3 : i + 1 + b + 1 + c = (((c + 1) + b) + 1) + i := by omega
    rw [e1, e2, List.range_eq_range', e3, ← List.range'_append_1, ← List.range'_append_1,
      ← List.range'_append_1, ← List.range'_append_1]
    simp only [List.range'_one, Nat.zero_add, List.append_assoc]
  rw [hsplit]
  simp only [List.map_append, List.map_cons, List.map_nil]
  rw [hi', hj']
  rw [map_range'_congr g f 0 i (fun k _ h2 => ho k (by omega) (by omega)),
    map_range'_congr g f (i + 1) (j - i - 1) (fun k h1 h2 => ho k (by omega) (by omega)),
    map_range'_congr g f (j + 1) (n - j - 1) (fun k h1 h2 => ho k (by omega) (by omega))]
  apply List.Perm.append_left
  generalize List.map f (List.range' (i + 1) (j - i - 1)) = B
  generalize List.map f (List.range' (j + 1) (n - j - 1)) = C
  have h1 : ([f j] ++ (B ++ ([f i] ++ C))).Perm ([f j] ++ ([f i] ++ (B ++ C))) :=
    List.Perm.append_left _ (by
      rw [← List.append_assoc, ← List.append_assoc]
      exact List.Perm.append_right _ List.perm_append_comm)
  have h2 : ([f i] ++ (B ++ ([f j] ++ C))).Perm ([f i] ++ ([f j] ++ (B ++ C))) :=
    List.Perm.append_left _ (by
      rw [← List.append_assoc, ← List.append_assoc]
      exact List.Perm.append_right _ List.perm_append_comm)
  refine h1.trans (List.Perm.trans ?_ h2.symm)
  simp only [List.singleton_append]
  exact List.Perm.swap _ _ _

/-- Swapping two live entries of the heap array permutes its entries. -/
theorem tqEntries_swap (s s1 : EvState) (i j : Nat) (hi : i < s.janet_vm_tq_count)
    (hj : j < s.janet_vm_tq_count) (hc : s1.janet_vm_tq_count = s.janet_vm_tq_count)
    (ht : ∀ k, s1.janet_vm_tq k =
      if k = j then s.janet_vm_tq i else if k = i then s.janet_vm_tq j
      else s.janet_vm_tq k) :
    (tqEntries s1).Perm (tqEntries s) := by
  unfold tqEntries
  rw [hc]
  rcases Nat.lt_trichotomy i j with h | h | h
  · apply map_range_swap_perm _ _ _ i j h hj
    · rw [ht, if_neg (by omega), if_pos rfl]
    · rw [ht, if_pos rfl]
    · intro k h1 h2
      rw [ht, if_neg h2, if_neg h1]
  · subst h
    have : s1.janet_vm_tq = s.janet_vm_tq := by
      funext k
      rw [ht]
      by_cases hk : k = i
      · rw [if_pos hk, hk]
      · rw [if_neg hk, if_neg hk]
    rw [this]
  · apply map_range_swap_perm _ _ _ j i h hi
    · rw [ht, if_pos rfl]
    · rw [ht, if_neg (by omega), if_pos rfl]
    · intro k h1 h2
      rw [ht, if_neg h1, if_neg h2]

theorem SameOutsideHeap.refl (s : EvState) : SameOutsideHeap s s :=
  ⟨rfl, rfl, rfl, rfl, fun _ => rfl⟩

theorem SameOutsideHeap.trans (s s1 s2 : EvState) (h1 : SameOutsideHeap s s1)
    (h2 : SameOutsideHeap s1 s2) : SameOutsideHeap s s2 :=
  ⟨h2.1.trans h1.1, h2.2.1.trans h1.2.1, h2.2.2.1.trans h1.2.2.1,
    h2.2.2.2.1.trans h1.2.2.2.1, fun g => (h2.2.2.2.2 g).trans (h1.2.2.2.2 g)⟩

theorem SameOutsideHeap.setTq (s : EvState) (i : Nat) (x : JanetTimeout) :
    SameOutsideHeap s (s.setTq i x) :=
  ⟨rfl, rfl, rfl, rfl, fun _ => rfl⟩

theorem SameOutsideHeap.setTimeoutIndex (s : EvState) (f : Nat) (k : Int) :
    SameOutsideHeap s (s.setTimeoutIndex f k) :=
  ⟨rfl, rfl, rfl, rfl, fun g => setTimeoutIndex_scheduled s f g k⟩

theorem pop_timeout_swap_tq (s : EvState) (index sm k : Nat) :
    (pop_timeout_swap s index sm).janet_vm_tq k =
      if k = sm then s.janet_vm_tq index else if k = index then s.janet_vm_tq sm
      else s.janet_vm_tq k :=
  swap_tq s index sm k

theorem pop_timeout_swap_count (s : EvState) (index sm : Nat) :
    (pop_timeout_swap s index sm).janet_vm_tq_count = s.janet_vm_tq_count := rfl

theorem pop_timeout_swap_same (s : EvState) (index sm : Nat) :
    SameOutsideHeap s (pop_timeout_swap s index sm) :=
  (((SameOutsideHeap.setTq s _ _).trans _ _ _ (SameOutsideHeap.setTq _ _ _)).trans
    _ _ _ (SameOutsideHeap.setTimeoutIndex _ _ _)).trans _ _ _
    (SameOutsideHeap.setTimeoutIndex _ _ _)

/-- One round of the sift-down keeps its invariant, now at the child. -/
theorem down_step (s s1 : EvState) (index sm : Nat)
    (hsm : sm = 2 * index + 1 ∨ sm = 2 * index + 2) (hlt : sm < s.janet_vm_tq_count)
    (hc : s1.janet_vm_tq_count = s.janet_vm_tq_count)
    (ht : ∀ k, s1.janet_vm_tq k =
      if k = sm then s.janet_vm_tq index else if k = index then s.janet_vm_tq sm
      else s.janet_vm_tq k)
    (hless : (s.janet_vm_tq sm).when < (s.janet_vm_tq index).when)
    (hmin : ∀ c, c < s.janet_vm_tq_count → (c = 2 * index + 1 ∨ c = 2 * index + 2) →
      (s.janet_vm_tq sm).when ≤ (s.janet_vm_tq c).when)
    (hinv : DownInv s index) : DownInv s1 sm := by
  obtain ⟨hA, hB⟩ := hinv
  have hpsm : (sm - 1) / 2 = index := by omega
  constructor
  · intro i hi0 hic hpar
    rw [hc] at hic
    rw [ht, ht, if_neg hpar]
    by_cases hp : (i - 1) / 2 = index
    · rw [if_pos hp]
      by_cases his : i = sm
      · rw [if_pos his]; omega
      · rw [if_neg his, if_neg (by omega)]
        exact hmin i hic (by omega)
    · rw [if_neg hp]
      by_cases his : i = sm
      · omega
      · rw [if_neg his]
        by_cases hii : i = index
        · rw [if_pos hii]
          have := hB (by omega) sm (by omega) hlt hpsm
          rw [hii]
          exact this
        · rw [if_neg hii]
          exact hA i hi0 hic hp
  · intro _ c hc0 hcc hpc
    rw [hc] at hcc
    rw [ht, ht, hpsm, if_neg (by omega), if_pos rfl, if_neg (by omega), if_neg (by omega)]
    have := hA c hc0 hcc (by omega)
    rw [hpc] at this
    exact this

/-- The sift-down loop of `pop_timeout` ends within its fuel and restores the
heap property; it permutes the entries and leaves the rest alone. -/
theorem pop_timeout_loop_spec (fuel : Nat) : ∀ (s : EvState) (index : Nat),
    s.janet_vm_tq_count ≤ index + fuel → DownInv s index →
    TqHeap (pop_timeout_loop fuel s index) ∧
    (pop_timeout_loop fuel s index).janet_vm_tq_count = s.janet_vm_tq_count ∧
    (tqEntries (pop_timeout_loop fuel s index)).Perm (tqEntries s) ∧
    SameOutsideHeap s (pop_timeout_loop fuel s index) := by
  induction fuel with
  | zero =>
    intro s index hf hinv
    unfold pop_timeout_loop
    refine ⟨fun i hi0 hic => hinv.1 i hi0 hic (by omega), rfl, List.Perm.refl _,
      SameOutsideHeap.refl s⟩
  | succ fuel ih =>
    intro s index hf hinv
    unfold pop_timeout_loop
    simp only [shift_left_one]
    have key : ∀ sm, (sm = 2 * index + 1 ∨ sm = 2 * index + 2) → sm < s.janet_vm_tq_count →
        (s.janet_vm_tq sm).when < (s.janet_vm_tq index).when →
        (∀ c, c < s.janet_vm_tq_count → (c = 2 * index + 1 ∨ c = 2 * index + 2) →
          (s.janet_vm_tq sm).when ≤ (s.janet_vm_tq c).when) →
        TqHeap (pop_timeout_loop fuel (pop_timeout_swap s index sm) sm) ∧
        (pop_timeout_loop fuel (pop_timeout_swap s index sm) sm).janet_vm_tq_count =
          s.janet_vm_tq_count ∧
        (tqEntries (pop_timeout_loop fuel (pop_timeout_swap s index sm) sm)).Perm
          (tqEntries s) ∧
        SameOutsideHeap s (pop_timeout_loop fuel (pop_timeout_swap s index sm) sm) := by
      intro sm hsm hlt hless hmin
      obtain ⟨r1, r2, r3, r4⟩ := ih (pop_timeout_swap s index sm) sm
        (by rw [pop_timeout_swap_count]; omega)
        (down_step s _ index sm hsm hlt (pop_timeout_swap_count s index sm)
          (pop_timeout_swap_tq s index sm) hless hmin hinv)
      exact ⟨r1, r2.trans (pop_timeout_swap_count s index sm),
        r3.trans (tqEntries_swap s _ index sm (by omega) hlt
          (pop_timeout_swap_count s index sm) (pop_timeout_swap_tq s index sm)),
        (pop_timeout_swap_same s index sm).trans _ _ _ r4⟩
    by_cases c1 : 2 * index + 1 < s.janet_vm_tq_count ∧
        (s.janet_vm_tq (2 * index + 1)).when < (s.janet_vm_tq index).when
    · rw [if_pos c1]
      by_cases c2 : 2 * index + 1 + 1 < s.janet_vm_tq_count ∧
          (s.janet_vm_tq (2 * index + 1 + 1)).when < (s.janet_vm_tq (2 * index + 1)).when
      · rw [if_pos c2, if_neg (by omega)]
        refine key (2 * index + 1 + 1) (Or.inr rfl) c2.1 (by omega) ?_
        intro c hcc hch
        rcases hch with rfl | rfl
        · omega
        · exact Nat.le_refl _
      · rw [if_neg c2, if_neg (by omega)]
        refine key (2 * index + 1) (Or.inl rfl) c1.1 c1.2 ?_
        intro c hcc hch
        rcases hch with rfl | rfl
        · exact Nat.le_refl _
        · have : ¬ (s.janet_vm_tq (2 * index + 1 + 1)).when <
              (s.janet_vm_tq (2 * index + 1)).when := fun h => c2 ⟨hcc, h⟩
          exact Nat.not_lt.mp this
    · rw [if_neg c1]
      by_cases c2 : 2 * index + 1 + 1 < s.janet_vm_tq_count ∧
          (s.janet_vm_tq (2 * index + 1 + 1)).when < (s.janet_vm_tq index).when
      · rw [if_pos c2, if_neg (by omega)]
        refine key (2 * index + 1 + 1) (Or.inr rfl) c2.1 c2.2 ?_
        intro c hcc hch
        rcases hch with rfl | rfl
        · have : ¬ (s.janet_vm_tq (2 * index + 1)).when < (s.janet_vm_tq index).when :=
            fun h => c1 ⟨hcc, h⟩
          omega
        · exact Nat.le_refl _
      · rw [if_neg c2, if_pos rfl]
        refine ⟨fun i hi0 hic => ?_, rfl, List.Perm.refl _, SameOutsideHeap.refl s⟩
        by_cases hp : (i - 1) / 2 = index
        · rw [hp]
          have hch : i = 2 * index + 1 ∨ i = 2 * index + 1 + 1 := by omega
          rcases hch with rfl | rfl
          · have : ¬ (s.janet_vm_tq (2 * index + 1)).when < (s.janet_vm_tq index).when :=
              fun h => c1 ⟨hic, h⟩
            omega
          · have : ¬ (s.janet_vm_tq (2 * index + 1 + 1)).when < (s.janet_vm_tq index).when :=
              fun h => c2 ⟨hic, h⟩
            omega
        · exact hinv.1 i hi0 hic hp

/-- One round of the sift-up keeps its invariant, now at the parent. -/
theorem up_step (s s1 : EvState) (index : Nat) (h0 : 0 < index)
    (hc : s1.janet_vm_tq_count = s.janet_vm_tq_count)
    (ht : ∀ k, s1.janet_vm_tq k =
      if k = (index - 1) / 2 then s.janet_vm_tq index
      else if k = index then s.janet_vm_tq ((index - 1) / 2) else s.janet_vm_tq k)
    (hless : (s.janet_vm_tq index).when < (s.janet_vm_tq ((index - 1) / 2)).when)
    (hinv : UpInv s index) : UpInv s1 ((index - 1) / 2) := by
  obtain ⟨hA, hB⟩ := hinv
  constructor
  · intro i hi0 hic hne
    rw [hc] at hic
    rw [ht, ht, if_neg hne]
    by_cases hii : i = index
    · rw [if_pos hii, hii, if_pos rfl]
      omega
    · rw [if_neg hii]
      by_cases hp : (i - 1) / 2 = (index - 1) / 2
      · rw [if_pos hp]
        have := hA i hi0 hic hii
        rw [hp] at this
        omega
      · rw [if_neg hp]
        by_cases hp2 : (i - 1) / 2 = index
        · rw [if_pos hp2]
          exact hB h0 i hi0 hic hp2
        · rw [if_neg hp2]
          exact hA i hi0 hic hii
  · intro hp0 c hc0 hcc hpc
    rw [hc] at hcc
    rw [ht, ht, if_neg (by omega), if_neg (by omega), if_neg (by omega)]
    have h1 := hA ((index - 1) / 2) hp0 (by omega) (by omega)
    by_cases hci : c = index
    · rw [if_pos hci]
      exact h1
    · rw [if_neg hci]
      have h2 := hA c hc0 hcc hci
      rw [hpc] at h2
      omega

/-- The sift-up loop of `add_timeout` ends within its fuel and restores the
heap property; it permutes the entries and touches nothing but the array. -/
theorem add_timeout_loop_spec (fuel : Nat) : ∀ (s : EvState) (index : Nat),
    index ≤ fuel → index < s.janet_vm_tq_count → UpInv s index →
    TqHeap (add_timeout_loop fuel s index) ∧
    (add_timeout_loop fuel s index).janet_vm_tq_count = s.janet_vm_tq_count ∧
    (tqEntries (add_timeout_loop fuel s index)).Perm (tqEntries s) ∧
    SameOutsideHeap s (add_timeout_loop fuel s index) ∧
    (add_timeout_loop fuel s index).fibers = s.fibers := by
  induction fuel with
  | zero =>
    intro s index hf _ hinv
    unfold add_timeout_loop
    exact ⟨fun i hi0 hic => hinv.1 i hi0 hic (by omega), rfl, List.Perm.refl _,
      SameOutsideHeap.refl s, rfl⟩
  | succ fuel ih =>
    intro s index hf hlt hinv
    unfold add_timeout_loop
    simp only [shift_right_one]
    by_cases h0 : index > 0
    · rw [if_pos h0]
      by_cases hle : (s.janet_vm_tq ((index - 1) / 2)).when ≤ (s.janet_vm_tq index).when
      · rw [if_pos hle]
        refine ⟨fun i hi0 hic => ?_, rfl, List.Perm.refl _, SameOutsideHeap.refl s, rfl⟩
        by_cases hii : i = index
        · rw [hii]; exact hle
        · exact hinv.1 i hi0 hic hii
      · rw [if_neg hle]
        generalize hs1 : (s.setTq index (s.janet_vm_tq ((index - 1) / 2))).setTq
          ((index - 1) / 2) (s.janet_vm_tq index) = s1
        have hc : s1.janet_vm_tq_count = s.janet_vm_tq_count := by rw [← hs1]; rfl
        have ht : ∀ k, s1.janet_vm_tq k =
            if k = (index - 1) / 2 then s.janet_vm_tq index
            else if k = index then s.janet_vm_tq ((index - 1) / 2)
            else s.janet_vm_tq k := by
          intro k
          rw [← hs1]
          exact swap_tq s index ((index - 1) / 2) k
        have hso : SameOutsideHeap s s1 := by
          rw [← hs1]
          exact (SameOutsideHeap.setTq s _ _).trans _ _ _ (SameOutsideHeap.setTq _ _ _)
        have hfib : s1.fibers = s.fibers := by rw [← hs1]; rfl
        obtain ⟨r1, r2, r3, r4, r5⟩ := ih s1 ((index - 1) / 2) (by omega) (by omega)
          (up_step s s1 index h0 hc ht (by omega) hinv)
        exact ⟨r1, r2.trans hc,
          r3.trans (tqEntries_swap s s1 index ((index - 1) / 2) hlt (by omega) hc ht),
          hso.trans _ _ _ r4, r5.trans hfib⟩
    · rw [if_neg h0]
      exact ⟨fun i hi0 hic => hinv.1 i hi0 hic (by omega), rfl, List.Perm.refl _,
        SameOutsideHeap.refl s, rfl⟩

/-- In a min-heap no entry is earlier than the root. -/
theorem TqHeap.root_min (s : EvState) (h : TqHeap s) :
    ∀ i, i < s.janet_vm_tq_count → (s.janet_vm_tq 0).when ≤ (s.janet_vm_tq i).when := by
  intro i
  induction i using Nat.strong_induction_on with
  | _ i ih =>
    intro hi
    by_cases h0 : i = 0
    · rw [h0]
    · have h1 := h i (by omega) hi
      have h2 := ih ((i - 1) / 2) (by omega) (by omega)
      omega

theorem mem_tqEntries (s : EvState) (t : JanetTimeout) :
    t ∈ tqEntries s ↔ ∃ i, i < s.janet_vm_tq_count ∧ s.janet_vm_tq i = t := by
  unfold tqEntries
  simp [List.mem_map, List.mem_range]

/-- Effect of `add_timeout` for a fiber whose `timeout_index` is negative:
the heap stays a min-heap, gains exactly the new entry, and only the
`timeout_index` of that fiber changes. -/
theorem add_timeout_spec (s : EvState) (tmo : JanetTimeout) (hh : TqHeap s)
    (hneg : (s.fibers tmo.fiber).timeout_index < 0) :
    TqHeap (add_timeout s tmo) ∧
    (add_timeout s tmo).janet_vm_tq_count = s.janet_vm_tq_count + 1 ∧
    (tqEntries (add_timeout s tmo)).Perm (tmo :: tqEntries s) ∧
    SameOutsideHeap s (add_timeout s tmo) ∧
    (∀ g, g ≠ tmo.fiber → (add_timeout s tmo).fibers g = s.fibers g) := by
  unfold add_timeout
  simp only []
  generalize hs1 : (({ (if s.janet_vm_tq_count + 1 > s.janet_vm_tq_capacity then
      { s with janet_vm_tq_capacity := 2 * (s.janet_vm_tq_count + 1) } else s) with
      janet_vm_tq_count := s.janet_vm_tq_count + 1 } : EvState).setTq
        s.janet_vm_tq_count tmo) = s1
  have hfib1 : s1.fibers = s.fibers := by
    rw [← hs1]
    by_cases hcap : s.janet_vm_tq_count + 1 > s.janet_vm_tq_capacity <;>
      simp [EvState.setTq, hcap]
  have hc1 : s1.janet_vm_tq_count = s.janet_vm_tq_count + 1 := by
    rw [← hs1]; rfl
  have ht1 : ∀ k, s1.janet_vm_tq k = if k = s.janet_vm_tq_count then tmo
      else s.janet_vm_tq k := by
    intro k
    rw [← hs1]
    by_cases hcap : s.janet_vm_tq_count + 1 > s.janet_vm_tq_capacity <;>
      simp [EvState.setTq, hcap]
  have hso1 : SameOutsideHeap s s1 := by
    rw [← hs1]
    by_cases hcap : s.janet_vm_tq_count + 1 > s.janet_vm_tq_capacity <;>
      simp [SameOutsideHeap, EvState.setTq, hcap]
  rw [hfib1, if_neg (by omega)]
  have hup : UpInv (s1.setTimeoutIndex tmo.fiber s.janet_vm_tq_count) s.janet_vm_tq_count := by
    constructor
    · intro i hi0 hic hne
      rw [setTimeoutIndex_count, hc1] at hic
      rw [setTimeoutIndex_tq, ht1, ht1, if_neg (by omega), if_neg hne]
      exact hh i hi0 (by omega)
    · intro _ c hc0 hcc hpc
      rw [setTimeoutIndex_count, hc1] at hcc
      omega
  obtain ⟨r1, r2, r3, r4, r5⟩ := add_timeout_loop_spec s.janet_vm_tq_count
    (s1.setTimeoutIndex tmo.fiber s.janet_vm_tq_count) s.janet_vm_tq_count (Nat.le_refl _)
    (by rw [setTimeoutIndex_count, hc1]; omega) hup
  refine ⟨r1, ?_, ?_, ?_, ?_⟩
  · rw [r2, setTimeoutIndex_count, hc1]
  · refine r3.trans ?_
    have : tqEntries (s1.setTimeoutIndex tmo.fiber s.janet_vm_tq_count) =
        tqEntries s ++ [tmo] := by
      unfold tqEntries
      rw [setTimeoutIndex_count, setTimeoutIndex_tq, hc1, List.range_succ, List.map_append,
        List.map_singleton, ht1, if_pos rfl]
      congr 1
      apply List.map_congr_left
      intro k hk
      rw [List.mem_range] at hk
      rw [ht1, if_neg (by omega)]
    rw [this]
    exact List.perm_append_singleton _ _
  · exact (hso1.trans _ _ _ (SameOutsideHeap.setTimeoutIndex _ _ _)).trans _ _ _ r4
  · intro g hg
    rw [r5]
    unfold EvState.setTimeoutIndex EvState.setFiber
    simp only [if_neg hg, hfib1]

/-- Moving the last of `n + 1` entries to position 0 and dropping the last
position removes the former first entry. -/
theorem map_range_pop_perm {α : Type} (f g : Nat → α) (n : Nat) (h0 : g 0 = f n)
    (hg : ∀ k, k ≠ 0 → g k = f k) :
    ((List.range (n + 1)).map f).Perm (f 0 :: (List.range n).map g) := by
  cases n with
  | zero => exact List.Perm.refl _
  | succ m =>
    have e2 : List.map (g ∘ Nat.succ) (List.range m) =
        List.map (f ∘ Nat.succ) (List.range m) := by
      apply List.map_congr_left
      intro k _
      exact hg (k + 1) (Nat.succ_ne_zero k)
    have eL : (List.range (m + 1 + 1)).map f =
        f 0 :: ((List.range m).map (f ∘ Nat.succ) ++ [f (m + 1)]) := by
      rw [List.range_succ_eq_map (m + 1), List.map_cons, List.map_map, List.range_succ,
        List.map_append, List.map_singleton]
      rfl
    have eR : (List.range (m + 1)).map g =
        f (m + 1) :: (List.range m).map (f ∘ Nat.succ) := by
      rw [List.range_succ_eq_map m, List.map_cons, List.map_map, h0, e2]
    rw [eL, eR]
    exact List.Perm.cons _ (List.perm_append_singleton _ _)

/-- Effect of `pop_timeout(0)` on a non-empty min-heap: the root is removed,
the other entries stay, and the result is a min-heap again. -/
theorem pop_timeout_zero_spec (s : EvState) (hh : TqHeap s) (hpos : 0 < s.janet_vm_tq_count) :
    TqHeap (pop_timeout s 0) ∧
    (pop_timeout s 0).janet_vm_tq_count = s.janet_vm_tq_count - 1 ∧
    (tqEntries s).Perm (s.janet_vm_tq 0 :: tqEntries (pop_timeout s 0)) ∧
    SameOutsideHeap s (pop_timeout s 0) := by
  unfold pop_timeout
  rw [if_neg (by omega)]
  simp only []
  generalize hs1 : (({ s.setTimeoutIndex (s.janet_vm_tq 0).fiber (-1) with
      janet_vm_tq_count := (s.setTimeoutIndex (s.janet_vm_tq 0).fiber (-1)).janet_vm_tq_count
        - 1 } : EvState).setTq 0
      (({ s.setTimeoutIndex (s.janet_vm_tq 0).fiber (-1) with
        janet_vm_tq_count := (s.setTimeoutIndex (s.janet_vm_tq 0).fiber (-1)).janet_vm_tq_count
          - 1 } : EvState).janet_vm_tq
        ((s.setTimeoutIndex (s.janet_vm_tq 0).fiber (-1)).janet_vm_tq_count - 1))) = s1
  have hc1 : s1.janet_vm_tq_count = s.janet_vm_tq_count - 1 := by rw [← hs1]; rfl
  have ht1 : ∀ k, s1.janet_vm_tq k =
      if k = 0 then s.janet_vm_tq (s.janet_vm_tq_count - 1) else s.janet_vm_tq k := by
    intro k; rw [← hs1]; rfl
  have hso1 : SameOutsideHeap s s1 := by
    rw [← hs1]
    exact ⟨rfl, rfl, rfl, rfl, fun g => setTimeoutIndex_scheduled s _ g _⟩
  have hdown : DownInv (s1.setTimeoutIndex (s1.janet_vm_tq 0).fiber ((0 : Nat) : Int)) 0 := by
    constructor
    · intro i hi0 hic hp
      rw [setTimeoutIndex_count, hc1] at hic
      rw [setTimeoutIndex_tq, ht1, ht1, if_neg hp, if_neg (by omega)]
      exact hh i hi0 (by omega)
    · intro h; omega
  obtain ⟨r1, r2, r3, r4⟩ := pop_timeout_loop_spec
    ((s1.setTimeoutIndex (s1.janet_vm_tq 0).fiber ((0 : Nat) : Int)).janet_vm_tq_count + 1 - 0)
    (s1.setTimeoutIndex (s1.janet_vm_tq 0).fiber ((0 : Nat) : Int)) 0 (by omega) hdown
  refine ⟨r1, ?_, ?_, ?_⟩
  · rw [r2, setTimeoutIndex_count, hc1]
  · have e1 : tqEntries (s1.setTimeoutIndex (s1.janet_vm_tq 0).fiber ((0 : Nat) : Int)) =
        (List.range (s.janet_vm_tq_count - 1)).map s1.janet_vm_tq := by
      unfold tqEntries
      rw [setTimeoutIndex_count, setTimeoutIndex_tq, hc1]
    refine List.Perm.trans ?_ (List.Perm.cons _ r3.symm)
    rw [e1]
    obtain ⟨n, hn⟩ : ∃ n, s.janet_vm_tq_count = n + 1 := ⟨s.janet_vm_tq_count - 1, by omega⟩
    unfold tqEntries
    rw [hn, Nat.add_sub_cancel]
    refine map_range_pop_perm s.janet_vm_tq s1.janet_vm_tq n ?_ ?_
    · rw [ht1, if_pos rfl, hn, Nat.add_sub_cancel]
    · intro k hk
      rw [ht1, if_neg hk]
  · exact (hso1.trans _ _ _ (SameOutsideHeap.setTimeoutIndex _ _ _)).trans _ _ _ r4

theorem janet_schedule_heap (s s2 : EvState) (f : Nat) (v : Janet)
    (h : janet_schedule s f v = some s2) :
    s2.janet_vm_tq = s.janet_vm_tq ∧ s2.janet_vm_tq_count = s.janet_vm_tq_count := by
  unfold janet_schedule at h
  split at h
  · injection h with h; subst h; exact ⟨rfl, rfl⟩
  · simp only [] at h
    split at h
    · injection h with h; subst h; exact ⟨rfl, rfl⟩
    · injection h with h; subst h; exact ⟨rfl, rfl⟩
    · cases h

theorem janet_schedule_ready (s : EvState) (f : Nat) (v : Janet) (hq : QWF s.janet_vm_spawn)
    (hb : janet_q_count s.janet_vm_spawn + 2 < 1073741824) :
    ∃ s2, janet_schedule s f v = some s2 ∧ QWF s2.janet_vm_spawn ∧
      janet_q_count s2.janet_vm_spawn ≤ janet_q_count s.janet_vm_spawn + 1 := by
  cases hf : (s.fibers f).scheduled with
  | true => exact ⟨s, janet_schedule_flagged s f v hf, hq, by omega⟩
  | false =>
    obtain ⟨s2, -, h, -, -, -, h1, h2, -⟩ := janet_schedule_clear s f v hf hq hb
    exact ⟨s2, h, h1, by omega⟩

theorem TqHeap.congr (s s1 : EvState) (h : TqHeap s) (ht : s1.janet_vm_tq = s.janet_vm_tq)
    (hc : s1.janet_vm_tq_count = s.janet_vm_tq_count) : TqHeap s1 := by
  intro i hi0 hic
  rw [ht]
  rw [hc] at hic
  exact h i hi0 hic

theorem tqEntries_congr (s s1 : EvState) (ht : s1.janet_vm_tq = s.janet_vm_tq)
    (hc : s1.janet_vm_tq_count = s.janet_vm_tq_count) : tqEntries s1 = tqEntries s := by
  unfold tqEntries
  rw [ht, hc]

/-- Adding timeouts of distinct fibers that have none keeps the min-heap and
adds exactly these entries. -/
theorem add_all_spec (tmos : List JanetTimeout) : ∀ (s : EvState), TqHeap s →
    (tmos.map (fun t => t.fiber)).Nodup →
    (∀ t, t ∈ tmos → (s.fibers t.fiber).timeout_index < 0) →
    TqHeap (tmos.foldl add_timeout s) ∧
    (tmos.foldl add_timeout s).janet_vm_tq_count = s.janet_vm_tq_count + tmos.length ∧
    (tqEntries (tmos.foldl add_timeout s)).Perm (tmos ++ tqEntries s) ∧
    SameOutsideHeap s (tmos.foldl add_timeout s) := by
  induction tmos with
  | nil =>
    intro s hh _ _
    exact ⟨hh, rfl, List.Perm.refl _, SameOutsideHeap.refl s⟩
  | cons t rest ih =>
    intro s hh hnd hneg
    rw [List.map_cons, List.nodup_cons] at hnd
    obtain ⟨a1, a2, a3, a4, a5⟩ := add_timeout_spec s t hh (hneg t (List.mem_cons_self _ _))
    obtain ⟨b1, b2, b3, b4⟩ := ih (add_timeout s t) a1 hnd.2 (by
      intro u hu
      have hne : u.fiber ≠ t.fiber := by
        intro he
        exact hnd.1 (List.mem_map.mpr ⟨u, hu, he⟩)
      rw [a5 u.fiber hne]
      exact hneg u (List.mem_cons_of_mem _ hu))
    rw [List.foldl_cons]
    refine ⟨b1, ?_, ?_, a4.trans _ _ _ b4⟩
    · rw [b2, a2, List.length_cons]; omega
    · refine b3.trans ((List.Perm.append_left rest a3).trans ?_)
      rw [List.cons_append]
      exact List.perm_middle

/-- Repeated `pop_timeout(0)` takes entries of a min-heap in non-decreasing
order of `when`; given enough rounds it takes each entry exactly once. -/
theorem pop_order_spec (fuel : Nat) : ∀ (s : EvState), TqHeap s →
    (pop_order fuel s).Pairwise (fun a b => a.when ≤ b.when) ∧
    (∀ t, t ∈ pop_order fuel s → t ∈ tqEntries s) ∧
    (s.janet_vm_tq_count ≤ fuel → (pop_order fuel s).Perm (tqEntries s)) := by
  induction fuel with
  | zero =>
    intro s _
    unfold pop_order
    refine ⟨List.Pairwise.nil, fun t ht => absurd ht (List.not_mem_nil t), fun hc => ?_⟩
    unfold tqEntries
    have : s.janet_vm_tq_count = 0 := by omega
    rw [this]
    exact List.Perm.refl _
  | succ fuel ih =>
    intro s hh
    unfold pop_order peek_timeout
    by_cases h0 : s.janet_vm_tq_count = 0
    · rw [if_pos h0]
      refine ⟨List.Pairwise.nil, fun t ht => absurd ht (List.not_mem_nil t), fun _ => ?_⟩
      unfold tqEntries
      rw [h0]
      exact List.Perm.refl _
    · rw [if_neg h0]
      simp only []
      obtain ⟨a1, a2, a3, -⟩ := pop_timeout_zero_spec s hh (by omega)
      obtain ⟨b1, b2, b3⟩ := ih (pop_timeout s 0) a1
      have hsub : ∀ t, t ∈ pop_order fuel (pop_timeout s 0) → t ∈ tqEntries s :=
        fun t ht => a3.symm.subset (List.mem_cons_of_mem _ (b2 t ht))
      refine ⟨List.Pairwise.cons ?_ b1, ?_, fun hc => ?_⟩
      · intro t ht
        obtain ⟨i, hi, rfl⟩ := (mem_tqEntries s t).mp (hsub t ht)
        exact hh.root_min s i hi
      · intro t ht
        rcases List.mem_cons.mp ht with rfl | ht
        · exact (mem_tqEntries s _).mpr ⟨0, by omega, rfl⟩
        · exact hsub t ht
      · exact (List.Perm.cons _ (b3 (by omega))).trans a3.symm

/-- The array and the count after the sift-down loop depend only on the array
and the count before it. -/
theorem pop_timeout_loop_congr (fuel : Nat) : ∀ (s s1 : EvState) (index : Nat),
    s.janet_vm_tq = s1.janet_vm_tq → s.janet_vm_tq_count = s1.janet_vm_tq_count →
    (pop_timeout_loop fuel s index).janet_vm_tq = (pop_timeout_loop fuel s1 index).janet_vm_tq ∧
    (pop_timeout_loop fuel s index).janet_vm_tq_count =
      (pop_timeout_loop fuel s1 index).janet_vm_tq_count := by
  induction fuel with
  | zero =>
    intro s s1 index h1 h2
    unfold pop_timeout_loop
    exact ⟨h1, h2⟩
  | succ fuel ih =>
    intro s s1 index h1 h2
    unfold pop_timeout_loop
    simp only [shift_left_one, h1, h2]
    have fin : ∀ sm,
        (pop_timeout_loop fuel (pop_timeout_swap s index sm) sm).janet_vm_tq =
          (pop_timeout_loop fuel (pop_timeout_swap s1 index sm) sm).janet_vm_tq ∧
        (pop_timeout_loop fuel (pop_timeout_swap s index sm) sm).janet_vm_tq_count =
          (pop_timeout_loop fuel (pop_timeout_swap s1 index sm) sm).janet_vm_tq_count := by
      intro sm
      apply ih
      · funext k
        rw [pop_timeout_swap_tq, pop_timeout_swap_tq, h1]
      · rw [pop_timeout_swap_count, pop_timeout_swap_count, h2]
    by_cases c1 : 2 * index + 1 < s1.janet_vm_tq_count ∧
        (s1.janet_vm_tq (2 * index + 1)).when < (s1.janet_vm_tq index).when
    · rw [if_pos c1]
      by_cases c2 : 2 * index + 1 + 1 < s1.janet_vm_tq_count ∧
          (s1.janet_vm_tq (2 * index + 1 + 1)).when < (s1.janet_vm_tq (2 * index + 1)).when
      · rw [if_pos c2, if_neg (by omega), if_neg (by omega)]
        exact fin _
      · rw [if_neg c2, if_neg (by omega), if_neg (by omega)]
        exact fin _
    · rw [if_neg c1]
      by_cases c2 : 2 * index + 1 + 1 < s1.janet_vm_tq_count ∧
          (s1.janet_vm_tq (2 * index + 1 + 1)).when < (s1.janet_vm_tq index).when
      · rw [if_pos c2, if_neg (by omega), if_neg (by omega)]
        exact fin _
      · rw [if_neg c2, if_pos rfl, if_pos rfl]
        exact ⟨h1, h2⟩

theorem pop_timeout_congr (s s1 : EvState) (index : Nat)
    (h1 : s.janet_vm_tq = s1.janet_vm_tq) (h2 : s.janet_vm_tq_count = s1.janet_vm_tq_count) :
    (pop_timeout s index).janet_vm_tq = (pop_timeout s1 index).janet_vm_tq ∧
    (pop_timeout s index).janet_vm_tq_count = (pop_timeout s1 index).janet_vm_tq_count := by
  unfold pop_timeout
  simp only [h1, h2]
  split
  · exact ⟨h1, h2⟩
  · simp only [setTimeoutIndex_count, setTq_count, h2]
    apply pop_timeout_loop_congr
    · funext k
      simp only [setTimeoutIndex_tq, setTq_tq, h1]
    · simp only [setTimeoutIndex_count, setTq_count, h2]

theorem pop_order_congr (fuel : Nat) : ∀ (s s1 : EvState),
    s.janet_vm_tq = s1.janet_vm_tq → s.janet_vm_tq_count = s1.janet_vm_tq_count →
    pop_order fuel s = pop_order fuel s1 := by
  induction fuel with
  | zero => intro s s1 _ _; rfl
  | succ fuel ih =>
    intro s s1 h1 h2
    unfold pop_order peek_timeout
    simp only [h1, h2]
    split
    · rfl
    · obtain ⟨a1, a2⟩ := pop_timeout_congr s s1 0 h1 h2
      rw [ih _ _ a1 a2]

/-- One run of the expiry loop of `janet_loop` takes the timeouts that
repeated `pop_timeout(0)` takes, in the same order, and stops at the first
one later than the clock reading. -/
theorem run_expired_spec (fuel : Nat) : ∀ (s : EvState) (now : Nat),
    (run_expired fuel s now).1 <+: pop_order fuel s ∧
    (∀ t, t ∈ (run_expired fuel s now).1 → t.when ≤ now) := by
  induction fuel with
  | zero =>
    intro s now
    unfold run_expired pop_order
    exact ⟨List.prefix_refl _, fun t ht => absurd ht (List.not_mem_nil t)⟩
  | succ fuel ih =>
    intro s now
    unfold run_expired expire_one pop_order
    cases hp : peek_timeout s with
    | none => exact ⟨List.prefix_refl _, fun t ht => absurd ht (List.not_mem_nil t)⟩
    | some tmo =>
      simp only []
      by_cases hw : tmo.when ≤ now
      · rw [if_pos hw]
        cases hs : janet_schedule (pop_timeout s 0) tmo.fiber Janet.nil with
        | none =>
          simp only []
          refine ⟨?_, fun t ht => ?_⟩
          · exact ⟨pop_order fuel (pop_timeout s 0), rfl⟩
          · rcases List.mem_cons.mp ht with rfl | ht
            · exact hw
            · cases ht
        | some s1 =>
          simp only []
          obtain ⟨a1, a2⟩ := janet_schedule_heap _ _ _ _ hs
          obtain ⟨b1, b2⟩ := ih s1 now
          rw [pop_order_congr fuel s1 (pop_timeout s 0) a1 a2] at b1
          refine ⟨?_, fun t ht => ?_⟩
          · obtain ⟨r, hr⟩ := b1
            exact ⟨r, by rw [List.cons_append, hr]⟩
          · rcases List.mem_cons.mp ht with rfl | ht
            · exact hw
            · exact b2 t ht
      · rw [if_neg hw]
        exact ⟨List.nil_prefix, fun t ht => absurd ht (List.not_mem_nil t)⟩

/-- When every deadline has passed and the ready ring has room, one run of the
expiry loop empties the heap: it takes every entry, in the order of repeated
`pop_timeout(0)`. -/
theorem run_expired_all (fuel : Nat) : ∀ (s : EvState) (now : Nat), TqHeap s →
    s.janet_vm_tq_count ≤ fuel → (∀ t, t ∈ tqEntries s → t.when ≤ now) →
    QWF s.janet_vm_spawn →
    janet_q_count s.janet_vm_spawn + s.janet_vm_tq_count + 2 ≤ 1073741824 →
    ∃ s1, run_expired fuel s now = (pop_order fuel s, some s1) ∧ s1.janet_vm_tq_count = 0 := by
  induction fuel with
  | zero =>
    intro s now _ hc _ _ _
    exact ⟨s, rfl, by omega⟩
  | succ fuel ih =>
    intro s now hh hc hall hq hb
    unfold run_expired expire_one pop_order peek_timeout
    by_cases h0 : s.janet_vm_tq_count = 0
    · rw [if_pos h0]
      exact ⟨s, rfl, h0⟩
    · rw [if_neg h0]
      simp only []
      have hw : (s.janet_vm_tq 0).when ≤ now :=
        hall _ ((mem_tqEntries s _).mpr ⟨0, by omega, rfl⟩)
      rw [if_pos hw]
      obtain ⟨a1, a2, a3, a4⟩ := pop_timeout_zero_spec s hh (by omega)
      have hq1 : QWF (pop_timeout s 0).janet_vm_spawn := by rw [a4.1]; exact hq
      have hc0 := janet_q_count_nonneg _ hq
      obtain ⟨s1, hs, b1, b2⟩ := janet_schedule_ready (pop_timeout s 0)
        (s.janet_vm_tq 0).fiber Janet.nil hq1 (by rw [a4.1]; omega)
      obtain ⟨c1, c2⟩ := janet_schedule_heap _ _ _ _ hs
      rw [a4.1] at b2
      obtain ⟨s2, d1, d2⟩ := ih s1 now (a1.congr _ s1 c1 c2) (by omega)
        (fun t ht => hall t (a3.symm.subset (List.mem_cons_of_mem _
          (by rw [tqEntries_congr _ s1 c1 c2] at ht; exact ht))))
        b1 (by omega)
      rw [hs]
      simp only [d1]
      rw [pop_order_congr fuel s1 (pop_timeout s 0) c1 c2]
      exact ⟨s2, rfl, d2⟩

/-! ## Claim C1 -/

/-- Claim C2, failing input: on a channel of capacity 1, after the gives of
fibers 10, 1, 2, 3, a take, and the give of fiber 4, the writers 2, 3, 4 are
parked in that order and the items 1, 2, 3, 4 are queued.  The give of fiber
5 parks it, and the push of fiber 5 onto the wrapped ring of pending writers
leaves three indeterminate cells in front of it.  The next take, which
dequeues an item, pops an indeterminate writer pointer instead of removing
and scheduling fiber 2. -/
theorem C2_later_take_finds_no_parked_writer :
    wrappedWriters.map (fun s => (chanItems s 0, chanWriters s 0)) =
      some ([some (Janet.number 1), some (Janet.number 2), some (Janet.number 3),
        some (Janet.number 4)], [some 2, some 3, some 4]) ∧
    wrappedWriters.map
      (fun s => (call_as s 5 (FiberCall.give (Janet.channel 0) (Janet.number 5))).isAwait)
      = some true ∧
    (wrappedWriters.bind
      (fun s => (call_as s 5 (FiberCall.give (Janet.channel 0) (Janet.number 5))).state)).map
      (fun s => (chanWriters s 0,
        (call_as s 20 (FiberCall.take (Janet.channel 0))).isUndefined))
      = some ([none, none, none, some 5], true) := by
  decide

/-! ## Claim C3 -/

theorem setChannel_same (s : EvState) (p : Nat) (c : JanetChannel) :
    (s.setChannel p c).channels p = c := by
  simp [EvState.setChannel]

theorem setChannel_other (s : EvState) (p r : Nat) (c : JanetChannel) (h : r ≠ p) :
    (s.setChannel p c).channels r = s.channels r := by
  simp [EvState.setChannel, h]

theorem give_keeps_ChanInv (s s1 : EvState) (q : Nat) (v : Janet)
    (h : (cfun_channel_push s [Janet.channel q, v]).state = some s1)
    (hinv : ChanInv (s.channels q)) :
    ChanInv (s1.channels q) ∧ ∀ r, r ≠ q → s1.channels r = s.channels r := by
  obtain ⟨⟨wi, wr, ww⟩, hl, i1, i2⟩ := hinv
  have ci := janet_q_count_nonneg _ wi
  have cr := janet_q_count_nonneg _ wr
  have cw := janet_q_count_nonneg _ ww
  unfold cfun_channel_push at h
  cases hp : janet_q_pop (s.channels q).read_pending sizeof_ptr with
  | some r =>
    obtain ⟨reader, rq⟩ := r
    obtain ⟨a1, a2, a3, -⟩ := janet_q_pop_shape _ _ _ _ wr hp
    cases reader with
    | none => simp [hp, CResult.state] at h
    | some reader =>
      simp only [hp] at h
      cases hs : janet_schedule (s.setChannel q { s.channels q with read_pending := rq })
          reader v with
      | none => simp [hs, CResult.state] at h
      | some s2 =>
        simp only [hs, CResult.state, Option.some.injEq] at h
        subst h
        have hc := (janet_schedule_channels _ _ _ _ hs).1
        rw [hc]
        refine ⟨?_, fun r hr => setChannel_other s q r _ hr⟩
        rw [setChannel_same]
        exact ⟨⟨wi, a1, ww⟩, hl, fun _ => i1 a3, i2⟩
  | none =>
    have r0 := (janet_q_pop_none _ sizeof_ptr wr).mp hp
    cases hi : janet_q_push (s.channels q).items v sizeof_Janet with
    | full =>
      simp only [hp, hi, CResult.state, Option.some.injEq] at h
      subst h
      exact ⟨⟨⟨wi, wr, ww⟩, hl, i1, i2⟩, fun _ _ => rfl⟩
    | oom => simp [hp, hi, CResult.state] at h
    | ok items =>
      obtain ⟨b1, b2⟩ := janet_q_push_shape _ _ _ _ sizeof_Janet_ok wi hi
      simp only [hp, hi] at h
      by_cases hc : janet_q_count items > (s.channels q).limit
      · rw [if_pos hc] at h
        cases hw : janet_q_push (s.channels q).write_pending s.janet_vm_root_fiber
            sizeof_ptr with
        | oom => simp [hw, CResult.state] at h
        | full =>
          simp only [hw, CResult.state, Option.some.injEq] at h
          subst h
          refine ⟨?_, fun r hr => setChannel_other s q r _ hr⟩
          rw [setChannel_same]
          refine ⟨⟨b1, wr, ww⟩, hl, fun hh => ?_, ?_⟩
          · change 0 < janet_q_count (s.channels q).read_pending at hh
            omega
          · change janet_q_count (s.channels q).write_pending = 0 ∨
              janet_q_count (s.channels q).write_pending + (s.channels q).limit ≤
                janet_q_count items
            omega
        | ok wq =>
          obtain ⟨d1, d2⟩ := janet_q_push_shape _ _ _ _ sizeof_ptr_ok ww hw
          simp only [hw, CResult.state, Option.some.injEq] at h
          subst h
          refine ⟨?_, fun r hr => setChannel_other s q r _ hr⟩
          rw [setChannel_same]
          refine ⟨⟨b1, wr, d1⟩, hl, fun hh => ?_, ?_⟩
          · change 0 < janet_q_count (s.channels q).read_pending at hh
            omega
          · change janet_q_count wq = 0 ∨
              janet_q_count wq + (s.channels q).limit ≤ janet_q_count items
            omega
      · rw [if_neg hc] at h
        simp only [CResult.state, Option.some.injEq] at h
        subst h
        refine ⟨?_, fun r hr => setChannel_other s q r _ hr⟩
        rw [setChannel_same]
        refine ⟨⟨b1, wr, ww⟩, hl, fun hh => ?_, ?_⟩
        · change 0 < janet_q_count (s.channels q).read_pending at hh
          omega
        · change janet_q_count (s.channels q).write_pending = 0 ∨
            janet_q_count (s.channels q).write_pending + (s.channels q).limit ≤
              janet_q_count items
          omega

theorem take_keeps_ChanInv (s s1 : EvState) (q : Nat)
    (h : (cfun_channel_pop s [Janet.channel q]).state = some s1)
    (hinv : ChanInv (s.channels q)) :
    ChanInv (s1.channels q) ∧ ∀ r, r ≠ q → s1.channels r = s.channels r := by
  obtain ⟨⟨wi, wr, ww⟩, hl, i1, i2⟩ := hinv
  have ci := janet_q_count_nonneg _ wi
  have cr := janet_q_count_nonneg _ wr
  have cw := janet_q_count_nonneg _ ww
  unfold cfun_channel_pop at h
  cases hp : janet_q_pop (s.channels q).items sizeof_Janet with
  | none =>
    have c0 := (janet_q_pop_none _ sizeof_Janet wi).mp hp
    cases hr : janet_q_push (s.channels q).read_pending s.janet_vm_root_fiber sizeof_ptr with
    | oom => simp [hp, hr, CResult.state] at h
    | full =>
      simp only [hp, hr, CResult.state, Option.some.injEq] at h
      subst h
      exact ⟨⟨⟨wi, wr, ww⟩, hl, i1, i2⟩, fun _ _ => rfl⟩
    | ok rq =>
      obtain ⟨b1, b2⟩ := janet_q_push_shape _ _ _ _ sizeof_ptr_ok wr hr
      simp only [hp, hr, CResult.state, Option.some.injEq] at h
      subst h
      refine ⟨?_, fun r hr => setChannel_other s q r _ hr⟩
      rw [setChannel_same]
      exact ⟨⟨wi, b1, ww⟩, hl, fun _ => c0, i2⟩
  | some r =>
    obtain ⟨item, items⟩ := r
    obtain ⟨a1, a2, a3, -⟩ := janet_q_pop_shape _ _ _ _ wi hp
    have r0 : janet_q_count (s.channels q).read_pending = 0 := by
      by_cases hr : 0 < janet_q_count (s.channels q).read_pending
      · have := i1 hr; omega
      · omega
    simp only [hp] at h
    cases hw : janet_q_pop (s.channels q).write_pending sizeof_ptr with
    | none =>
      have w0 := (janet_q_pop_none _ sizeof_ptr ww).mp hw
      cases item with
      | none => simp [hw, CResult.state] at h
      | some item =>
        simp only [hw, CResult.state, Option.some.injEq] at h
        subst h
        refine ⟨?_, fun r hr => setChannel_other s q r _ hr⟩
        rw [setChannel_same]
        refine ⟨⟨a1, wr, ww⟩, hl, fun hh => ?_, Or.inl w0⟩
        change 0 < janet_q_count (s.channels q).read_pending at hh
        omega
    | some r2 =>
      obtain ⟨writer, wq⟩ := r2
      obtain ⟨d1, d2, d3, -⟩ := janet_q_pop_shape _ _ _ _ ww hw
      simp only [hw] at h
      cases writer with
      | none => simp [CResult.state] at h
      | some writer =>
        cases item with
        | none => simp [CResult.state] at h
        | some item =>
          simp only [] at h
          cases hs : janet_schedule
              ((s.setChannel q { s.channels q with items := items }).setChannel q
                { s.channels q with items := items, write_pending := wq })
              writer (Janet.channel q) with
          | none => simp [hs, CResult.state] at h
          | some s2 =>
            simp only [hs, CResult.state, Option.some.injEq] at h
            subst h
            have hc := (janet_schedule_channels _ _ _ _ hs).1
            rw [hc]
            refine ⟨?_, fun r hr => ?_⟩
            · rw [setChannel_same]
              refine ⟨⟨a1, wr, d1⟩, hl, fun hh => ?_, ?_⟩
              · change 0 < janet_q_count (s.channels q).read_pending at hh
                omega
              · change janet_q_count wq = 0 ∨
                  janet_q_count wq + (s.channels q).limit ≤ janet_q_count items
                omega
            · rw [setChannel_other _ q r _ hr, setChannel_other _ q r _ hr]

theorem give_frame (s s1 : EvState) (q : Nat) (v : Janet)
    (h : (cfun_channel_push s [Janet.channel q, v]).state = some s1) :
    (∀ r, r ≠ q → s1.channels r = s.channels r) ∧
      (s1.channels q).limit = (s.channels q).limit := by
  unfold cfun_channel_push at h
  cases hp : janet_q_pop (s.channels q).read_pending sizeof_ptr with
  | some r =>
    obtain ⟨reader, rq⟩ := r
    cases reader with
    | none => simp [hp, CResult.state] at h
    | some reader =>
      simp only [hp] at h
      cases hs : janet_schedule (s.setChannel q { s.channels q with read_pending := rq })
          reader v with
      | none => simp [hs, CResult.state] at h
      | some s2 =>
        simp only [hs, CResult.state, Option.some.injEq] at h
        subst h
        rw [(janet_schedule_channels _ _ _ _ hs).1]
        exact ⟨fun r hr => setChannel_other s q r _ hr, by rw [setChannel_same]⟩
  | none =>
    cases hi : janet_q_push (s.channels q).items v sizeof_Janet with
    | full =>
      simp only [hp, hi, CResult.state, Option.some.injEq] at h
      subst h
      exact ⟨fun _ _ => rfl, rfl⟩
    | oom => simp [hp, hi, CResult.state] at h
    | ok items =>
      simp only [hp, hi] at h
      by_cases hc : janet_q_count items > (s.channels q).limit
      · rw [if_pos hc] at h
        cases hw : janet_q_push (s.channels q).write_pending s.janet_vm_root_fiber
            sizeof_ptr with
        | oom => simp [hw, CResult.state] at h
        | full =>
          simp only [hw, CResult.state, Option.some.injEq] at h
          subst h
          exact ⟨fun r hr => setChannel_other s q r _ hr, by rw [setChannel_same]⟩
        | ok wq =>
          simp only [hw, CResult.state, Option.some.injEq] at h
          subst h
          exact ⟨fun r hr => setChannel_other s q r _ hr, by rw [setChannel_same]⟩
      · rw [if_neg hc] at h
        simp only [CResult.state, Option.some.injEq] at h
        subst h
        exact ⟨fun r hr => setChannel_other s q r _ hr, by rw [setChannel_same]⟩

theorem take_frame (s s1 : EvState) (q : Nat)
    (h : (cfun_channel_pop s [Janet.channel q]).state = some s1) :
    (∀ r, r ≠ q → s1.channels r = s.channels r) ∧
      (s1.channels q).limit = (s.channels q).limit := by
  unfold cfun_channel_pop at h
  cases hp : janet_q_pop (s.channels q).items sizeof_Janet with
  | none =>
    cases hr : janet_q_push (s.channels q).read_pending s.janet_vm_root_fiber sizeof_ptr with
    | oom => simp [hp, hr, CResult.state] at h
    | full =>
      simp only [hp, hr, CResult.state, Option.some.injEq] at h
      subst h
      exact ⟨fun _ _ => rfl, rfl⟩
    | ok rq =>
      simp only [hp, hr, CResult.state, Option.some.injEq] at h
      subst h
      exact ⟨fun r hr => setChannel_other s q r _ hr, by rw [setChannel_same]⟩
  | some r =>
    obtain ⟨item, items⟩ := r
    simp only [hp] at h
    cases hw : janet_q_pop (s.channels q).write_pending sizeof_ptr with
    | none =>
      cases item with
      | none => simp [hw, CResult.state] at h
      | some item =>
        simp only [hw, CResult.state, Option.some.injEq] at h
        subst h
        exact ⟨fun r hr => setChannel_other s q r _ hr, by rw [setChannel_same]⟩
    | some r2 =>
      obtain ⟨writer, wq⟩ := r2
      simp only [hw] at h
      cases writer with
      | none => simp [CResult.state] at h
      | some writer =>
        cases item with
        | none => simp [CResult.state] at h
        | some item =>
          simp only [] at h
          cases hs : janet_schedule
              ((s.setChannel q { s.channels q with items := items }).setChannel q
                { s.channels q with items := items, write_pending := wq })
              writer (Janet.channel q) with
          | none => simp [hs, CResult.state] at h
          | some s2 =>
            simp only [hs, CResult.state, Option.some.injEq] at h
            subst h
            rw [(janet_schedule_channels _ _ _ _ hs).1]
            refine ⟨fun r hr => ?_, by rw [setChannel_same]⟩
            rw [setChannel_other _ q r _ hr, setChannel_other _ q r _ hr]

theorem give_keeps_ChanInv_any (s s1 : EvState) (argv : List Janet) (p : Nat)
    (h : (cfun_channel_push s argv).state = some s1) (hinv : ChanInv (s.channels p)) :
    ChanInv (s1.channels p) := by
  by_cases hshape : ∃ q v, argv = [Janet.channel q, v]
  · obtain ⟨q, v, rfl⟩ := hshape
    by_cases hq : p = q
    · subst hq
      exact (give_keeps_ChanInv s s1 p v h hinv).1
    · rw [(give_frame s s1 q v h).1 p hq]
      exact hinv
  · have hs : s1 = s := by
      unfold cfun_channel_push at h
      split at h
      · exact absurd ⟨_, _, rfl⟩ hshape
      · simp only [CResult.state, Option.some.injEq] at h
        exact h.symm
      · simp only [CResult.state, Option.some.injEq] at h
        exact h.symm
    rw [hs]
    exact hinv

theorem take_keeps_ChanInv_any (s s1 : EvState) (argv : List Janet) (p : Nat)
    (h : (cfun_channel_pop s argv).state = some s1) (hinv : ChanInv (s.channels p)) :
    ChanInv (s1.channels p) := by
  by_cases hshape : ∃ q, argv = [Janet.channel q]
  · obtain ⟨q, rfl⟩ := hshape
    by_cases hq : p = q
    · subst hq
      exact (take_keeps_ChanInv s s1 p h hinv).1
    · rw [(take_frame s s1 q h).1 p hq]
      exact hinv
  · have hs : s1 = s := by
      unfold cfun_channel_pop at h
      split at h
      · exact absurd ⟨_, rfl⟩ hshape
      · simp only [CResult.state, Option.some.injEq] at h
        exact h.symm
      · simp only [CResult.state, Option.some.injEq] at h
        exact h.symm
    rw [hs]
    exact hinv

theorem give_keeps_limit (s s1 : EvState) (argv : List Janet) (p : Nat)
    (h : (cfun_channel_push s argv).state = some s1) :
    (s1.channels p).limit = (s.channels p).limit := by
  by_cases hshape : ∃ q v, argv = [Janet.channel q, v]
  · obtain ⟨q, v, rfl⟩ := hshape
    by_cases hq : p = q
    · subst hq
      exact (give_frame s s1 p v h).2
    · rw [(give_frame s s1 q v h).1 p hq]
  · have hs : s1 = s := by
      unfold cfun_channel_push at h
      split at h
      · exact absurd ⟨_, _, rfl⟩ hshape
      · simp only [CResult.state, Option.some.injEq] at h
        exact h.symm
      · simp only [CResult.state, Option.some.injEq] at h
        exact h.symm
    rw [hs]

theorem take_keeps_limit (s s1 : EvState) (argv : List Janet) (p : Nat)
    (h : (cfun_channel_pop s argv).state = some s1) :
    (s1.channels p).limit = (s.channels p).limit := by
  by_cases hshape : ∃ q, argv = [Janet.channel q]
  · obtain ⟨q, rfl⟩ := hshape
    by_cases hq : p = q
    · subst hq
      exact (take_frame s s1 p h).2
    · rw [(take_frame s s1 q h).1 p hq]
  · have hs : s1 = s := by
      unfold cfun_channel_pop at h
      split at h
      · exact absurd ⟨_, rfl⟩ hshape
      · simp only [CResult.state, Option.some.injEq] at h
        exact h.symm
      · simp only [CResult.state, Option.some.injEq] at h
        exact h.symm
    rw [hs]

theorem ChanReach_inv (p limit : Nat) (s : EvState) (h : ChanReach p limit s) :
    ChanInv (s.channels p) ∧ (s.channels p).limit = limit := by
  induction h with
  | make s0 =>
    refine ⟨⟨⟨?_, ?_, ?_⟩, ?_, ?_, ?_⟩, ?_⟩ <;>
      simp [cfun_channel_new, EvState.setChannel, janet_chan_init, janet_q_init_shape]
  | give s0 s1 f argv _ hstep ih =>
    refine ⟨give_keeps_ChanInv_any _ s1 argv p hstep ih.1, ?_⟩
    rw [give_keeps_limit _ s1 argv p hstep]
    exact ih.2
  | take s0 s1 f argv _ hstep ih =>
    refine ⟨take_keeps_ChanInv_any _ s1 argv p hstep ih.1, ?_⟩
    rw [take_keeps_limit _ s1 argv p hstep]
    exact ih.2

theorem run_calls_reach (p limit : Nat) (calls : List (Nat × FiberCall)) :
    ∀ s s1 : EvState, ChanReach p limit s → run_calls s calls = some s1 →
      ChanReach p limit s1 := by
  induction calls with
  | nil => intro s s1 hr he; injection he with he; subst he; exact hr
  | cons c rest ih =>
    intro s s1 hr he
    obtain ⟨f, c⟩ := c
    unfold run_calls at he
    cases hc : (call_as s f c).state with
    | none => rw [hc] at he; cases he
    | some s2 =>
      rw [hc] at he
      refine ih s2 s1 ?_ he
      cases c with
      | give ch v => exact ChanReach.give s s2 f [ch, v] hr hc
      | take ch => exact ChanReach.take s s2 f [ch] hr hc

theorem wrappedWriters_reach :
    ChanReach 0 1 (wrappedWriters.getD (janet_ev_init_common 0)) := by
  cases hw : wrappedWriters with
  | none =>
    have h : wrappedWriters.isSome = true := by decide
    rw [hw] at h
    cases h
  | some s1 => exact run_calls_reach 0 1 _ _ s1 (ChanReach.make _) hw

/-- Claim C3 (channel invariant): in every state reachable from `make(limit)`
by give and take calls, (a) no item is queued or no reader is pending, (b) if
a writer is pending then at least `limit` items are queued, and (c) no reader
is pending or no writer is pending; the counts are those `janet_q_count`
reports. -/
theorem C3_channel_invariant (p limit : Nat) (s : EvState) (h : ChanReach p limit s) :
    (janet_q_count (s.channels p).items = 0 ∨
      janet_q_count (s.channels p).read_pending = 0) ∧
    (janet_q_count (s.channels p).write_pending ≠ 0 →
      janet_q_count (s.channels p).items ≥ limit) ∧
    (janet_q_count (s.channels p).read_pending = 0 ∨
      janet_q_count (s.channels p).write_pending = 0) := by
  obtain ⟨⟨⟨wi, wr, ww⟩, hl, i1, i2⟩, hlim⟩ := ChanReach_inv p limit s h
  have ci := janet_q_count_nonneg _ wi
  have cr := janet_q_count_nonneg _ wr
  have cw := janet_q_count_nonneg _ ww
  rw [hlim] at i2
  refine ⟨?_, ?_, ?_⟩
  · by_cases hr : 0 < janet_q_count (s.channels p).read_pending
    · exact Or.inl (i1 hr)
    · right; omega
  · intro hw
    omega
  · by_cases hr : 0 < janet_q_count (s.channels p).read_pending
    · have := i1 hr
      right; omega
    · left; omega

/-- Claim C3, instance: the state of `wrappedWriters`, reached by five gives
and one take on a channel made with limit 1. -/
theorem C3_channel_invariant_witness :
    (janet_q_count ((wrappedWriters.getD (janet_ev_init_common 0)).channels 0).items = 0 ∨
      janet_q_count ((wrappedWriters.getD (janet_ev_init_common 0)).channels 0).read_pending
        = 0) ∧
    (janet_q_count ((wrappedWriters.getD (janet_ev_init_common 0)).channels 0).write_pending
        ≠ 0 →
      janet_q_count ((wrappedWriters.getD (janet_ev_init_common 0)).channels 0).items
        ≥ (1 : Nat)) ∧
    (janet_q_count ((wrappedWriters.getD (janet_ev_init_common 0)).channels 0).read_pending
        = 0 ∨
      janet_q_count ((wrappedWriters.getD (janet_ev_init_common 0)).channels 0).write_pending
        = 0) :=
  C3_channel_invariant 0 1 _ wrappedWriters_reach

/-! ## Claim C4 -/

/-- Claim C4, failing input: on a channel of capacity 0 with no item queued
and the readers 2, 3, 4 parked in a wrapped ring, the take of fiber 5 parks
it, but the pending readers are then three indeterminate cells followed by
fiber 5, not 2, 3, 4, 5. -/
theorem C4_take_park_loses_pending_readers :
    wrappedReaders.map (fun s => (chanItems s 0, chanReaders s 0)) =
      some ([], [some 2, some 3, some 4]) ∧
    wrappedReaders.map
      (fun s => (call_as s 5 (FiberCall.take (Janet.channel 0))).isAwait) = some true ∧
    (wrappedReaders.bind
      (fun s => (call_as s 5 (FiberCall.take (Janet.channel 0))).state)).map
      (fun s => chanReaders s 0) = some [none, none, none, some 5] := by
  decide

/-! ## Claim C5 -/


/-- The call `give(ch, v)` on a channel whose ring of pending readers is in
shape and has the reader `reader` in its front cell (the ready ring being in shape
and below `2^30 - 2` tasks, so that scheduling does not end the process):
the front reader is removed, `janet_schedule(reader, v)` is what happens to
the rest of the state, the call returns the channel without parking the
caller, and the items, the pending writers and the limit are unchanged. -/
theorem give_hands_to_ring_front (s : EvState) (p : Nat) (v : Janet) (reader : Nat)
    (rest : List (Option Nat))
    (hr : QWF (s.channels p).read_pending)
    (hfront : chanReaders s p = some reader :: rest)
    (hq : QWF s.janet_vm_spawn)
    (hb : janet_q_count s.janet_vm_spawn + 2 < 1073741824) :
    ∃ rq s2,
      janet_q_pop (s.channels p).read_pending sizeof_ptr = some (some reader, rq) ∧
      janet_schedule (s.setChannel p { s.channels p with read_pending := rq }) reader v
        = some s2 ∧
      cfun_channel_push s [Janet.channel p, v] = CResult.ret (Janet.channel p) s2 ∧
      chanReaders s2 p = rest ∧
      (s2.channels p).items = (s.channels p).items ∧
      (s2.channels p).write_pending = (s.channels p).write_pending ∧
      (s2.channels p).limit = (s.channels p).limit := by
  obtain ⟨rq, hpop, -, hrest, -⟩ :=
    janet_q_pop_of_items (s.channels p).read_pending sizeof_ptr (some reader) rest hr hfront
  obtain ⟨s2, hs, hch⟩ := janet_schedule_some
    (s.setChannel p { s.channels p with read_pending := rq }) reader v hq hb
  refine ⟨rq, s2, hpop, hs, give_reader_branch s s2 p v reader rq hpop hs, ?_, ?_, ?_, ?_⟩
  · unfold chanReaders
    rw [hch]
    simpa [EvState.setChannel] using hrest
  · rw [hch]; simp [EvState.setChannel]
  · rw [hch]; simp [EvState.setChannel]
  · rw [hch]; simp [EvState.setChannel]

/-- Instance of `give_hands_to_ring_front`: fiber 1 is parked on a channel of
capacity 0 and a give of 42 hands the value to it. -/
theorem give_hands_to_ring_front_instance :
    ∃ rq s2,
      janet_q_pop (readerParked.channels 0).read_pending sizeof_ptr = some (some 1, rq) ∧
      janet_schedule (readerParked.setChannel 0
        { readerParked.channels 0 with read_pending := rq }) 1 (Janet.number 42) = some s2 ∧
      cfun_channel_push readerParked [Janet.channel 0, Janet.number 42]
        = CResult.ret (Janet.channel 0) s2 ∧
      chanReaders s2 0 = [] ∧
      (s2.channels 0).items = (readerParked.channels 0).items ∧
      (s2.channels 0).write_pending = (readerParked.channels 0).write_pending ∧
      (s2.channels 0).limit = (readerParked.channels 0).limit :=
  give_hands_to_ring_front readerParked 0 (Janet.number 42) 1 []
    (by decide) (by decide) (by decide) (by decide)

/-- Claim C5, failing input: on a channel of capacity 0 fibers 1 to 45 park as
readers, a give wakes fiber 1, and fibers 46 and 47 park as readers.  Before
the take of fiber 47 the pending readers are 2, 3, ..., 46 in waiting order.
That take grows the wrapped ring, after which the front of the ring is fiber
44.  The next give removes fiber 44 and schedules it with the value: the
longest waiting reader, fiber 2, is passed over.  The give returns the
channel, and the items and the pending writers are as before. -/
theorem C5_give_passes_over_longest_waiting_reader :
    (run_calls (cfun_channel_new (janet_ev_init_common 0) 0 0) manyReaderCalls.dropLast).map
      (fun s => chanReaders s 0) = some ((List.range' 2 45).map some) ∧
    manyReaders.map (fun s => (decide (QWF (s.channels 0).read_pending),
      (s.channels 0).read_pending.head, (s.channels 0).read_pending.tail,
      (s.channels 0).read_pending.capacity)) = some (true, 49, 1, 94) ∧
    manyReaders.map (fun s => ((chanReaders s 0).take 3, chanItems s 0, chanWriters s 0)) =
      some ([some 44, some 45, none], [], []) ∧
    manyReaders.map readyTasks = some [some { fiber := 1, value := Janet.number 42 }] ∧
    manyReaders.map (fun s =>
      (call_as s 98 (FiberCall.give (Janet.channel 0) (Janet.number 7))).value) =
      some (some (Janet.channel 0)) ∧
    manyReaders.bind (fun s =>
      (call_as s 98 (FiberCall.give (Janet.channel 0) (Janet.number 7))).state.map
        readyTasks) =
      some [some { fiber := 1, value := Janet.number 42 },
        some { fiber := 44, value := Janet.number 7 }] ∧
    manyReaders.bind (fun s =>
      (call_as s 98 (FiberCall.give (Janet.channel 0) (Janet.number 7))).state.map
        (fun s1 => ((chanReaders s1 0).take 2, chanItems s1 0, chanWriters s1 0))) =
      some ([some 45, none], [], []) := by
  refine ⟨by decide, by decide, by decide, by decide, by decide, by decide, by decide⟩

/-! ## Claim C6 -/

/-- Claim C7, as stated, fails: in scenario S3 the producer (fiber 1) parks
once, not twice: in its third give when it is scheduled before the consumer,
in its fourth give when it is scheduled after it. -/
theorem C7_producer_parks_once :
    ((scenarioS3 1 2).bind (janet_loop LoopEnv.idle 10 10 0)).map
      (fun w => (w.host 1).parked_in) = some [3] ∧
    ((scenarioS3 2 1).bind (janet_loop LoopEnv.idle 10 10 0)).map
      (fun w => (w.host 1).parked_in) = some [4] := by
  decide

/-- Claim C7, amended: in scenario S3, whatever the clock and the back-end
do, `janet_loop` returns with no ready task left, the consumer (fiber 2) has
received exactly 1, 2, 3, 4 in that order, both fibers have made all their
calls, and the producer (fiber 1) has parked exactly once: in its third give
when it was scheduled first, in its fourth give when the consumer was. -/
theorem C7_scenario_S3 (env : LoopEnv) :
    ((scenarioS3 1 2).bind (janet_loop env 10 10 0)).map observeS3 =
      some (false, [Janet.number 1, Janet.number 2, Janet.number 3, Janet.number 4],
        [3], [], []) ∧
    ((scenarioS3 2 1).bind (janet_loop env 10 10 0)).map observeS3 =
      some (false, [Janet.number 1, Janet.number 2, Janet.number 3, Janet.number 4],
        [4], [], []) :=
  ⟨rfl, rfl⟩

/-! ## Claim C8 -/

/-- Claim C8, failing input: 45 fibers are scheduled, the loop takes 6 of
them, 7 more fibers (100 to 106) are scheduled.  The last `janet_schedule`
grows the wrapped ready ring, and in the state it leaves the task of fiber
102 is in the ready queue twice. -/
theorem C8_fiber_twice_in_ready_queue :
    ∃ s, ReadyReach s ∧
      (readyTasks s).count (some { fiber := 102, value := Janet.nil }) = 2 := by
  cases h : run_ready_steps (janet_ev_init_common 0)
      (fullReadySteps ++ [ReadyStep.schedule 106 Janet.nil]) with
  | none =>
    have e : (run_ready_steps (janet_ev_init_common 0)
      (fullReadySteps ++ [ReadyStep.schedule 106 Janet.nil])).isSome = true := by decide
    rw [h] at e
    cases e
  | some s =>
    refine ⟨s, run_ready_steps_reach _ _ s (ReadyReach.init 0) h, ?_⟩
    have e : (run_ready_steps (janet_ev_init_common 0)
      (fullReadySteps ++ [ReadyStep.schedule 106 Janet.nil])).map
        (fun s => (readyTasks s).count (some { fiber := 102, value := Janet.nil }))
        = some 2 := by decide
    rw [h] at e
    simpa using e

/-! ## Claim C9 -/

/-- Claim C9, failing input: with the tasks of fibers 2, 3, 4 in a wrapped
ready ring of 4 cells and the flag of fiber 5 clear, `janet_schedule(5, nil)`
does not leave the queued tasks in place: the ready queue is then three
indeterminate cells followed by the task of fiber 5. -/
theorem C9_schedule_loses_queued_tasks :
    (run_ready_steps (janet_ev_init_common 0) wrappedReadySteps).map
      (fun s => (readyTasks s, (s.fibers 5).scheduled)) =
      some ([some { fiber := 2, value := Janet.nil }, some { fiber := 3, value := Janet.nil },
        some { fiber := 4, value := Janet.nil }], false) ∧
    ((run_ready_steps (janet_ev_init_common 0) wrappedReadySteps).bind
      (fun s => janet_schedule s 5 Janet.nil)).map
      (fun s => (readyTasks s, (s.fibers 5).scheduled)) =
      some ([none, none, none, some { fiber := 5, value := Janet.nil }], true) := by
  decide

/-! ## Claim C10 -/

/-- In a list sorted on `when`, an entry with a strictly smaller `when` comes
before. -/
theorem before_of_sorted (l : List JanetTimeout)
    (hs : l.Pairwise (fun a b => a.when ≤ b.when)) (a b : JanetTimeout) (ha : a ∈ l)
    (hb : b ∈ l) (hlt : a.when < b.when) : List.Sublist [a, b] l := by
  obtain ⟨l1, l2, rfl⟩ := List.append_of_mem hb
  rw [List.pairwise_append] at hs
  obtain ⟨-, h2, h3⟩ := hs
  rcases List.mem_append.mp ha with h | h
  · exact List.Sublist.append (List.singleton_sublist.mpr h)
      (List.Sublist.cons₂ b (List.nil_sublist l2))
  · rcases List.mem_cons.mp h with h | h
    · rw [h] at hlt; omega
    · have := (List.pairwise_cons.mp h2).1 a h
      omega

/-- Sleep ordering for fibers with `timeout_index = -1`: let timeouts of
distinct fibers, each with `timeout_index = -1`, be added in any order to an
empty heap.  Then
(1) the heap holds as many entries; (2) repeated `pop_timeout(0)` takes
exactly these timeouts, (3) in non-decreasing order of deadline; (4) of two of
them the one with the strictly smaller deadline is taken first; (5) the
expiry loop of `janet_loop`, at any clock reading, takes and schedules a
leading part of that order, (6) so in non-decreasing order of deadline, and
(7) a fiber it schedules comes after every fiber of a strictly smaller
deadline; (8) once every deadline has passed, and the ready ring is in shape
with room for them, the loop takes them all; (9) in scenario S1 (A = fiber 1
at +30 ms, B = fiber 2 at +10 ms, C = fiber 3 at +20 ms, added in the order
A, B, C) the fibers are scheduled, and queued for resumption, in the order
B, C, A. -/
theorem sleep_ordering_fresh_fibers (s0 : EvState) (tmos : List JanetTimeout) (now : Nat)
    (h0 : s0.janet_vm_tq_count = 0)
    (hd : (tmos.map (fun t => t.fiber)).Nodup)
    (hi : ∀ t, t ∈ tmos → (s0.fibers t.fiber).timeout_index = -1) :
    (tmos.foldl add_timeout s0).janet_vm_tq_count = tmos.length ∧
    (pop_order tmos.length (tmos.foldl add_timeout s0)).Perm tmos ∧
    (pop_order tmos.length (tmos.foldl add_timeout s0)).Pairwise
      (fun a b => a.when ≤ b.when) ∧
    (∀ a b, a ∈ tmos → b ∈ tmos → a.when < b.when →
      List.Sublist [a, b] (pop_order tmos.length (tmos.foldl add_timeout s0))) ∧
    (run_expired tmos.length (tmos.foldl add_timeout s0) now).1 <+:
      pop_order tmos.length (tmos.foldl add_timeout s0) ∧
    (run_expired tmos.length (tmos.foldl add_timeout s0) now).1.Pairwise
      (fun a b => a.when ≤ b.when) ∧
    (∀ a b, a ∈ tmos → b ∈ (run_expired tmos.length (tmos.foldl add_timeout s0) now).1 →
      a.when < b.when →
      List.Sublist [a, b] (run_expired tmos.length (tmos.foldl add_timeout s0) now).1) ∧
    ((∀ t, t ∈ tmos → t.when ≤ now) → QWF s0.janet_vm_spawn →
      janet_q_count s0.janet_vm_spawn + tmos.length + 2 ≤ 1073741824 →
      ∃ s1, run_expired tmos.length (tmos.foldl add_timeout s0) now =
        (pop_order tmos.length (tmos.foldl add_timeout s0), some s1) ∧
        s1.janet_vm_tq_count = 0) ∧
    ((run_expired 3 scenarioS1 30).1.map (fun t => t.fiber) = [2, 3, 1] ∧
      (run_expired 3 scenarioS1 30).2.map readyTasks =
        some [some { fiber := 2, value := Janet.nil }, some { fiber := 3, value := Janet.nil },
          some { fiber := 1, value := Janet.nil }]) := by
  have hh0 : TqHeap s0 := by
    intro i _ hic
    omega
  have he0 : tqEntries s0 = [] := by
    unfold tqEntries
    rw [h0]
    rfl
  obtain ⟨a1, a2, a3, a4⟩ := add_all_spec tmos s0 hh0 hd (by
    intro t ht
    rw [hi t ht]
    decide)
  rw [he0, List.append_nil] at a3
  rw [h0, Nat.zero_add] at a2
  obtain ⟨b1, b2, b3⟩ := pop_order_spec tmos.length (tmos.foldl add_timeout s0) a1
  have b4 := (b3 (by omega)).trans a3
  obtain ⟨c1, c2⟩ := run_expired_spec tmos.length (tmos.foldl add_timeout s0) now
  refine ⟨a2, b4, b1, ?_, c1, b1.sublist c1.sublist, ?_, ?_, ?_⟩
  · intro a b ha hb hlt
    exact before_of_sorted _ b1 a b (b4.symm.subset ha) (b4.symm.subset hb) hlt
  · intro a b ha hb hlt
    have hc1 := c1
    obtain ⟨r, hr⟩ := c1
    have hs := b1
    rw [← hr] at hs
    have ha' : a ∈ (run_expired tmos.length (tmos.foldl add_timeout s0) now).1 ++ r := by
      rw [hr]
      exact b4.symm.subset ha
    rcases List.mem_append.mp ha' with h | h
    · exact before_of_sorted _ (b1.sublist hc1.sublist) a b h hb hlt
    · have := (List.pairwise_append.mp hs).2.2 b hb a h
      omega
  · intro hall hq hb
    refine run_expired_all tmos.length _ now a1 (by omega) ?_ (by rw [a4.1]; exact hq)
      (by rw [a4.1, a2]; exact hb)
    intro t ht
    exact hall t (a3.subset ht)
  · decide

/-- Instance of `sleep_ordering_fresh_fibers`: the three sleeps of scenario
S1, expired at clock reading 30. -/
theorem sleep_ordering_fresh_fibers_S1 :
    scenarioS1.janet_vm_tq_count = 3 ∧
    (pop_order 3 scenarioS1).Perm
      [{ when := 30, fiber := 1 }, { when := 10, fiber := 2 }, { when := 20, fiber := 3 }] ∧
    (pop_order 3 scenarioS1).Pairwise (fun a b => a.when ≤ b.when) ∧
    (∀ a b : JanetTimeout,
      a ∈ [({ when := 30, fiber := 1 } : JanetTimeout), { when := 10, fiber := 2 },
        { when := 20, fiber := 3 }] →
      b ∈ [({ when := 30, fiber := 1 } : JanetTimeout), { when := 10, fiber := 2 },
        { when := 20, fiber := 3 }] →
      a.when < b.when → List.Sublist [a, b] (pop_order 3 scenarioS1)) ∧
    (run_expired 3 scenarioS1 30).1 <+: pop_order 3 scenarioS1 ∧
    (run_expired 3 scenarioS1 30).1.Pairwise (fun a b => a.when ≤ b.when) ∧
    (∀ a b : JanetTimeout,
      a ∈ [({ when := 30, fiber := 1 } : JanetTimeout), { when := 10, fiber := 2 },
        { when := 20, fiber := 3 }] →
      b ∈ (run_expired 3 scenarioS1 30).1 → a.when < b.when →
      List.Sublist [a, b] (run_expired 3 scenarioS1 30).1) ∧
    ((∀ t : JanetTimeout,
      t ∈ [({ when := 30, fiber := 1 } : JanetTimeout), { when := 10, fiber := 2 },
        { when := 20, fiber := 3 }] → t.when ≤ 30) →
      QWF (janet_ev_init_common 0).janet_vm_spawn →
      janet_q_count (janet_ev_init_common 0).janet_vm_spawn + 3 + 2 ≤ 1073741824 →
      ∃ s1, run_expired 3 scenarioS1 30 = (pop_order 3 scenarioS1, some s1) ∧
        s1.janet_vm_tq_count = 0) ∧
    ((run_expired 3 scenarioS1 30).1.map (fun t => t.fiber) = [2, 3, 1] ∧
      (run_expired 3 scenarioS1 30).2.map readyTasks =
        some [some { fiber := 2, value := Janet.nil }, some { fiber := 3, value := Janet.nil },
          some { fiber := 1, value := Janet.nil }]) :=
  sleep_ordering_fresh_fibers (janet_ev_init_common 0)
    [{ when := 30, fiber := 1 }, { when := 10, fiber := 2 }, { when := 20, fiber := 3 }] 30
    rfl (by decide) (by decide)

/-- Claim C10, failing input: fiber 1 sleeps until 10, the loop expires the
timer at the clock reading 10 and runs fiber 1.  The heap is then empty, so
fiber 1 has no live timeout, but its `timeout_index` is 0.  A second timeout
of fiber 1, until 20, is appended and removed again by `add_timeout` itself:
the heap stays empty and the loop never takes an entry for fiber 1.  And when
fiber 2, with `timeout_index = -1`, first adds a timeout until 30 to the empty
heap and fiber 1 then adds its timeout until 20, the heap ends with the entry
of fiber 1 only: the entry of fiber 2 is lost. -/
theorem C10_timeout_after_expiry_is_lost :
    expiredSleeper.map (fun s => (s.janet_vm_tq_count, (s.fibers 1).timeout_index,
      (s.fibers 1).scheduled, readyTasks s)) = some (0, 0, false, []) ∧
    (sleeperExpired.fibers 2).timeout_index = -1 ∧
    (add_timeout sleeperExpired { when := 20, fiber := 1 }).janet_vm_tq_count = 0 ∧
    tqEntries (add_timeout sleeperExpired { when := 20, fiber := 1 }) = [] ∧
    pop_order 1 (add_timeout sleeperExpired { when := 20, fiber := 1 }) = [] ∧
    (run_expired 1 (add_timeout sleeperExpired { when := 20, fiber := 1 }) 1000).1 = [] ∧
    tqEntries (add_timeout (add_timeout sleeperExpired { when := 30, fiber := 2 })
      { when := 20, fiber := 1 }) = [{ when := 20, fiber := 1 }] ∧
    pop_order 2 (add_timeout (add_timeout sleeperExpired { when := 30, fiber := 2 })
      { when := 20, fiber := 1 }) = [{ when := 20, fiber := 1 }] := by
  refine ⟨by decide, by decide, by decide, by decide, by decide, by decide, by decide,
    by decide⟩

/-! ## Listener chains -/

theorem IsChain_nil (s : EvState) (start : Option Nat) : IsChain s start [] ↔ start = none := by
  unfold IsChain; exact Iff.rfl

theorem IsChain_cons (s : EvState) (start : Option Nat) (a : Nat) (rest : List Nat) :
    IsChain s start (a :: rest) ↔
      start = some a ∧ ∃ l, s.listeners a = some l ∧ IsChain s l._next rest := by
  rw [IsChain]
  cases h : s.listeners a with
  | none => simp
  | some l => simp

theorem IsChain_unique (s : EvState) : ∀ (xs ys : List Nat) (start : Option Nat),
    IsChain s start xs → IsChain s start ys → xs = ys := by
  intro xs
  induction xs with
  | nil =>
    intro ys start hx hy
    rw [IsChain_nil] at hx
    cases ys with
    | nil => rfl
    | cons b ys =>
      rw [IsChain_cons] at hy
      rw [hx] at hy
      exact absurd hy.1 (by simp)
  | cons a xs ih =>
    intro ys start hx hy
    rw [IsChain_cons] at hx
    obtain ⟨h1, l, h2, h3⟩ := hx
    cases ys with
    | nil =>
      rw [IsChain_nil] at hy
      rw [hy] at h1
      exact absurd h1 (by simp)
    | cons b ys =>
      rw [IsChain_cons] at hy
      obtain ⟨g1, m, g2, g3⟩ := hy
      rw [h1] at g1
      injection g1 with g1
      subst g1
      rw [h2] at g2
      injection g2 with g2
      subst g2
      rw [ih ys _ h3 g3]

theorem IsChain_congr (s s1 : EvState) : ∀ (xs : List Nat) (start : Option Nat),
    (∀ a, a ∈ xs → s1.listeners a = s.listeners a) → IsChain s start xs →
    IsChain s1 start xs := by
  intro xs
  induction xs with
  | nil =>
    intro start _ h
    rw [IsChain_nil] at h ⊢
    exact h
  | cons a xs ih =>
    intro start hs h
    rw [IsChain_cons] at h ⊢
    obtain ⟨h1, l, h2, h3⟩ := h
    refine ⟨h1, l, ?_, ih _ (fun b hb => hs b (List.mem_cons_of_mem _ hb)) h3⟩
    rw [hs a (List.mem_cons_self _ _)]
    exact h2

theorem IsChain_allocated (s : EvState) : ∀ (xs : List Nat) (start : Option Nat) (a : Nat),
    IsChain s start xs → a ∈ xs → ∃ l, s.listeners a = some l := by
  intro xs
  induction xs with
  | nil => intro start a _ ha; exact absurd ha (List.not_mem_nil a)
  | cons b xs ih =>
    intro start a h ha
    rw [IsChain_cons] at h
    obtain ⟨-, l, h2, h3⟩ := h
    rcases List.mem_cons.mp ha with rfl | ha
    · exact ⟨l, h2⟩
    · exact ih _ a h3 ha

/-- The chain after the listeners `pre` is the chain that starts where the
cell behind them points. -/
theorem IsChain_split (s : EvState) : ∀ (pre rest : List Nat) (c : ChainCell)
    (start : Option Nat), s.readCell c = some start → IsChain s start (pre ++ rest) →
    ∃ mid, s.readCell (cellBefore c pre) = some mid ∧ IsChain s mid rest := by
  intro pre
  induction pre with
  | nil => intro rest c start hc h; exact ⟨start, hc, h⟩
  | cons b pre ih =>
    intro rest c start _ h
    rw [List.cons_append, IsChain_cons] at h
    obtain ⟨-, l, h2, h3⟩ := h
    exact ih rest (ChainCell.next b) l._next (by simp [EvState.readCell, h2]) h3

theorem cellBefore_cases (c : ChainCell) : ∀ pre : List Nat,
    cellBefore c pre = c ∧ pre = [] ∨ ∃ b, b ∈ pre ∧ cellBefore c pre = ChainCell.next b := by
  intro pre
  induction pre generalizing c with
  | nil => exact Or.inl ⟨rfl, rfl⟩
  | cons b pre ih =>
    right
    rcases ih (ChainCell.next b) with ⟨h, -⟩ | ⟨x, hx, h⟩
    · exact ⟨b, List.mem_cons_self _ _, h⟩
    · exact ⟨x, List.mem_cons_of_mem _ hx, h⟩

/-- The walk of `janet_unlisten_impl` stops at the cell that points to
`state`, given fuel for the listeners before it. -/
theorem unlisten_find_spec (s : EvState) (state : Nat) (post : List Nat) :
    ∀ (pre : List Nat) (fuel : Nat) (c : ChainCell) (start : Option Nat),
    s.readCell c = some start → IsChain s start (pre ++ state :: post) → state ∉ pre →
    pre.length < fuel →
    unlisten_find fuel s state c = Outcome.ok (cellBefore c pre) s := by
  intro pre
  induction pre with
  | nil =>
    intro fuel c start hc h _ hf
    obtain ⟨f, rfl⟩ : ∃ f, fuel = f + 1 := ⟨fuel - 1, by simp at hf; omega⟩
    rw [List.nil_append, IsChain_cons] at h
    rw [h.1] at hc
    simp [unlisten_find, hc, cellBefore]
  | cons b pre ih =>
    intro fuel c start hc h hn hf
    obtain ⟨f, rfl⟩ : ∃ f, fuel = f + 1 := ⟨fuel - 1, by simp at hf; omega⟩
    rw [List.cons_append, IsChain_cons] at h
    obtain ⟨h1, l, h2, h3⟩ := h
    rw [h1] at hc
    have hb : b ≠ state := fun e => hn (e ▸ List.mem_cons_self _ _)
    have hn1 : state ∉ pre := fun e => hn (List.mem_cons_of_mem _ e)
    have := ih f (ChainCell.next b) l._next (by simp [EvState.readCell, h2]) h3 hn1
      (by simp at hf; omega)
    simp [unlisten_find, hc, hb, cellBefore, this]



theorem readCell_writeCell_same (s : EvState) (c : ChainCell) (v start : Option Nat)
    (h : s.readCell c = some start) : (s.writeCell c v).readCell c = some v := by
  cases c with
  | head P =>
    cases hp : s.pollables P with
    | none => simp [EvState.readCell, hp] at h
    | some p => simp [EvState.readCell, EvState.writeCell, EvState.setPollable, hp]
  | next b =>
    cases hb : s.listeners b with
    | none => simp [EvState.readCell, hb] at h
    | some l => simp [EvState.readCell, EvState.writeCell, EvState.setListener, hb]

theorem readCell_writeCell_other (s : EvState) (c d : ChainCell) (v : Option Nat)
    (h : d ≠ c) : (s.writeCell c v).readCell d = s.readCell d := by
  cases c with
  | head P =>
    cases hp : s.pollables P with
    | none => simp [EvState.writeCell, hp]
    | some p =>
      cases d with
      | head Q =>
        have : Q ≠ P := fun e => h (by rw [e])
        simp [EvState.readCell, EvState.writeCell, EvState.setPollable, hp, this]
      | next b => simp [EvState.readCell, EvState.writeCell, EvState.setPollable, hp]
  | next a =>
    cases ha : s.listeners a with
    | none => simp [EvState.writeCell, ha]
    | some l =>
      cases d with
      | head Q => simp [EvState.readCell, EvState.writeCell, EvState.setListener, ha]
      | next b =>
        have : b ≠ a := fun e => h (by rw [e])
        simp [EvState.readCell, EvState.writeCell, EvState.setListener, ha, this]

theorem writeCell_listeners (s : EvState) (c : ChainCell) (v : Option Nat) (r : Nat)
    (h : c ≠ ChainCell.next r) : (s.writeCell c v).listeners r = s.listeners r := by
  cases c with
  | head P =>
    cases hp : s.pollables P with
    | none => simp [EvState.writeCell, hp]
    | some p => simp [EvState.writeCell, EvState.setPollable, hp]
  | next a =>
    cases ha : s.listeners a with
    | none => simp [EvState.writeCell, ha]
    | some l =>
      have : r ≠ a := fun e => h (by rw [e])
      simp [EvState.writeCell, EvState.setListener, ha, this]

/-- Writing the successor of `a` into the cell that points to `a` takes `a`
out of the chain and keeps the other listeners in order. -/
theorem unlink_spec (s : EvState) (a : Nat) (l : JanetListenerState) (post : List Nat)
    (hl : s.listeners a = some l) :
    ∀ (pre : List Nat) (c : ChainCell) (start : Option Nat),
    s.readCell c = some start → IsChain s start (pre ++ a :: post) →
    (pre ++ a :: post).Nodup → (∀ x, x ∈ pre ++ a :: post → c ≠ ChainCell.next x) →
    ∃ start2, (s.writeCell (cellBefore c pre) l._next).readCell c = some start2 ∧
      IsChain (s.writeCell (cellBefore c pre) l._next) start2 (pre ++ post) := by
  intro pre
  induction pre with
  | nil =>
    intro c start hc h hnd hcell
    rw [List.nil_append, IsChain_cons] at h
    obtain ⟨-, l0, h2, h3⟩ := h
    rw [hl] at h2
    injection h2 with h2
    subst h2
    refine ⟨l._next, readCell_writeCell_same s c _ _ hc, ?_⟩
    refine IsChain_congr s _ post _ (fun x hx => ?_) h3
    exact writeCell_listeners s c _ x (hcell x (List.mem_cons_of_mem _ hx))
  | cons b pre ih =>
    intro c start hc h hnd hcell
    rw [List.cons_append, IsChain_cons] at h
    obtain ⟨h1, lb, h2, h3⟩ := h
    rw [List.cons_append, List.nodup_cons] at hnd
    have hcb : ∀ x, x ∈ pre ++ a :: post → ChainCell.next b ≠ ChainCell.next x := by
      intro x hx e
      injection e with e
      exact hnd.1 (e ▸ hx)
    obtain ⟨start2, g1, g2⟩ := ih (ChainCell.next b) lb._next
      (by simp [EvState.readCell, h2]) h3 hnd.2 hcb
    have hne : c ≠ cellBefore (ChainCell.next b) pre := by
      rcases cellBefore_cases (ChainCell.next b) pre with ⟨e, -⟩ | ⟨x, hx, e⟩
      · rw [e]; exact hcell b (List.mem_cons_self _ _)
      · rw [e]
        exact hcell x (List.mem_cons_of_mem _ (List.mem_append_left _ hx))
    refine ⟨some b, ?_, ?_⟩
    · show (s.writeCell (cellBefore (ChainCell.next b) pre) l._next).readCell c = some (some b)
      rw [readCell_writeCell_other _ _ _ _ hne, hc, h1]
    · show IsChain (s.writeCell (cellBefore (ChainCell.next b) pre) l._next) (some b)
        (b :: (pre ++ post))
      rw [IsChain_cons]
      simp only [EvState.readCell, Option.map_eq_some'] at g1
      obtain ⟨lb2, g3, g4⟩ := g1
      exact ⟨rfl, lb2, g3, g4 ▸ g2⟩


theorem writeCell_pollables (s : EvState) (c : ChainCell) (v : Option Nat) (Q : Nat) :
    (s.writeCell c v).pollables Q =
      (s.pollables Q).map (fun x => if c = ChainCell.head Q then { x with state := v } else x) := by
  cases c with
  | head P =>
    cases hp : s.pollables P with
    | none =>
      by_cases e : Q = P
      · subst e; simp [EvState.writeCell, hp]
      · have : P ≠ Q := fun h => e h.symm
        cases hq : s.pollables Q <;> simp [EvState.writeCell, hp, hq, this]
    | some p =>
      by_cases e : Q = P
      · subst e; simp [EvState.writeCell, EvState.setPollable, hp]
      · have : P ≠ Q := fun h => e h.symm
        cases hq : s.pollables Q <;> simp [EvState.writeCell, EvState.setPollable, hp, hq, this, e]
  | next a =>
    cases ha : s.listeners a with
    | none => cases hq : s.pollables Q <;> simp [EvState.writeCell, ha, hq]
    | some l => cases hq : s.pollables Q <;> simp [EvState.writeCell, EvState.setListener, ha, hq]

theorem writeCell_listeners_pre (s : EvState) (c : ChainCell) (v : Option Nat) (r : Nat)
    (l0 : JanetListenerState) (h : s.listeners r = some l0) :
    ∃ l1, (s.writeCell c v).listeners r = some l1 ∧ l1.machine = l0.machine ∧
      l1.fiber = l0.fiber ∧ l1.pollable = l0.pollable ∧ l1._mask = l0._mask := by
  cases c with
  | head P =>
    cases hp : s.pollables P with
    | none => exact ⟨l0, by simp [EvState.writeCell, hp, h], rfl, rfl, rfl, rfl⟩
    | some p => exact ⟨l0, by simp [EvState.writeCell, EvState.setPollable, hp, h], rfl, rfl, rfl, rfl⟩
  | next a =>
    cases ha : s.listeners a with
    | none => exact ⟨l0, by simp [EvState.writeCell, ha, h], rfl, rfl, rfl, rfl⟩
    | some l =>
      by_cases e : r = a
      · subst e
        rw [h] at ha
        injection ha with ha
        subst ha
        exact ⟨{ l0 with _next := v }, by simp [EvState.writeCell, EvState.setListener, h],
          rfl, rfl, rfl, rfl⟩
      · exact ⟨l0, by simp [EvState.writeCell, EvState.setListener, ha, h, e], rfl, rfl, rfl, rfl⟩

theorem writeCell_frame (s : EvState) (c : ChainCell) (v : Option Nat) :
    (s.writeCell c v).fibers = s.fibers ∧
    (s.writeCell c v).janet_vm_active_listeners = s.janet_vm_active_listeners ∧
    (s.writeCell c v).machine_calls = s.machine_calls ∧
    (s.writeCell c v).janet_vm_spawn = s.janet_vm_spawn ∧
    (s.writeCell c v).channels = s.channels ∧
    (s.writeCell c v).janet_vm_tq = s.janet_vm_tq ∧
    (s.writeCell c v).janet_vm_tq_count = s.janet_vm_tq_count ∧
    (s.writeCell c v).janet_vm_tq_capacity = s.janet_vm_tq_capacity ∧
    (s.writeCell c v).janet_vm_root_fiber = s.janet_vm_root_fiber := by
  cases c with
  | head P =>
    cases hp : s.pollables P <;>
      simp [EvState.writeCell, EvState.setPollable, hp]
  | next a =>
    cases ha : s.listeners a <;>
      simp [EvState.writeCell, EvState.setListener, ha]


/-- What `janet_unlisten_impl` does to a listener that is in the chain of its
pollable, given fuel for the listeners before it. -/
theorem janet_unlisten_impl_spec (s : EvState) (a : Nat) (l : JanetListenerState)
    (p : JanetPollable) (pre post : List Nat) (fuel : Nat)
    (hl : s.listeners a = some l) (hp : s.pollables l.pollable = some p)
    (hc : IsChain s p.state (pre ++ a :: post)) (hnd : (pre ++ a :: post).Nodup)
    (hf : pre.length < fuel) :
    ∃ s1 p1, janet_unlisten_impl fuel s a = Outcome.ok () s1 ∧
      s1.pollables l.pollable = some p1 ∧ p1.handle = p.handle ∧ p1.flags = p.flags ∧
      p1._mask = clearBits p._mask l._mask ∧ IsChain s1 p1.state (pre ++ post) ∧
      (pre = [] → p1.state = l._next) ∧
      (∀ Q, Q ≠ l.pollable → s1.pollables Q = s.pollables Q) ∧
      s1.listeners a = none ∧
      (∀ r, r ≠ a → r ∉ pre → s1.listeners r = s.listeners r) ∧
      (∀ r l0, r ≠ a → s.listeners r = some l0 → ∃ l1, s1.listeners r = some l1 ∧
        l1.machine = l0.machine ∧ l1.fiber = l0.fiber ∧ l1.pollable = l0.pollable ∧
        l1._mask = l0._mask) ∧
      (∀ g, s1.fibers g =
        if l.fiber = some g ∧ (s.fibers g).waiting = some a
        then { s.fibers g with waiting := none } else s.fibers g) ∧
      s1.janet_vm_active_listeners = size_t_pred s.janet_vm_active_listeners ∧
      s1.machine_calls = s.machine_calls ++ [(a, JanetAsyncEvent.JANET_ASYNC_EVENT_DEINIT)] ∧
      s1.janet_vm_spawn = s.janet_vm_spawn ∧ s1.channels = s.channels ∧
      s1.janet_vm_tq = s.janet_vm_tq ∧ s1.janet_vm_tq_count = s.janet_vm_tq_count ∧
      s1.janet_vm_tq_capacity = s.janet_vm_tq_capacity ∧
      s1.janet_vm_root_fiber = s.janet_vm_root_fiber := by
  -- the state after the machine call
  obtain ⟨s0, hs0⟩ : ∃ s0, s0 = call_machine s a JanetAsyncEvent.JANET_ASYNC_EVENT_DEINIT :=
    ⟨_, rfl⟩
  have hl0 : s0.listeners a = some l := by rw [hs0]; exact hl
  have hp0 : s0.pollables l.pollable = some p := by rw [hs0]; exact hp
  have hc0 : IsChain s0 p.state (pre ++ a :: post) :=
    IsChain_congr s s0 _ _ (fun x _ => by rw [hs0]; rfl) hc
  have hr0 : s0.readCell (ChainCell.head l.pollable) = some p.state := by
    simp [EvState.readCell, hp0]
  have hapre : a ∉ pre := by
    intro h
    have := (List.nodup_append.mp hnd).2.2
    exact this h (List.mem_cons_self _ _)
  have hfind := unlisten_find_spec s0 a post pre fuel _ _ hr0 hc0 hapre hf
  obtain ⟨mid, hmid, hmc⟩ := IsChain_split s0 pre (a :: post) _ _ hr0 hc0
  have hmida : mid = some a := ((IsChain_cons _ _ _ _).mp hmc).1
  rw [hmida] at hmid
  obtain ⟨start2, hw1, hw2⟩ := unlink_spec s0 a l post hl0 pre _ _ hr0 hc0 hnd
    (fun x _ e => by cases e)
  -- the cell written is not a field of `a`
  have hcell : ∀ r, r ∉ pre → cellBefore (ChainCell.head l.pollable) pre ≠ ChainCell.next r := by
    intro r hr
    rcases cellBefore_cases (ChainCell.head l.pollable) pre with ⟨e, -⟩ | ⟨x, hx, e⟩
    · rw [e]; intro h; cases h
    · rw [e]; intro h; injection h with h; exact hr (h ▸ hx)
  obtain ⟨s2, hs2⟩ : ∃ s2, s2 = s0.writeCell (cellBefore (ChainCell.head l.pollable) pre)
    l._next := ⟨_, rfl⟩
  rw [← hs2] at hw1 hw2
  have hl2 : s2.listeners a = some l := by
    rw [hs2, writeCell_listeners _ _ _ _ (hcell a hapre)]; exact hl0
  have hp2 := writeCell_pollables s0 (cellBefore (ChainCell.head l.pollable) pre) l._next
    l.pollable
  rw [← hs2, hp0, Option.map_some'] at hp2
  obtain ⟨p2, hp2e⟩ : ∃ p2, p2 = (if cellBefore (ChainCell.head l.pollable) pre =
      ChainCell.head l.pollable then { p with state := l._next } else p) := ⟨_, rfl⟩
  rw [← hp2e] at hp2
  have hp2f : p2.handle = p.handle ∧ p2.flags = p.flags ∧ p2._mask = p._mask := by
    rw [hp2e]; split <;> exact ⟨rfl, rfl, rfl⟩
  have hp2s : p2.state = start2 := by
    simp only [EvState.readCell, hp2, Option.map_some', Option.some.injEq] at hw1
    exact hw1
  obtain ⟨f1, f2, f3, f4, f5, f6, f7, f8, f9⟩ := writeCell_frame s0
    (cellBefore (ChainCell.head l.pollable) pre) l._next
  rw [← hs2] at f1 f2 f3 f4 f5 f6 f7 f8 f9
  unfold janet_unlisten_impl
  simp only [hl]
  rw [← hs0, hfind]
  simp only [hmid, ← hs2, hl2, hp2]
  refine ⟨_, { p2 with _mask := clearBits p2._mask l._mask }, rfl, ?_, ?_, ?_, ?_, ?_, ?_, ?_,
    ?_, ?_, ?_, ?_, ?_, ?_, ?_, ?_, ?_, ?_, ?_, ?_⟩
  · cases hfib : l.fiber <;> simp [EvState.freeListener, EvState.setPollable, EvState.setFiber]
    split <;> simp
  · exact hp2f.1
  · exact hp2f.2.1
  · show clearBits p2._mask l._mask = clearBits p._mask l._mask
    rw [hp2f.2.2]
  · show IsChain _ p2.state (pre ++ post)
    rw [hp2s]
    refine IsChain_congr s2 _ _ _ (fun x hx => ?_) hw2
    have hxa : x ≠ a := by
      intro e
      subst e
      rcases List.mem_append.mp hx with h | h
      · exact hapre h
      · have := (List.nodup_append.mp hnd).2.1
        exact (List.nodup_cons.mp this).1 h
    cases hfib : l.fiber <;> simp [EvState.freeListener, EvState.setPollable, EvState.setFiber, hxa]
    split <;> simp [hxa]
  · intro e
    show p2.state = l._next
    rw [hp2e, e]
    simp [cellBefore]
  · intro Q hQ
    have h1 := writeCell_pollables s0 (cellBefore (ChainCell.head l.pollable) pre) l._next Q
    rw [← hs2] at h1
    have h2 : cellBefore (ChainCell.head l.pollable) pre ≠ ChainCell.head Q := by
      rcases cellBefore_cases (ChainCell.head l.pollable) pre with ⟨e, -⟩ | ⟨x, _, e⟩
      · rw [e]; intro h; injection h with h; exact hQ h.symm
      · rw [e]; intro h; cases h
    have h3 : s2.pollables Q = s.pollables Q := by
      rw [h1, hs0]
      cases hq : s.pollables Q <;> simp [call_machine, hq, h2]
    cases hfib : l.fiber <;> simp [EvState.freeListener, EvState.setPollable, EvState.setFiber, hQ, h3]
    split <;> simp [EvState.setPollable, hQ, h3]
  · cases hfib : l.fiber <;> simp [EvState.freeListener]
  · intro r hra hrp
    have h1 : s2.listeners r = s.listeners r := by
      rw [hs2, writeCell_listeners _ _ _ _ (hcell r hrp), hs0]; rfl
    cases hfib : l.fiber <;> simp [EvState.freeListener, EvState.setPollable, EvState.setFiber, hra, h1]
    split <;> simp [EvState.setPollable, hra, h1]
  · intro r l0 hra hr
    have hr0' : s0.listeners r = some l0 := by rw [hs0]; exact hr
    obtain ⟨l1, h1, h2⟩ := writeCell_listeners_pre s0
      (cellBefore (ChainCell.head l.pollable) pre) l._next r l0 hr0'
    rw [← hs2] at h1
    refine ⟨l1, ?_, h2⟩
    cases hfib : l.fiber <;> simp [EvState.freeListener, EvState.setPollable, EvState.setFiber, hra, h1]
    split <;> simp [EvState.setPollable, hra, h1]
  · intro g
    have h1 : s2.fibers = s.fibers := by rw [f1, hs0]; rfl
    cases hfib : l.fiber with
    | none => simp [EvState.freeListener, EvState.setPollable, h1]
    | some F =>
      simp only [EvState.freeListener, EvState.setPollable, h1]
      by_cases hw : (s.fibers F).waiting = some a
      · by_cases e : F = g
        · subst e; simp [hw, EvState.setFiber]
        · have e2 : g ≠ F := fun h => e h.symm
          simp [hw, EvState.setFiber, e, e2]
      · by_cases e : F = g
        · subst e; simp [hw]
        · simp [hw, e]
  · have h1 : s2.janet_vm_active_listeners = s.janet_vm_active_listeners := by rw [f2, hs0]; rfl
    cases hfib : l.fiber <;> simp [EvState.freeListener, EvState.setPollable, EvState.setFiber, h1]
    split <;> simp [EvState.setPollable, h1]
  · have h1 : s2.machine_calls = s.machine_calls ++ [(a, JanetAsyncEvent.JANET_ASYNC_EVENT_DEINIT)] := by
      rw [f3, hs0]; rfl
    cases hfib : l.fiber <;> simp [EvState.freeListener, EvState.setPollable, EvState.setFiber, h1]
    split <;> simp [EvState.setPollable, h1]
  · have h1 : s2.janet_vm_spawn = s.janet_vm_spawn := by rw [f4, hs0]; rfl
    cases hfib : l.fiber <;> simp [EvState.freeListener, EvState.setPollable, EvState.setFiber, h1]
    split <;> simp [EvState.setPollable, h1]
  · have h1 : s2.channels = s.channels := by rw [f5, hs0]; rfl
    cases hfib : l.fiber <;> simp [EvState.freeListener, EvState.setPollable, EvState.setFiber, h1]
    split <;> simp [EvState.setPollable, h1]
  · have h1 : s2.janet_vm_tq = s.janet_vm_tq := by rw [f6, hs0]; rfl
    cases hfib : l.fiber <;> simp [EvState.freeListener, EvState.setPollable, EvState.setFiber, h1]
    split <;> simp [EvState.setPollable, h1]
  · have h1 : s2.janet_vm_tq_count = s.janet_vm_tq_count := by rw [f7, hs0]; rfl
    cases hfib : l.fiber <;> simp [EvState.freeListener, EvState.setPollable, EvState.setFiber, h1]
    split <;> simp [EvState.setPollable, h1]
  · have h1 : s2.janet_vm_tq_capacity = s.janet_vm_tq_capacity := by rw [f8, hs0]; rfl
    cases hfib : l.fiber <;> simp [EvState.freeListener, EvState.setPollable, EvState.setFiber, h1]
    split <;> simp [EvState.setPollable, h1]
  · have h1 : s2.janet_vm_root_fiber = s.janet_vm_root_fiber := by rw [f9, hs0]; rfl
    cases hfib : l.fiber <;> simp [EvState.freeListener, EvState.setPollable, EvState.setFiber, h1]
    split <;> simp [EvState.setPollable, h1]


/-- What a successful `janet_listen_impl` does. -/
theorem janet_listen_impl_spec (SPAWNER : Nat) (s : EvState) (P behavior mask a : Nat)
    (p : JanetPollable) (hp : s.pollables P = some p) (hm : p._mask &&& mask = 0)
    (hw : (s.fibers s.janet_vm_root_fiber).waiting = none) :
    ∃ s1, janet_listen_impl SPAWNER s P behavior mask (some a) = Outcome.ok a s1 ∧
      s1.pollables P = some { p with _mask := p._mask ||| (mask ||| SPAWNER), state := some a } ∧
      (∀ Q, Q ≠ P → s1.pollables Q = s.pollables Q) ∧
      s1.listeners a = some
        { machine := behavior,
          fiber := if mask &&& SPAWNER ≠ 0 then none else some s.janet_vm_root_fiber,
          pollable := P, _mask := mask ||| SPAWNER, _next := p.state } ∧
      (∀ r, r ≠ a → s1.listeners r = s.listeners r) ∧
      (∀ g, s1.fibers g =
        if mask &&& SPAWNER = 0 ∧ g = s.janet_vm_root_fiber
        then { s.fibers g with waiting := some a } else s.fibers g) ∧
      s1.janet_vm_active_listeners = size_t_succ s.janet_vm_active_listeners ∧
      s1.machine_calls = s.machine_calls ++ [(a, JanetAsyncEvent.JANET_ASYNC_EVENT_INIT)] ∧
      s1.janet_vm_spawn = s.janet_vm_spawn ∧ s1.channels = s.channels ∧
      s1.janet_vm_tq = s.janet_vm_tq ∧ s1.janet_vm_tq_count = s.janet_vm_tq_count ∧
      s1.janet_vm_tq_capacity = s.janet_vm_tq_capacity ∧
      s1.janet_vm_root_fiber = s.janet_vm_root_fiber := by
  unfold janet_listen_impl
  simp only [hp, hm, hw, ne_eq, not_true_eq_false, if_false]
  by_cases hsp : mask &&& SPAWNER = 0
  · simp only [hsp, not_true_eq_false, if_false, true_and]
    refine ⟨_, rfl, ?_, ?_, ?_, ?_, ?_, rfl, rfl, rfl, rfl, rfl, rfl, rfl, rfl⟩
    · simp [call_machine, EvState.setPollable]
    · intro Q hQ; simp [call_machine, EvState.setPollable, EvState.setListener, EvState.setFiber, hQ]
    · simp [call_machine, EvState.setPollable, EvState.setListener, EvState.setFiber]
    · intro r hr; simp [call_machine, EvState.setPollable, EvState.setListener, EvState.setFiber, hr]
    · intro g
      by_cases e : g = s.janet_vm_root_fiber
      · subst e; simp [call_machine, EvState.setPollable, EvState.setListener, EvState.setFiber]
      · simp [call_machine, EvState.setPollable, EvState.setListener, EvState.setFiber, e]
  · simp only [hsp, not_false_eq_true, if_true, false_and, if_false]
    refine ⟨_, rfl, ?_, ?_, ?_, ?_, ?_, rfl, rfl, rfl, rfl, rfl, rfl, rfl, rfl⟩
    · simp [call_machine, EvState.setPollable]
    · intro Q hQ; simp [call_machine, EvState.setPollable, EvState.setListener, hQ]
    · simp [call_machine, EvState.setPollable, EvState.setListener]
    · intro r hr; simp [call_machine, EvState.setPollable, EvState.setListener, hr]
    · intro g; simp [call_machine, EvState.setPollable, EvState.setListener]


/-! ## The listener invariant -/

theorem nodup_length_lt (all : List Nat) (N : Nat) (hnd : all.Nodup)
    (h : ∀ a, a ∈ all → 0 < a ∧ a < N) : all.length < N ∨ all = [] := by
  by_cases he : all = []
  · exact Or.inr he
  left
  have h1 : all.toFinset ⊆ Finset.Ico 1 N := by
    intro a ha
    rw [List.mem_toFinset] at ha
    rw [Finset.mem_Ico]
    exact ⟨(h a ha).1, (h a ha).2⟩
  have h2 := Finset.card_le_card h1
  rw [List.toFinset_card_of_nodup hnd, Nat.card_Ico] at h2
  obtain ⟨a, ha⟩ := List.exists_mem_of_ne_nil all he
  have := h a ha
  omega

theorem ListenInv_init (root : Nat) : ListenInv (janet_ev_init_common root) where
  chains := by intro P p h; simp [janet_ev_init_common] at h
  linked := by intro a l h; simp [janet_ev_init_common] at h
  waiting_listener := by intro F a h; simp [janet_ev_init_common, JanetFiber.fresh] at h
  listener_waiting := by intro a l F h; simp [janet_ev_init_common] at h
  counted := ⟨[], List.nodup_nil, by simp [janet_ev_init_common], rfl⟩
  addresses := by intro a h; simp [janet_ev_init_common] at h

/-- The listener invariant looks only at the listeners, the chain heads and
masks of the pollables, the active count and the fibers' `waiting`. -/
theorem ListenInv_congr (s s1 : EvState) (h2 : s1.listeners = s.listeners)
    (h1 : ∀ Q q1, s1.pollables Q = some q1 →
      ∃ q, s.pollables Q = some q ∧ q1.state = q.state ∧ q1._mask = q._mask)
    (h3 : ∀ Q q, s.pollables Q = some q → ∃ q1, s1.pollables Q = some q1 ∧ q1.state = q.state)
    (h4 : s1.janet_vm_active_listeners = s.janet_vm_active_listeners)
    (h5 : ∀ g, (s1.fibers g).waiting = (s.fibers g).waiting) (hi : ListenInv s) :
    ListenInv s1 := by
  have hch : ∀ start xs, IsChain s start xs → IsChain s1 start xs :=
    fun start xs hc => IsChain_congr s s1 xs start (fun a _ => by rw [h2]) hc
  constructor
  · intro P p1 hp
    obtain ⟨p, hp0, e1, e2⟩ := h1 P p1 hp
    obtain ⟨xs, c1, c2, c3, c4⟩ := hi.chains P p hp0
    refine ⟨xs, by rw [e1]; exact hch _ _ c1, c2, ?_, ?_⟩
    · intro a ha l hl; rw [h2] at hl; exact c3 a ha l hl
    · intro i hb; rw [h2]; rw [e2] at hb; exact c4 i hb
  · intro a l hl
    rw [h2] at hl
    obtain ⟨p, xs, c1, c2, c3⟩ := hi.linked a l hl
    obtain ⟨p1, g1, g2⟩ := h3 _ p c1
    exact ⟨p1, xs, g1, by rw [g2]; exact hch _ _ c2, c3⟩
  · intro F a hw
    rw [h5] at hw
    rw [h2]
    exact hi.waiting_listener F a hw
  · intro a l F hl hf
    rw [h2] at hl
    rw [h5]
    exact hi.listener_waiting a l F hl hf
  · obtain ⟨all, c1, c2, c3⟩ := hi.counted
    exact ⟨all, c1, by rw [h2]; exact c2, by rw [h4]; exact c3⟩
  · intro a ha
    rw [h2] at ha
    exact hi.addresses a ha

theorem ListenInv_same (s s1 : EvState) (h : SameListeners s s1) (hi : ListenInv s) :
    ListenInv s1 :=
  ListenInv_congr s s1 h.2.1 (fun _ q1 hq => ⟨q1, by rw [← h.1]; exact hq, rfl, rfl⟩)
    (fun _ q hq => ⟨q, by rw [h.1]; exact hq, rfl⟩) h.2.2.2.1 h.2.2.2.2 hi

theorem ListenInv_machine_call (s : EvState) (a : Nat) (ev : JanetAsyncEvent)
    (hi : ListenInv s) : ListenInv (call_machine s a ev) :=
  ListenInv_congr s _ rfl (fun _ q1 hq => ⟨q1, hq, rfl, rfl⟩) (fun _ q hq => ⟨q, hq, rfl⟩)
    rfl (fun _ => rfl) hi

theorem ListenInv_active_pos (s : EvState) (a : Nat) (l : JanetListenerState)
    (hi : ListenInv s) (hl : s.listeners a = some l) :
    0 < s.janet_vm_active_listeners ∧ s.janet_vm_active_listeners < 18446744073709551616 := by
  obtain ⟨all, c1, c2, c3⟩ := hi.counted
  have hain : a ∈ all := (c2 a).mpr (by rw [hl]; simp)
  rw [c3]
  refine ⟨List.length_pos_of_mem hain, ?_⟩
  rcases nodup_length_lt all 18446744073709551616 c1
    (fun x hx => hi.addresses x ((c2 x).mp hx)) with hb | hb
  · exact hb
  · rw [hb] at hain; cases hain

theorem ListenInv_pollable_init (s : EvState) (P : Nat) (handle : Int) (hi : ListenInv s)
    (hP : ∀ p, s.pollables P = some p → p.state = none) :
    ListenInv (janet_pollable_init s P handle) := by
  have hch : ∀ start xs, IsChain s start xs → IsChain (janet_pollable_init s P handle) start xs :=
    fun start xs hc => IsChain_congr s _ xs start (fun a _ => rfl) hc
  have hne : ∀ a l, s.listeners a = some l → l.pollable ≠ P := by
    intro a l hl e
    obtain ⟨p, xs, c1, c2, c3⟩ := hi.linked a l hl
    rw [e] at c1
    rw [hP p c1] at c2
    cases xs with
    | nil => exact absurd c3 (List.not_mem_nil a)
    | cons b xs => exact absurd ((IsChain_cons _ _ _ _).mp c2).1 (by simp)
  constructor
  · intro Q q hq
    by_cases e : Q = P
    · subst e
      simp only [janet_pollable_init, EvState.setPollable, if_true, Option.some.injEq] at hq
      subst hq
      refine ⟨[], (IsChain_nil _ _).mpr rfl, List.nodup_nil, ?_, ?_⟩
      · intro a ha; exact absurd ha (List.not_mem_nil a)
      · intro i hb; simp at hb
    · simp only [janet_pollable_init, EvState.setPollable, e, if_false] at hq
      obtain ⟨xs, c1, c2, c3, c4⟩ := hi.chains Q q hq
      exact ⟨xs, hch _ _ c1, c2, c3, c4⟩
  · intro a l hl
    have hl0 : s.listeners a = some l := hl
    obtain ⟨p, xs, c1, c2, c3⟩ := hi.linked a l hl0
    refine ⟨p, xs, ?_, hch _ _ c2, c3⟩
    simp only [janet_pollable_init, EvState.setPollable, hne a l hl0, if_false]
    exact c1
  · exact hi.waiting_listener
  · exact hi.listener_waiting
  · exact hi.counted
  · exact hi.addresses


theorem size_t_succ_small (n : Nat) (h : n + 1 < 18446744073709551616) :
    size_t_succ n = n + 1 := by
  unfold size_t_succ; omega

theorem size_t_pred_pos (n : Nat) (h0 : 0 < n) (h : n < 18446744073709551616) :
    size_t_pred n = n - 1 := by
  unfold size_t_pred; omega

/-- A successful `janet_listen_impl` with a listener state at a fresh address
keeps the listener invariant. -/
theorem ListenInv_listen_impl (SPAWNER : Nat) (s s1 : EvState) (P behavior mask a r : Nat)
    (hi : ListenInv s) (ha : s.listeners a = none) (ha0 : 0 < a)
    (ha1 : a < 18446744073709551616)
    (h : janet_listen_impl SPAWNER s P behavior mask (some a) = Outcome.ok r s1) :
    ListenInv s1 := by
  cases hp : s.pollables P with
  | none => simp [janet_listen_impl, hp] at h
  | some p =>
    by_cases hm : p._mask &&& mask = 0
    swap
    · simp [janet_listen_impl, hp, hm] at h
    cases hw : (s.fibers s.janet_vm_root_fiber).waiting with
    | some w => simp [janet_listen_impl, hp, hm, hw] at h
    | none =>
      obtain ⟨s2, e, q1, q2, q3, q4, q5, q6, -⟩ :=
        janet_listen_impl_spec SPAWNER s P behavior mask a p hp hm hw
      rw [e] at h
      injection h with _ h
      have h' := h.symm
      subst h'
      have hfresh : ∀ start xs, IsChain s start xs → a ∉ xs := by
        intro start xs hc hx
        obtain ⟨l, hl⟩ := IsChain_allocated s xs start a hc hx
        rw [ha] at hl
        cases hl
      have hch : ∀ start xs, IsChain s start xs → IsChain s1 start xs := by
        intro start xs hc
        refine IsChain_congr s s1 xs start (fun x hx => q4 x ?_) hc
        intro e
        exact hfresh start xs hc (e ▸ hx)
      have hold : ∀ x l, s.listeners x = some l → s1.listeners x = some l := by
        intro x l hl
        rw [q4 x (fun e => by rw [e, ha] at hl; cases hl)]
        exact hl
      have hback : ∀ x l, x ≠ a → s1.listeners x = some l → s.listeners x = some l := by
        intro x l hx hl
        rw [q4 x hx] at hl
        exact hl
      have hPchain : ∀ xs, IsChain s p.state xs → IsChain s1 (some a) (a :: xs) := by
        intro xs hc
        rw [IsChain_cons]
        exact ⟨rfl, _, q3, hch _ _ hc⟩
      constructor
      · intro Q q hq
        by_cases e : Q = P
        · subst e
          rw [q1] at hq
          injection hq with hq
          subst hq
          obtain ⟨xs, c1, c2, c3, c4⟩ := hi.chains Q p hp
          refine ⟨a :: xs, hPchain xs c1, List.nodup_cons.mpr ⟨hfresh _ _ c1, c2⟩, ?_, ?_⟩
          · intro x hx l hl
            rcases List.mem_cons.mp hx with rfl | hx
            · rw [q3] at hl
              injection hl with hl
              subst hl
              rfl
            · have hxa : x ≠ a := fun e => hfresh _ _ c1 (e ▸ hx)
              exact c3 x hx l (hback x l hxa hl)
          · intro i hb
            simp only [Nat.testBit_lor, Bool.or_eq_true] at hb
            rcases hb with hb | hb
            · obtain ⟨x, hx, l, hl, hbit⟩ := c4 i hb
              exact ⟨x, List.mem_cons_of_mem _ hx, l, hold x l hl, hbit⟩
            · refine ⟨a, List.mem_cons_self _ _, _, q3, ?_⟩
              simp only [Nat.testBit_lor, Bool.or_eq_true]
              exact hb
        · rw [q2 Q e] at hq
          obtain ⟨xs, c1, c2, c3, c4⟩ := hi.chains Q q hq
          refine ⟨xs, hch _ _ c1, c2, ?_, ?_⟩
          · intro x hx l hl
            have hxa : x ≠ a := fun e => hfresh _ _ c1 (e ▸ hx)
            exact c3 x hx l (hback x l hxa hl)
          · intro i hb
            obtain ⟨x, hx, l, hl, hbit⟩ := c4 i hb
            exact ⟨x, hx, l, hold x l hl, hbit⟩
      · intro x l hl
        by_cases hxa : x = a
        · subst hxa
          rw [q3] at hl
          injection hl with hl
          subst hl
          obtain ⟨xs, c1, -⟩ := hi.chains P p hp
          exact ⟨_, x :: xs, q1, hPchain xs c1, List.mem_cons_self _ _⟩
        · have hl0 := hback x l hxa hl
          obtain ⟨q, xs, c1, c2, c3⟩ := hi.linked x l hl0
          by_cases e : l.pollable = P
          · rw [e, hp] at c1
            injection c1 with c1
            subst c1
            exact ⟨_, a :: xs, by rw [e]; exact q1, hPchain xs c2, List.mem_cons_of_mem _ c3⟩
          · exact ⟨q, xs, by rw [q2 _ e]; exact c1, hch _ _ c2, c3⟩
      · intro F x hx
        rw [q5] at hx
        by_cases c : mask &&& SPAWNER = 0 ∧ F = s.janet_vm_root_fiber
        · simp only [c, and_self, if_true, Option.some.injEq] at hx
          subst hx
          refine ⟨_, q3, ?_⟩
          simp [c.1, c.2]
        · simp only [c, if_false] at hx
          obtain ⟨l, hl, hf⟩ := hi.waiting_listener F x hx
          exact ⟨l, hold x l hl, hf⟩
      · intro x l F hl hf
        rw [q5]
        by_cases hxa : x = a
        · subst hxa
          rw [q3] at hl
          injection hl with hl
          subst hl
          by_cases c : mask &&& SPAWNER = 0
          · simp only [c, ne_eq, not_true_eq_false, if_false, Option.some.injEq] at hf
            simp [c, hf]
          · simp [c] at hf
        · have hl0 := hback x l hxa hl
          have hw0 := hi.listener_waiting x l F hl0 hf
          have hF : F ≠ s.janet_vm_root_fiber := by
            intro e
            rw [e, hw] at hw0
            cases hw0
          simp only [hF, and_false, if_false]
          exact hw0
      · obtain ⟨all, c1, c2, c3⟩ := hi.counted
        have hna : a ∉ all := fun h => (c2 a).mp h ha
        refine ⟨a :: all, List.nodup_cons.mpr ⟨hna, c1⟩, ?_, ?_⟩
        · intro x
          by_cases hxa : x = a
          · subst hxa
            simp [q3]
          · rw [q4 x hxa]
            simp [hxa, c2 x]
        · rw [q6, c3]
          have hb : (a :: all).length < 18446744073709551616 := by
            rcases nodup_length_lt (a :: all) 18446744073709551616
              (List.nodup_cons.mpr ⟨hna, c1⟩) (fun x hx => by
                rcases List.mem_cons.mp hx with rfl | hx
                · exact ⟨ha0, ha1⟩
                · exact hi.addresses x ((c2 x).mp hx)) with h | h
            · exact h
            · cases h
          rw [size_t_succ_small _ (by simpa using hb)]
          simp
      · intro x hx
        by_cases hxa : x = a
        · subst hxa; exact ⟨ha0, ha1⟩
        · rw [q4 x hxa] at hx
          exact hi.addresses x hx


theorem testBit_clearBits (x m i : Nat) :
    (clearBits x m).testBit i = (x.testBit i && !m.testBit i) := by
  unfold clearBits
  rw [Nat.testBit_xor, Nat.testBit_land]
  cases x.testBit i <;> cases m.testBit i <;> rfl

/-- With too little fuel the walk of `janet_unlisten_impl` ends in
`out_of_fuel`, not in a wrong cell. -/
theorem unlisten_find_fuel (s : EvState) (state : Nat) (post : List Nat) :
    ∀ (pre : List Nat) (fuel : Nat) (c : ChainCell) (start : Option Nat),
    s.readCell c = some start → IsChain s start (pre ++ state :: post) → state ∉ pre →
    pre.length < fuel ∨ unlisten_find fuel s state c = Outcome.out_of_fuel := by
  intro pre
  induction pre with
  | nil =>
    intro fuel c start _ _ _
    cases fuel with
    | zero => right; rfl
    | succ f => left; simp
  | cons b pre ih =>
    intro fuel c start hc h hn
    cases fuel with
    | zero => right; rfl
    | succ f =>
      rw [List.cons_append, IsChain_cons] at h
      obtain ⟨h1, l, h2, h3⟩ := h
      rw [h1] at hc
      have hb : b ≠ state := fun e => hn (e ▸ List.mem_cons_self _ _)
      have hn1 : state ∉ pre := fun e => hn (List.mem_cons_of_mem _ e)
      rcases ih f (ChainCell.next b) l._next (by simp [EvState.readCell, h2]) h3 hn1 with h | h
      · left; simp; omega
      · right; simp [unlisten_find, hc, hb, h]

/-- A `janet_unlisten_impl` that returns keeps the listener invariant. -/
theorem ListenInv_unlisten_impl (s s1 : EvState) (fuel a : Nat) (hi : ListenInv s)
    (h : (janet_unlisten_impl fuel s a).state = some s1) : ListenInv s1 := by
  cases hl : s.listeners a with
  | none => simp [janet_unlisten_impl, hl, Outcome.state] at h
  | some l =>
    obtain ⟨p, xs, hp, hc, hax⟩ := hi.linked a l hl
    obtain ⟨xs0, d1, hnd, hpoll, hbits⟩ := hi.chains l.pollable p hp
    have hx := IsChain_unique s xs0 xs _ d1 hc
    subst hx
    obtain ⟨pre, post, hsplit⟩ := List.append_of_mem hax
    subst hsplit
    have hapre : a ∉ pre := fun h1 => (List.nodup_append.mp hnd).2.2 h1 (List.mem_cons_self _ _)
    have hapost : a ∉ post := (List.nodup_cons.mp (List.nodup_append.mp hnd).2.1).1
    have hr0 : (call_machine s a JanetAsyncEvent.JANET_ASYNC_EVENT_DEINIT).readCell
        (ChainCell.head l.pollable) = some p.state := by
      simp [EvState.readCell, call_machine, hp]
    have hc0 : IsChain (call_machine s a JanetAsyncEvent.JANET_ASYNC_EVENT_DEINIT) p.state
        (pre ++ a :: post) := IsChain_congr s _ _ _ (fun x _ => rfl) hc
    rcases unlisten_find_fuel _ a post pre fuel _ _ hr0 hc0 hapre with hf | hf
    swap
    · simp [janet_unlisten_impl, hl, hf, Outcome.state] at h
    obtain ⟨s2, p1, e, q1, -, -, q4, q5, -, q7, q8, q9, q10, q11, q12, -⟩ :=
      janet_unlisten_impl_spec s a l p pre post fuel hl hp hc hnd hf
    rw [e] at h
    simp only [Outcome.state, Option.some.injEq] at h
    subst h
    -- listeners of the new state come from listeners of the old one
    have hback : ∀ r l1, s2.listeners r = some l1 → r ≠ a ∧ ∃ l0, s.listeners r = some l0 ∧
        l1.machine = l0.machine ∧ l1.fiber = l0.fiber ∧ l1.pollable = l0.pollable ∧
        l1._mask = l0._mask := by
      intro r l1 hr
      have hra : r ≠ a := by
        intro e1
        rw [e1, q8] at hr
        cases hr
      refine ⟨hra, ?_⟩
      cases h0 : s.listeners r with
      | none =>
        have hrp : r ∉ pre := by
          intro hm
          obtain ⟨l0, hl0⟩ := IsChain_allocated s _ _ r hc (List.mem_append_left _ hm)
          rw [h0] at hl0
          cases hl0
        rw [q9 r hra hrp, h0] at hr
        cases hr
      | some l0 =>
        obtain ⟨l1', g1, g2⟩ := q10 r l0 hra h0
        rw [hr] at g1
        injection g1 with g1
        subst g1
        exact ⟨l0, rfl, g2⟩
    have hmem : ∀ x, x ∈ pre ++ a :: post → x ≠ a → x ∈ pre ++ post := by
      intro x hx hxa
      rcases List.mem_append.mp hx with h1 | h1
      · exact List.mem_append_left _ h1
      · rcases List.mem_cons.mp h1 with h2 | h2
        · exact absurd h2 hxa
        · exact List.mem_append_right _ h2
    have hother : ∀ Q q ys, Q ≠ l.pollable → s.pollables Q = some q → IsChain s q.state ys →
        (∀ x, x ∈ ys → s2.listeners x = s.listeners x) := by
      intro Q q ys hQ hq hys x hx
      obtain ⟨ys0, e1, -, e3, -⟩ := hi.chains Q q hq
      have := IsChain_unique s ys0 ys _ e1 hys
      subst this
      obtain ⟨lx, hlx⟩ := IsChain_allocated s _ _ x hys hx
      have hxQ := e3 x hx lx hlx
      have hxn : x ∉ pre ++ a :: post := by
        intro hm
        exact hQ ((hpoll x hm lx hlx) ▸ hxQ.symm)
      refine q9 x (fun e1 => hxn (e1 ▸ hax)) (fun hm => hxn (List.mem_append_left _ hm))
    constructor
    · intro Q q hq
      by_cases e1 : Q = l.pollable
      · subst e1
        rw [q1] at hq
        injection hq with hq
        subst hq
        refine ⟨pre ++ post, q5, ?_, ?_, ?_⟩
        · have := List.nodup_append.mp hnd
          exact List.nodup_append.mpr ⟨this.1, (List.nodup_cons.mp this.2.1).2,
            fun x h1 h2 => this.2.2 h1 (List.mem_cons_of_mem _ h2)⟩
        · intro x hx l1 hl1
          obtain ⟨hxa, l0, g0, -, -, g3, -⟩ := hback x l1 hl1
          rw [g3]
          refine hpoll x ?_ l0 g0
          rcases List.mem_append.mp hx with h1 | h1
          · exact List.mem_append_left _ h1
          · exact List.mem_append_right _ (List.mem_cons_of_mem _ h1)
        · intro i hb
          rw [q4, testBit_clearBits] at hb
          simp only [Bool.and_eq_true, Bool.not_eq_true'] at hb
          obtain ⟨x, hx, l0, hl0, hbit⟩ := hbits i hb.1
          have hxa : x ≠ a := by
            intro e1
            subst e1
            rw [hl] at hl0
            injection hl0 with hl0
            subst hl0
            rw [hb.2] at hbit
            cases hbit
          obtain ⟨l1, g1, -, -, -, g5⟩ := q10 x l0 hxa hl0
          exact ⟨x, hmem x hx hxa, l1, g1, by rw [g5]; exact hbit⟩
      · rw [q7 Q e1] at hq
        obtain ⟨ys, c1, c2, c3, c4⟩ := hi.chains Q q hq
        have hsame := hother Q q ys e1 hq c1
        refine ⟨ys, IsChain_congr s s2 ys _ hsame c1, c2, ?_, ?_⟩
        · intro x hx l1 hl1
          rw [hsame x hx] at hl1
          exact c3 x hx l1 hl1
        · intro i hb
          obtain ⟨x, hx, l0, hl0, hbit⟩ := c4 i hb
          exact ⟨x, hx, l0, by rw [hsame x hx]; exact hl0, hbit⟩
    · intro r l1 hr
      obtain ⟨hra, l0, g0, -, -, g3, -⟩ := hback r l1 hr
      obtain ⟨q, ys, c1, c2, c3⟩ := hi.linked r l0 g0
      rw [g3]
      by_cases e1 : l0.pollable = l.pollable
      · rw [e1, hp] at c1
        injection c1 with c1
        subst c1
        have := IsChain_unique s ys _ _ c2 hc
        subst this
        rw [e1]
        exact ⟨p1, pre ++ post, q1, q5, hmem r c3 hra⟩
      · exact ⟨q, ys, by rw [q7 _ e1]; exact c1,
          IsChain_congr s s2 ys _ (hother _ q ys e1 c1 c2) c2, c3⟩
    · intro F x hx
      rw [q11] at hx
      by_cases c : l.fiber = some F ∧ (s.fibers F).waiting = some a
      · simp [c] at hx
      · simp only [c, if_false] at hx
        obtain ⟨l0, hl0, hf0⟩ := hi.waiting_listener F x hx
        have hxa : x ≠ a := by
          intro e1
          subst e1
          rw [hl] at hl0
          injection hl0 with hl0
          subst hl0
          exact c ⟨hf0, hx⟩
        obtain ⟨l1, g1, -, g3, -⟩ := q10 x l0 hxa hl0
        exact ⟨l1, g1, by rw [g3]; exact hf0⟩
    · intro x l1 F hx hf
      obtain ⟨hxa, l0, g0, -, g2, -⟩ := hback x l1 hx
      have hw0 := hi.listener_waiting x l0 F g0 (by rw [← g2]; exact hf)
      rw [q11]
      have c : ¬ (l.fiber = some F ∧ (s.fibers F).waiting = some a) := by
        intro c
        rw [hw0] at c
        injection c.2 with c2
        exact hxa c2
      simp only [c, if_false]
      exact hw0
    · obtain ⟨all, c1, c2, c3⟩ := hi.counted
      have hain : a ∈ all := (c2 a).mpr (by rw [hl]; simp)
      refine ⟨all.erase a, c1.erase a, ?_, ?_⟩
      · intro x
        rw [c1.mem_erase_iff]
        constructor
        · intro ⟨hxa, hx⟩
          have := (c2 x).mp hx
          cases h0 : s.listeners x with
          | none => exact absurd h0 this
          | some l0 =>
            obtain ⟨l1, g1, -⟩ := q10 x l0 hxa h0
            rw [g1]; simp
        · intro hx
          cases h1 : s2.listeners x with
          | none => exact absurd h1 hx
          | some l1 =>
            obtain ⟨hxa, l0, g0, -⟩ := hback x l1 h1
            exact ⟨hxa, (c2 x).mpr (by rw [g0]; simp)⟩
      · rw [q12, c3, List.length_erase_of_mem hain]
        have hpos : 0 < all.length := List.length_pos_of_mem hain
        rcases nodup_length_lt all 18446744073709551616 c1
          (fun x hx => hi.addresses x ((c2 x).mp hx)) with hb | hb
        · exact size_t_pred_pos _ hpos hb
        · rw [hb] at hain; cases hain
    · intro x hx
      cases h1 : s2.listeners x with
      | none => exact absurd h1 hx
      | some l1 =>
        obtain ⟨-, l0, g0, -⟩ := hback x l1 h1
        exact hi.addresses x (by rw [g0]; simp)


theorem janet_unlisten_impl_no_fuel (s : EvState) (a : Nat) (l : JanetListenerState)
    (hl : s.listeners a = some l) : janet_unlisten_impl 0 s a = Outcome.out_of_fuel := by
  simp [janet_unlisten_impl, hl, unlisten_find]

/-- The loop of `janet_pollable_deinit` on the chain of a pollable: it runs
out of fuel, or it takes the whole chain apart. -/
theorem janet_pollable_deinit_loop_spec (P fuel : Nat) :
    ∀ (xs : List Nat) (rounds : Nat) (s : EvState) (p : JanetPollable),
    ListenInv s → s.pollables P = some p → IsChain s p.state xs →
    (∃ s1 p1, janet_pollable_deinit_loop fuel rounds s p.state = Outcome.ok () s1 ∧
      ListenInv s1 ∧ s1.pollables P = some p1 ∧ p1.state = none ∧ p1.handle = p.handle ∧
      p1.flags = p.flags ∧
      s1.machine_calls = s.machine_calls ++ xs.flatMap (fun a =>
        [(a, JanetAsyncEvent.JANET_ASYNC_EVENT_CLOSE),
         (a, JanetAsyncEvent.JANET_ASYNC_EVENT_DEINIT)]) ∧
      s1.janet_vm_active_listeners + xs.length = s.janet_vm_active_listeners ∧
      (∀ a, a ∈ xs → s1.listeners a = none) ∧
      (∀ r, r ∉ xs → s1.listeners r = s.listeners r) ∧
      (∀ Q, Q ≠ P → s1.pollables Q = s.pollables Q) ∧
      (∀ g, s1.fibers g =
        if (∃ a, a ∈ xs ∧ (s.fibers g).waiting = some a)
        then { s.fibers g with waiting := none } else s.fibers g) ∧
      s1.janet_vm_spawn = s.janet_vm_spawn ∧ s1.channels = s.channels ∧
      s1.janet_vm_tq = s.janet_vm_tq ∧ s1.janet_vm_tq_count = s.janet_vm_tq_count ∧
      s1.janet_vm_tq_capacity = s.janet_vm_tq_capacity ∧
      s1.janet_vm_root_fiber = s.janet_vm_root_fiber) ∨
    (janet_pollable_deinit_loop fuel rounds s p.state = Outcome.out_of_fuel ∧
      (fuel = 0 ∨ rounds < xs.length)) := by
  intro xs
  induction xs with
  | nil =>
    intro rounds s p hi hp hc
    left
    rw [IsChain_nil] at hc
    rw [hc]
    refine ⟨s, p, by cases rounds <;> rfl, hi, hp, hc, rfl, rfl, by simp, rfl,
      fun a ha => absurd ha (List.not_mem_nil a), fun _ _ => rfl, fun _ _ => rfl, ?_,
      rfl, rfl, rfl, rfl, rfl, rfl⟩
    intro g; simp
  | cons a rest ih =>
    intro rounds s p hi hp hc
    obtain ⟨xs0, d1, hnd, hpoll, -⟩ := hi.chains P p hp
    have := IsChain_unique s xs0 _ _ d1 hc
    subst this
    have hc' := hc
    rw [IsChain_cons] at hc'
    obtain ⟨hst, l, hl, hrest⟩ := hc'
    have hlp : l.pollable = P := hpoll a (List.mem_cons_self _ _) l hl
    cases rounds with
    | zero =>
      right
      rw [hst]
      exact ⟨rfl, Or.inr (by simp)⟩
    | succ r =>
      cases fuel with
      | zero =>
        right
        rw [hst]
        refine ⟨?_, Or.inl rfl⟩
        have := janet_unlisten_impl_no_fuel
          (call_machine s a JanetAsyncEvent.JANET_ASYNC_EVENT_CLOSE) a l hl
        simp [janet_pollable_deinit_loop, hl, this]
      | succ f =>
        -- the state after the `close` event
        obtain ⟨s0, hs0⟩ : ∃ s0, s0 = call_machine s a JanetAsyncEvent.JANET_ASYNC_EVENT_CLOSE :=
          ⟨_, rfl⟩
        have hi0 : ListenInv s0 := by rw [hs0]; exact ListenInv_machine_call s a _ hi
        have hl0 : s0.listeners a = some l := by rw [hs0]; exact hl
        have hp0 : s0.pollables l.pollable = some p := by rw [hs0, hlp]; exact hp
        have hc0 : IsChain s0 p.state ([] ++ a :: rest) :=
          IsChain_congr s s0 _ _ (fun x _ => by rw [hs0]; rfl) hc
        obtain ⟨s2, p2, e, q1, q2, q3, -, q5, q6, q7, q8, q9, -, q11, q12, q13, q14, q15, q16,
          q17, q18, q19⟩ := janet_unlisten_impl_spec s0 a l p [] rest (f + 1) hl0 hp0 hc0
            (by simpa using hnd) (by simp)
        have hi2 : ListenInv s2 := ListenInv_unlisten_impl s0 s2 (f + 1) a hi0 (by rw [e]; rfl)
        rw [hlp] at q1
        have q6' := q6 rfl
        have q5' : IsChain s2 p2.state rest := by simpa using q5
        have hloop : janet_pollable_deinit_loop (f + 1) (r + 1) s p.state =
            janet_pollable_deinit_loop (f + 1) r s2 p2.state := by
          rw [hst, q6']
          simp only [janet_pollable_deinit_loop, hl]
          rw [← hs0, e]
        have hact := ListenInv_active_pos s0 a l hi0 hl0
        have harest : a ∉ rest := (List.nodup_cons.mp hnd).1
        rcases ih r s2 p2 hi2 q1 q5' with ⟨s1, p1, g1, g2, g3, g4, g5, g6, g7, g8, g9, g10, g11,
          g12, g13, g14, g15, g16, g17, g18⟩ | ⟨g1, g2⟩
        · left
          refine ⟨s1, p1, by rw [hloop]; exact g1, g2, g3, g4, by rw [g5, q2], by rw [g6, q3],
            ?_, ?_, ?_, ?_, ?_, ?_, by rw [g13, q14, hs0]; rfl, by rw [g14, q15, hs0]; rfl,
            by rw [g15, q16, hs0]; rfl, by rw [g16, q17, hs0]; rfl, by rw [g17, q18, hs0]; rfl,
            by rw [g18, q19, hs0]; rfl⟩
          · rw [g7, q13, hs0]
            simp [call_machine]
          · rw [q12, size_t_pred_pos _ hact.1 hact.2] at g8
            have : s0.janet_vm_active_listeners = s.janet_vm_active_listeners := by rw [hs0]; rfl
            rw [this] at g8 hact
            simp only [List.length_cons]
            omega
          · intro x hx
            rcases List.mem_cons.mp hx with rfl | hx
            · rw [g10 x harest]; exact q8
            · exact g9 x hx
          · intro x hx
            have hxa : x ≠ a := fun e1 => hx (e1 ▸ List.mem_cons_self _ _)
            have hxr : x ∉ rest := fun e1 => hx (List.mem_cons_of_mem _ e1)
            rw [g10 x hxr, q9 x hxa (List.not_mem_nil x), hs0]
            rfl
          · intro Q hQ
            rw [g11 Q hQ, q7 Q (by rw [hlp]; exact hQ), hs0]
            rfl
          · intro g
            rw [g12 g, q11 g]
            have hs0f : s0.fibers g = s.fibers g := by rw [hs0]; rfl
            rw [hs0f]
            by_cases hw : (s.fibers g).waiting = some a
            · have hlf : l.fiber = some g := by
                obtain ⟨l', h1, h2⟩ := hi.waiting_listener g a hw
                rw [hl] at h1
                injection h1 with h1
                rw [h1]; exact h2
              have c1 : ∃ x, x ∈ a :: rest ∧ (s.fibers g).waiting = some x :=
                ⟨a, List.mem_cons_self _ _, hw⟩
              simp [hlf, hw, c1]
            · have c0 : ¬ (l.fiber = some g ∧ (s.fibers g).waiting = some a) := fun c => hw c.2
              simp only [c0, if_false]
              by_cases c1 : ∃ x, x ∈ rest ∧ (s.fibers g).waiting = some x
              · have c2 : ∃ x, x ∈ a :: rest ∧ (s.fibers g).waiting = some x := by
                  obtain ⟨x, hx, hwx⟩ := c1
                  exact ⟨x, List.mem_cons_of_mem _ hx, hwx⟩
                simp only [c1, c2, if_true]
              · have c2 : ¬ ∃ x, x ∈ a :: rest ∧ (s.fibers g).waiting = some x := by
                  intro ⟨x, hx, hwx⟩
                  rcases List.mem_cons.mp hx with rfl | hx
                  · exact hw hwx
                  · exact c1 ⟨x, hx, hwx⟩
                simp only [c1, c2, if_false]
        · right
          refine ⟨by rw [hloop]; exact g1, ?_⟩
          rcases g2 with g2 | g2
          · exact Or.inl g2
          · exact Or.inr (by simp; omega)



/-- `janet_pollable_deinit` on a pollable of a state with the listener
invariant: it runs out of fuel, or it returns with the chain taken apart. -/
theorem janet_pollable_deinit_total (CLOSED P fuel : Nat) (s : EvState) (p : JanetPollable)
    (xs : List Nat) (hi : ListenInv s) (hp : s.pollables P = some p)
    (hc : IsChain s p.state xs) :
    (∃ s1 p1, janet_pollable_deinit CLOSED fuel s P = Outcome.ok () s1 ∧
      ListenInv s1 ∧ s1.pollables P = some p1 ∧ p1.state = none ∧ p1._mask = 0 ∧
      p1.handle = p.handle ∧ p1.flags = p.flags ||| CLOSED ∧
      s1.machine_calls = s.machine_calls ++ xs.flatMap (fun a =>
        [(a, JanetAsyncEvent.JANET_ASYNC_EVENT_CLOSE),
         (a, JanetAsyncEvent.JANET_ASYNC_EVENT_DEINIT)]) ∧
      s1.janet_vm_active_listeners + xs.length = s.janet_vm_active_listeners ∧
      (∀ a, a ∈ xs → s1.listeners a = none) ∧
      (∀ r, r ∉ xs → s1.listeners r = s.listeners r) ∧
      (∀ Q, Q ≠ P → s1.pollables Q = s.pollables Q) ∧
      (∀ g, s1.fibers g =
        if (∃ a, a ∈ xs ∧ (s.fibers g).waiting = some a)
        then { s.fibers g with waiting := none } else s.fibers g) ∧
      s1.janet_vm_spawn = s.janet_vm_spawn ∧ s1.channels = s.channels ∧
      s1.janet_vm_tq = s.janet_vm_tq ∧ s1.janet_vm_tq_count = s.janet_vm_tq_count ∧
      s1.janet_vm_tq_capacity = s.janet_vm_tq_capacity ∧
      s1.janet_vm_root_fiber = s.janet_vm_root_fiber) ∨
    (janet_pollable_deinit CLOSED fuel s P = Outcome.out_of_fuel ∧
      (fuel = 0 ∨ fuel < xs.length)) := by
  obtain ⟨s0, hs0⟩ : ∃ s0, s0 = s.setPollable P { p with flags := p.flags ||| CLOSED } :=
    ⟨_, rfl⟩
  have hp0 : s0.pollables P = some { p with flags := p.flags ||| CLOSED } := by
    rw [hs0]; simp [EvState.setPollable]
  have hother : ∀ Q, Q ≠ P → s0.pollables Q = s.pollables Q := by
    intro Q hQ; rw [hs0]; simp [EvState.setPollable, hQ]
  have hi0 : ListenInv s0 := by
    refine ListenInv_congr s s0 (by rw [hs0]; rfl) ?_ ?_ (by rw [hs0]; rfl)
      (fun g => by rw [hs0]; rfl) hi
    · intro Q q1 hq
      by_cases e : Q = P
      · subst e
        rw [hp0] at hq
        injection hq with hq
        subst hq
        exact ⟨p, hp, rfl, rfl⟩
      · rw [hother Q e] at hq
        exact ⟨q1, hq, rfl, rfl⟩
    · intro Q q hq
      by_cases e : Q = P
      · subst e
        rw [hp] at hq
        injection hq with hq
        subst hq
        exact ⟨_, hp0, rfl⟩
      · exact ⟨q, by rw [hother Q e]; exact hq, rfl⟩
  have hc0 : IsChain s0 ({ p with flags := p.flags ||| CLOSED } : JanetPollable).state xs :=
    IsChain_congr s s0 _ _ (fun x _ => by rw [hs0]; rfl) hc
  rcases janet_pollable_deinit_loop_spec P fuel xs fuel s0 _ hi0 hp0 hc0 with
    ⟨s1, p1, g1, g2, g3, g4, g5, g6, g7, g8, g9, g10, g11, g12, g13, g14, g15, g16, g17, g18⟩ |
    ⟨g1, g2⟩
  · left
    have g1' : janet_pollable_deinit_loop fuel fuel s0 p.state = Outcome.ok () s1 := g1
    have hmask : p1._mask = 0 := by
      obtain ⟨ys, c1, -, -, c4⟩ := g2.chains P p1 g3
      rw [g4] at c1
      cases ys with
      | cons y ys => exact absurd ((IsChain_cons _ _ _ _).mp c1).1 (by simp)
      | nil =>
        apply Nat.eq_of_testBit_eq
        intro i
        rw [Nat.zero_testBit]
        cases hb : p1._mask.testBit i with
        | false => rfl
        | true =>
          obtain ⟨x, hx, -⟩ := c4 i hb
          exact absurd hx (List.not_mem_nil x)
    have hfin : s1.setPollable P { p1 with state := none } = s1 := by
      have : ({ p1 with state := none } : JanetPollable) = p1 := by
        cases p1
        simp only [JanetPollable.mk.injEq, true_and, and_true]
        exact g4.symm
      rw [this]
      cases s1
      simp only [EvState.setPollable, EvState.mk.injEq, true_and, and_true]
      funext r
      by_cases e : r = P
      · subst e; simp; exact g3.symm
      · simp [e]
    have hunf : janet_pollable_deinit CLOSED fuel s P = Outcome.ok () s1 := by
      unfold janet_pollable_deinit
      simp only [hp]
      rw [← hs0, g1']
      simp only [g3, hfin]
    refine ⟨s1, p1, hunf, g2, g3, g4, hmask, g5, g6, by rw [g7, hs0]; rfl, by rw [g8, hs0]; rfl,
      g9, fun r hr => by rw [g10 r hr, hs0]; rfl,
      fun Q hQ => by rw [g11 Q hQ, hother Q hQ], ?_, by rw [g13, hs0]; rfl,
      by rw [g14, hs0]; rfl, by rw [g15, hs0]; rfl, by rw [g16, hs0]; rfl,
      by rw [g17, hs0]; rfl, by rw [g18, hs0]; rfl⟩
    intro g
    rw [g12 g]
    have : s0.fibers g = s.fibers g := by rw [hs0]; rfl
    rw [this]
  · right
    have g1' : janet_pollable_deinit_loop fuel fuel s0 p.state = Outcome.out_of_fuel := g1
    refine ⟨?_, g2⟩
    unfold janet_pollable_deinit
    simp only [hp]
    rw [← hs0, g1']

theorem ListenInv_pollable_deinit (CLOSED : Nat) (s s1 : EvState) (fuel P : Nat)
    (hi : ListenInv s) (h : (janet_pollable_deinit CLOSED fuel s P).state = some s1) :
    ListenInv s1 := by
  cases hp : s.pollables P with
  | none => simp [janet_pollable_deinit, hp, Outcome.state] at h
  | some p =>
    obtain ⟨xs, c1, -⟩ := hi.chains P p hp
    rcases janet_pollable_deinit_total CLOSED P fuel s p xs hi hp c1 with
      ⟨s2, p1, g1, g2, -⟩ | ⟨g1, -⟩
    · rw [g1] at h
      simp only [Outcome.state, Option.some.injEq] at h
      rw [← h]
      exact g2
    · rw [g1] at h
      simp [Outcome.state] at h

theorem ListenInv_unlisten (s s1 : EvState) (fuel a : Nat) (status : Int) (errno : Nat)
    (hi : ListenInv s) (h : (janet_unlisten fuel s a status errno).state = some s1) :
    ListenInv s1 := by
  unfold janet_unlisten at h
  cases hl : s.listeners a with
  | none => simp [hl, Outcome.state] at h
  | some l =>
    cases hp : s.pollables l.pollable with
    | none => simp [hl, hp, Outcome.state] at h
    | some p =>
      simp only [hl, hp] at h
      by_cases hs : status = -1
      · simp only [hs, if_true, Outcome.state, Option.some.injEq] at h
        rw [← h]
        exact hi
      · simp only [hs, if_false] at h
        exact ListenInv_unlisten_impl s s1 fuel a hi h

theorem listen_impl_panic_state (SPAWNER : Nat) (s s1 : EvState) (P behavior mask : Nat)
    (mem : Option Nat) (q : Panic)
    (h : janet_listen_impl SPAWNER s P behavior mask mem = Outcome.panic q s1) : s1 = s := by
  unfold janet_listen_impl at h
  cases hp : s.pollables P with
  | none => simp [hp] at h
  | some p =>
    simp only [hp] at h
    split at h
    · injection h with _ h; exact h.symm
    · split at h
      · injection h with _ h; exact h.symm
      · cases mem with
        | none => simp at h
        | some a => simp at h

theorem ListenInv_listen (SPAWNER : Nat) (s s1 : EvState) (fuel P behavior mask a : Nat)
    (status : Int) (errno : Nat) (hi : ListenInv s) (ha : s.listeners a = none) (ha0 : 0 < a)
    (ha1 : a < 18446744073709551616)
    (h : (janet_listen SPAWNER fuel s P behavior mask (some a) status errno).state = some s1) :
    ListenInv s1 := by
  unfold janet_listen at h
  cases hp : s.pollables P with
  | none => simp [hp, Outcome.state] at h
  | some p =>
    simp only [hp] at h
    cases hr : janet_listen_impl SPAWNER s P behavior mask (some a) with
    | ok r s2 =>
      have hi2 := ListenInv_listen_impl SPAWNER s s2 P behavior mask a r hi ha ha0 ha1 hr
      simp only [hr] at h
      by_cases hs : status = -1
      · simp only [hs, if_true] at h
        cases hu : janet_unlisten_impl fuel s2 r with
        | ok u s3 =>
          simp only [hu, Outcome.state, Option.some.injEq] at h
          rw [← h]
          exact ListenInv_unlisten_impl s2 s3 fuel r hi2 (by rw [hu]; rfl)
        | panic q s3 =>
          simp only [hu, Outcome.state, Option.some.injEq] at h
          rw [← h]
          exact ListenInv_unlisten_impl s2 s3 fuel r hi2 (by rw [hu]; rfl)
        | exit => simp [hu, Outcome.state] at h
        | undefined => simp [hu, Outcome.state] at h
        | out_of_fuel => simp [hu, Outcome.state] at h
      · simp only [hs, if_false, Outcome.state, Option.some.injEq] at h
        rw [← h]
        exact hi2
    | panic q s2 =>
      simp only [hr, Outcome.state, Option.some.injEq] at h
      rw [← h, listen_impl_panic_state SPAWNER s s2 P behavior mask _ q hr]
      exact hi
    | exit => simp [hr, Outcome.state] at h
    | undefined => simp [hr, Outcome.state] at h
    | out_of_fuel => simp [hr, Outcome.state] at h


/-! ## The rest of the module leaves the listeners alone -/

theorem SameListeners_refl (s : EvState) : SameListeners s s :=
  ⟨rfl, rfl, rfl, rfl, fun _ => rfl⟩

theorem SameListeners_trans (s s1 s2 : EvState) (h1 : SameListeners s s1)
    (h2 : SameListeners s1 s2) : SameListeners s s2 :=
  ⟨h2.1.trans h1.1, h2.2.1.trans h1.2.1, h2.2.2.1.trans h1.2.2.1,
    h2.2.2.2.1.trans h1.2.2.2.1, fun g => (h2.2.2.2.2 g).trans (h1.2.2.2.2 g)⟩

theorem SameListeners_of_setTq (s : EvState) (i : Nat) (x : JanetTimeout) :
    SameListeners s (s.setTq i x) :=
  ⟨rfl, rfl, rfl, rfl, fun _ => rfl⟩

theorem SameListeners_of_setTimeoutIndex (s : EvState) (f : Nat) (k : Int) :
    SameListeners s (s.setTimeoutIndex f k) := by
  refine ⟨rfl, rfl, rfl, rfl, fun g => ?_⟩
  unfold EvState.setTimeoutIndex EvState.setFiber
  by_cases e : g = f
  · subst e; simp
  · simp [e]

theorem SameListeners_of_pop_timeout_swap (s : EvState) (index sm : Nat) :
    SameListeners s (pop_timeout_swap s index sm) :=
  SameListeners_trans _ _ _
    (SameListeners_trans _ _ _
      (SameListeners_trans _ _ _ (SameListeners_of_setTq s _ _) (SameListeners_of_setTq _ _ _))
      (SameListeners_of_setTimeoutIndex _ _ _))
    (SameListeners_of_setTimeoutIndex _ _ _)

theorem SameListeners_of_pop_timeout_loop (fuel : Nat) : ∀ (s : EvState) (index : Nat),
    SameListeners s (pop_timeout_loop fuel s index) := by
  induction fuel with
  | zero => intro s index; exact SameListeners_refl s
  | succ fuel ih =>
    intro s index
    have key : ∀ sm, SameListeners s
        (if sm = index then s else pop_timeout_loop fuel (pop_timeout_swap s index sm) sm) := by
      intro sm
      by_cases e : sm = index
      · simp only [e, if_true]; exact SameListeners_refl s
      · simp only [e, if_false]
        exact SameListeners_trans _ _ _ (SameListeners_of_pop_timeout_swap s _ _) (ih _ _)
    unfold pop_timeout_loop
    exact key _

theorem SameListeners_of_pop_timeout (s : EvState) (index : Nat) :
    SameListeners s (pop_timeout s index) := by
  unfold pop_timeout
  by_cases h : s.janet_vm_tq_count ≤ index
  · simp only [h, if_true]; exact SameListeners_refl s
  · simp only [h, if_false]
    refine SameListeners_trans s _ _ ?_ (SameListeners_of_pop_timeout_loop _ _ _)
    refine ⟨rfl, rfl, rfl, rfl, fun g => ?_⟩
    simp only [EvState.setTimeoutIndex, EvState.setFiber, EvState.setTq]
    split_ifs <;> simp_all

theorem SameListeners_of_add_timeout_loop (fuel : Nat) : ∀ (s : EvState) (index : Nat),
    SameListeners s (add_timeout_loop fuel s index) := by
  induction fuel with
  | zero => intro s index; exact SameListeners_refl s
  | succ fuel ih =>
    intro s index
    unfold add_timeout_loop
    by_cases h0 : index > 0
    · simp only [h0, if_true]
      by_cases h1 : (s.janet_vm_tq ((index - 1) >>> 1)).when ≤ (s.janet_vm_tq index).when
      · simp only [h1, if_true]; exact SameListeners_refl s
      · simp only [h1, if_false]
        exact SameListeners_trans _ _ _
          (SameListeners_trans _ _ _ (SameListeners_of_setTq s _ _) (SameListeners_of_setTq _ _ _))
          (ih _ _)
    · simp only [h0, if_false]; exact SameListeners_refl s

theorem SameListeners_of_add_timeout (s : EvState) (tmo : JanetTimeout) :
    SameListeners s (add_timeout s tmo) := by
  have key : ∀ (s3 : EvState), SameListeners s s3 → ∀ (c : Prop) [Decidable c] (i : Nat),
      SameListeners s (if c then pop_timeout s3 i else s3) := by
    intro s3 h3 c _ i
    by_cases hc : c
    · simp only [hc, if_true]; exact SameListeners_trans _ _ _ h3 (SameListeners_of_pop_timeout _ _)
    · simp only [hc, if_false]; exact h3
  unfold add_timeout
  simp only []
  refine SameListeners_trans s _ _ ?_ (SameListeners_of_add_timeout_loop _ _ _)
  refine SameListeners_trans s _ _ ?_ (SameListeners_of_setTimeoutIndex _ _ _)
  refine key _ ?_ _ _
  split <;> exact ⟨rfl, rfl, rfl, rfl, fun _ => rfl⟩

theorem SameListeners_of_janet_schedule (s s1 : EvState) (f : Nat) (v : Janet)
    (h : janet_schedule s f v = some s1) : SameListeners s s1 := by
  have hflag : SameListeners s (s.setFiber f { s.fibers f with scheduled := true }) := by
    refine ⟨rfl, rfl, rfl, rfl, fun g => ?_⟩
    unfold EvState.setFiber
    by_cases e : g = f
    · subst e; simp
    · simp [e]
  unfold janet_schedule at h
  split at h
  · injection h with h; subst h; exact SameListeners_refl s
  · simp only [] at h
    split at h
    · injection h with h; subst h
      exact SameListeners_trans _ _ _ hflag ⟨rfl, rfl, rfl, rfl, fun _ => rfl⟩
    · injection h with h; subst h; exact hflag
    · cases h

theorem SameListeners_of_pop_task (s s1 : EvState) (t : JanetTask)
    (h : pop_task s = some (t, s1)) : SameListeners s s1 := by
  unfold pop_task at h
  split at h
  · simp only [Option.some.injEq, Prod.mk.injEq] at h
    obtain ⟨-, h⟩ := h
    subst h
    refine ⟨rfl, rfl, rfl, rfl, fun g => ?_⟩
    simp only [EvState.setFiber]
    split_ifs <;> simp_all
  · cases h

theorem SameListeners_root (s : EvState) (f : Nat) :
    SameListeners s { s with janet_vm_root_fiber := f } :=
  ⟨rfl, rfl, rfl, rfl, fun _ => rfl⟩

theorem ListenInv_cancel (s s1 : EvState) (fuel F : Nat) (status : Int) (errno : Nat)
    (hi : ListenInv s) (h : (janet_cancel fuel s F status errno).state = some s1) :
    ListenInv s1 := by
  unfold janet_cancel at h
  have key : ∀ s2, ListenInv s2 →
      ((if (s2.fibers F).timeout_index ≥ 0 then
          Outcome.ok () ((pop_timeout s2 (s2.fibers F).timeout_index.toNat).setTimeoutIndex F (-1))
        else Outcome.ok () s2 : Outcome Unit).state = some s1) → ListenInv s1 := by
    intro s2 hi2 h2
    split at h2
    · simp only [Outcome.state, Option.some.injEq] at h2
      rw [← h2]
      exact ListenInv_same _ _ (SameListeners_trans _ _ _ (SameListeners_of_pop_timeout _ _)
        (SameListeners_of_setTimeoutIndex _ _ _)) hi2
    · simp only [Outcome.state, Option.some.injEq] at h2
      rw [← h2]
      exact hi2
  cases hw : (s.fibers F).waiting with
  | none =>
    simp only [hw] at h
    exact key s hi h
  | some w =>
    simp only [hw] at h
    cases hu : janet_unlisten fuel s w status errno with
    | ok u s2 =>
      simp only [hu] at h
      exact key s2 (ListenInv_unlisten s s2 fuel w status errno hi (by rw [hu]; rfl)) h
    | panic q s2 =>
      simp only [hu, Outcome.state, Option.some.injEq] at h
      rw [← h]
      exact ListenInv_unlisten s s2 fuel w status errno hi (by rw [hu]; rfl)
    | exit => simp [hu, Outcome.state] at h
    | undefined => simp [hu, Outcome.state] at h
    | out_of_fuel => simp [hu, Outcome.state] at h

/-- Every reachable state has the listener invariant. -/
theorem ListenReach_inv (SPAWNER CLOSED : Nat) (s : EvState)
    (h : ListenReach SPAWNER CLOSED s) : ListenInv s := by
  induction h with
  | init root => exact ListenInv_init root
  | other s s1 _ hs ih => exact ListenInv_same s s1 hs ih
  | pollable_init s P handle _ hP ih => exact ListenInv_pollable_init s P handle ih hP
  | listen s s1 fuel P behavior mask a status errno _ ha ha0 ha1 h ih =>
    exact ListenInv_listen SPAWNER s s1 fuel P behavior mask a status errno ih ha ha0 ha1 h
  | unlisten s s1 fuel a status errno _ h ih =>
    exact ListenInv_unlisten s s1 fuel a status errno ih h
  | unlisten_impl s s1 fuel a _ h ih => exact ListenInv_unlisten_impl s s1 fuel a ih h
  | pollable_deinit s s1 fuel P _ h ih =>
    exact ListenInv_pollable_deinit CLOSED s s1 fuel P ih h
  | cancel s s1 fuel F status errno _ h ih =>
    exact ListenInv_cancel s s1 fuel F status errno ih h

/-! ## Cancelling -/

theorem pop_timeout_loop_queues (fuel : Nat) : ∀ (s : EvState) (index : Nat),
    (pop_timeout_loop fuel s index).janet_vm_spawn = s.janet_vm_spawn ∧
    (pop_timeout_loop fuel s index).channels = s.channels := by
  induction fuel with
  | zero => intro s index; exact ⟨rfl, rfl⟩
  | succ fuel ih =>
    intro s index
    have key : ∀ sm,
        (if sm = index then s else pop_timeout_loop fuel (pop_timeout_swap s index sm)
          sm).janet_vm_spawn = s.janet_vm_spawn ∧
        (if sm = index then s else pop_timeout_loop fuel (pop_timeout_swap s index sm)
          sm).channels = s.channels := by
      intro sm
      by_cases e : sm = index
      · simp only [e, if_true, and_self]
      · simp only [e, if_false]
        exact ⟨(ih _ _).1, (ih _ _).2⟩
    unfold pop_timeout_loop
    exact key _

theorem pop_timeout_queues (s : EvState) (index : Nat) :
    (pop_timeout s index).janet_vm_spawn = s.janet_vm_spawn ∧
    (pop_timeout s index).channels = s.channels := by
  unfold pop_timeout
  by_cases h : s.janet_vm_tq_count ≤ index
  · simp only [h, if_true, and_self]
  · simp only [h, if_false]
    exact ⟨(pop_timeout_loop_queues _ _ _).1, (pop_timeout_loop_queues _ _ _).2⟩

/-- What a `janet_unlisten_impl` that returns has done, in a state with the
listener invariant. -/
theorem janet_unlisten_impl_returned (s s1 : EvState) (fuel a : Nat) (hi : ListenInv s)
    (h : janet_unlisten_impl fuel s a = Outcome.ok () s1) :
    ∃ l, s.listeners a = some l ∧ s1.listeners a = none ∧
      (∀ g, s1.fibers g =
        if l.fiber = some g ∧ (s.fibers g).waiting = some a
        then { s.fibers g with waiting := none } else s.fibers g) ∧
      s1.janet_vm_active_listeners + 1 = s.janet_vm_active_listeners ∧
      s1.machine_calls = s.machine_calls ++ [(a, JanetAsyncEvent.JANET_ASYNC_EVENT_DEINIT)] ∧
      s1.janet_vm_spawn = s.janet_vm_spawn ∧ s1.channels = s.channels ∧
      s1.janet_vm_tq = s.janet_vm_tq ∧ s1.janet_vm_tq_count = s.janet_vm_tq_count ∧
      s1.janet_vm_root_fiber = s.janet_vm_root_fiber := by
  cases hl : s.listeners a with
  | none => simp [janet_unlisten_impl, hl] at h
  | some l =>
    obtain ⟨p, xs, hp, hc, hax⟩ := hi.linked a l hl
    obtain ⟨xs0, d1, hnd, -, -⟩ := hi.chains l.pollable p hp
    have hx := IsChain_unique s xs0 xs _ d1 hc
    subst hx
    obtain ⟨pre, post, hsplit⟩ := List.append_of_mem hax
    subst hsplit
    have hapre : a ∉ pre := fun h1 => (List.nodup_append.mp hnd).2.2 h1 (List.mem_cons_self _ _)
    have hr0 : (call_machine s a JanetAsyncEvent.JANET_ASYNC_EVENT_DEINIT).readCell
        (ChainCell.head l.pollable) = some p.state := by
      simp [EvState.readCell, call_machine, hp]
    have hc0 : IsChain (call_machine s a JanetAsyncEvent.JANET_ASYNC_EVENT_DEINIT) p.state
        (pre ++ a :: post) := IsChain_congr s _ _ _ (fun x _ => rfl) hc
    rcases unlisten_find_fuel _ a post pre fuel _ _ hr0 hc0 hapre with hf | hf
    swap
    · simp [janet_unlisten_impl, hl, hf] at h
    obtain ⟨s2, p1, e, -, -, -, -, -, -, -, q8, -, -, q11, q12, q13, q14, q15, q16, q17, -, q19⟩ :=
      janet_unlisten_impl_spec s a l p pre post fuel hl hp hc hnd hf
    rw [e] at h
    injection h with _ h
    subst h
    have hact := ListenInv_active_pos s a l hi hl
    refine ⟨l, rfl, q8, q11, ?_, q13, q14, q15, q16, q17, q19⟩
    rw [q12, size_t_pred_pos _ hact.1 hact.2]
    omega

/-- What a `janet_cancel` that returns has done, in a state with the listener
invariant. -/
theorem janet_cancel_returned (s s1 : EvState) (fuel F : Nat) (status : Int) (errno : Nat)
    (hi : ListenInv s) (h : janet_cancel fuel s F status errno = Outcome.ok () s1) :
    ListenInv s1 ∧ (s1.fibers F).waiting = none ∧ (s1.fibers F).timeout_index < 0 ∧
      (-1 ≤ (s.fibers F).timeout_index → (s1.fibers F).timeout_index = -1) ∧
      s1.janet_vm_spawn = s.janet_vm_spawn ∧ s1.channels = s.channels := by
  have hinv : ListenInv s1 :=
    ListenInv_cancel s s1 fuel F status errno hi (by rw [h]; rfl)
  refine ⟨hinv, ?_⟩
  have key : ∀ s2, (s2.fibers F).waiting = none →
      (s2.fibers F).timeout_index = (s.fibers F).timeout_index →
      s2.janet_vm_spawn = s.janet_vm_spawn → s2.channels = s.channels →
      (if (s2.fibers F).timeout_index ≥ 0 then
          Outcome.ok () ((pop_timeout s2 (s2.fibers F).timeout_index.toNat).setTimeoutIndex F (-1))
        else Outcome.ok () s2 : Outcome Unit) = Outcome.ok () s1 →
      (s1.fibers F).waiting = none ∧ (s1.fibers F).timeout_index < 0 ∧
      (-1 ≤ (s.fibers F).timeout_index → (s1.fibers F).timeout_index = -1) ∧
      s1.janet_vm_spawn = s.janet_vm_spawn ∧ s1.channels = s.channels := by
    intro s2 hw2 ht2 hq2 hc2 h2
    by_cases c : (s2.fibers F).timeout_index ≥ 0
    · simp only [c, if_true] at h2
      injection h2 with _ h2
      subst h2
      have hsame := SameListeners_trans _ _ _
        (SameListeners_of_pop_timeout s2 (s2.fibers F).timeout_index.toNat)
        (SameListeners_of_setTimeoutIndex _ F (-1))
      have hq := pop_timeout_queues s2 (s2.fibers F).timeout_index.toNat
      have hti : (((pop_timeout s2 (s2.fibers F).timeout_index.toNat).setTimeoutIndex F
          (-1)).fibers F).timeout_index = -1 := by
        simp [EvState.setTimeoutIndex, EvState.setFiber]
      refine ⟨by rw [hsame.2.2.2.2 F]; exact hw2, by rw [hti]; decide, fun _ => hti, ?_, ?_⟩
      · exact hq.1.trans hq2
      · exact hq.2.trans hc2
    · simp only [c, if_false] at h2
      injection h2 with _ h2
      subst h2
      refine ⟨hw2, by omega, fun h1 => ?_, hq2, hc2⟩
      rw [ht2] at c ⊢
      omega
  unfold janet_cancel at h
  cases hw : (s.fibers F).waiting with
  | none =>
    simp only [hw] at h
    exact key s hw rfl rfl rfl h
  | some w =>
    simp only [hw] at h
    cases hu : janet_unlisten fuel s w status errno with
    | ok u s2 =>
      simp only [hu] at h
      have hu2 : janet_unlisten_impl fuel s w = Outcome.ok () s2 := by
        unfold janet_unlisten at hu
        cases hl : s.listeners w with
        | none => simp [hl] at hu
        | some l =>
          cases hp : s.pollables l.pollable with
          | none => simp [hl, hp] at hu
          | some p =>
            simp only [hl, hp] at hu
            by_cases hs : status = -1
            · simp [hs] at hu
            · simp only [hs, if_false] at hu
              exact hu
      obtain ⟨l, g1, -, g3, -, -, g6, g7, -⟩ := janet_unlisten_impl_returned s s2 fuel w hi hu2
      obtain ⟨l', e1, e2⟩ := hi.waiting_listener F w hw
      rw [g1] at e1
      injection e1 with e1
      subst e1
      have hf : s2.fibers F = { s.fibers F with waiting := none } := by
        rw [g3 F]; simp [e2, hw]
      exact key s2 (by rw [hf]) (by rw [hf]) g6 g7 h
    | panic q s2 => simp [hu] at h
    | exit => simp [hu] at h
    | undefined => simp [hu] at h
    | out_of_fuel => simp [hu] at h

/-! ## Reachable listener states used as instances -/

theorem freshPollable_reach (SPAWNER CLOSED : Nat) : ListenReach SPAWNER CLOSED freshPollable :=
  ListenReach.pollable_init _ 0 3 (ListenReach.init 1) (fun p h => by cases h)

theorem oneListener_reach (CLOSED : Nat) : ListenReach 4 CLOSED (oneListener 4 1) :=
  ListenReach.listen freshPollable _ 1 0 7 1 100 0 0 (freshPollable_reach 4 CLOSED) rfl
    (by decide) (by decide) rfl

theorem listenerAndTimer_reach (CLOSED : Nat) : ListenReach 4 CLOSED (listenerAndTimer 4 1) :=
  ListenReach.other _ _ (oneListener_reach CLOSED) (SameListeners_of_add_timeout _ _)

theorem twoListenersState_reach (CLOSED : Nat) :
    ListenReach 4 CLOSED (twoListenersState 4 1 2) :=
  ListenReach.listen { oneListener 4 1 with janet_vm_root_fiber := 2 } _ 1 0 8 2 101 0 0
    (ListenReach.other _ _ (oneListener_reach CLOSED) (SameListeners_root _ 2)) rfl
    (by decide) (by decide) rfl

/-! ## Claim C11 -/

/-- Claim C11, failing input: fiber 1 sleeps until 30 and then fiber 2 until
10, both starting with `timeout_index = -1`.  The first `add_timeout` keeps
the back-link; the second swaps the two entries in its sift-up without
writing `timeout_index`, so entry 0 belongs to fiber 2 while fiber 1 has
`timeout_index = 0` and fiber 2 has 1: neither form of the back-link holds. -/
theorem C11_sift_up_leaves_stale_index :
    TqLinked (janet_ev_init_common 0) ∧
    TqLinked (sleepAll [{ when := 30, fiber := 1 }]) ∧
    tqEntries twoSleeps = [{ when := 10, fiber := 2 }, { when := 30, fiber := 1 }] ∧
    (twoSleeps.fibers 1).timeout_index = 0 ∧ (twoSleeps.fibers 2).timeout_index = 1 ∧
    ¬ TqLinked twoSleeps ∧ ¬ TqIndexed twoSleeps := by
  refine ⟨?_, ?_, by decide, by decide, by decide, ?_, ?_⟩
  · intro f h
    have : ((janet_ev_init_common 0).fibers f).timeout_index = -1 := rfl
    rw [this] at h
    exact absurd h (by decide)
  · intro f h
    by_cases e : f = 1
    · subst e; decide
    · exfalso
      have : ((sleepAll [{ when := 30, fiber := 1 }]).fibers f).timeout_index = -1 := by
        simp [sleepAll, add_timeout, add_timeout_loop, janet_ev_init_common,
          EvState.setTimeoutIndex, EvState.setFiber, EvState.setTq, JanetFiber.fresh, e]
      rw [this] at h
      exact absurd h (by decide)
  · intro h
    exact absurd (h 1 (by decide)).2 (by decide)
  · intro h
    exact absurd (h 0 (by decide)) (by decide)

/-! ## Claim C12 -/

/-- Claim C12, failing input: seven sleeps leave the min-heap 1, 10, 2, 11,
12, 3, 4 with every back-link right.  `pop_timeout(3)`, which is what
`janet_cancel` of fiber 4 calls, moves the last entry (4) to index 3 and sifts
it down only: the entries left are the other six, but 4 now sits under 10, so
the array is no min-heap. -/
theorem C12_pop_inside_breaks_heap :
    TqHeap sevenSleeps ∧ TqIndexed sevenSleeps ∧ 3 < sevenSleeps.janet_vm_tq_count ∧
    (tqEntries sevenSleeps).map JanetTimeout.when = [1, 10, 2, 11, 12, 3, 4] ∧
    (tqEntries (pop_timeout sevenSleeps 3)).map JanetTimeout.when = [1, 10, 2, 4, 12, 3] ∧
    ¬ TqHeap (pop_timeout sevenSleeps 3) ∧
    (sevenSleeps.fibers 4).timeout_index = 3 ∧
    ∃ s1, janet_cancel 1 sevenSleeps 4 0 0 = Outcome.ok () s1 ∧
      (tqEntries s1).map JanetTimeout.when = [1, 10, 2, 4, 12, 3] ∧ ¬ TqHeap s1 := by
  refine ⟨?_, ?_, by decide, by decide, by decide, ?_, by decide, _, rfl, by decide, ?_⟩
  · intro i h1 h2
    have h3 : i < 7 := h2
    interval_cases i <;> decide
  · intro i h2
    have h3 : i < 7 := h2
    interval_cases i <;> decide
  · intro h
    exact absurd (h 3 (by decide) (by decide)) (by decide)
  · intro h
    exact absurd (h 3 (by decide) (by decide)) (by decide)

/-! ## Claim C13 -/

/-- Claim C13, failing input: fibers 1, 2, 3 sleep until 10, 30, 20; the heap is a
min-heap with every back-link right. A second `add_timeout` for fiber 3, until
5, appends first, removes the old entry of fiber 3, and then sifts up from the
stale index 3: the heap ends with the new entry twice and without the entry of
fiber 2. -/
theorem C13_second_timeout_loses_entry :
    (threeSleeps.fibers 3).timeout_index = 2 ∧ (threeSleeps.janet_vm_tq 2).fiber = 3 ∧
    TqHeap threeSleeps ∧ TqIndexed threeSleeps ∧
    tqEntries threeSleeps =
      [{ when := 10, fiber := 1 }, { when := 30, fiber := 2 }, { when := 20, fiber := 3 }] ∧
    tqEntries (add_timeout threeSleeps { when := 5, fiber := 3 }) =
      [{ when := 5, fiber := 3 }, { when := 10, fiber := 1 }, { when := 5, fiber := 3 }] := by
  refine ⟨by decide, by decide, ?_, ?_, by decide, by decide⟩
  · intro i h1 h2
    have h3 : i < 3 := h2
    interval_cases i <;> decide
  · intro i h2
    have h3 : i < 3 := h2
    interval_cases i <;> decide

/-! ## Claim C14 -/

/-- Claim C14, failing input: fiber 1 sleeps until 30, then fiber 2 until 10; the
sift-up of `add_timeout` leaves fiber 1 with `timeout_index = 0`, the place of
the entry of fiber 2. `janet_cancel` of fiber 1 then removes the entry of
fiber 2 and keeps the entry of fiber 1, whose `timeout_index` becomes -1. -/
theorem C14_cancel_removes_other_timer :
    ∃ s1, janet_cancel 1 twoSleeps 1 0 0 = Outcome.ok () s1 ∧
      tqEntries twoSleeps = [{ when := 10, fiber := 2 }, { when := 30, fiber := 1 }] ∧
      tqEntries s1 = [{ when := 30, fiber := 1 }] ∧
      (s1.fibers 1).waiting = none ∧ (s1.fibers 1).timeout_index = -1 :=
  ⟨_, rfl, by decide, by decide, by decide, by decide⟩

/-! ## Claim C15 -/

/-- Claim C15, as stated, fails: a fiber parked as a reader of a channel, and a
fiber put on the ready queue by `ev/go`, are still there after `janet_cancel`. -/
theorem C15_cancelled_fiber_stays_queued :
    (∃ s1, janet_cancel 1 readerParked 1 0 0 = Outcome.ok () s1 ∧
      chanReaders readerParked 0 = [some 1] ∧ chanReaders s1 0 = [some 1]) ∧
    (∃ s s1, cfun_ev_go (janet_ev_init_common 0) 1 Janet.nil = some s ∧
      janet_cancel 1 s 1 0 0 = Outcome.ok () s1 ∧
      readyTasks s1 = [some { fiber := 1, value := Janet.nil }]) :=
  ⟨⟨_, rfl, by decide, by decide⟩, ⟨_, _, rfl, rfl, by decide⟩⟩

/-- Claim C15, amended: in every reachable state, a `janet_cancel` of fiber F that
has returned leaves F with `waiting = none` and a negative `timeout_index` (-1
when it was -1 or an index before), no listener in a chain of a pollable has F
as its fiber, and the ready queue and the channels, with their waiter lists,
are as before the call. -/
theorem C15_cancel_clears_listener_only (SPAWNER CLOSED : Nat) (s s1 : EvState) (fuel F : Nat)
    (status : Int) (errno : Nat) (hr : ListenReach SPAWNER CLOSED s)
    (h : janet_cancel fuel s F status errno = Outcome.ok () s1) :
    (s1.fibers F).waiting = none ∧ (s1.fibers F).timeout_index < 0 ∧
    (-1 ≤ (s.fibers F).timeout_index → (s1.fibers F).timeout_index = -1) ∧
    (∀ a, ¬ ListensFor s1 a F) ∧
    s1.janet_vm_spawn = s.janet_vm_spawn ∧ s1.channels = s.channels := by
  obtain ⟨hi1, hw, ht, ht1, hq, hc⟩ :=
    janet_cancel_returned s s1 fuel F status errno (ListenReach_inv SPAWNER CLOSED s hr) h
  refine ⟨hw, ht, ht1, ?_, hq, hc⟩
  intro a hl
  obtain ⟨-, l, h1, h2⟩ := hl
  have := hi1.listener_waiting a l F h1 h2
  rw [hw] at this
  cases this

/-- Claim C15, amended, instance: a fiber that listens on a pollable and has
a timeout; after `janet_cancel` it has neither. -/
theorem C15_cancel_clears_listener_only_witness :
    ∃ s1, ListenReach 4 8 (listenerAndTimer 4 1) ∧
      janet_cancel 1 (listenerAndTimer 4 1) 1 0 0 = Outcome.ok () s1 ∧
      ((listenerAndTimer 4 1).fibers 1).waiting = some 100 ∧
      ((listenerAndTimer 4 1).fibers 1).timeout_index = 0 ∧
      (s1.fibers 1).waiting = none ∧ (s1.fibers 1).timeout_index < 0 ∧
      (-1 ≤ ((listenerAndTimer 4 1).fibers 1).timeout_index →
        (s1.fibers 1).timeout_index = -1) ∧
      (∀ a, ¬ ListensFor s1 a 1) ∧
      s1.janet_vm_spawn = (listenerAndTimer 4 1).janet_vm_spawn ∧
      s1.channels = (listenerAndTimer 4 1).channels :=
  ⟨_, listenerAndTimer_reach 8, rfl, by decide, by decide,
    C15_cancel_clears_listener_only 4 8 (listenerAndTimer 4 1) _ 1 1 0 0
      (listenerAndTimer_reach 8) rfl⟩

/-! ## Claim C16 -/

/-- Claim C16 (cancel is idempotent): in every reachable state, a `janet_cancel`
of fiber F that has returned leaves a state that a second `janet_cancel` of F
returns unchanged (whatever fuel and `epoll_ctl` outcome the second call
gets); and `janet_cancel` of a fiber with no `waiting` listener and
`timeout_index = -1` returns the state it was called in, whole. -/
theorem C16_cancel_idempotent (SPAWNER CLOSED : Nat) (s : EvState) (fuel F : Nat)
    (status : Int) (errno : Nat) (hr : ListenReach SPAWNER CLOSED s) :
    (∀ s1, janet_cancel fuel s F status errno = Outcome.ok () s1 →
      ∀ (fuel2 : Nat) (status2 : Int) (errno2 : Nat),
        janet_cancel fuel2 s1 F status2 errno2 = Outcome.ok () s1) ∧
    ((s.fibers F).waiting = none → (s.fibers F).timeout_index = -1 →
      janet_cancel fuel s F status errno = Outcome.ok () s) := by
  have idle : ∀ (t : EvState) (fuel2 : Nat) (status2 : Int) (errno2 : Nat),
      (t.fibers F).waiting = none → (t.fibers F).timeout_index < 0 →
      janet_cancel fuel2 t F status2 errno2 = Outcome.ok () t := by
    intro t fuel2 status2 errno2 hw ht
    have hn : ¬ (t.fibers F).timeout_index ≥ 0 := by omega
    simp [janet_cancel, hw, hn]
  constructor
  · intro s1 h fuel2 status2 errno2
    obtain ⟨-, hw, ht, -⟩ :=
      janet_cancel_returned s s1 fuel F status errno (ListenReach_inv SPAWNER CLOSED s hr) h
    exact idle s1 fuel2 status2 errno2 hw ht
  · intro hw ht
    exact idle s fuel status errno hw (by rw [ht]; decide)

/-- Claim C16, instance: a fiber that listens on a pollable and has a
timeout; the first `janet_cancel` returns, and a second one returns the same
state. -/
theorem C16_cancel_idempotent_witness :
    ∃ s1, ListenReach 4 8 (listenerAndTimer 4 1) ∧
      ((listenerAndTimer 4 1).fibers 1).waiting = some 100 ∧
      ((listenerAndTimer 4 1).fibers 1).timeout_index = 0 ∧
      janet_cancel 1 (listenerAndTimer 4 1) 1 0 0 = Outcome.ok () s1 ∧
      janet_cancel 5 s1 1 0 0 = Outcome.ok () s1 :=
  ⟨_, listenerAndTimer_reach 8, by decide, by decide, rfl,
    (C16_cancel_idempotent 4 8 (listenerAndTimer 4 1) 1 1 0 0 (listenerAndTimer_reach 8)).1 _
      rfl 5 0 0⟩

/-! ## Claim C17 -/

/-- Claim C17 (listen rejections): `janet_listen_impl` on a pollable panics with
"cannot listen for duplicate event on pollable" when `pollable->_mask & mask`
is non-zero, with "current fiber is already waiting for event" when that check
passes and the `waiting` of the current fiber is set, and in no other case;
the state at the panic is the state of the call, whole (no listener, chain,
mask, count, `waiting` or machine call differs). -/
theorem C17_listen_rejections (SPAWNER : Nat) (s : EvState) (P behavior mask : Nat)
    (mem : Option Nat) (p : JanetPollable) (hp : s.pollables P = some p) :
    (p._mask &&& mask ≠ 0 →
      janet_listen_impl SPAWNER s P behavior mask mem =
        Outcome.panic Panic.duplicate_event s) ∧
    (p._mask &&& mask = 0 → (s.fibers s.janet_vm_root_fiber).waiting ≠ none →
      janet_listen_impl SPAWNER s P behavior mask mem =
        Outcome.panic Panic.already_waiting s) ∧
    (∀ q s1, janet_listen_impl SPAWNER s P behavior mask mem = Outcome.panic q s1 →
      s1 = s ∧
      ((q = Panic.duplicate_event ∧ p._mask &&& mask ≠ 0) ∨
       (q = Panic.already_waiting ∧ p._mask &&& mask = 0 ∧
         (s.fibers s.janet_vm_root_fiber).waiting ≠ none))) := by
  refine ⟨?_, ?_, ?_⟩
  · intro hm
    simp [janet_listen_impl, hp, hm]
  · intro hm hw
    simp [janet_listen_impl, hp, hm, hw]
  · intro q s1 h
    unfold janet_listen_impl at h
    simp only [hp] at h
    by_cases hm : p._mask &&& mask = 0
    · by_cases hw : (s.fibers s.janet_vm_root_fiber).waiting = none
      · cases mem with
        | none => simp [hm, hw] at h
        | some a => simp [hm, hw] at h
      · simp only [hm, hw, ne_eq, not_true_eq_false, not_false_eq_true, if_false, if_true] at h
        injection h with h1 h2
        exact ⟨h2.symm, Or.inr ⟨h1.symm, hm, hw⟩⟩
    · simp only [hm, ne_eq, not_false_eq_true, if_true] at h
      injection h with h1 h2
      exact ⟨h2.symm, Or.inl ⟨h1.symm, hm⟩⟩

/-- Claim C17, instance, scenario S5: fiber 1 listens with mask 1 on the
pollable; a second listen with mask 1, by fiber 2, panics with the
duplicate-event message and leaves the state, and with it the first listener,
as it was. -/
theorem C17_listen_rejections_witness :
    (oneListener 4 1).pollables 0 =
      some { handle := 3, flags := 0, state := some 100, _mask := 5 } ∧
    janet_listen_impl 4 { oneListener 4 1 with janet_vm_root_fiber := 2 } 0 8 1 (some 101) =
      Outcome.panic Panic.duplicate_event { oneListener 4 1 with janet_vm_root_fiber := 2 } :=
  ⟨rfl, (C17_listen_rejections 4 { oneListener 4 1 with janet_vm_root_fiber := 2 } 0 8 1
    (some 101) { handle := 3, flags := 0, state := some 100, _mask := 5 } rfl).1 (by decide)⟩

/-! ## Claim C18 -/

theorem land_zero_testBit (x y i : Nat) (h : x &&& y = 0) :
    ¬ (x.testBit i = true ∧ y.testBit i = true) := by
  intro ⟨h1, h2⟩
  have := congrArg (fun n => n.testBit i) h
  simp [Nat.testBit_land, h1, h2] at this

theorem second_mask_check (SPAWNER m1 m2 : Nat) (h12 : m1 &&& m2 = 0)
    (h2 : m2 &&& SPAWNER = 0) : (0 ||| (m1 ||| SPAWNER)) &&& m2 = 0 := by
  apply Nat.eq_of_testBit_eq
  intro i
  have c1 := land_zero_testBit m1 m2 i h12
  have c2 := land_zero_testBit m2 SPAWNER i h2
  simp only [Nat.testBit_land, Nat.testBit_lor, Nat.zero_testBit]
  cases hb1 : m1.testBit i <;> cases hb2 : m2.testBit i <;> cases hb3 : SPAWNER.testBit i <;>
    simp_all

theorem mask_after_unlisten (SPAWNER m1 m2 : Nat) (h12 : m1 &&& m2 = 0)
    (h2 : m2 &&& SPAWNER = 0) :
    clearBits (0 ||| (m1 ||| SPAWNER) ||| (m2 ||| SPAWNER)) (m1 ||| SPAWNER) = m2 := by
  apply Nat.eq_of_testBit_eq
  intro i
  have k1 := land_zero_testBit m1 m2 i h12
  have k2 := land_zero_testBit m2 SPAWNER i h2
  simp only [testBit_clearBits, Nat.testBit_lor, Nat.zero_testBit]
  cases hb1 : m1.testBit i <;> cases hb2 : m2.testBit i <;> cases hb3 : SPAWNER.testBit i <;>
    simp_all

theorem lor_spawner_ne (SPAWNER m2 : Nat) (h0 : SPAWNER ≠ 0) (h2 : m2 &&& SPAWNER = 0) :
    m2 ≠ m2 ||| SPAWNER := by
  intro e
  apply h0
  apply Nat.eq_of_testBit_eq
  intro i
  have k2 := land_zero_testBit m2 SPAWNER i h2
  have k3 := congrArg (fun n => n.testBit i) e
  simp only [Nat.testBit_lor] at k3
  rw [Nat.zero_testBit]
  clear e h2
  cases hb3 : SPAWNER.testBit i with
  | false => rfl
  | true =>
    exfalso
    cases hb2 : m2.testBit i with
    | true => exact k2 ⟨hb2, hb3⟩
    | false =>
      rw [hb2, hb3] at k3
      exact absurd k3 (by decide)

/-- Claim C18, failing input: on a fresh pollable fiber 1 listens with mask `m1`
and fiber 2 with mask `m2` (which shares no bit with `m1` or the spawner bit);
both recorded masks carry the spawner bit. `janet_unlisten_impl` of the first
listener clears `m1 | spawner` from the mask of the pollable: the chain then
holds the second listener, recorded mask `m2 | spawner` and `pollable`
pointing back, but the mask of the pollable is `m2`, not the OR of the
recorded masks. -/
theorem C18_unlisten_clears_shared_spawner_bit (SPAWNER m1 m2 : Nat) (h0 : SPAWNER ≠ 0)
    (h12 : m1 &&& m2 = 0) (h2 : m2 &&& SPAWNER = 0) :
    ∃ s1 p l, oneListenerGone SPAWNER m1 m2 = Outcome.ok () s1 ∧
      s1.pollables 0 = some p ∧ IsChain s1 p.state [101] ∧
      s1.listeners 101 = some l ∧ l.pollable = 0 ∧ l._mask = m2 ||| SPAWNER ∧
      p._mask = m2 ∧ orMasks s1 [101] = m2 ||| SPAWNER ∧ p._mask ≠ orMasks s1 [101] := by
  -- first listen
  obtain ⟨s1, e1, a1, -, a3, a4, a5, -⟩ :=
    janet_listen_impl_spec SPAWNER (janet_pollable_init (janet_ev_init_common 1) 0 3) 0 7 m1 100
      { handle := 3, flags := 0, state := none, _mask := 0 } rfl (Nat.zero_and m1) rfl
  -- second listen, by fiber 2
  have hm2 := second_mask_check SPAWNER m1 m2 h12 h2
  have hw2 : (({ s1 with janet_vm_root_fiber := 2 } : EvState).fibers 2).waiting = none := by
    show (s1.fibers 2).waiting = none
    rw [a5 2]
    have : ¬ (m1 &&& SPAWNER = 0 ∧ (2 : Nat) =
        (janet_pollable_init (janet_ev_init_common 1) 0 3).janet_vm_root_fiber) := by
      intro c; exact absurd c.2 (by decide)
    simp only [this, if_false]
    rfl
  obtain ⟨s2, e2, b1, -, b3, b4, -⟩ :=
    janet_listen_impl_spec SPAWNER { s1 with janet_vm_root_fiber := 2 } 0 8 m2 101 _ a1 hm2 hw2
  have hl100 : s2.listeners 100 = some
      { machine := 7,
        fiber := if m1 &&& SPAWNER ≠ 0 then none
          else some (janet_pollable_init (janet_ev_init_common 1) 0 3).janet_vm_root_fiber,
        pollable := 0, _mask := m1 ||| SPAWNER, _next := none } := by
    rw [b4 100 (by decide)]
    exact a3
  have hchain : IsChain s2 (some 101) ([101] ++ 100 :: []) := by
    show IsChain s2 (some 101) [101, 100]
    rw [IsChain_cons]
    refine ⟨rfl, _, b3, ?_⟩
    rw [IsChain_cons]
    exact ⟨rfl, _, hl100, (IsChain_nil _ _).mpr rfl⟩
  -- unlisten of the first listener
  obtain ⟨s3, p3, e3, c1, -, -, c4, c5, -, -, -, -, c10, -⟩ :=
    janet_unlisten_impl_spec s2 100 _ _ [101] [] 2 hl100 b1 hchain (by decide) (by decide)
  obtain ⟨l, d1, -, -, d4, d5⟩ := c10 101 _ (by decide) b3
  have hmask : p3._mask = m2 := by
    rw [c4]
    exact mask_after_unlisten SPAWNER m1 m2 h12 h2
  have hor : orMasks s3 [101] = m2 ||| SPAWNER := by
    simp [orMasks, d1, d5]
  have hne := lor_spawner_ne SPAWNER m2 h0 h2
  refine ⟨s3, p3, l, ?_, c1, by simpa using c5, d1, d4, d5, hmask, hor, by rw [hmask, hor]; exact hne⟩
  simp only [oneListenerGone, twoListeners, e1, e2]
  exact e3

/-- Claim C18, failing input, instance at masks 1 and 2 with spawner bit 4:
the pollable is left with mask 2 and a listener whose recorded mask is 6. -/
theorem C18_unlisten_clears_shared_spawner_bit_witness :
    ∃ s1 p l, oneListenerGone 4 1 2 = Outcome.ok () s1 ∧
      s1.pollables 0 = some p ∧ IsChain s1 p.state [101] ∧
      s1.listeners 101 = some l ∧ l.pollable = 0 ∧ l._mask = 2 ||| 4 ∧
      p._mask = 2 ∧ orMasks s1 [101] = 2 ||| 4 ∧ p._mask ≠ orMasks s1 [101] :=
  C18_unlisten_clears_shared_spawner_bit 4 1 2 (by decide) (by decide) (by decide)

/-! ## Claim C19 -/

/-- Claim C19 (one listener per fiber): in every reachable state and for every
fiber F, at most one listener in the chains of the pollables has F as its
fiber; `F.waiting` is that listener when there is one, and `none` when there
is none. -/
theorem C19_one_listener_per_fiber (SPAWNER CLOSED : Nat) (s : EvState) (F : Nat)
    (hr : ListenReach SPAWNER CLOSED s) :
    (∀ a b, ListensFor s a F → ListensFor s b F → a = b) ∧
    (∀ a, ListensFor s a F → (s.fibers F).waiting = some a) ∧
    ((¬ ∃ a, ListensFor s a F) → (s.fibers F).waiting = none) := by
  have hi := ListenReach_inv SPAWNER CLOSED s hr
  have hw : ∀ a, ListensFor s a F → (s.fibers F).waiting = some a := by
    intro a hl
    obtain ⟨-, l, h1, h2⟩ := hl
    exact hi.listener_waiting a l F h1 h2
  refine ⟨?_, hw, ?_⟩
  · intro a b ha hb
    have h1 := hw a ha
    rw [hw b hb] at h1
    injection h1 with h1
    exact h1.symm
  · intro hn
    cases hc : (s.fibers F).waiting with
    | none => rfl
    | some a =>
      exfalso
      apply hn
      obtain ⟨l, h1, h2⟩ := hi.waiting_listener F a hc
      obtain ⟨p, xs, c1, c2, c3⟩ := hi.linked a l h1
      exact ⟨a, ⟨l.pollable, p, xs, c1, c2, c3⟩, l, h1, h2⟩

/-- Claim C19, instance: a state in which fiber 1 listens on a pollable; listener
100 is the listener of fiber 1 and `waiting` of fiber 1 points to it; fiber 2
has no listener and `waiting = none`. -/
theorem C19_one_listener_per_fiber_witness :
    ListenReach 4 8 (oneListener 4 1) ∧ ListensFor (oneListener 4 1) 100 1 ∧
    ((oneListener 4 1).fibers 1).waiting = some 100 ∧
    (∀ a b, ListensFor (oneListener 4 1) a 1 → ListensFor (oneListener 4 1) b 1 → a = b) :=
  ⟨oneListener_reach 8,
    ⟨⟨0, _, [100], rfl, by decide, by decide⟩, _, rfl, rfl⟩,
    (C19_one_listener_per_fiber 4 8 (oneListener 4 1) 1 (oneListener_reach 8)).2.1 100
      ⟨⟨0, _, [100], rfl, by decide, by decide⟩, _, rfl, rfl⟩,
    (C19_one_listener_per_fiber 4 8 (oneListener 4 1) 1 (oneListener_reach 8)).1⟩

/-! ## Claim C20 -/

/-- Claim C20 (pollable deinit): let P be a pollable of a state with the listener
invariant, `xs` its chain, and let the fuel exceed the length of the chain.
Then `janet_pollable_deinit(P)` returns; the flags of P are the old flags with
the closed flag set and its handle is the old one; the machine calls made are,
for the listeners of the chain in chain order, one `close` followed by one
`deinit` each; afterwards the chain of P is empty, `P._mask` is 0, the active
count has dropped by the length of the chain, the listeners of the chain are
freed, and every fiber whose `waiting` pointed to one of them has `waiting =
none` (its other fields, and every other fiber, are unchanged). -/
theorem C20_pollable_deinit (CLOSED P fuel : Nat) (s : EvState) (p : JanetPollable)
    (xs : List Nat) (hi : ListenInv s) (hp : s.pollables P = some p)
    (hc : IsChain s p.state xs) (hf : xs.length < fuel) :
    ∃ s1 p1, janet_pollable_deinit CLOSED fuel s P = Outcome.ok () s1 ∧
      s1.pollables P = some p1 ∧ p1.flags = p.flags ||| CLOSED ∧ p1.handle = p.handle ∧
      s1.machine_calls = s.machine_calls ++ xs.flatMap (fun a =>
        [(a, JanetAsyncEvent.JANET_ASYNC_EVENT_CLOSE),
         (a, JanetAsyncEvent.JANET_ASYNC_EVENT_DEINIT)]) ∧
      xs.Nodup ∧ p1.state = none ∧ IsChain s1 p1.state [] ∧ p1._mask = 0 ∧
      s1.janet_vm_active_listeners + xs.length = s.janet_vm_active_listeners ∧
      (∀ a, a ∈ xs → s1.listeners a = none) ∧
      (∀ g a, a ∈ xs → (s.fibers g).waiting = some a → (s1.fibers g).waiting = none) ∧
      (∀ g, (s1.fibers g).scheduled = (s.fibers g).scheduled ∧
        (s1.fibers g).timeout_index = (s.fibers g).timeout_index) ∧
      (∀ g, (¬ ∃ a, a ∈ xs ∧ (s.fibers g).waiting = some a) → s1.fibers g = s.fibers g) := by
  obtain ⟨xs0, d1, hnd, -⟩ := hi.chains P p hp
  have := IsChain_unique s xs0 xs _ d1 hc
  subst this
  rcases janet_pollable_deinit_total CLOSED P fuel s p xs0 hi hp hc with
    ⟨s1, p1, g1, -, g3, g4, g5, g6, g7, g8, g9, g10, -, -, g13, -⟩ | ⟨-, g2⟩
  · refine ⟨s1, p1, g1, g3, g7, g6, g8, hnd, g4, by rw [g4]; exact (IsChain_nil _ _).mpr rfl,
      g5, g9, g10, ?_, ?_, ?_⟩
    · intro g a ha hw
      rw [g13 g]
      have c : ∃ a, a ∈ xs0 ∧ (s.fibers g).waiting = some a := ⟨a, ha, hw⟩
      simp only [c, if_true]
    · intro g
      rw [g13 g]
      split <;> exact ⟨rfl, rfl⟩
    · intro g hn
      rw [g13 g]
      simp only [hn, if_false]
  · exfalso
    omega

/-- Claim C20, instance: a pollable on which fibers 1 and 2 listen: after
`janet_pollable_deinit` the chain is empty, the mask 0, the active count 0,
and the machine calls are init, init, then close and deinit for listener 101
and close and deinit for listener 100. -/
theorem C20_pollable_deinit_witness :
    ∃ s1 p1, janet_pollable_deinit 8 3 (twoListenersState 4 1 2) 0 = Outcome.ok () s1 ∧
      s1.pollables 0 = some p1 ∧ p1.flags = 0 ||| 8 ∧ p1.handle = 3 ∧
      s1.machine_calls = (twoListenersState 4 1 2).machine_calls ++
        [101, 100].flatMap (fun a =>
          [(a, JanetAsyncEvent.JANET_ASYNC_EVENT_CLOSE),
           (a, JanetAsyncEvent.JANET_ASYNC_EVENT_DEINIT)]) ∧
      [101, 100].Nodup ∧ p1.state = none ∧ IsChain s1 p1.state [] ∧ p1._mask = 0 ∧
      s1.janet_vm_active_listeners + [101, 100].length =
        (twoListenersState 4 1 2).janet_vm_active_listeners ∧
      (∀ a, a ∈ [101, 100] → s1.listeners a = none) ∧
      (∀ g a, a ∈ [101, 100] → ((twoListenersState 4 1 2).fibers g).waiting = some a →
        (s1.fibers g).waiting = none) ∧
      (∀ g, (s1.fibers g).scheduled = ((twoListenersState 4 1 2).fibers g).scheduled ∧
        (s1.fibers g).timeout_index = ((twoListenersState 4 1 2).fibers g).timeout_index) ∧
      (∀ g, (¬ ∃ a, a ∈ [101, 100] ∧ ((twoListenersState 4 1 2).fibers g).waiting = some a) →
        s1.fibers g = (twoListenersState 4 1 2).fibers g) :=
  C20_pollable_deinit 8 0 3 (twoListenersState 4 1 2)
    { handle := 3, flags := 0, state := some 101, _mask := 7 } [101, 100]
    (ListenReach_inv 4 8 _ (twoListenersState_reach 8)) rfl (by decide) (by decide)

/-! ## Ring queue: sequences of calls -/

theorem heldItems_pushed_ok {α : Type} (rest : List (QObs α)) :
    heldItems (QObs.pushed 0 :: rest) = heldItems rest + 1 := rfl

theorem heldItems_pushed_full {α : Type} (rest : List (QObs α)) :
    heldItems (QObs.pushed 1 :: rest) = heldItems rest := rfl

theorem heldItems_pop_empty {α : Type} (rest : List (QObs α)) :
    heldItems (QObs.pop_empty :: rest) = heldItems rest := rfl

theorem heldItems_popped {α : Type} (out : Option α) (rest : List (QObs α)) :
    heldItems (QObs.popped out :: rest) = heldItems rest - 1 := rfl

/-- Calls on a ring in shape leave a ring in shape, and `janet_q_count` moves
with the items pushed and popped. -/
theorem ring_run_shape {α : Type} [DecidableEq α] (itemsize : Nat)
    (hs : itemsize = 8 ∨ itemsize = 16) :
    ∀ (calls : List (QCall α)) (q q1 : JanetQueue α) (obs : List (QObs α)), QWF q →
    ring_run itemsize q calls = some (obs, q1) →
    QWF q1 ∧ janet_q_count q1 = janet_q_count q + heldItems obs := by
  intro calls
  induction calls with
  | nil =>
    intro q q1 obs hq h
    simp only [ring_run, Option.some.injEq, Prod.mk.injEq] at h
    obtain ⟨h1, h2⟩ := h
    subst h1 h2
    exact ⟨hq, by simp [heldItems]⟩
  | cons c rest ih =>
    intro q q1 obs hq h
    cases c with
    | push x =>
      rw [ring_run] at h
      cases hp : janet_q_push q x itemsize with
      | ok q2 =>
        simp only [hp, Option.map_eq_some'] at h
        obtain ⟨r, hr, he⟩ := h
        obtain ⟨o2, q3⟩ := r
        simp only [Prod.mk.injEq] at he
        obtain ⟨e1, e2⟩ := he
        subst e1 e2
        obtain ⟨g1, g2⟩ := janet_q_push_shape q q2 x itemsize hs hq hp
        obtain ⟨k1, k2⟩ := ih q2 q3 o2 g1 hr
        exact ⟨k1, by rw [k2, g2, heldItems_pushed_ok]; omega⟩
      | full =>
        simp only [hp, Option.map_eq_some'] at h
        obtain ⟨r, hr, he⟩ := h
        obtain ⟨o2, q3⟩ := r
        simp only [Prod.mk.injEq] at he
        obtain ⟨e1, e2⟩ := he
        subst e1 e2
        obtain ⟨k1, k2⟩ := ih q q3 o2 hq hr
        exact ⟨k1, by rw [k2, heldItems_pushed_full]⟩
      | oom => simp [hp] at h
    | pop =>
      rw [ring_run] at h
      cases hp : janet_q_pop q itemsize with
      | none =>
        simp only [hp, Option.map_eq_some'] at h
        obtain ⟨r, hr, he⟩ := h
        obtain ⟨o2, q3⟩ := r
        simp only [Prod.mk.injEq] at he
        obtain ⟨e1, e2⟩ := he
        subst e1 e2
        obtain ⟨k1, k2⟩ := ih q q3 o2 hq hr
        exact ⟨k1, by rw [k2, heldItems_pop_empty]⟩
      | some r0 =>
        obtain ⟨out, q2⟩ := r0
        simp only [hp, Option.map_eq_some'] at h
        obtain ⟨r, hr, he⟩ := h
        obtain ⟨o2, q3⟩ := r
        simp only [Prod.mk.injEq] at he
        obtain ⟨e1, e2⟩ := he
        subst e1 e2
        obtain ⟨g1, g2, -⟩ := janet_q_pop_shape q q2 itemsize out hq hp
        obtain ⟨k1, k2⟩ := ih q2 q3 o2 g1 hr
        exact ⟨k1, by rw [k2, g2, heldItems_popped]; omega⟩

theorem QWF_head_eq_tail {α : Type} (q : JanetQueue α) (hq : QWF q) :
    q.head = q.tail ↔ janet_q_count q = 0 := by
  unfold janet_q_count QWF at *
  constructor
  · intro h; rw [h]; simp
  · intro h; split at h <;> omega

theorem ring_run_append {α : Type} [DecidableEq α] (itemsize : Nat) :
    ∀ (a b : List (QCall α)) (q q1 q2 : JanetQueue α) (o1 o2 : List (QObs α)),
    ring_run itemsize q a = some (o1, q1) → ring_run itemsize q1 b = some (o2, q2) →
    ring_run itemsize q (a ++ b) = some (o1 ++ o2, q2) := by
  intro a
  induction a with
  | nil =>
    intro b q q1 q2 o1 o2 h1 h2
    simp only [ring_run, Option.some.injEq, Prod.mk.injEq] at h1
    obtain ⟨e1, e2⟩ := h1
    subst e1 e2
    simpa using h2
  | cons c rest ih =>
    intro b q q1 q2 o1 o2 h1 h2
    cases c with
    | push x =>
      rw [ring_run] at h1
      rw [List.cons_append, ring_run]
      cases hp : janet_q_push q x itemsize with
      | ok q3 =>
        simp only [hp, Option.map_eq_some'] at h1 ⊢
        obtain ⟨r, hr, he⟩ := h1
        obtain ⟨o3, q4⟩ := r
        simp only [Prod.mk.injEq] at he
        obtain ⟨e1, e2⟩ := he
        subst e1 e2
        exact ⟨_, ih b q3 q4 q2 o3 o2 hr h2, by simp⟩
      | full =>
        simp only [hp, Option.map_eq_some'] at h1 ⊢
        obtain ⟨r, hr, he⟩ := h1
        obtain ⟨o3, q4⟩ := r
        simp only [Prod.mk.injEq] at he
        obtain ⟨e1, e2⟩ := he
        subst e1 e2
        exact ⟨_, ih b q q4 q2 o3 o2 hr h2, by simp⟩
      | oom => simp [hp] at h1
    | pop =>
      rw [ring_run] at h1
      rw [List.cons_append, ring_run]
      cases hp : janet_q_pop q itemsize with
      | none =>
        simp only [hp, Option.map_eq_some'] at h1 ⊢
        obtain ⟨r, hr, he⟩ := h1
        obtain ⟨o3, q4⟩ := r
        simp only [Prod.mk.injEq] at he
        obtain ⟨e1, e2⟩ := he
        subst e1 e2
        exact ⟨_, ih b q q4 q2 o3 o2 hr h2, by simp⟩
      | some r0 =>
        obtain ⟨out, q3⟩ := r0
        simp only [hp, Option.map_eq_some'] at h1 ⊢
        obtain ⟨r, hr, he⟩ := h1
        obtain ⟨o3, q4⟩ := r
        simp only [Prod.mk.injEq] at he
        obtain ⟨e1, e2⟩ := he
        subst e1 e2
        exact ⟨_, ih b q3 q4 q2 o3 o2 hr h2, by simp⟩

/-- Pushing `n` items on an initialised ring, for `n` up to 1610612733: every
push returns 0, and the capacity is 0 or one of 4, 10, 22, ..., 1610612734
(`6 * 2 ^ k - 2`). -/
theorem ring_run_pushes {α : Type} [DecidableEq α] (itemsize : Nat)
    (hs : itemsize = 8 ∨ itemsize = 16) (x : α) :
    ∀ n : Nat, n ≤ 1610612733 →
    ∃ q : JanetQueue α,
      ring_run itemsize janet_q_init (List.replicate n (QCall.push x)) =
        some (List.replicate n (QObs.pushed 0), q) ∧
      QWF q ∧ janet_q_count q = n ∧
      ((q.capacity = 0 ∧ n = 0) ∨ (∃ k, k ≤ 28 ∧ q.capacity + 2 = 6 * 2 ^ k ∧ n + 1 ≤ q.capacity)) := by
  intro n
  induction n with
  | zero =>
    intro _
    exact ⟨janet_q_init, rfl, janet_q_init_shape.1, janet_q_init_shape.2, Or.inl ⟨rfl, rfl⟩⟩
  | succ n ih =>
    intro hn
    obtain ⟨q, hr, hq, hc, hcap⟩ := ih (by omega)
    have step : ∀ q1, janet_q_push q x itemsize = QPush.ok q1 →
        ring_run itemsize janet_q_init (List.replicate (n + 1) (QCall.push x)) =
          some (List.replicate (n + 1) (QObs.pushed 0), q1) := by
      intro q1 hp
      rw [List.replicate_succ', List.replicate_succ']
      refine ring_run_append itemsize _ _ _ q q1 _ _ hr ?_
      simp [ring_run, hp]
    by_cases hroom : janet_q_count q + 1 < q.capacity
    · have hp := janet_q_push_room q x itemsize hroom
      obtain ⟨g1, g2⟩ := janet_q_push_shape q _ x itemsize hs hq hp
      refine ⟨_, step _ hp, g1, by rw [g2, hc]; push_cast; ring, ?_⟩
      right
      rcases hcap with ⟨h0, _⟩ | ⟨k, hk, hk2, hk3⟩
      · rw [h0] at hroom; omega
      · refine ⟨k, hk, ?_, ?_⟩
        · rw [(janet_q_store_fields q x itemsize).1]; exact hk2
        · rw [(janet_q_store_fields q x itemsize).1]; omega
    · have hfull : janet_q_count q + 1 ≥ q.capacity := by omega
      have hsmall : janet_q_count q + 2 < 1073741824 := by
        rcases hcap with ⟨h0, h1⟩ | ⟨k, hk, hk2, hk3⟩
        · omega
        · have hk28 : k ≠ 28 := by
            intro e
            rw [e] at hk2
            norm_num at hk2
            omega
          have hk27 : k ≤ 27 := by omega
          have : (2 : Nat) ^ k ≤ 2 ^ 27 := Nat.pow_le_pow_right (by decide) hk27
          norm_num at this
          omega
      have hp := janet_q_push_grow q x itemsize hs hq hfull hsmall
      obtain ⟨g1, g2⟩ := janet_q_push_shape q _ x itemsize hs hq hp
      refine ⟨_, step _ hp, g1, by rw [g2, hc]; push_cast; ring, ?_⟩
      right
      have hcap1 : (janet_q_store (janet_q_grow q (2 * (janet_q_count q + 2)) itemsize) x
          itemsize).capacity = 2 * (n + 2) := by
        rw [(janet_q_store_fields _ x itemsize).1, (janet_q_grow_fields q _ itemsize).1, hc]
        omega
      rw [hcap1]
      rcases hcap with ⟨h0, h1⟩ | ⟨k, hk, hk2, hk3⟩
      · exact ⟨0, by omega, by subst h1; rfl, by omega⟩
      · have hk28 : k ≠ 28 := by
          intro e
          rw [e] at hk2
          norm_num at hk2
          omega
        refine ⟨k + 1, by omega, ?_, by omega⟩
        rw [pow_succ]
        omega

/-- No sequence of calls on an initialised ring brings its capacity above
`2^31 - 2`; a push then never returns 1. -/
theorem ring_run_capacity {α : Type} [DecidableEq α] (itemsize : Nat)
    (hs : itemsize = 8 ∨ itemsize = 16) :
    ∀ (calls : List (QCall α)) (q q1 : JanetQueue α) (obs : List (QObs α)), QWF q →
    q.capacity ≤ 2147483646 →
    ring_run itemsize q calls = some (obs, q1) →
    q1.capacity ≤ 2147483646 ∧ QObs.pushed 1 ∉ obs := by
  intro calls
  induction calls with
  | nil =>
    intro q q1 obs hq hc h
    simp only [ring_run, Option.some.injEq, Prod.mk.injEq] at h
    obtain ⟨h1, h2⟩ := h
    subst h1 h2
    exact ⟨hc, by simp⟩
  | cons c rest ih =>
    intro q q1 obs hq hc h
    have hn := janet_q_count_nonneg q hq
    cases c with
    | push x =>
      rw [ring_run] at h
      cases hp : janet_q_push q x itemsize with
      | ok q2 =>
        simp only [hp, Option.map_eq_some'] at h
        obtain ⟨r, hr, he⟩ := h
        obtain ⟨o2, q3⟩ := r
        simp only [Prod.mk.injEq] at he
        obtain ⟨e1, e2⟩ := he
        subst e1 e2
        obtain ⟨g1, g2⟩ := janet_q_push_shape q q2 x itemsize hs hq hp
        have hc2 : q2.capacity ≤ 2147483646 := by
          by_cases hroom : janet_q_count q + 1 < q.capacity
          · rw [janet_q_push_room q x itemsize hroom] at hp
            injection hp with hp
            rw [← hp, (janet_q_store_fields q x itemsize).1]
            exact hc
          · by_cases hb : janet_q_count q + 2 < 1073741824
            · rw [janet_q_push_grow q x itemsize hs hq (by omega) hb] at hp
              injection hp with hp
              rw [← hp, (janet_q_store_fields _ x itemsize).1, (janet_q_grow_fields q _ itemsize).1]
              omega
            · rcases janet_q_push_overflow q x itemsize hs hq (by omega) (by omega) with e | e
              · rw [e] at hp; cases hp
              · rw [e] at hp; cases hp
        obtain ⟨k1, k2⟩ := ih q2 q3 o2 g1 hc2 hr
        exact ⟨k1, by simpa using k2⟩
      | full =>
        exfalso
        unfold janet_q_push at hp
        simp only [] at hp
        unfold JANET_MAX_Q_CAPACITY at hp
        split at hp
        · split at hp
          · omega
          · split at hp <;> cases hp
        · cases hp
      | oom => simp [hp] at h
    | pop =>
      rw [ring_run] at h
      cases hp : janet_q_pop q itemsize with
      | none =>
        simp only [hp, Option.map_eq_some'] at h
        obtain ⟨r, hr, he⟩ := h
        obtain ⟨o2, q3⟩ := r
        simp only [Prod.mk.injEq] at he
        obtain ⟨e1, e2⟩ := he
        subst e1 e2
        obtain ⟨k1, k2⟩ := ih q q3 o2 hq hc hr
        exact ⟨k1, by simpa using k2⟩
      | some r0 =>
        obtain ⟨out, q2⟩ := r0
        simp only [hp, Option.map_eq_some'] at h
        obtain ⟨r, hr, he⟩ := h
        obtain ⟨o2, q3⟩ := r
        simp only [Prod.mk.injEq] at he
        obtain ⟨e1, e2⟩ := he
        subst e1 e2
        obtain ⟨g1, g2, g3⟩ := janet_q_pop_shape q q2 itemsize out hq hp
        have hc2 : q2.capacity ≤ 2147483646 := by
          unfold janet_q_pop at hp
          split at hp
          · cases hp
          · simp only [Option.some.injEq, Prod.mk.injEq] at hp
            rw [← hp.2]
            exact hc
        obtain ⟨k1, k2⟩ := ih q2 q3 o2 g1 hc2 hr
        exact ⟨k1, by simpa using k2⟩


/-- Below `2^30 - 2` items the capacity `janet_q_push` computes is
`2 * (count + 2)`, the value of `min (2 * (count + 2)) (2^31 - 1)`, and is above
`count + 1`. -/
theorem janet_q_newcap_below (count : Int) (h0 : 0 ≤ count) (h1 : count + 2 < 1073741824) :
    janet_q_newcap count = min (2 * (count + 2)) 2147483647 ∧
    count + 1 < janet_q_newcap count := by
  rw [janet_q_newcap_small count h0 h1, min_eq_left (by omega)]
  exact ⟨rfl, by omega⟩

/-! ## Claim C21 -/

/-- Claim C21, failing input: on an initialised ring of 8-byte items, push 1,
2, 3, pop, push 4 (the ring of four cells is now wrapped and full), push 5
(which grows the wrapped ring), then four pops.  The FIFO list of the
specification gives back 2, 3, 4, 5 at the last four pops; the ring gives
back three indeterminate values and 5.  Status values and `janet_q_count`
agree with the list throughout. -/
theorem C21_grow_wrapped_loses_items :
    (fifo_spec_run [] growWrappedCalls).1 =
      [QObs.pushed 0, QObs.pushed 0, QObs.pushed 0, QObs.popped (some 1), QObs.pushed 0,
       QObs.pushed 0, QObs.popped (some 2), QObs.popped (some 3), QObs.popped (some 4),
       QObs.popped (some 5)] ∧
    (ring_run 8 janet_q_init growWrappedCalls).map Prod.fst =
      some [QObs.pushed 0, QObs.pushed 0, QObs.pushed 0, QObs.popped (some 1), QObs.pushed 0,
       QObs.pushed 0, QObs.popped none, QObs.popped none, QObs.popped none,
       QObs.popped (some 5)] ∧
    (ring_run 8 janet_q_init (growWrappedCalls.take 5)).map
      (fun r => (r.2.head, r.2.tail, r.2.capacity, qItems r.2 8)) =
      some (1, 0, 4, [some 2, some 3, some 4]) ∧
    (ring_run 8 janet_q_init (growWrappedCalls.take 6)).map
      (fun r => (r.2.head, r.2.tail, r.2.capacity, qItems r.2 8)) =
      some (7, 1, 10, [none, none, none, some 5]) := by
  refine ⟨by decide, by decide, by decide, by decide⟩

/-! ## Claim C22 -/

/-- Claim C22, failing input: 1610612733 pushes on an initialised ring of
8-byte items all return 0 and leave a ring of 1610612734 cells holding
1610612733 items, so `count + 1` is below `2^31 - 1`.  The next push finds
the ring full, computes `(count + 2) * 2` in `int32_t` as -1073741826, asks
`realloc` for `8 * (size_t)-1073741826` bytes and ends the process with
`JANET_OUT_OF_MEMORY`: it does not return 0. -/
theorem C22_push_below_cap_runs_out_of_memory :
    ∃ q : JanetQueue Nat,
      ring_run 8 janet_q_init (List.replicate 1610612733 (QCall.push 7)) =
        some (List.replicate 1610612733 (QObs.pushed 0), q) ∧
      q.capacity = 1610612734 ∧ janet_q_count q = 1610612733 ∧
      janet_q_count q + 1 < 2147483647 ∧
      janet_q_newcap (janet_q_count q) = -1073741826 ∧
      allocBytes 8 (janet_q_newcap (janet_q_count q)) = 18446744065119617008 ∧
      janet_q_push q 7 8 = QPush.oom := by
  obtain ⟨q, hr, hq, hc, hcap⟩ := ring_run_pushes 8 (Or.inl rfl) (7 : Nat) 1610612733
    (le_refl _)
  have hcap1 : q.capacity = 1610612734 := by
    have hn := janet_q_count_nonneg q hq
    rcases hcap with ⟨_, h0⟩ | ⟨k, hk, hk2, hk3⟩
    · omega
    · have hk28 : k = 28 := by
        by_contra hne
        have hk27 : k ≤ 27 := by omega
        have : (2 : Nat) ^ k ≤ 2 ^ 27 := Nat.pow_le_pow_right (by decide) hk27
        norm_num at this
        omega
      rw [hk28] at hk2
      norm_num at hk2
      omega
  have hnew : janet_q_newcap (janet_q_count q) = -1073741826 := by
    rw [janet_q_newcap_large _ (by rw [hc]; norm_num) (by rw [hc]; norm_num), hc]
    norm_num
  refine ⟨q, hr, hcap1, by rw [hc]; norm_num, by rw [hc]; norm_num, hnew, ?_, ?_⟩
  · rw [hnew]; decide
  · rcases janet_q_push_overflow q 7 8 (Or.inl rfl) hq (by rw [hc, hcap1]; norm_num)
      (by rw [hc]; norm_num) with e | e
    · exact e
    · exfalso
      unfold janet_q_push at e
      simp only [] at e
      unfold JANET_MAX_Q_CAPACITY at e
      rw [hc, hcap1] at e
      norm_num at e
      split at e <;> cases e

/-! ## Claim C23 -/

/-- Claim C23, failing range: for every `count` from `2^30 - 2` on with
`count + 1 < 2^31 - 1`, the capacity `janet_q_push` computes in `int32_t`,
`(count + 2) * 2` followed by the comparison with `JANET_MAX_Q_CAPACITY`, is
`2 * (count + 2) - 2^32`: negative, not above `count + 1`, and different from
`min (2 * (count + 2)) (2^31 - 1)`. -/
theorem C23_newcap_wraps_negative (count : Int) (h0 : 1073741822 ≤ count)
    (h1 : count + 1 < 2147483647) :
    janet_q_newcap count = 2 * (count + 2) - 4294967296 ∧
    janet_q_newcap count < 0 ∧ ¬ (count + 1 < janet_q_newcap count) ∧
    janet_q_newcap count ≠ min (2 * (count + 2)) 2147483647 := by
  have h := janet_q_newcap_large count (by omega) h1
  rw [h]
  refine ⟨rfl, by omega, by omega, ?_⟩
  intro e
  have := min_le_right (2 * (count + 2)) 2147483647
  have h2 : (0 : Int) ≤ min (2 * (count + 2)) 2147483647 := le_min (by omega) (by omega)
  omega

/-- Claim C23, instance: the ring of 1610612734 cells holding 1610612733
items that 1610612733 pushes build; the new capacity is -1073741826. -/
theorem C23_newcap_wraps_negative_witness :
    (1073741822 : Int) ≤ 1610612733 ∧ (1610612733 : Int) + 1 < 2147483647 ∧
    janet_q_newcap 1610612733 = 2 * (1610612733 + 2) - 4294967296 ∧
    janet_q_newcap 1610612733 < 0 ∧ ¬ ((1610612733 : Int) + 1 < janet_q_newcap 1610612733) ∧
    janet_q_newcap 1610612733 ≠ min (2 * (1610612733 + 2)) 2147483647 :=
  ⟨by decide, by decide, C23_newcap_wraps_negative 1610612733 (by decide) (by decide)⟩

/-! ## Listener chains: next pointers -/

/-- A chain starts at its first listener. -/
theorem IsChain_start (s : EvState) (start : Option Nat) (xs : List Nat)
    (h : IsChain s start xs) : start = xs.head? := by
  cases xs with
  | nil => rw [IsChain_nil] at h; rw [h]; rfl
  | cons a rest => rw [IsChain_cons] at h; rw [h.1]; rfl

/-- In a chain the `_next` of a listener is the listener after it. -/
theorem IsChain_next (s : EvState) (r : Nat) (v : List Nat) :
    ∀ (u : List Nat) (start : Option Nat), IsChain s start (u ++ r :: v) →
    ∃ l, s.listeners r = some l ∧ l._next = v.head? ∧ IsChain s l._next v := by
  intro u
  induction u with
  | nil =>
    intro start h
    rw [List.nil_append, IsChain_cons] at h
    obtain ⟨-, l, h2, h3⟩ := h
    exact ⟨l, h2, IsChain_start s _ _ h3, h3⟩
  | cons b u ih =>
    intro start h
    rw [List.cons_append, IsChain_cons] at h
    obtain ⟨-, l, -, h3⟩ := h
    exact ih _ h3

/-- The chains of two pollables of a state with the listener invariant share
no listener. -/
theorem ListenInv_one_chain (s : EvState) (hi : ListenInv s) (a P Q : Nat)
    (p q : JanetPollable) (xs ys : List Nat) (hp : s.pollables P = some p)
    (hq : s.pollables Q = some q) (hx : IsChain s p.state xs) (hy : IsChain s q.state ys)
    (hax : a ∈ xs) (hay : a ∈ ys) : P = Q := by
  obtain ⟨l, hl⟩ := IsChain_allocated s xs _ a hx hax
  obtain ⟨xs0, c1, -, c3, -⟩ := hi.chains P p hp
  obtain ⟨ys0, d1, -, d3, -⟩ := hi.chains Q q hq
  have e1 := IsChain_unique s xs0 xs _ c1 hx
  have e2 := IsChain_unique s ys0 ys _ d1 hy
  subst e1 e2
  rw [← c3 a hax l hl, ← d3 a hay l hl]

/-! ## Claim C24 -/

/-- Claim C24 (successful listen): in a state with the listener invariant let
P be a pollable with chain `xs`, let `P._mask & mask = 0` and let the current
fiber have `waiting = none`; let `malloc` return the fresh address `a`.  Then
`janet_listen_impl` returns `a`; the chain of P is `a` followed by `xs`; the
listener at `a` has the machine given, the pollable P and the recorded mask
`mask | spawner`; `P._mask` is `P._mask | mask | spawner`; the active count is
one more; without the spawner bit in `mask` the listener's fiber is the
current fiber, whose `waiting` becomes `a`, and with it the listener's fiber
is none and `waiting` of the current fiber stays; every other fiber, listener
and pollable is as before; and the machine calls made are one `init` for
`a`. -/
theorem C24_listen_success (SPAWNER : Nat) (s : EvState) (P behavior mask a : Nat)
    (p : JanetPollable) (xs : List Nat) (hi : ListenInv s) (hp : s.pollables P = some p)
    (hm : p._mask &&& mask = 0) (hw : (s.fibers s.janet_vm_root_fiber).waiting = none)
    (hc : IsChain s p.state xs) (ha : s.listeners a = none) (ha0 : 0 < a)
    (ha1 : a < 18446744073709551616) :
    ∃ s1 p1 l, janet_listen_impl SPAWNER s P behavior mask (some a) = Outcome.ok a s1 ∧
      s1.pollables P = some p1 ∧ IsChain s1 p1.state (a :: xs) ∧
      s1.listeners a = some l ∧ l.machine = behavior ∧ l.pollable = P ∧
      l._mask = mask ||| SPAWNER ∧ p1._mask = p._mask ||| mask ||| SPAWNER ∧
      p1.handle = p.handle ∧ p1.flags = p.flags ∧
      s1.janet_vm_active_listeners = s.janet_vm_active_listeners + 1 ∧
      (mask &&& SPAWNER = 0 → l.fiber = some s.janet_vm_root_fiber ∧
        s1.fibers s.janet_vm_root_fiber =
          { s.fibers s.janet_vm_root_fiber with waiting := some a }) ∧
      (mask &&& SPAWNER ≠ 0 → l.fiber = none ∧
        s1.fibers s.janet_vm_root_fiber = s.fibers s.janet_vm_root_fiber) ∧
      (∀ g, g ≠ s.janet_vm_root_fiber → s1.fibers g = s.fibers g) ∧
      (∀ r, r ≠ a → s1.listeners r = s.listeners r) ∧
      (∀ Q, Q ≠ P → s1.pollables Q = s.pollables Q) ∧
      s1.machine_calls = s.machine_calls ++ [(a, JanetAsyncEvent.JANET_ASYNC_EVENT_INIT)] ∧
      s1.janet_vm_root_fiber = s.janet_vm_root_fiber := by
  obtain ⟨s1, e, q1, q2, q3, q4, q5, q6, q7, -, -, -, -, -, q13⟩ :=
    janet_listen_impl_spec SPAWNER s P behavior mask a p hp hm hw
  have hcount : s.janet_vm_active_listeners + 1 < 18446744073709551616 := by
    obtain ⟨all, c1, c2, c3⟩ := hi.counted
    have hnot : a ∉ all := fun h => (c2 a).mp h ha
    have hnd : (a :: all).Nodup := List.nodup_cons.mpr ⟨hnot, c1⟩
    rcases nodup_length_lt (a :: all) 18446744073709551616 hnd (by
      intro x hx
      rcases List.mem_cons.mp hx with rfl | hx
      · exact ⟨ha0, ha1⟩
      · exact hi.addresses x ((c2 x).mp hx)) with hb | hb
    · rw [c3]; simpa using hb
    · cases hb
  have hax : a ∉ xs := by
    intro h
    obtain ⟨l, hl⟩ := IsChain_allocated s xs _ a hc h
    rw [ha] at hl
    cases hl
  refine ⟨s1, _, _, e, q1, ?_, q3, rfl, rfl, rfl, ?_, rfl, rfl, ?_, ?_, ?_, ?_, q4, q2, q7, q13⟩
  · rw [IsChain_cons]
    refine ⟨rfl, _, q3, ?_⟩
    exact IsChain_congr s s1 xs _ (fun x hx => q4 x (fun e => hax (e ▸ hx))) hc
  · show p._mask ||| (mask ||| SPAWNER) = p._mask ||| mask ||| SPAWNER
    rw [Nat.lor_assoc]
  · rw [q6, size_t_succ_small _ hcount]
  · intro h0
    refine ⟨by simp [h0], ?_⟩
    rw [q5]
    simp [h0]
  · intro h0
    refine ⟨by simp [h0], ?_⟩
    rw [q5]
    simp [h0]
  · intro g hg
    rw [q5]
    simp [hg]

/-- Claim C24, instance: fiber 1 listens with mask 1 (spawner bit 4) on a
fresh pollable at address 0; the listener state is at address 100. -/
theorem C24_listen_success_witness :
    ∃ s1 p1 l, janet_listen_impl 4 freshPollable 0 7 1 (some 100) = Outcome.ok 100 s1 ∧
      s1.pollables 0 = some p1 ∧ IsChain s1 p1.state [100] ∧
      s1.listeners 100 = some l ∧ l.machine = 7 ∧ l.pollable = 0 ∧
      l._mask = 1 ||| 4 ∧ p1._mask = 0 ||| 1 ||| 4 ∧
      p1.handle = 3 ∧ p1.flags = 0 ∧
      s1.janet_vm_active_listeners = freshPollable.janet_vm_active_listeners + 1 ∧
      (1 &&& 4 = 0 → l.fiber = some freshPollable.janet_vm_root_fiber ∧
        s1.fibers freshPollable.janet_vm_root_fiber =
          { freshPollable.fibers freshPollable.janet_vm_root_fiber with waiting := some 100 }) ∧
      (1 &&& 4 ≠ 0 → l.fiber = none ∧
        s1.fibers freshPollable.janet_vm_root_fiber =
          freshPollable.fibers freshPollable.janet_vm_root_fiber) ∧
      (∀ g, g ≠ freshPollable.janet_vm_root_fiber → s1.fibers g = freshPollable.fibers g) ∧
      (∀ r, r ≠ 100 → s1.listeners r = freshPollable.listeners r) ∧
      (∀ Q, Q ≠ 0 → s1.pollables Q = freshPollable.pollables Q) ∧
      s1.machine_calls =
        freshPollable.machine_calls ++ [(100, JanetAsyncEvent.JANET_ASYNC_EVENT_INIT)] ∧
      s1.janet_vm_root_fiber = freshPollable.janet_vm_root_fiber :=
  C24_listen_success 4 freshPollable 0 7 1 100
    { handle := 3, flags := 0, state := none, _mask := 0 } []
    (ListenReach_inv 4 8 _ (freshPollable_reach 4 8)) rfl (by decide) rfl (by decide) rfl
    (by decide) (by decide)


theorem JanetListenerState_eq (x y : JanetListenerState) (h1 : x.machine = y.machine)
    (h2 : x.fiber = y.fiber) (h3 : x.pollable = y.pollable) (h4 : x._mask = y._mask)
    (h5 : x._next = y._next) : x = y := by
  cases x
  cases y
  simp only [JanetListenerState.mk.injEq]
  exact ⟨h1, h2, h3, h4, h5⟩

/-! ## Claim C25 -/

/-- Claim C25 (unlisten): in a state with the listener invariant let L be a
listener at `a` whose pollable P has the chain `pre ++ a :: post`, and let the
fuel exceed the length of `pre`.  Then `janet_unlisten_impl` returns; the
machine calls made are one `deinit` for `a`; the chain of P is `pre ++ post`
and `a` is freed; the active count is one less; `P._mask` is the old mask
without the bits recorded in L, handle and flags of P stay; a fiber gets
`waiting = none` exactly when it is the fiber of L and its `waiting` was `a`,
and every fiber is otherwise as before; every other pollable is as before;
and every other listener is as before, except that the listener in front of
`a` in the chain, whose `_next` was `a`, now has the `_next` of L. -/
theorem C25_unlisten (s : EvState) (a : Nat) (l : JanetListenerState) (p : JanetPollable)
    (pre post : List Nat) (fuel : Nat) (hi : ListenInv s)
    (hl : s.listeners a = some l) (hp : s.pollables l.pollable = some p)
    (hc : IsChain s p.state (pre ++ a :: post)) (hf : pre.length < fuel) :
    ∃ s1 p1, janet_unlisten_impl fuel s a = Outcome.ok () s1 ∧
      s1.machine_calls = s.machine_calls ++ [(a, JanetAsyncEvent.JANET_ASYNC_EVENT_DEINIT)] ∧
      s1.pollables l.pollable = some p1 ∧ IsChain s1 p1.state (pre ++ post) ∧
      a ∉ pre ++ post ∧ s1.listeners a = none ∧
      s1.janet_vm_active_listeners + 1 = s.janet_vm_active_listeners ∧
      p1._mask = clearBits p._mask l._mask ∧ p1.handle = p.handle ∧ p1.flags = p.flags ∧
      (∀ g, s1.fibers g =
        if l.fiber = some g ∧ (s.fibers g).waiting = some a
        then { s.fibers g with waiting := none } else s.fibers g) ∧
      (∀ Q, Q ≠ l.pollable → s1.pollables Q = s.pollables Q) ∧
      (∀ r, r ≠ a → pre.getLast? ≠ some r → s1.listeners r = s.listeners r) ∧
      (∀ r l0, pre.getLast? = some r → s.listeners r = some l0 →
        l0._next = some a ∧ s1.listeners r = some { l0 with _next := l._next }) := by
  obtain ⟨xs0, d1, hnd0, -, -⟩ := hi.chains l.pollable p hp
  have hx := IsChain_unique s xs0 _ _ d1 hc
  subst hx
  have hnd := hnd0
  obtain ⟨s1, p1, e, q1, q2, q3, q4, q5, -, q7, q8, q9, q10, q11, q12, q13, -⟩ :=
    janet_unlisten_impl_spec s a l p pre post fuel hl hp hc hnd hf
  obtain ⟨h0, h1⟩ := ListenInv_active_pos s a l hi hl
  have hapre : a ∉ pre := fun h => (List.nodup_append.mp hnd).2.2 h (List.mem_cons_self _ _)
  have hapost : a ∉ post := (List.nodup_cons.mp (List.nodup_append.mp hnd).2.1).1
  obtain ⟨la, hla, hlan, -⟩ := IsChain_next s a post pre _ hc
  rw [hl] at hla
  injection hla with hla
  subst hla
  -- a listener of `pre` keeps its fields; its `_next` is read off the chains
  have hpre : ∀ (u v : List Nat) (r : Nat), pre = u ++ r :: v →
      ∃ l0 l1, s.listeners r = some l0 ∧ s1.listeners r = some l1 ∧
        l1.machine = l0.machine ∧ l1.fiber = l0.fiber ∧ l1.pollable = l0.pollable ∧
        l1._mask = l0._mask ∧ l0._next = (v ++ a :: post).head? ∧
        l1._next = (v ++ post).head? := by
    intro u v r hpre
    have hra : r ≠ a := by
      intro e1
      apply hapre
      rw [hpre, e1]
      simp
    have c0 : IsChain s p.state (u ++ r :: (v ++ a :: post)) := by
      rw [hpre] at hc
      simpa using hc
    have c1 : IsChain s1 p1.state (u ++ r :: (v ++ post)) := by
      rw [hpre] at q5
      simpa using q5
    obtain ⟨l0, g1, g2, -⟩ := IsChain_next s r _ u _ c0
    obtain ⟨l1, k1, k2, -⟩ := IsChain_next s1 r _ u _ c1
    obtain ⟨l1', m1, m2, m3, m4, m5⟩ := q10 r l0 hra g1
    rw [k1] at m1
    injection m1 with m1
    subst m1
    exact ⟨l0, l1, g1, k1, m2, m3, m4, m5, g2, k2⟩
  refine ⟨s1, p1, e, q13, q1, q5, ?_, q8, ?_, q4, q2, q3, q11, q7, ?_, ?_⟩
  · intro h
    rcases List.mem_append.mp h with h | h
    · exact hapre h
    · exact hapost h
  · rw [q12, size_t_pred_pos _ h0 h1]
    omega
  · intro r hra hlast
    by_cases hr : r ∈ pre
    · obtain ⟨u, v, hsplit⟩ := List.append_of_mem hr
      obtain ⟨l0, l1, g1, k1, m2, m3, m4, m5, g2, k2⟩ := hpre u v r hsplit
      have hv : v ≠ [] := by
        intro hv
        apply hlast
        rw [hsplit, hv]
        simp
      obtain ⟨b, v', hv'⟩ := List.exists_cons_of_ne_nil hv
      rw [hv'] at g2 k2
      rw [g1, k1]
      congr 1
      exact JanetListenerState_eq l1 l0 m2 m3 m4 m5 (by rw [g2, k2]; rfl)
    · exact q9 r hra hr
  · intro r l0 hlast hl0
    have hsplit : pre = pre.dropLast ++ r :: [] := by
      have hne : pre ≠ [] := by
        intro h0
        rw [h0] at hlast
        simp at hlast
      rw [List.getLast?_eq_getLast pre hne] at hlast
      injection hlast with hlast
      rw [← hlast]
      exact (List.dropLast_append_getLast hne).symm
    obtain ⟨l0', l1, g1, k1, m2, m3, m4, m5, g2, k2⟩ := hpre _ [] r hsplit
    rw [hl0] at g1
    injection g1 with g1
    subst g1
    refine ⟨by simpa using g2, ?_⟩
    rw [k1]
    congr 1
    have k3 : l1._next = l._next := by
      rw [k2, hlan]
      simp
    exact JanetListenerState_eq l1 _ m2 m3 m4 m5 k3

/-- Claim C25, instance: fibers 1 and 2 listen on one pollable (listener states
at 100 and 101, chain 101, 100); the listener at 100 is unlistened. -/
theorem C25_unlisten_witness :
    ∃ s1 p1, janet_unlisten_impl 2 (twoListenersState 4 1 2) 100 = Outcome.ok () s1 ∧
      s1.machine_calls = (twoListenersState 4 1 2).machine_calls ++
        [(100, JanetAsyncEvent.JANET_ASYNC_EVENT_DEINIT)] ∧
      s1.pollables 0 = some p1 ∧ IsChain s1 p1.state ([101] ++ []) ∧
      100 ∉ [101] ++ [] ∧ s1.listeners 100 = none ∧
      s1.janet_vm_active_listeners + 1 = (twoListenersState 4 1 2).janet_vm_active_listeners ∧
      p1._mask = clearBits 7 5 ∧ p1.handle = 3 ∧ p1.flags = 0 ∧
      (∀ g, s1.fibers g =
        if some 1 = some g ∧ ((twoListenersState 4 1 2).fibers g).waiting = some 100
        then { (twoListenersState 4 1 2).fibers g with waiting := none }
        else (twoListenersState 4 1 2).fibers g) ∧
      (∀ Q, Q ≠ 0 → s1.pollables Q = (twoListenersState 4 1 2).pollables Q) ∧
      (∀ r, r ≠ 100 → [101].getLast? ≠ some r →
        s1.listeners r = (twoListenersState 4 1 2).listeners r) ∧
      (∀ r l0, [101].getLast? = some r → (twoListenersState 4 1 2).listeners r = some l0 →
        l0._next = some 100 ∧ s1.listeners r = some { l0 with _next := none }) :=
  C25_unlisten (twoListenersState 4 1 2) 100
    { machine := 7, fiber := some 1, pollable := 0, _mask := 5, _next := none }
    { handle := 3, flags := 0, state := some 101, _mask := 7 } [101] [] 2
    (ListenReach_inv 4 8 _ (twoListenersState_reach 8)) rfl rfl (by decide) (by decide)

/-! ## The walk of a ready pollable -/

/-- The walk of `janet_loop1_impl` over the part `rest` of the chain of a
pollable, `kept` being the listeners of the chain in front of it: it returns,
every listener of `rest` gets its steps, those with a step that returned
done are unlistened, and the chain is `kept` followed by the others. -/
theorem janet_loop1_walk_spec (EPOLLIN EPOLLOUT : Nat)
    (machine : Nat → JanetAsyncEvent → JanetAsyncStatus) (ctl : Nat → Int × Nat)
    (mask fuel P : Nat) (done : Nat → Bool)
    (hdone : ∀ a, done a = true ↔
      ((mask &&& EPOLLOUT ≠ 0 ∧ machine a JanetAsyncEvent.JANET_ASYNC_EVENT_WRITE =
          JanetAsyncStatus.JANET_ASYNC_STATUS_DONE) ∨
       (mask &&& EPOLLIN ≠ 0 ∧ machine a JanetAsyncEvent.JANET_ASYNC_EVENT_READ =
          JanetAsyncStatus.JANET_ASYNC_STATUS_DONE))) :
    ∀ (rest kept : List Nat) (rounds : Nat) (s : EvState) (p : JanetPollable),
    ListenInv s → s.pollables P = some p → IsChain s p.state (kept ++ rest) →
    (∀ a, a ∈ rest → (ctl a).1 ≠ -1) → rest.length ≤ rounds →
    kept.length + rest.length ≤ fuel →
    ∃ s1 p1, janet_loop1_walk EPOLLIN EPOLLOUT machine ctl mask fuel rounds s rest.head? =
        Outcome.ok () s1 ∧
      ListenInv s1 ∧ s1.pollables P = some p1 ∧
      IsChain s1 p1.state (kept ++ rest.filter (fun a => !done a)) ∧
      s1.machine_calls = s.machine_calls ++ rest.flatMap (fun a =>
        (if mask &&& EPOLLOUT ≠ 0 then [(a, JanetAsyncEvent.JANET_ASYNC_EVENT_WRITE)] else []) ++
        (if mask &&& EPOLLIN ≠ 0 then [(a, JanetAsyncEvent.JANET_ASYNC_EVENT_READ)] else []) ++
        (if done a = true then [(a, JanetAsyncEvent.JANET_ASYNC_EVENT_DEINIT)] else [])) ∧
      s1.janet_vm_active_listeners + (rest.filter done).length = s.janet_vm_active_listeners ∧
      (∀ a, a ∈ rest → done a = true → s1.listeners a = none) ∧
      (∀ x, s.listeners x = none → s1.listeners x = none) := by
  intro rest
  induction rest with
  | nil =>
    intro kept rounds s p hi hp hc _ _ _
    refine ⟨s, p, by cases rounds <;> rfl, hi, hp, by simpa using hc, by simp, by simp, ?_,
      fun _ h => h⟩
    intro a ha
    cases ha
  | cons a rest ih =>
    intro kept rounds s p hi hp hc hctl hrounds hfuel
    obtain ⟨xs0, d1, hnd, hpoll, -⟩ := hi.chains P p hp
    have hx := IsChain_unique s xs0 _ _ d1 hc
    subst hx
    obtain ⟨l, hl, hnext, -⟩ := IsChain_next s a rest kept _ hc
    have hlp : l.pollable = P := hpoll a (by simp) l hl
    cases rounds with
    | zero => simp at hrounds
    | succ r =>
      simp only [List.length_cons] at hrounds hfuel
      rw [List.head?_cons, janet_loop1_walk]
      simp only [hl]
      -- the state after the write step
      generalize hr1 : (if mask &&& EPOLLOUT ≠ 0 then
          (machine a JanetAsyncEvent.JANET_ASYNC_EVENT_WRITE,
            call_machine s a JanetAsyncEvent.JANET_ASYNC_EVENT_WRITE)
        else (JanetAsyncStatus.JANET_ASYNC_STATUS_NOT_DONE, s)) = r1
      have f1 : ListenInv r1.2 ∧ r1.2.listeners = s.listeners ∧ r1.2.pollables = s.pollables ∧
          r1.2.janet_vm_active_listeners = s.janet_vm_active_listeners ∧
          r1.2.machine_calls = s.machine_calls ++
            (if mask &&& EPOLLOUT ≠ 0 then [(a, JanetAsyncEvent.JANET_ASYNC_EVENT_WRITE)]
              else []) ∧
          (r1.1 = JanetAsyncStatus.JANET_ASYNC_STATUS_DONE ↔
            (mask &&& EPOLLOUT ≠ 0 ∧ machine a JanetAsyncEvent.JANET_ASYNC_EVENT_WRITE =
              JanetAsyncStatus.JANET_ASYNC_STATUS_DONE)) := by
        rw [← hr1]
        by_cases c : mask &&& EPOLLOUT = 0
        · simp [c, hi]
        · have c' : mask &&& EPOLLOUT ≠ 0 := c
          simp only [if_pos c']
          exact ⟨ListenInv_machine_call s a _ hi, rfl, rfl, rfl, rfl, by simp [c']⟩
      obtain ⟨i1, l1, p1, c1, m1, t1⟩ := f1
      -- the state after the read step
      generalize hr2 : (if mask &&& EPOLLIN ≠ 0 then
          (machine a JanetAsyncEvent.JANET_ASYNC_EVENT_READ,
            call_machine r1.2 a JanetAsyncEvent.JANET_ASYNC_EVENT_READ)
        else (JanetAsyncStatus.JANET_ASYNC_STATUS_NOT_DONE, r1.2)) = r2
      have f2 : ListenInv r2.2 ∧ r2.2.listeners = r1.2.listeners ∧
          r2.2.pollables = r1.2.pollables ∧
          r2.2.janet_vm_active_listeners = r1.2.janet_vm_active_listeners ∧
          r2.2.machine_calls = r1.2.machine_calls ++
            (if mask &&& EPOLLIN ≠ 0 then [(a, JanetAsyncEvent.JANET_ASYNC_EVENT_READ)]
              else []) ∧
          (r2.1 = JanetAsyncStatus.JANET_ASYNC_STATUS_DONE ↔
            (mask &&& EPOLLIN ≠ 0 ∧ machine a JanetAsyncEvent.JANET_ASYNC_EVENT_READ =
              JanetAsyncStatus.JANET_ASYNC_STATUS_DONE)) := by
        rw [← hr2]
        by_cases c : mask &&& EPOLLIN = 0
        · simp [c, i1]
        · have c' : mask &&& EPOLLIN ≠ 0 := c
          simp only [if_pos c']
          exact ⟨ListenInv_machine_call r1.2 a _ i1, rfl, rfl, rfl, rfl, by simp [c']⟩
      obtain ⟨i2, l2, p2, c2, m2, t2⟩ := f2
      obtain ⟨s0, hs0⟩ : ∃ s0, s0 = r2.2 := ⟨_, rfl⟩
      rw [← hs0] at i2 l2 p2 c2 m2 ⊢
      have hl0 : s0.listeners a = some l := by rw [l2, l1]; exact hl
      have hp0 : s0.pollables l.pollable = some p := by rw [p2, p1, hlp]; exact hp
      have hp0' : s0.pollables P = some p := by rw [p2, p1]; exact hp
      have hc0 : IsChain s0 p.state (kept ++ a :: rest) :=
        IsChain_congr s s0 _ _ (fun x _ => by rw [l2, l1]) hc
      have hm0 : s0.machine_calls = s.machine_calls ++
          ((if mask &&& EPOLLOUT ≠ 0 then [(a, JanetAsyncEvent.JANET_ASYNC_EVENT_WRITE)]
              else []) ++
            (if mask &&& EPOLLIN ≠ 0 then [(a, JanetAsyncEvent.JANET_ASYNC_EVENT_READ)]
              else [])) := by
        rw [m2, m1, List.append_assoc]
      have hcond : (r1.1 = JanetAsyncStatus.JANET_ASYNC_STATUS_DONE ∨
          r2.1 = JanetAsyncStatus.JANET_ASYNC_STATUS_DONE) ↔ done a = true := by
        rw [t1, t2, hdone a]
      by_cases hd : done a = true
      · rw [if_pos (hcond.mpr hd)]
        obtain ⟨s2, q, e, q1, q2, q3, -, q5, -, q7, q8, q9, -, -, q12, q13, -⟩ :=
          janet_unlisten_impl_spec s0 a l p kept rest fuel hl0 hp0 hc0 hnd (by omega)
        have hun : janet_unlisten fuel s0 a (ctl a).1 (ctl a).2 = Outcome.ok () s2 := by
          unfold janet_unlisten
          simp only [hl0, hp0]
          rw [if_neg (hctl a (by simp))]
          exact e
        have hi3 : ListenInv s2 := ListenInv_unlisten_impl s0 s2 fuel a i2 (by rw [e]; rfl)
        rw [hlp] at q1
        obtain ⟨h0, h1⟩ := ListenInv_active_pos s0 a l i2 hl0
        rw [hun]
        simp only []
        rw [hnext]
        obtain ⟨s3, p3, g1, g2, g3, g4, g5, g6, g7, g8⟩ := ih kept r s2 q hi3 q1 q5
          (fun x hx => hctl x (List.mem_cons_of_mem _ hx)) (by omega) (by omega)
        have hfree : ∀ x, s0.listeners x = none → s2.listeners x = none := by
          intro x hx
          by_cases hxa : x = a
          · rw [hxa]; exact q8
          · rw [q9 x hxa (fun hk => by
              obtain ⟨lx, hlx⟩ := IsChain_allocated s0 _ _ x hc0
                (List.mem_append_left _ hk)
              rw [hx] at hlx
              cases hlx)]
            exact hx
        refine ⟨s3, p3, g1, g2, g3, ?_, ?_, ?_, ?_, ?_⟩
        · simpa [List.filter_cons, hd] using g4
        · rw [g5, q13, hm0, List.flatMap_cons]
          simp [hd, List.append_assoc]
        · rw [List.filter_cons, if_pos hd, List.length_cons]
          rw [q12, size_t_pred_pos _ h0 h1, c2, c1] at g6
          rw [c2, c1] at h0
          omega
        · intro x hx hdx
          rcases List.mem_cons.mp hx with rfl | hx
          · exact g8 x q8
          · exact g7 x hx hdx
        · intro x hx
          exact g8 x (hfree x (by rw [l2, l1]; exact hx))
      · rw [if_neg (fun h => hd (hcond.mp h))]
        rw [hnext]
        have hc1 : IsChain s0 p.state ((kept ++ [a]) ++ rest) := by simpa using hc0
        obtain ⟨s3, p3, g1, g2, g3, g4, g5, g6, g7, g8⟩ := ih (kept ++ [a]) r s0 p i2 hp0' hc1
          (fun x hx => hctl x (List.mem_cons_of_mem _ hx)) (by omega)
          (by simp only [List.length_append, List.length_singleton]; omega)
        have hdf : done a = false := by
          cases h : done a
          · rfl
          · exact absurd h hd
        refine ⟨s3, p3, g1, g2, g3, ?_, ?_, ?_, ?_, ?_⟩
        · simpa [List.filter_cons, hdf] using g4
        · rw [g5, hm0, List.flatMap_cons]
          simp [hdf, List.append_assoc]
        · rw [List.filter_cons, hdf]
          simp only [Bool.false_eq_true, if_false]
          rw [g6, c2, c1]
        · intro x hx hdx
          rcases List.mem_cons.mp hx with rfl | hx
          · exact absurd hdx hd
          · exact g7 x hx hdx
        · intro x hx
          exact g8 x (by rw [l2, l1]; exact hx)

/-! ## Claim C26 -/

/-- Claim C26 (event dispatch order): in a state with the listener invariant
let P be a pollable with chain `xs`, reported ready with the event bits
`mask`; let no `epoll_ctl` of an unlisten fail, and let the bounds on the loops
be at least the length of the chain.  Then the dispatch returns; the machine
calls it makes are, for the listeners of `xs` in chain order, the write step
if `mask` has `EPOLLOUT`, then the read step if `mask` has `EPOLLIN`, then,
exactly when one of these steps returned done, the `deinit` of the unlisten;
the chain of P is then `xs` without the listeners that returned done, which
are freed, and the active count has dropped by their number. -/
theorem C26_dispatch_order (EPOLLIN EPOLLOUT : Nat)
    (machine : Nat → JanetAsyncEvent → JanetAsyncStatus) (ctl : Nat → Int × Nat)
    (mask fuel rounds P : Nat) (done : Nat → Bool) (s : EvState) (p : JanetPollable)
    (xs : List Nat)
    (hdone : ∀ a, done a = true ↔
      ((mask &&& EPOLLOUT ≠ 0 ∧ machine a JanetAsyncEvent.JANET_ASYNC_EVENT_WRITE =
          JanetAsyncStatus.JANET_ASYNC_STATUS_DONE) ∨
       (mask &&& EPOLLIN ≠ 0 ∧ machine a JanetAsyncEvent.JANET_ASYNC_EVENT_READ =
          JanetAsyncStatus.JANET_ASYNC_STATUS_DONE)))
    (hi : ListenInv s) (hp : s.pollables P = some p) (hc : IsChain s p.state xs)
    (hctl : ∀ a, a ∈ xs → (ctl a).1 ≠ -1) (hrounds : xs.length ≤ rounds)
    (hfuel : xs.length ≤ fuel) :
    ∃ s1 p1, janet_loop1_normal_event EPOLLIN EPOLLOUT machine ctl fuel rounds s P mask =
        Outcome.ok () s1 ∧
      s1.machine_calls = s.machine_calls ++ xs.flatMap (fun a =>
        (if mask &&& EPOLLOUT ≠ 0 then [(a, JanetAsyncEvent.JANET_ASYNC_EVENT_WRITE)] else []) ++
        (if mask &&& EPOLLIN ≠ 0 then [(a, JanetAsyncEvent.JANET_ASYNC_EVENT_READ)] else []) ++
        (if done a = true then [(a, JanetAsyncEvent.JANET_ASYNC_EVENT_DEINIT)] else [])) ∧
      s1.pollables P = some p1 ∧ IsChain s1 p1.state (xs.filter (fun a => !done a)) ∧
      (∀ a, a ∈ xs → done a = true → s1.listeners a = none) ∧
      s1.janet_vm_active_listeners + (xs.filter done).length = s.janet_vm_active_listeners ∧
      ListenInv s1 := by
  have hst := IsChain_start s _ _ hc
  obtain ⟨s1, p1, g1, g2, g3, g4, g5, g6, g7, -⟩ :=
    janet_loop1_walk_spec EPOLLIN EPOLLOUT machine ctl mask fuel P done hdone xs [] rounds s p
      hi hp (by simpa using hc) hctl hrounds (by simpa using hfuel)
  refine ⟨s1, p1, ?_, g5, g3, by simpa using g4, g7, g6, g2⟩
  unfold janet_loop1_normal_event
  simp only [hp]
  rw [hst]
  exact g1

/-- Claim C26, instance: the pollable at 0 with the chain 101, 100 is ready for
read and write (`EPOLLIN` = 1, `EPOLLOUT` = 4, event bits 5); the write step of
101 returns done, every other step not done.  The calls are write, read and
`deinit` for 101, then write and read for 100, and the chain is left with
100. -/
theorem C26_dispatch_order_witness :
    ∃ s1 p1, janet_loop1_normal_event 1 4 doneOnWrite101 (fun _ => (0, 0)) 3 3
        (twoListenersState 4 1 2) 0 5 = Outcome.ok () s1 ∧
      s1.machine_calls = (twoListenersState 4 1 2).machine_calls ++
        [101, 100].flatMap (fun a =>
        (if 5 &&& 4 ≠ 0 then [(a, JanetAsyncEvent.JANET_ASYNC_EVENT_WRITE)] else []) ++
        (if 5 &&& 1 ≠ 0 then [(a, JanetAsyncEvent.JANET_ASYNC_EVENT_READ)] else []) ++
        (if decide (a = 101) = true then [(a, JanetAsyncEvent.JANET_ASYNC_EVENT_DEINIT)]
          else [])) ∧
      s1.pollables 0 = some p1 ∧
      IsChain s1 p1.state ([101, 100].filter (fun a => !decide (a = 101))) ∧
      (∀ a, a ∈ [101, 100] → decide (a = 101) = true → s1.listeners a = none) ∧
      s1.janet_vm_active_listeners + ([101, 100].filter (fun a => decide (a = 101))).length =
        (twoListenersState 4 1 2).janet_vm_active_listeners ∧
      ListenInv s1 :=
  C26_dispatch_order 1 4 doneOnWrite101 (fun _ => (0, 0)) 5 3 3 0 (fun a => decide (a = 101))
    (twoListenersState 4 1 2) { handle := 3, flags := 0, state := some 101, _mask := 7 }
    [101, 100]
    (by
      intro a
      unfold doneOnWrite101
      by_cases h : a = 101
      · simp [h]
      · simp [h])
    (ListenReach_inv 4 8 _ (twoListenersState_reach 8)) rfl (by decide)
    (fun _ _ => by simp) (by decide) (by decide)

/-! ## Claim C27 -/

/-- Claim C27 (heap invariant of add and pop(0)): on a min-heap,
`add_timeout` for a fiber with `timeout_index = -1` leaves a min-heap whose
entries are the previous ones and the new one; and when the heap is not empty
`peek_timeout` returns the root, no entry is earlier than the root, and
`pop_timeout(0)` leaves a min-heap whose entries together with the root are
the previous entries. -/
theorem C27_heap_invariant (s : EvState) (tmo : JanetTimeout) (hh : TqHeap s) :
    ((s.fibers tmo.fiber).timeout_index = -1 →
      TqHeap (add_timeout s tmo) ∧
      (add_timeout s tmo).janet_vm_tq_count = s.janet_vm_tq_count + 1 ∧
      (tqEntries (add_timeout s tmo)).Perm (tmo :: tqEntries s)) ∧
    (0 < s.janet_vm_tq_count →
      peek_timeout s = some (s.janet_vm_tq 0) ∧
      (∀ t, t ∈ tqEntries s → (s.janet_vm_tq 0).when ≤ t.when) ∧
      TqHeap (pop_timeout s 0) ∧
      (pop_timeout s 0).janet_vm_tq_count = s.janet_vm_tq_count - 1 ∧
      (tqEntries s).Perm (s.janet_vm_tq 0 :: tqEntries (pop_timeout s 0))) := by
  constructor
  · intro hneg
    obtain ⟨a1, a2, a3, -, -⟩ := add_timeout_spec s tmo hh (by rw [hneg]; decide)
    exact ⟨a1, a2, a3⟩
  · intro hpos
    obtain ⟨b1, b2, b3, -⟩ := pop_timeout_zero_spec s hh hpos
    refine ⟨?_, ?_, b1, b2, b3⟩
    · unfold peek_timeout
      rw [if_neg (by omega)]
    · intro t ht
      obtain ⟨i, hi, e⟩ := (mem_tqEntries s t).mp ht
      rw [← e]
      exact hh.root_min s i hi

/-- Claim C27, instance: the heap of three sleeps (10, 30, 20 for fibers 1, 2,
3), a new timeout of fiber 4 until 5, and the removal of the root. -/
theorem C27_heap_invariant_witness :
    TqHeap threeSleeps ∧ (threeSleeps.fibers 4).timeout_index = -1 ∧
    0 < threeSleeps.janet_vm_tq_count ∧
    (TqHeap (add_timeout threeSleeps { when := 5, fiber := 4 }) ∧
      (add_timeout threeSleeps { when := 5, fiber := 4 }).janet_vm_tq_count =
        threeSleeps.janet_vm_tq_count + 1 ∧
      (tqEntries (add_timeout threeSleeps { when := 5, fiber := 4 })).Perm
        ({ when := 5, fiber := 4 } :: tqEntries threeSleeps)) ∧
    (peek_timeout threeSleeps = some (threeSleeps.janet_vm_tq 0) ∧
      (∀ t, t ∈ tqEntries threeSleeps → (threeSleeps.janet_vm_tq 0).when ≤ t.when) ∧
      TqHeap (pop_timeout threeSleeps 0) ∧
      (pop_timeout threeSleeps 0).janet_vm_tq_count = threeSleeps.janet_vm_tq_count - 1 ∧
      (tqEntries threeSleeps).Perm
        (threeSleeps.janet_vm_tq 0 :: tqEntries (pop_timeout threeSleeps 0))) := by
  have hh : TqHeap threeSleeps := by
    intro i h1 h2
    have h3 : i < 3 := h2
    interval_cases i <;> decide
  have h := C27_heap_invariant threeSleeps { when := 5, fiber := 4 } hh
  exact ⟨hh, by decide, by decide, h.1 (by decide), h.2 (by decide)⟩

/-- The sift-down of `pop_timeout` started at an index without children does
nothing. -/
theorem pop_timeout_loop_leaf (fuel : Nat) (s : EvState) (index : Nat)
    (h : s.janet_vm_tq_count ≤ (index <<< 1) + 1) : pop_timeout_loop fuel s index = s := by
  cases fuel with
  | zero => rfl
  | succ f =>
    unfold pop_timeout_loop
    simp only []
    have h1 : ¬ ((index <<< 1) + 1 < s.janet_vm_tq_count ∧
        (s.janet_vm_tq ((index <<< 1) + 1)).when < (s.janet_vm_tq index).when) :=
      fun c => absurd c.1 (by omega)
    rw [if_neg h1]
    have h2 : ¬ ((index <<< 1) + 1 + 1 < s.janet_vm_tq_count ∧
        (s.janet_vm_tq ((index <<< 1) + 1 + 1)).when < (s.janet_vm_tq index).when) :=
      fun c => absurd c.1 (by omega)
    rw [if_neg h2]
    simp

/-! ## Claim C28 -/

/-- Claim C28, failing inputs: `pop_timeout(index)` at the last position,
`index = count - 1`.  The function sets the `timeout_index` of the fiber of
the entry to -1, copies the last entry, which is that same entry, to `index`,
and sets the `timeout_index` of its fiber to `index`: the fiber of the removed
entry ends with `timeout_index = index`, not -1, and the heap has `index`
entries. -/
theorem C28_pop_last_keeps_index (s : EvState) (index : Nat)
    (h : s.janet_vm_tq_count = index + 1) :
    ((pop_timeout s index).fibers (s.janet_vm_tq index).fiber).timeout_index = index ∧
    (pop_timeout s index).janet_vm_tq_count = index := by
  unfold pop_timeout
  rw [if_neg (by omega)]
  simp only []
  rw [pop_timeout_loop_leaf _ _ _ (by
    simp only [EvState.setTimeoutIndex, EvState.setFiber, EvState.setTq, h, Nat.shiftLeft_eq]
    omega)]
  simp [EvState.setTimeoutIndex, EvState.setFiber, EvState.setTq, h]

/-- Claim C28, instances: a heap of one entry (fiber 1 sleeps until 30) with
`pop_timeout(0)`, and the last position of a heap of three (fibers 1, 2, 3
sleep until 10, 30, 20) with `pop_timeout(2)`; in both the back-link at the
index is right before the call. -/
theorem C28_pop_last_keeps_index_witness :
    ((sleepAll [{ when := 30, fiber := 1 }]).janet_vm_tq_count = 0 + 1 ∧
      ((sleepAll [{ when := 30, fiber := 1 }]).janet_vm_tq 0).fiber = 1 ∧
      ((sleepAll [{ when := 30, fiber := 1 }]).fibers 1).timeout_index = 0 ∧
      ((pop_timeout (sleepAll [{ when := 30, fiber := 1 }]) 0).fibers
        ((sleepAll [{ when := 30, fiber := 1 }]).janet_vm_tq 0).fiber).timeout_index
          = (0 : Nat) ∧
      (pop_timeout (sleepAll [{ when := 30, fiber := 1 }]) 0).janet_vm_tq_count = 0) ∧
    (threeSleeps.janet_vm_tq_count = 2 + 1 ∧ (threeSleeps.janet_vm_tq 2).fiber = 3 ∧
      (threeSleeps.fibers 3).timeout_index = 2 ∧
      ((pop_timeout threeSleeps 2).fibers (threeSleeps.janet_vm_tq 2).fiber).timeout_index
        = (2 : Nat) ∧
      (pop_timeout threeSleeps 2).janet_vm_tq_count = 2) :=
  ⟨⟨by decide, by decide, by decide,
      C28_pop_last_keeps_index (sleepAll [{ when := 30, fiber := 1 }]) 0 (by decide)⟩,
    ⟨by decide, by decide, by decide, C28_pop_last_keeps_index threeSleeps 2 (by decide)⟩⟩

/-! ## Claim C29 -/

/-- Claim C29 (ring shape): after any calls of `janet_q_push` and
`janet_q_pop` on an initialised ring (element size 8 or 16, the sizes the
module uses), either `capacity = 0` and `head = tail = 0`, or `head` and
`tail` are below `capacity` and `janet_q_count` is at most `capacity - 1`;
`janet_q_count` is the number of items pushed and not yet popped; `head =
tail` holds exactly when that number is 0; and a further push that returns 0
leaves `head` different from `tail`. -/
theorem C29_ring_shape {α : Type} [DecidableEq α] (itemsize : Nat)
    (hs : itemsize = 8 ∨ itemsize = 16) (calls : List (QCall α)) (obs : List (QObs α))
    (q : JanetQueue α) (h : ring_run itemsize janet_q_init calls = some (obs, q)) :
    ((q.capacity = 0 ∧ q.head = 0 ∧ q.tail = 0) ∨
      (q.head < q.capacity ∧ q.tail < q.capacity ∧
        janet_q_count q ≤ (q.capacity : Int) - 1)) ∧
    janet_q_count q = heldItems obs ∧ 0 ≤ heldItems obs ∧
    (q.head = q.tail ↔ heldItems obs = 0) ∧
    (∀ x q1, janet_q_push q x itemsize = QPush.ok q1 → q1.head ≠ q1.tail) := by
  obtain ⟨hq, hc⟩ := ring_run_shape itemsize hs calls janet_q_init q obs
    janet_q_init_shape.1 h
  rw [janet_q_init_shape.2, zero_add] at hc
  have hn := janet_q_count_nonneg q hq
  refine ⟨?_, hc, by rw [← hc]; exact hn.1, by rw [← hc]; exact QWF_head_eq_tail q hq, ?_⟩
  · rcases hq with h0 | h1
    · exact Or.inl h0
    · right
      refine ⟨h1.1, h1.2, ?_⟩
      rcases hn.2 with h2 | h2
      · omega
      · omega
  · intro x q1 hp
    obtain ⟨g1, g2⟩ := janet_q_push_shape q q1 x itemsize hs hq hp
    intro e
    have := (QWF_head_eq_tail q1 g1).mp e
    omega

/-- Claim C29, instance: three pushes, a pop, two pushes (the second grows
the wrapped ring) and four pops on a ring of 8-byte items. -/
theorem C29_ring_shape_witness :
    ∃ obs q, ring_run 8 janet_q_init growWrappedCalls = some (obs, q) ∧
      ((q.capacity = 0 ∧ q.head = 0 ∧ q.tail = 0) ∨
        (q.head < q.capacity ∧ q.tail < q.capacity ∧
          janet_q_count q ≤ (q.capacity : Int) - 1)) ∧
      janet_q_count q = heldItems obs ∧ 0 ≤ heldItems obs ∧
      (q.head = q.tail ↔ heldItems obs = 0) ∧
      (∀ x q1, janet_q_push q x 8 = QPush.ok q1 → q1.head ≠ q1.tail) :=
  ⟨_, _, rfl, C29_ring_shape 8 (Or.inl rfl) growWrappedCalls _ _ rfl⟩

/-! ## Claim C30 -/

/-- Claim C30 (active-listener accounting): in every state reachable from
`janet_ev_init_common` by the listener functions, the listeners that are in
the chain of some pollable form a list without repetition whose length is
`janet_vm_active_listeners`; a listener is in the chain of one pollable only,
and once in it; the count is 0 exactly when no chain has a listener; and a
`janet_unlisten_impl` that returns found the count positive and left it one
less. -/
theorem C30_active_listener_count (SPAWNER CLOSED : Nat) (s : EvState)
    (hr : ListenReach SPAWNER CLOSED s) :
    (∃ all : List Nat, all.Nodup ∧ (∀ a, a ∈ all ↔ InChains s a) ∧
      s.janet_vm_active_listeners = all.length) ∧
    (∀ a P Q p q xs ys, s.pollables P = some p → s.pollables Q = some q →
      IsChain s p.state xs → IsChain s q.state ys → a ∈ xs → a ∈ ys → P = Q) ∧
    (∀ P p xs, s.pollables P = some p → IsChain s p.state xs → xs.Nodup) ∧
    (s.janet_vm_active_listeners = 0 ↔ ∀ a, ¬ InChains s a) ∧
    (∀ fuel a s1, janet_unlisten_impl fuel s a = Outcome.ok () s1 →
      0 < s.janet_vm_active_listeners ∧
      s1.janet_vm_active_listeners + 1 = s.janet_vm_active_listeners) := by
  have hi := ListenReach_inv SPAWNER CLOSED s hr
  have hin : ∀ a, InChains s a ↔ s.listeners a ≠ none := by
    intro a
    constructor
    · intro h
      obtain ⟨P, p, xs, h1, h2, h3⟩ := h
      obtain ⟨l, hl⟩ := IsChain_allocated s xs _ a h2 h3
      rw [hl]
      simp
    · intro h
      cases hl : s.listeners a with
      | none => exact absurd hl h
      | some l =>
        obtain ⟨p, xs, h1, h2, h3⟩ := hi.linked a l hl
        exact ⟨l.pollable, p, xs, h1, h2, h3⟩
  obtain ⟨all, c1, c2, c3⟩ := hi.counted
  refine ⟨⟨all, c1, fun a => (c2 a).trans (hin a).symm, c3⟩, ?_, ?_, ?_, ?_⟩
  · intro a P Q p q xs ys hp hq hx hy hax hay
    exact ListenInv_one_chain s hi a P Q p q xs ys hp hq hx hy hax hay
  · intro P p xs hp hx
    obtain ⟨xs0, d1, hnd, -, -⟩ := hi.chains P p hp
    rw [← IsChain_unique s xs0 xs _ d1 hx]
    exact hnd
  · rw [c3]
    constructor
    · intro h0 a ha
      have : all = [] := List.length_eq_zero.mp h0
      have hm := (c2 a).mpr ((hin a).mp ha)
      rw [this] at hm
      cases hm
    · intro h0
      cases all with
      | nil => rfl
      | cons b rest =>
        exfalso
        exact h0 b ((hin b).mpr ((c2 b).mp (List.mem_cons_self _ _)))
  · intro fuel a s1 h
    obtain ⟨l, g1, -, -, g4, -⟩ := janet_unlisten_impl_returned s s1 fuel a hi h
    exact ⟨by omega, g4⟩

/-- Claim C30, instance: fibers 1 and 2 listen on one pollable; the count is
2. -/
theorem C30_active_listener_count_witness :
    ListenReach 4 8 (twoListenersState 4 1 2) ∧
    (twoListenersState 4 1 2).janet_vm_active_listeners = 2 ∧
    (∃ all : List Nat, all.Nodup ∧ (∀ a, a ∈ all ↔ InChains (twoListenersState 4 1 2) a) ∧
      (twoListenersState 4 1 2).janet_vm_active_listeners = all.length) ∧
    ((twoListenersState 4 1 2).janet_vm_active_listeners = 0 ↔
      ∀ a, ¬ InChains (twoListenersState 4 1 2) a) :=
  ⟨twoListenersState_reach 8, by decide,
    (C30_active_listener_count 4 8 _ (twoListenersState_reach 8)).1,
    (C30_active_listener_count 4 8 _ (twoListenersState_reach 8)).2.2.2.1⟩

/-! ## Claim C31 -/

/-- Claim C31, failing inputs: `give(ch, v)` on a channel whose front pending
reader has its scheduled flag set.  `cfun_channel_push` removes the reader
from the pending readers and calls `janet_schedule(reader, v)`, which returns
at once because of the flag: the call returns the channel, and the items of
the channel, the ready queue and the fibers are as before, so `v` is neither
stored nor handed over. -/
theorem C31_give_to_scheduled_reader_drops_value (s : EvState) (p : Nat) (v : Janet)
    (reader : Nat) (rest : List (Option Nat)) (hr : QWF (s.channels p).read_pending)
    (hfront : chanReaders s p = some reader :: rest)
    (hs : (s.fibers reader).scheduled = true) :
    ∃ s1, cfun_channel_push s [Janet.channel p, v] = CResult.ret (Janet.channel p) s1 ∧
      chanReaders s1 p = rest ∧ chanItems s1 p = chanItems s p ∧
      readyTasks s1 = readyTasks s ∧ s1.fibers = s.fibers := by
  obtain ⟨rq, hpop, -, hrest, -⟩ :=
    janet_q_pop_of_items (s.channels p).read_pending sizeof_ptr (some reader) rest hr hfront
  have hsch : janet_schedule (s.setChannel p { s.channels p with read_pending := rq }) reader v
      = some (s.setChannel p { s.channels p with read_pending := rq }) := by
    unfold janet_schedule
    rw [if_pos (by simpa [EvState.setChannel] using hs)]
  refine ⟨_, give_reader_branch s _ p v reader rq hpop hsch, ?_, ?_, rfl, rfl⟩
  · unfold chanReaders
    simpa [EvState.setChannel] using hrest
  · unfold chanItems
    simp [EvState.setChannel]

/-- Claim C31, instance: fiber 1 parks as a reader of a channel of capacity 0,
`ev/go` schedules fiber 1 with nil, and fiber 9 gives 42.  Before the give
the channel holds no item and the ready queue holds the task (fiber 1, nil);
after it this is still so and no reader is pending: 42 is in neither. -/
theorem C31_give_to_scheduled_reader_drops_value_witness :
    QWF (readerScheduled.channels 0).read_pending ∧
    chanReaders readerScheduled 0 = [some 1] ∧
    (readerScheduled.fibers 1).scheduled = true ∧
    chanItems readerScheduled 0 = [] ∧
    readyTasks readerScheduled = [some { fiber := 1, value := Janet.nil }] ∧
    ∃ s1, cfun_channel_push readerScheduled [Janet.channel 0, Janet.number 42] =
        CResult.ret (Janet.channel 0) s1 ∧
      chanReaders s1 0 = [] ∧ chanItems s1 0 = chanItems readerScheduled 0 ∧
      readyTasks s1 = readyTasks readerScheduled ∧ s1.fibers = readerScheduled.fibers :=
  ⟨by decide, by decide, by decide, by decide, by decide,
    C31_give_to_scheduled_reader_drops_value readerScheduled 0 (Janet.number 42) 1 []
      (by decide) (by decide) (by decide)⟩

/-! ## Argument indices: the range test -/

theorem wrap32_of_small' (x : Int) (h0 : -2147483648 ≤ x) (h1 : x ≤ 2147483647) :
    wrap32 x = x := by
  unfold wrap32; omega

/-- What `janet_getargindex` does with an integer argument, for a length in
the range of `int32_t` that is not negative: with `r` the raw index, or the
raw index plus the length when the raw index is negative, it returns `r` when
`0 ≤ r ≤ length` and raises the out-of-range panic otherwise. -/
theorem janet_getargindex_spec (janet_checkint : Janet → Bool)
    (janet_unwrap_integer : Janet → Int) (argv : Nat → Janet) (n : Nat) (length : Int)
    (which : String) (raw : Int) (hc : janet_checkint (argv n) = true)
    (hr : janet_unwrap_integer (argv n) = raw) (hr0 : -2147483648 ≤ raw)
    (hr1 : raw ≤ 2147483647) (h0 : 0 ≤ length) (h1 : length ≤ 2147483647) :
    janet_getargindex janet_checkint janet_unwrap_integer argv n length which =
      if 0 ≤ (if raw < 0 then raw + length else raw) ∧
          (if raw < 0 then raw + length else raw) ≤ length
      then Except.ok (if raw < 0 then raw + length else raw)
      else Except.error (ArgPanic.out_of_half_open_range which
        (if raw < 0 then raw + length else raw) length) := by
  unfold janet_getargindex janet_getinteger
  simp only [hc, hr, not_true_eq_false, if_false]
  rw [wrap32_of_small' raw hr0 hr1]
  by_cases hneg : raw < 0
  · have e : wrap32 (raw + length) = raw + length :=
      wrap32_of_small' (raw + length) (by omega) (by omega)
    simp only [hneg, if_true, e]
    split_ifs <;> first | rfl | (exfalso; omega)
  · simp only [hneg, if_false, false_or]
    split_ifs <;> first | rfl | (exfalso; omega)

/-! ## Claim C32 -/

/-- Claim C32, failing inputs: a raw index equal to the length.
`janet_getargindex` tests `raw > length`, so it returns `length`, which is not
in `[0, length)`, the range its message names. -/
theorem C32_getargindex_accepts_length (janet_checkint : Janet → Bool)
    (janet_unwrap_integer : Janet → Int) (argv : Nat → Janet) (n : Nat) (length : Int)
    (which : String) (hc : janet_checkint (argv n) = true)
    (hr : janet_unwrap_integer (argv n) = length) (h0 : 0 ≤ length)
    (h1 : length ≤ 2147483647) :
    janet_getargindex janet_checkint janet_unwrap_integer argv n length which =
      Except.ok length ∧
    ¬ (0 ≤ length ∧ length < length) := by
  refine ⟨?_, by omega⟩
  rw [janet_getargindex_spec janet_checkint janet_unwrap_integer argv n length which length
    hc hr (by omega) h1 h0 h1]
  rw [if_neg (by omega : ¬ length < 0), if_pos (by omega)]

/-- Claim C32, instances: index 3 for length 3 is returned, and so is index 0
for length 0. -/
theorem C32_getargindex_accepts_length_witness :
    (janet_getargindex checkint_of_number unwrap_integer_of_number
        (fun _ => Janet.number 3) 0 3 "start" = Except.ok 3 ∧
      ¬ ((0 : Int) ≤ 3 ∧ (3 : Int) < 3)) ∧
    (janet_getargindex checkint_of_number unwrap_integer_of_number
        (fun _ => Janet.number 0) 0 0 "start" = Except.ok 0 ∧
      ¬ ((0 : Int) ≤ 0 ∧ (0 : Int) < 0)) :=
  ⟨C32_getargindex_accepts_length checkint_of_number unwrap_integer_of_number
      (fun _ => Janet.number 3) 0 3 "start" (by decide) (by decide) (by decide) (by decide),
    C32_getargindex_accepts_length checkint_of_number unwrap_integer_of_number
      (fun _ => Janet.number 0) 0 0 "start" (by decide) (by decide) (by decide) (by decide)⟩

/-! ## 64-bit integers: the guarded division -/

theorem wrap64_range (x : Int) : INT64_MIN ≤ wrap64 x ∧ wrap64 x ≤ INT64_MAX := by
  unfold wrap64 INT64_MIN INT64_MAX; omega

theorem wrap64_of_range (x : Int) (h0 : INT64_MIN ≤ x) (h1 : x ≤ INT64_MAX) : wrap64 x = x := by
  unfold wrap64; unfold INT64_MIN at h0; unfold INT64_MAX at h1; omega

/-- Every value `check_bi_int64` returns is an `int64_t`. -/
theorem check_bi_int64_range (strtoll : List Char → Nat → Strtoll) (ERANGE : Nat)
    (heap : Nat → Int) (x : BiJanet) (v : Int)
    (h : check_bi_int64 strtoll ERANGE heap x = some v) :
    INT64_MIN ≤ v ∧ v ≤ INT64_MAX := by
  cases x with
  | number dbl =>
    cases dbl with
    | finite q =>
      simp only [check_bi_int64] at h
      split at h
      · injection h with h; rw [← h]; exact wrap64_range _
      · cases h
    | infinite => simp [check_bi_int64] at h
    | nan => simp [check_bi_int64] at h
  | string str =>
    simp only [check_bi_int64, parse_int64] at h
    split_ifs at h <;> first
      | (cases h; done)
      | (cases h; exact wrap64_range _)
  | abstract ty p =>
    simp only [check_bi_int64] at h
    split at h
    · injection h with h; rw [← h]; exact wrap64_range _
    · cases h
  | other => simp [check_bi_int64] at h

/-- A truncated quotient of an `int64_t` is an `int64_t`, except for
`INT64_MIN / -1`. -/
theorem tdiv_range (a b : Int) (h0 : INT64_MIN ≤ a) (h1 : a ≤ INT64_MAX) (hb : b ≠ 0)
    (hg : ¬ (b = -1 ∧ a = INT64_MIN)) :
    INT64_MIN ≤ Int.tdiv a b ∧ Int.tdiv a b ≤ INT64_MAX := by
  unfold INT64_MIN at h0 hg ⊢
  unfold INT64_MAX at h1 ⊢
  rcases a with m | m <;> rcases b with n | n
  · have e : (Int.ofNat m).tdiv (Int.ofNat n) = ((m / n : Nat) : Int) := rfl
    have h2 := Nat.div_le_self m n
    simp only [Int.ofNat_eq_coe] at h1
    rw [e]
    generalize m / n = k at h2 ⊢
    omega
  · have e : (Int.ofNat m).tdiv (Int.negSucc n) = -((m / (n + 1) : Nat) : Int) := rfl
    have h2 := Nat.div_le_self m (n + 1)
    simp only [Int.ofNat_eq_coe] at h1
    rw [e]
    generalize m / (n + 1) = k at h2 ⊢
    omega
  · have e : (Int.negSucc m).tdiv (Int.ofNat n) = -(((m + 1) / n : Nat) : Int) := rfl
    have h2 := Nat.div_le_self (m + 1) n
    rw [Int.negSucc_eq] at h0
    rw [e]
    generalize (m + 1) / n = k at h2 ⊢
    omega
  · have e : (Int.negSucc m).tdiv (Int.negSucc n) = (((m + 1) / (n + 1) : Nat) : Int) := rfl
    have h2 := Nat.div_le_self (m + 1) (n + 1)
    rw [Int.negSucc_eq] at h0
    rw [e]
    by_cases hn : n = 0
    · subst hn
      have h4 : (m + 1) / (0 + 1) = m + 1 := by simp
      rw [h4]
      have h5 : ¬ (Int.negSucc m = -9223372036854775808) := fun h => hg ⟨rfl, h⟩
      rw [Int.negSucc_eq] at h5
      omega
    · have h3 : (m + 1) / (n + 1) ≤ (m + 1) / 2 :=
        Nat.div_le_div_left (by omega) (by decide)
      generalize (m + 1) / (n + 1) = k at h2 h3 ⊢
      omega

/-- A remainder of truncated division of an `int64_t` is an `int64_t`. -/
theorem tmod_range (a b : Int) (h0 : INT64_MIN ≤ a) (h1 : a ≤ INT64_MAX) :
    INT64_MIN ≤ Int.tmod a b ∧ Int.tmod a b ≤ INT64_MAX := by
  unfold INT64_MIN at h0 ⊢
  unfold INT64_MAX at h1 ⊢
  rcases a with m | m <;> rcases b with n | n
  · have e : (Int.ofNat m).tmod (Int.ofNat n) = ((m % n : Nat) : Int) := rfl
    have h2 := Nat.mod_le m n
    simp only [Int.ofNat_eq_coe] at h1
    rw [e]
    generalize m % n = k at h2 ⊢
    omega
  · have e : (Int.ofNat m).tmod (Int.negSucc n) = ((m % (n + 1) : Nat) : Int) := rfl
    have h2 := Nat.mod_le m (n + 1)
    simp only [Int.ofNat_eq_coe] at h1
    rw [e]
    generalize m % (n + 1) = k at h2 ⊢
    omega
  · have e : (Int.negSucc m).tmod (Int.ofNat n) = -(((m + 1) % n : Nat) : Int) := rfl
    have h2 := Nat.mod_le (m + 1) n
    rw [Int.negSucc_eq] at h0
    rw [e]
    generalize (m + 1) % n = k at h2 ⊢
    omega
  · have e : (Int.negSucc m).tmod (Int.negSucc n) = -(((m + 1) % (n + 1) : Nat) : Int) := rfl
    have h2 := Nat.mod_le (m + 1) (n + 1)
    rw [Int.negSucc_eq] at h0
    rw [e]
    generalize (m + 1) % (n + 1) = k at h2 ⊢
    omega

/-- After the two tests of the loop the operator `/` is defined and its value
is the truncated quotient, an `int64_t`. -/
theorem int64_div_guarded (a b : Int) (h0 : INT64_MIN ≤ a) (h1 : a ≤ INT64_MAX) (hb : b ≠ 0)
    (hg : ¬ (b = -1 ∧ a = INT64_MIN)) :
    int64_div a b = some (Int.tdiv a b) ∧
    INT64_MIN ≤ Int.tdiv a b ∧ Int.tdiv a b ≤ INT64_MAX := by
  refine ⟨?_, tdiv_range a b h0 h1 hb hg⟩
  unfold int64_div
  rw [if_neg]
  rintro (h | ⟨h2, h3⟩)
  · exact hb h
  · exact hg ⟨h3, h2⟩

/-- After the two tests of the loop the operator `%` is defined and its value
is the remainder of the truncated division, an `int64_t`. -/
theorem int64_mod_guarded (a b : Int) (h0 : INT64_MIN ≤ a) (h1 : a ≤ INT64_MAX) (hb : b ≠ 0)
    (hg : ¬ (b = -1 ∧ a = INT64_MIN)) :
    int64_mod a b = some (Int.tmod a b) ∧
    INT64_MIN ≤ Int.tmod a b ∧ Int.tmod a b ≤ INT64_MAX := by
  refine ⟨?_, tmod_range a b h0 h1⟩
  unfold int64_mod
  rw [if_neg]
  rintro (h | ⟨h2, h3⟩)
  · exact hb h
  · exact hg ⟨h3, h2⟩

/-- The loop of the division methods never evaluates a division whose
behaviour is undefined, whatever the arguments and the heap. -/
theorem DIVMETHOD_SIGNED_loop_defined (oper : Int → Int → Option Int)
    (hop : ∀ a b, INT64_MIN ≤ a → a ≤ INT64_MAX → b ≠ 0 → ¬ (b = -1 ∧ a = INT64_MIN) →
      ∃ r, oper a b = some r)
    (strtoll : List Char → Nat → Strtoll) (ERANGE : Nat) (box : Nat) :
    ∀ (args : List BiJanet) (heap : Nat → Int),
    DIVMETHOD_SIGNED_loop oper strtoll ERANGE box heap args ≠ BiResult.undefined := by
  intro args
  induction args with
  | nil => intro heap h; simp [DIVMETHOD_SIGNED_loop] at h
  | cons x rest ih =>
    intro heap
    rw [DIVMETHOD_SIGNED_loop]
    cases hx : check_bi_int64 strtoll ERANGE heap x with
    | none => simp
    | some v =>
      simp only []
      by_cases h0 : v = 0
      · rw [if_pos h0]; simp
      · rw [if_neg h0]
        by_cases h1 : v = -1 ∧ wrap64 (heap box) = INT64_MIN
        · rw [if_pos h1]; simp
        · rw [if_neg h1]
          obtain ⟨r, hr⟩ := hop (wrap64 (heap box)) v (wrap64_range _).1 (wrap64_range _).2 h0 h1
          simp only [hr]
          exact ih _

/-- A left fold that has met a panic keeps it. -/
theorem foldl_guard_error (step : Except BiPanic Int → Int → Except BiPanic Int)
    (hs : ∀ e v, step (Except.error e) v = Except.error e) (e : BiPanic) (vs : List Int) :
    vs.foldl step (Except.error e) = Except.error e := by
  induction vs with
  | nil => rfl
  | cons v vs ih => rw [List.foldl_cons, hs]; exact ih

/-- The loop of the division methods on arguments whose values `vs` do not
depend on the box: it ends as the left fold over `vs` whose step stops with
"division by zero" at a divisor 0, with "INT64_MIN divided by -1" at a divisor
-1 when the box holds `INT64_MIN`, and otherwise replaces the box by `f` of
the box and the divisor. -/
theorem DIVMETHOD_SIGNED_loop_spec (oper : Int → Int → Option Int) (f : Int → Int → Int)
    (step : Except BiPanic Int → Int → Except BiPanic Int)
    (hop : ∀ a b, INT64_MIN ≤ a → a ≤ INT64_MAX → b ≠ 0 → ¬ (b = -1 ∧ a = INT64_MIN) →
      oper a b = some (f a b) ∧ INT64_MIN ≤ f a b ∧ f a b ≤ INT64_MAX)
    (hs : ∀ e v, step (Except.error e) v = Except.error e)
    (hk : ∀ acc v, step (Except.ok acc) v =
      if v = 0 then Except.error BiPanic.division_by_zero
      else if v = -1 ∧ acc = INT64_MIN then
        Except.error BiPanic.int64_min_divided_by_minus_one
      else Except.ok (f acc v))
    (strtoll : List Char → Nat → Strtoll) (ERANGE : Nat) (box : Nat) :
    ∀ (args : List BiJanet) (vs : List Int) (heap : Nat → Int),
    (∀ heap1 : Nat → Int, (∀ a, a ≠ box → heap1 a = heap a) →
      args.map (check_bi_int64 strtoll ERANGE heap1) = vs.map some) →
    (∀ r, vs.foldl step (Except.ok (wrap64 (heap box))) = Except.ok r →
      ∃ heap1, DIVMETHOD_SIGNED_loop oper strtoll ERANGE box heap args =
          BiResult.ret box heap1 ∧
        wrap64 (heap1 box) = r ∧ (heap1 box = r ∨ (args = [] ∧ heap1 = heap)) ∧
        ∀ a, a ≠ box → heap1 a = heap a) ∧
    (∀ e, vs.foldl step (Except.ok (wrap64 (heap box))) = Except.error e →
      ∃ heap1, DIVMETHOD_SIGNED_loop oper strtoll ERANGE box heap args =
          BiResult.panic e heap1 ∧
        ∀ a, a ≠ box → heap1 a = heap a) := by
  intro args
  induction args with
  | nil =>
    intro vs heap hconv
    have hv : vs = [] := by
      have := hconv heap (fun _ _ => rfl)
      simpa using this.symm
    subst hv
    constructor
    · intro r hr
      simp only [List.foldl_nil, Except.ok.injEq] at hr
      exact ⟨heap, rfl, hr, Or.inr ⟨rfl, rfl⟩, fun _ _ => rfl⟩
    · intro e he
      simp at he
  | cons x rest ih =>
    intro vs heap hconv
    have h0 := hconv heap (fun _ _ => rfl)
    cases vs with
    | nil => simp at h0
    | cons v vs =>
      simp only [List.map_cons, List.cons.injEq] at h0
      obtain ⟨hx, -⟩ := h0
      rw [DIVMETHOD_SIGNED_loop, List.foldl_cons, hk]
      simp only [hx]
      by_cases hz : v = 0
      · rw [if_pos hz, if_pos hz, foldl_guard_error step hs]
        constructor
        · intro r hr; cases hr
        · intro e he
          injection he with he
          subst he
          exact ⟨heap, rfl, fun _ _ => rfl⟩
      · rw [if_neg hz, if_neg hz]
        by_cases hm : v = -1 ∧ wrap64 (heap box) = INT64_MIN
        · rw [if_pos hm, if_pos hm, foldl_guard_error step hs]
          constructor
          · intro r hr; cases hr
          · intro e he
            injection he with he
            subst he
            exact ⟨heap, rfl, fun _ _ => rfl⟩
        · rw [if_neg hm, if_neg hm]
          obtain ⟨g1, g2, g3⟩ :=
            hop (wrap64 (heap box)) v (wrap64_range _).1 (wrap64_range _).2 hz hm
          simp only [g1]
          have hbox : wrap64 ((fun a => if a = box then f (wrap64 (heap box)) v else heap a) box)
              = f (wrap64 (heap box)) v := by
            simp only [if_true]
            exact wrap64_of_range _ g2 g3
          have hconv2 : ∀ heap1 : Nat → Int,
              (∀ a, a ≠ box →
                heap1 a = (fun a => if a = box then f (wrap64 (heap box)) v else heap a) a) →
              rest.map (check_bi_int64 strtoll ERANGE heap1) = vs.map some := by
            intro heap1 hag
            have := hconv heap1 (fun a ha => by rw [hag a ha]; simp [ha])
            simp only [List.map_cons, List.cons.injEq] at this
            exact this.2
          obtain ⟨i1, i2⟩ := ih vs _ hconv2
          rw [hbox] at i1 i2
          constructor
          · intro r hr
            obtain ⟨heap1, k1, k2, k3, k4⟩ := i1 r hr
            refine ⟨heap1, k1, k2, Or.inl ?_, fun a ha => ?_⟩
            · rcases k3 with k3 | ⟨-, k3⟩
              · exact k3
              · rw [k3] at k2 ⊢
                simp only [if_true] at k2 ⊢
                rw [← k2]
                exact (wrap64_of_range _ g2 g3).symm
            · rw [k4 a ha]; simp [ha]
          · intro e he
            obtain ⟨heap1, k1, k4⟩ := i2 e he
            exact ⟨heap1, k1, fun a ha => by rw [k4 a ha]; simp [ha]⟩

/-! ## Claim C33 -/

/-- Claim C33 (guarded int64 division): let `oper` be `/` or `%` and `f` the
truncated quotient or its remainder.  (1) Whatever the arguments, neither the
method nor its mutating variant evaluates a division whose behaviour is
undefined.  (2) Let the arguments after the first have the values `vs`, read
without the box.  Folding `vs` from the left, starting from the value of the
first argument, where a step stops with "division by zero" at a divisor 0,
with "INT64_MIN divided by -1" at a divisor -1 when the accumulator is
`INT64_MIN`, and otherwise replaces the accumulator by `f` of it and the
divisor: when the fold ends with a value `r`, the method returns a box holding
`r`, an `int64_t`, and when it stops with a panic the method raises that
panic; other boxes are left as they are.  The same holds of the mutating
variant, whose box is the first argument. -/
theorem C33_int64_division_guarded (oper : Int → Int → Option Int) (f : Int → Int → Int)
    (step : Except BiPanic Int → Int → Except BiPanic Int)
    (strtoll : List Char → Nat → Strtoll) (ERANGE : Nat) (heap : Nat → Int) (fresh box : Nat)
    (x0 : BiJanet) (v0 : Int) (args : List BiJanet) (vs : List Int)
    (hop : (oper = int64_div ∧ f = Int.tdiv) ∨ (oper = int64_mod ∧ f = Int.tmod))
    (hstep : step = fun st v =>
      match st with
      | Except.error e => Except.error e
      | Except.ok acc =>
        if v = 0 then Except.error BiPanic.division_by_zero
        else if v = -1 ∧ acc = INT64_MIN then
          Except.error BiPanic.int64_min_divided_by_minus_one
        else Except.ok (f acc v))
    (hx0 : check_bi_int64 strtoll ERANGE heap x0 = some v0) (hne : args ≠ [])
    (hfresh : ∀ heap1 : Nat → Int, (∀ a, a ≠ fresh → heap1 a = heap a) →
      args.map (check_bi_int64 strtoll ERANGE heap1) = vs.map some)
    (hbox : ∀ heap1 : Nat → Int, (∀ a, a ≠ box → heap1 a = heap a) →
      args.map (check_bi_int64 strtoll ERANGE heap1) = vs.map some) :
    (∀ (h : Nat → Int) (p : Nat) (argv : List BiJanet),
      DIVMETHOD_SIGNED oper strtoll ERANGE h p argv ≠ BiResult.undefined ∧
      DIVMETHOD_SIGNED_mut oper strtoll ERANGE h argv ≠ BiResult.undefined) ∧
    (∀ r, vs.foldl step (Except.ok v0) = Except.ok r →
      INT64_MIN ≤ r ∧ r ≤ INT64_MAX ∧
      ∃ heap1, DIVMETHOD_SIGNED oper strtoll ERANGE heap fresh (x0 :: args) =
          BiResult.ret fresh heap1 ∧
        heap1 fresh = r ∧ ∀ a, a ≠ fresh → heap1 a = heap a) ∧
    (∀ e, vs.foldl step (Except.ok v0) = Except.error e →
      ∃ heap1, DIVMETHOD_SIGNED oper strtoll ERANGE heap fresh (x0 :: args) =
          BiResult.panic e heap1 ∧
        ∀ a, a ≠ fresh → heap1 a = heap a) ∧
    (∀ r, vs.foldl step (Except.ok (wrap64 (heap box))) = Except.ok r →
      INT64_MIN ≤ r ∧ r ≤ INT64_MAX ∧
      ∃ heap1, DIVMETHOD_SIGNED_mut oper strtoll ERANGE heap
          (BiJanet.abstract BiAbstractType.int64 box :: args) = BiResult.ret box heap1 ∧
        heap1 box = r ∧ ∀ a, a ≠ box → heap1 a = heap a) ∧
    (∀ e, vs.foldl step (Except.ok (wrap64 (heap box))) = Except.error e →
      ∃ heap1, DIVMETHOD_SIGNED_mut oper strtoll ERANGE heap
          (BiJanet.abstract BiAbstractType.int64 box :: args) = BiResult.panic e heap1 ∧
        ∀ a, a ≠ box → heap1 a = heap a) := by
  have hopf : ∀ a b, INT64_MIN ≤ a → a ≤ INT64_MAX → b ≠ 0 → ¬ (b = -1 ∧ a = INT64_MIN) →
      oper a b = some (f a b) ∧ INT64_MIN ≤ f a b ∧ f a b ≤ INT64_MAX := by
    intro a b h0 h1 hb hg
    rcases hop with ⟨e1, e2⟩ | ⟨e1, e2⟩
    · rw [e1, e2]; exact int64_div_guarded a b h0 h1 hb hg
    · rw [e1, e2]; exact int64_mod_guarded a b h0 h1 hb hg
  have hs : ∀ e v, step (Except.error e) v = Except.error e := by
    intro e v; rw [hstep]
  have hk : ∀ acc v, step (Except.ok acc) v =
      if v = 0 then Except.error BiPanic.division_by_zero
      else if v = -1 ∧ acc = INT64_MIN then
        Except.error BiPanic.int64_min_divided_by_minus_one
      else Except.ok (f acc v) := by
    intro acc v; rw [hstep]
  obtain ⟨x1, rest, hargs⟩ := List.exists_cons_of_ne_nil hne
  have hv0 := check_bi_int64_range strtoll ERANGE heap x0 v0 hx0
  refine ⟨?_, ?_, ?_, ?_, ?_⟩
  · intro h p argv
    have hdef := DIVMETHOD_SIGNED_loop_defined oper
      (fun a b h0 h1 hb hg => ⟨f a b, (hopf a b h0 h1 hb hg).1⟩) strtoll ERANGE
    constructor
    · unfold DIVMETHOD_SIGNED
      split
      · split
        · simp
        · exact hdef _ _ _
      · simp
    · unfold DIVMETHOD_SIGNED_mut
      split
      · split
        · exact hdef _ _ _
        · simp
      · simp
  · intro r hr
    obtain ⟨i1, -⟩ := DIVMETHOD_SIGNED_loop_spec oper f step hopf hs hk strtoll ERANGE fresh
      args vs (fun a => if a = fresh then v0 else heap a)
      (fun heap1 hag => hfresh heap1 (fun a ha => by rw [hag a ha]; simp [ha]))
    simp only [if_true] at i1
    rw [wrap64_of_range v0 hv0.1 hv0.2] at i1
    obtain ⟨heap1, k1, k2, k3, k4⟩ := i1 r hr
    have hb1 : heap1 fresh = r := by
      rcases k3 with k3 | ⟨k3, -⟩
      · exact k3
      · exact absurd k3 hne
    refine ⟨by rw [← k2]; exact (wrap64_range _).1, by rw [← k2]; exact (wrap64_range _).2,
      heap1, ?_, hb1, fun a ha => by rw [k4 a ha]; simp [ha]⟩
    rw [hargs] at k1 ⊢
    unfold DIVMETHOD_SIGNED
    simp only [hx0]
    exact k1
  · intro e he
    obtain ⟨-, i2⟩ := DIVMETHOD_SIGNED_loop_spec oper f step hopf hs hk strtoll ERANGE fresh
      args vs (fun a => if a = fresh then v0 else heap a)
      (fun heap1 hag => hfresh heap1 (fun a ha => by rw [hag a ha]; simp [ha]))
    simp only [if_true] at i2
    rw [wrap64_of_range v0 hv0.1 hv0.2] at i2
    obtain ⟨heap1, k1, k4⟩ := i2 e he
    refine ⟨heap1, ?_, fun a ha => by rw [k4 a ha]; simp [ha]⟩
    rw [hargs] at k1 ⊢
    unfold DIVMETHOD_SIGNED
    simp only [hx0]
    exact k1
  · intro r hr
    obtain ⟨i1, -⟩ := DIVMETHOD_SIGNED_loop_spec oper f step hopf hs hk strtoll ERANGE box
      args vs heap hbox
    obtain ⟨heap1, k1, k2, k3, k4⟩ := i1 r hr
    have hb1 : heap1 box = r := by
      rcases k3 with k3 | ⟨k3, -⟩
      · exact k3
      · exact absurd k3 hne
    refine ⟨by rw [← k2]; exact (wrap64_range _).1, by rw [← k2]; exact (wrap64_range _).2,
      heap1, ?_, hb1, k4⟩
    rw [hargs] at k1 ⊢
    unfold DIVMETHOD_SIGNED_mut
    exact k1
  · intro e he
    obtain ⟨-, i2⟩ := DIVMETHOD_SIGNED_loop_spec oper f step hopf hs hk strtoll ERANGE box
      args vs heap hbox
    obtain ⟨heap1, k1, k4⟩ := i2 e he
    refine ⟨heap1, ?_, k4⟩
    rw [hargs] at k1 ⊢
    unfold DIVMETHOD_SIGNED_mut
    exact k1

/-- Claim C33, instances: with the boxes -7 at 4, 2 at 5, `INT64_MIN` at 6 and
-1 at 7, the method `/` on the box at 4, the box at 5 and the number 2.5
returns a new box holding -1 (-7 / 2 = -3, -3 / 2 = -1), and the method `/` on
the box at 6 and the box at 7 raises "INT64_MIN divided by -1". -/
theorem C33_int64_division_guarded_witness :
    (∃ heap1, cfun_int64_div strtoll_nothing 34 someBoxes 100
        [BiJanet.abstract BiAbstractType.int64 4, BiJanet.abstract BiAbstractType.int64 5,
          BiJanet.number (CDouble.finite (Rat.mk' 5 2))] = BiResult.ret 100 heap1 ∧
      heap1 100 = -1 ∧ ∀ a, a ≠ 100 → heap1 a = someBoxes a) ∧
    (∃ heap1, cfun_int64_div strtoll_nothing 34 someBoxes 100
        [BiJanet.abstract BiAbstractType.int64 6, BiJanet.abstract BiAbstractType.int64 7] =
        BiResult.panic BiPanic.int64_min_divided_by_minus_one heap1 ∧
      ∀ a, a ≠ 100 → heap1 a = someBoxes a) :=
  ⟨((C33_int64_division_guarded int64_div Int.tdiv _ strtoll_nothing 34 someBoxes 100 4
      (BiJanet.abstract BiAbstractType.int64 4) (-7)
      [BiJanet.abstract BiAbstractType.int64 5, BiJanet.number (CDouble.finite (Rat.mk' 5 2))]
      [2, 2] (Or.inl ⟨rfl, rfl⟩) rfl (by decide) (by decide)
      (fun heap1 h => by
        have h5 : heap1 5 = 2 := by rw [h 5 (by decide)]; rfl
        simp only [List.map_cons, List.map_nil, check_bi_int64, h5]
        decide)
      (fun heap1 h => by
        have h5 : heap1 5 = 2 := by rw [h 5 (by decide)]; rfl
        simp only [List.map_cons, List.map_nil, check_bi_int64, h5]
        decide)).2.1 (-1) rfl).2.2,
   (C33_int64_division_guarded int64_div Int.tdiv _ strtoll_nothing 34 someBoxes 100 6
      (BiJanet.abstract BiAbstractType.int64 6) INT64_MIN
      [BiJanet.abstract BiAbstractType.int64 7] [-1] (Or.inl ⟨rfl, rfl⟩) rfl (by decide)
      (by decide)
      (fun heap1 h => by
        have h7 : heap1 7 = -1 := by rw [h 7 (by decide)]; rfl
        simp only [List.map_cons, List.map_nil, check_bi_int64, h7]
        decide)
      (fun heap1 h => by
        have h7 : heap1 7 = -1 := by rw [h 7 (by decide)]; rfl
        simp only [List.map_cons, List.map_nil, check_bi_int64, h7]
        decide)).2.2.1 _ (by simp [INT64_MIN])⟩

end Dst
